import Mathlib

/-!
# CMSIS-DSP functions: shallow embedding and properties

The C sources embedded here are

* `TransformFunctions/arm_rfft_init_q15.c`
* `TransformFunctions/arm_cfft_init_f32.c`
* `TransformFunctions/arm_cfft_q15.c`
* `TransformFunctions/arm_rfft_q15.c`
* `TransformFunctions/arm_cfft_radix2_q15.c`
* `FilteringFunctions/arm_conv_partial_f32.c`
* `FilteringFunctions/arm_conv_q31.c`
* `FilteringFunctions/arm_correlate_q15.c`
* `FilteringFunctions/arm_correlate_fast_opt_q15.c`
* `BasicMathFunctions/arm_dot_prod_q7.c`
* `BasicMathFunctions/arm_scale_q31.c`
* `StatisticsFunctions/arm_rms_q15.c`
* `ComplexMathFunctions/arm_cmplx_conj_q15.c`
* `MatrixFunctions/arm_mat_add_q31.c`
* `MatrixFunctions/arm_mat_cmplx_mult_q15.c`

Conventions of the embedding.

* `q15_t`, `q31_t` values are `Int`; a store into a narrower variable is an explicit
  `wrap16` / `wrap32` (two's complement narrowing).
* `uint8_t`, `uint16_t`, `uint32_t` values are `Nat` with an explicit `% 2 ^ w`.
* A pointer to a buffer is the view of memory from that pointer on: a total function
  `Nat → Int` from the element offset to the element.  A store is `Buf.set`.
* `>>` on signed values is the arithmetic shift `Int.shiftRight`.
* Loops are structural recursions on a fuel argument that re-test the loop condition
  of the source; the callers pass a bound of the trip count of the source loop as fuel,
  and the loop lemmas show that the loop condition is false when the loop is left.
  Where a source loop may run for ever, the loop is `whileLoopFuel`, whose result
  `none` says that the fuel did not suffice.
* Intrinsics and helper functions that the filtering, matrix and statistics sources
  call and that are defined elsewhere (`__SSAT`, `__QADD`, `arm_sqrt_q15`,
  `arm_fill_q15`, `arm_copy_q15`, `read_q15x2_ia`, `write_q15x2`) are the fields of a
  parameter of type `Helpers`; a theorem that depends on what one of them does says so in
  a hypothesis.
* `float32_t` arithmetic is a parameter of type `FloatOps`.
-/

namespace CMSIS

/-! ## Machine integers -/

/-- Narrowing of a natural number to `uint8_t`. -/
def u8 (n : Nat) : Nat := n % 256

/-- Narrowing of a natural number to `uint16_t`. -/
def u16 (n : Nat) : Nat := n % 65536

/-- Narrowing of a natural number to `uint32_t`. -/
def u32 (n : Nat) : Nat := n % 4294967296

/-- Subtraction of two `uint32_t` values, modulo `2 ^ 32`. -/
def u32sub (a b : Nat) : Nat := (a + 4294967296 - b % 4294967296) % 4294967296

/-- Narrowing of an integer to `int16_t` (`q15_t`), two's complement. -/
def wrap16 (x : Int) : Int := (x + 32768) % 65536 - 32768

/-- Narrowing of an integer to `int32_t` (`q31_t`), two's complement. -/
def wrap32 (x : Int) : Int := (x + 2147483648) % 4294967296 - 2147483648

/-- Arithmetic right shift of a signed value, the C `>>`. -/
def shr (x : Int) (n : Nat) : Int := x >>> n

/-- Range of a `q15_t` value. -/
def isQ15 (x : Int) : Prop := -32768 ≤ x ∧ x ≤ 32767

instance (x : Int) : Decidable (isQ15 x) := by
  unfold isQ15; exact inferInstance

/-! ## Buffers -/

/-- View of memory from a `q15_t *` pointer: element offset to element. -/
abbrev Buf := Nat → Int

/-- Store `p[k] = v`. -/
def Buf.set (p : Buf) (k : Nat) (v : Int) : Buf := fun j => if j = k then v else p j

/-- Pointer arithmetic `p + k`. -/
def Buf.shift (p : Buf) (k : Nat) : Buf := fun j => p (j + k)

/-! ## Status and instance structures (`arm_math_types.h`, `transform_functions.h`) -/

/-- Error status returned by the library functions, `arm_status`. -/
inductive arm_status where
  | ARM_MATH_SUCCESS
  | ARM_MATH_ARGUMENT_ERROR
  | ARM_MATH_LENGTH_ERROR
  | ARM_MATH_SIZE_MISMATCH
  | ARM_MATH_NANINF
  | ARM_MATH_SINGULAR
  | ARM_MATH_TEST_FAILURE
  | ARM_MATH_DECOMPOSITION_FAILURE
  deriving DecidableEq

open arm_status

/-- Instance structure of the Q15 complex FFT, `arm_cfft_instance_q15`. -/
structure arm_cfft_instance_q15 where
  /-- Length of the FFT, `uint16_t`. -/
  fftLen : Nat
  /-- Twiddle factor table, `const q15_t *`. -/
  pTwiddle : Buf
  /-- Bit reversal table, `const uint16_t *`. -/
  pBitRevTable : Nat → Nat
  /-- Bit reversal table length, `uint16_t`. -/
  bitRevLength : Nat

/-- Instance structure of the Q15 real FFT, `arm_rfft_instance_q15`. -/
structure arm_rfft_instance_q15 where
  /-- Length of the real FFT, `uint32_t` field written through a `uint16_t` cast. -/
  fftLenReal : Nat
  /-- Flag that selects forward (0) or inverse (1) transform, `uint8_t`. -/
  ifftFlagR : Nat
  /-- Flag that enables bit reversal of the output, `uint8_t`. -/
  bitReverseFlagR : Nat
  /-- Twiddle coefficient modifier, `uint32_t`. -/
  twidCoefRModifier : Nat
  /-- Real twiddle coefficient table A, `const q15_t *`. -/
  pTwiddleAReal : Buf
  /-- Real twiddle coefficient table B, `const q15_t *`. -/
  pTwiddleBReal : Buf
  /-- Complex FFT instance, `const arm_cfft_instance_q15 *`. -/
  pCfft : arm_cfft_instance_q15

/-- Instance structure of the floating-point complex FFT, `arm_cfft_instance_f32`.
The element type of the twiddle table is a parameter; a pointer that may be `NULL`
is an `Option`. -/
structure arm_cfft_instance_f32 (float32_t : Type) where
  /-- Length of the FFT, `uint16_t`. -/
  fftLen : Nat
  /-- Twiddle factor table, `const float32_t *`. -/
  pTwiddle : Option (Nat → float32_t)
  /-- Bit reversal table, `const uint16_t *`. -/
  pBitRevTable : Option (Nat → Nat)
  /-- Bit reversal table length, `uint16_t`. -/
  bitRevLength : Nat

/-- Constants of `arm_common_tables.h` and `arm_const_structs.h` used by the Q15
initialisation: the two real coefficient tables and the nine constant complex
instances.  Their contents are not part of the embedded sources; they are taken
as a parameter. -/
structure ConstStructsQ15 where
  realCoefAQ15 : Buf
  realCoefBQ15 : Buf
  arm_cfft_sR_q15_len16 : arm_cfft_instance_q15
  arm_cfft_sR_q15_len32 : arm_cfft_instance_q15
  arm_cfft_sR_q15_len64 : arm_cfft_instance_q15
  arm_cfft_sR_q15_len128 : arm_cfft_instance_q15
  arm_cfft_sR_q15_len256 : arm_cfft_instance_q15
  arm_cfft_sR_q15_len512 : arm_cfft_instance_q15
  arm_cfft_sR_q15_len1024 : arm_cfft_instance_q15
  arm_cfft_sR_q15_len2048 : arm_cfft_instance_q15
  arm_cfft_sR_q15_len4096 : arm_cfft_instance_q15

/-- Constants of `arm_const_structs.h` used by the f32 initialisation: the nine
constant complex instances, taken as a parameter. -/
structure ConstStructsF32 (float32_t : Type) where
  arm_cfft_sR_f32_len16 : arm_cfft_instance_f32 float32_t
  arm_cfft_sR_f32_len32 : arm_cfft_instance_f32 float32_t
  arm_cfft_sR_f32_len64 : arm_cfft_instance_f32 float32_t
  arm_cfft_sR_f32_len128 : arm_cfft_instance_f32 float32_t
  arm_cfft_sR_f32_len256 : arm_cfft_instance_f32 float32_t
  arm_cfft_sR_f32_len512 : arm_cfft_instance_f32 float32_t
  arm_cfft_sR_f32_len1024 : arm_cfft_instance_f32 float32_t
  arm_cfft_sR_f32_len2048 : arm_cfft_instance_f32 float32_t
  arm_cfft_sR_f32_len4096 : arm_cfft_instance_f32 float32_t

/-- The constant Q15 instance whose name carries the length `n`,
`arm_cfft_sR_q15_len<n>`. -/
def ConstStructsQ15.ofLen (T : ConstStructsQ15) (n : Nat) : Option arm_cfft_instance_q15 :=
  if n = 16 then some T.arm_cfft_sR_q15_len16
  else if n = 32 then some T.arm_cfft_sR_q15_len32
  else if n = 64 then some T.arm_cfft_sR_q15_len64
  else if n = 128 then some T.arm_cfft_sR_q15_len128
  else if n = 256 then some T.arm_cfft_sR_q15_len256
  else if n = 512 then some T.arm_cfft_sR_q15_len512
  else if n = 1024 then some T.arm_cfft_sR_q15_len1024
  else if n = 2048 then some T.arm_cfft_sR_q15_len2048
  else if n = 4096 then some T.arm_cfft_sR_q15_len4096
  else none

/-- The constant f32 instance whose name carries the length `n`,
`arm_cfft_sR_f32_len<n>`. -/
def ConstStructsF32.ofLen {float32_t : Type} (T : ConstStructsF32 float32_t) (n : Nat) :
    Option (arm_cfft_instance_f32 float32_t) :=
  if n = 16 then some T.arm_cfft_sR_f32_len16
  else if n = 32 then some T.arm_cfft_sR_f32_len32
  else if n = 64 then some T.arm_cfft_sR_f32_len64
  else if n = 128 then some T.arm_cfft_sR_f32_len128
  else if n = 256 then some T.arm_cfft_sR_f32_len256
  else if n = 512 then some T.arm_cfft_sR_f32_len512
  else if n = 1024 then some T.arm_cfft_sR_f32_len1024
  else if n = 2048 then some T.arm_cfft_sR_f32_len2048
  else if n = 4096 then some T.arm_cfft_sR_f32_len4096
  else none

/-- The real FFT lengths listed as supported by the documentation of
`arm_rfft_init_q15`. -/
def rfftSupported : List Nat := [32, 64, 128, 256, 512, 1024, 2048, 4096, 8192]

/-- The complex FFT lengths for which a constant instance exists. -/
def cfftSupported : List Nat := [16, 32, 64, 128, 256, 512, 1024, 2048, 4096]

/-! ## `arm_rfft_init_q15.c` -/

/-- Embedding of `arm_rfft_init_q15`: the status returned and the instance `*S`
after the call.  `fftLenReal`, `ifftFlagR`, `bitReverseFlag` are `uint32_t`. -/
def arm_rfft_init_q15 (T : ConstStructsQ15) (S : arm_rfft_instance_q15)
    (fftLenReal ifftFlagR bitReverseFlag : Nat) : arm_status × arm_rfft_instance_q15 :=
  -- S->fftLenReal = (uint16_t) fftLenReal;
  let S := { S with fftLenReal := u16 fftLenReal }
  -- S->pTwiddleAReal = (q15_t *) realCoefAQ15;
  let S := { S with pTwiddleAReal := T.realCoefAQ15 }
  -- S->pTwiddleBReal = (q15_t *) realCoefBQ15;
  let S := { S with pTwiddleBReal := T.realCoefBQ15 }
  -- S->ifftFlagR = (uint8_t) ifftFlagR;
  let S := { S with ifftFlagR := u8 ifftFlagR }
  -- S->bitReverseFlagR = (uint8_t) bitReverseFlag;
  let S := { S with bitReverseFlagR := u8 bitReverseFlag }
  -- switch (S->fftLenReal)
  if S.fftLenReal = 8192 then
    (ARM_MATH_SUCCESS, { S with twidCoefRModifier := 1, pCfft := T.arm_cfft_sR_q15_len4096 })
  else if S.fftLenReal = 4096 then
    (ARM_MATH_SUCCESS, { S with twidCoefRModifier := 2, pCfft := T.arm_cfft_sR_q15_len2048 })
  else if S.fftLenReal = 2048 then
    (ARM_MATH_SUCCESS, { S with twidCoefRModifier := 4, pCfft := T.arm_cfft_sR_q15_len1024 })
  else if S.fftLenReal = 1024 then
    (ARM_MATH_SUCCESS, { S with twidCoefRModifier := 8, pCfft := T.arm_cfft_sR_q15_len512 })
  else if S.fftLenReal = 512 then
    (ARM_MATH_SUCCESS, { S with twidCoefRModifier := 16, pCfft := T.arm_cfft_sR_q15_len256 })
  else if S.fftLenReal = 256 then
    (ARM_MATH_SUCCESS, { S with twidCoefRModifier := 32, pCfft := T.arm_cfft_sR_q15_len128 })
  else if S.fftLenReal = 128 then
    (ARM_MATH_SUCCESS, { S with twidCoefRModifier := 64, pCfft := T.arm_cfft_sR_q15_len64 })
  else if S.fftLenReal = 64 then
    (ARM_MATH_SUCCESS, { S with twidCoefRModifier := 128, pCfft := T.arm_cfft_sR_q15_len32 })
  else if S.fftLenReal = 32 then
    (ARM_MATH_SUCCESS, { S with twidCoefRModifier := 256, pCfft := T.arm_cfft_sR_q15_len16 })
  else
    (ARM_MATH_ARGUMENT_ERROR, S)

/-! ## `arm_cfft_init_f32.c` -/

/-- Embedding of the macro `FFTINIT(f32, SIZE)`, applied to the constant instance
`arm_cfft_sR_f32_len<SIZE>`. -/
def FFTINIT {float32_t : Type} (S c : arm_cfft_instance_f32 float32_t) :
    arm_cfft_instance_f32 float32_t :=
  { S with bitRevLength := c.bitRevLength, pBitRevTable := c.pBitRevTable,
           pTwiddle := c.pTwiddle }

/-- Embedding of `arm_cfft_init_f32`: the status returned and the instance `*S`
after the call.  `fftLen` is `uint16_t`. -/
def arm_cfft_init_f32 {float32_t : Type} (T : ConstStructsF32 float32_t)
    (S : arm_cfft_instance_f32 float32_t) (fftLen : Nat) :
    arm_status × arm_cfft_instance_f32 float32_t :=
  -- S->fftLen = fftLen;
  let S := { S with fftLen := u16 fftLen }
  -- S->pTwiddle = NULL;
  let S := { S with pTwiddle := none }
  -- switch (S->fftLen)
  if S.fftLen = 4096 then (ARM_MATH_SUCCESS, FFTINIT S T.arm_cfft_sR_f32_len4096)
  else if S.fftLen = 2048 then (ARM_MATH_SUCCESS, FFTINIT S T.arm_cfft_sR_f32_len2048)
  else if S.fftLen = 1024 then (ARM_MATH_SUCCESS, FFTINIT S T.arm_cfft_sR_f32_len1024)
  else if S.fftLen = 512 then (ARM_MATH_SUCCESS, FFTINIT S T.arm_cfft_sR_f32_len512)
  else if S.fftLen = 256 then (ARM_MATH_SUCCESS, FFTINIT S T.arm_cfft_sR_f32_len256)
  else if S.fftLen = 128 then (ARM_MATH_SUCCESS, FFTINIT S T.arm_cfft_sR_f32_len128)
  else if S.fftLen = 64 then (ARM_MATH_SUCCESS, FFTINIT S T.arm_cfft_sR_f32_len64)
  else if S.fftLen = 32 then (ARM_MATH_SUCCESS, FFTINIT S T.arm_cfft_sR_f32_len32)
  else if S.fftLen = 16 then (ARM_MATH_SUCCESS, FFTINIT S T.arm_cfft_sR_f32_len16)
  else (ARM_MATH_ARGUMENT_ERROR, S)

/-! ## Loops -/

/-- A `while (cond) step` loop, run for at most `fuel` iterations. -/
def whileLoop {σ : Type} (cond : σ → Bool) (step : σ → σ) : Nat → σ → σ
  | 0, s => s
  | fuel + 1, s => if cond s then whileLoop cond step fuel (step s) else s

/-! ## Functions declared `extern` in the embedded sources -/

/-- The functions that `arm_cfft_q15.c` and `arm_rfft_q15.c` call but do not define:
the two radix-4 butterflies (`arm_cfft_radix4_q15.c`), the 16-bit bit reversal
(`arm_bitreversal2.c`) and the vector shift (`arm_shift_q15.c`).  Each takes the view
of memory from its buffer pointer and returns that view after the call. -/
structure Externs where
  /-- `arm_radix4_butterfly_q15 (pSrc, fftLen, pCoef, twidCoefModifier)` -/
  arm_radix4_butterfly_q15 : Buf → Nat → Buf → Nat → Buf
  /-- `arm_radix4_butterfly_inverse_q15 (pSrc, fftLen, pCoef, twidCoefModifier)` -/
  arm_radix4_butterfly_inverse_q15 : Buf → Nat → Buf → Nat → Buf
  /-- `arm_bitreversal_16 (pSrc, bitRevLen, pBitRevTable)` -/
  arm_bitreversal_16 : Buf → Nat → (Nat → Nat) → Buf
  /-- `arm_shift_q15 (pSrc, shiftBits, pDst, blockSize)`, returning the destination. -/
  arm_shift_q15 : Buf → Int → Buf → Nat → Buf

/-- A call `f (p + k, ...)` on the part of the buffer that starts at offset `k`:
the callee sees the view from `p + k` and the elements below `k` keep their value. -/
def Buf.atOffset (p : Buf) (k : Nat) (f : Buf → Buf) : Buf :=
  fun j => if j < k then p j else f (p.shift k) (j - k)

/-! ## `arm_cfft_q15.c` -/

/-- The statement `p <<= 1U` on a `q15_t` variable: the doubled value narrowed back
to 16 bits. -/
def shl1_q15 (p : Int) : Int := wrap16 (p * 2)

/-- Body of the first loop of `arm_cfft_radix4by2_q15` for loop counter `i`. -/
def radix4by2_pre_body (n2 : Nat) (pCoef : Buf) (i : Nat) (pSrc : Buf) : Buf :=
  let cosVal := pCoef (u32 (2 * i))
  let sinVal := pCoef (u32 (u32 (2 * i) + 1))
  let l := u32 (i + n2)
  let xt := wrap16 (shr (pSrc (u32 (2 * i))) 1 - shr (pSrc (u32 (2 * l))) 1)
  let pSrc := pSrc.set (u32 (2 * i))
    (wrap16 (shr (shr (pSrc (u32 (2 * i))) 1 + shr (pSrc (u32 (2 * l))) 1) 1))
  let yt := wrap16 (shr (pSrc (u32 (u32 (2 * i) + 1))) 1 - shr (pSrc (u32 (u32 (2 * l) + 1))) 1)
  let pSrc := pSrc.set (u32 (u32 (2 * i) + 1))
    (wrap16 (shr (shr (pSrc (u32 (u32 (2 * l) + 1))) 1 + shr (pSrc (u32 (u32 (2 * i) + 1))) 1) 1))
  let pSrc := pSrc.set (u32 (2 * l))
    (wrap16 (wrap16 (shr (wrap32 (xt * cosVal)) 16) + wrap16 (shr (wrap32 (yt * sinVal)) 16)))
  let pSrc := pSrc.set (u32 (u32 (2 * l) + 1))
    (wrap16 (wrap16 (shr (wrap32 (yt * cosVal)) 16) - wrap16 (shr (wrap32 (xt * sinVal)) 16)))
  pSrc

/-- Body of the first loop of `arm_cfft_radix4by2_inverse_q15` for loop counter `i`. -/
def radix4by2_inverse_pre_body (n2 : Nat) (pCoef : Buf) (i : Nat) (pSrc : Buf) : Buf :=
  let cosVal := pCoef (u32 (2 * i))
  let sinVal := pCoef (u32 (u32 (2 * i) + 1))
  let l := u32 (i + n2)
  let xt := wrap16 (shr (pSrc (u32 (2 * i))) 1 - shr (pSrc (u32 (2 * l))) 1)
  let pSrc := pSrc.set (u32 (2 * i))
    (wrap16 (shr (shr (pSrc (u32 (2 * i))) 1 + shr (pSrc (u32 (2 * l))) 1) 1))
  let yt := wrap16 (shr (pSrc (u32 (u32 (2 * i) + 1))) 1 - shr (pSrc (u32 (u32 (2 * l) + 1))) 1)
  let pSrc := pSrc.set (u32 (u32 (2 * i) + 1))
    (wrap16 (shr (shr (pSrc (u32 (u32 (2 * l) + 1))) 1 + shr (pSrc (u32 (u32 (2 * i) + 1))) 1) 1))
  let pSrc := pSrc.set (u32 (2 * l))
    (wrap16 (wrap16 (shr (wrap32 (xt * cosVal)) 16) - wrap16 (shr (wrap32 (yt * sinVal)) 16)))
  let pSrc := pSrc.set (u32 (u32 (2 * l) + 1))
    (wrap16 (wrap16 (shr (wrap32 (yt * cosVal)) 16) + wrap16 (shr (wrap32 (xt * sinVal)) 16)))
  pSrc

/-- Body of the last loop of `arm_cfft_radix4by2_q15` and of its inverse for loop
counter `i`: four consecutive samples are shifted left by one bit. -/
def radix4by2_post_body (i : Nat) (pSrc : Buf) : Buf :=
  let p0 := pSrc (u32 (u32 (4 * i) + 0))
  let p1 := pSrc (u32 (u32 (4 * i) + 1))
  let p2 := pSrc (u32 (u32 (4 * i) + 2))
  let p3 := pSrc (u32 (u32 (4 * i) + 3))
  let p0 := shl1_q15 p0
  let p1 := shl1_q15 p1
  let p2 := shl1_q15 p2
  let p3 := shl1_q15 p3
  let pSrc := pSrc.set (u32 (u32 (4 * i) + 0)) p0
  let pSrc := pSrc.set (u32 (u32 (4 * i) + 1)) p1
  let pSrc := pSrc.set (u32 (u32 (4 * i) + 2)) p2
  let pSrc := pSrc.set (u32 (u32 (4 * i) + 3)) p3
  pSrc

/-- A loop `for (i = 0; i < n; i++) body`, the state being the counter and the
buffer.  The counter stays below `n`, a `uint32_t`, so `i++` does not wrap. -/
def forLoop (n : Nat) (body : Nat → Buf → Buf) (p : Buf) : Buf :=
  (whileLoop (fun s : Nat × Buf => decide (s.1 < n)) (fun s => (s.1 + 1, body s.1 s.2)) n
    (0, p)).2

/-- Embedding of `arm_cfft_radix4by2_q15`; `fftLen` is `uint32_t`. -/
def arm_cfft_radix4by2_q15 (E : Externs) (pSrc : Buf) (fftLen : Nat) (pCoef : Buf) : Buf :=
  let n2 := fftLen >>> 1
  let pSrc := forLoop n2 (radix4by2_pre_body n2 pCoef) pSrc
  -- first col
  let pSrc := E.arm_radix4_butterfly_q15 pSrc n2 pCoef 2
  -- second col
  let pSrc := pSrc.atOffset fftLen (fun q => E.arm_radix4_butterfly_q15 q n2 pCoef 2)
  let n2 := fftLen >>> 1
  forLoop n2 radix4by2_post_body pSrc

/-- Embedding of `arm_cfft_radix4by2_inverse_q15`; `fftLen` is `uint32_t`. -/
def arm_cfft_radix4by2_inverse_q15 (E : Externs) (pSrc : Buf) (fftLen : Nat) (pCoef : Buf) :
    Buf :=
  let n2 := fftLen >>> 1
  let pSrc := forLoop n2 (radix4by2_inverse_pre_body n2 pCoef) pSrc
  -- first col
  let pSrc := E.arm_radix4_butterfly_inverse_q15 pSrc n2 pCoef 2
  -- second col
  let pSrc := pSrc.atOffset fftLen (fun q => E.arm_radix4_butterfly_inverse_q15 q n2 pCoef 2)
  let n2 := fftLen >>> 1
  forLoop n2 radix4by2_post_body pSrc

/-- Embedding of `arm_cfft_q15`: the buffer `p1` after the call.  `ifftFlag` and
`bitReverseFlag` are `uint8_t`.  A `switch` without a matching case does nothing. -/
def arm_cfft_q15 (E : Externs) (S : arm_cfft_instance_q15) (p1 : Buf)
    (ifftFlag bitReverseFlag : Nat) : Buf :=
  let L := S.fftLen
  let p1 :=
    if ifftFlag = 1 then
      if L = 16 ∨ L = 64 ∨ L = 256 ∨ L = 1024 ∨ L = 4096 then
        E.arm_radix4_butterfly_inverse_q15 p1 L S.pTwiddle 1
      else if L = 32 ∨ L = 128 ∨ L = 512 ∨ L = 2048 then
        arm_cfft_radix4by2_inverse_q15 E p1 L S.pTwiddle
      else p1
    else
      if L = 16 ∨ L = 64 ∨ L = 256 ∨ L = 1024 ∨ L = 4096 then
        E.arm_radix4_butterfly_q15 p1 L S.pTwiddle 1
      else if L = 32 ∨ L = 128 ∨ L = 512 ∨ L = 2048 then
        arm_cfft_radix4by2_q15 E p1 L S.pTwiddle
      else p1
  if bitReverseFlag ≠ 0 then E.arm_bitreversal_16 p1 S.bitRevLength S.pBitRevTable else p1

/-! ## `arm_rfft_q15.c` -/

/-- Local variables of the loops of `arm_split_rfft_q15` and `arm_split_rifft_q15`.
The pointers `pSrc1`, `pSrc2` are offsets into `pSrc`, `pCoefA` and `pCoefB` offsets
into `pATable` and `pBTable`, and `pDst1` an offset into `pDst`. -/
structure SplitState where
  i : Nat
  pSrc1 : Nat
  pSrc2 : Nat
  pCoefA : Nat
  pCoefB : Nat
  pDst1 : Nat
  pDst : Buf

/-- Body of the `while (i < fftLen)` loop of `arm_split_rfft_q15`.  `outR` and
`outI` are `q31_t`: every product and every sum is narrowed to 32 bits. -/
def split_rfft_body (pSrc : Buf) (fftLen : Nat) (pATable pBTable : Buf) (modifier : Nat)
    (s : SplitState) : SplitState :=
  let outR := wrap32 (pSrc s.pSrc1 * pATable s.pCoefA)
  let outR := wrap32 (outR - wrap32 (pSrc (s.pSrc1 + 1) * pATable (s.pCoefA + 1)))
  let outR := wrap32 (outR + wrap32 (pSrc s.pSrc2 * pBTable s.pCoefB))
  let outR := shr (wrap32 (outR + wrap32 (pSrc (s.pSrc2 + 1) * pBTable (s.pCoefB + 1)))) 16
  let outI := wrap32 (pSrc s.pSrc2 * pBTable (s.pCoefB + 1))
  let outI := wrap32 (outI - wrap32 (pSrc (s.pSrc2 + 1) * pBTable s.pCoefB))
  let outI := wrap32 (outI + wrap32 (pSrc (s.pSrc1 + 1) * pATable s.pCoefA))
  let outI := wrap32 (outI + wrap32 (pSrc s.pSrc1 * pATable (s.pCoefA + 1)))
  -- update input pointers
  let pSrc1 := s.pSrc1 + 2
  let pSrc2 := s.pSrc2 - 2
  -- write output
  let pDst := s.pDst.set (u32 (2 * s.i)) (wrap16 outR)
  let pDst := pDst.set (u32 (u32 (2 * s.i) + 1)) (wrap16 (shr outI 16))
  -- write complex conjugate output
  let pDst := pDst.set (u32sub (u32 (4 * fftLen)) (u32 (2 * s.i))) (wrap16 outR)
  let pDst := pDst.set (u32 (u32sub (u32 (4 * fftLen)) (u32 (2 * s.i)) + 1))
    (wrap16 (wrap32 (-(shr outI 16))))
  -- update coefficient pointer
  let pCoefB := s.pCoefB + u32 (2 * modifier)
  let pCoefA := s.pCoefA + u32 (2 * modifier)
  { s with i := s.i + 1, pSrc1 := pSrc1, pSrc2 := pSrc2, pCoefA := pCoefA, pCoefB := pCoefB,
           pDst := pDst }

/-- The local variables of `arm_split_rfft_q15` before its loop: `pCoefA =
&pATable[modifier * 2]`, `pCoefB = &pBTable[modifier * 2]`, `pSrc1 = &pSrc[2]`,
`pSrc2 = &pSrc[(2U * fftLen) - 2U]`, `i = 1U`. -/
def split_rfft_init (fftLen : Nat) (pDst : Buf) (modifier : Nat) : SplitState :=
  { i := 1, pSrc1 := 2, pSrc2 := u32sub (u32 (2 * fftLen)) 2,
    pCoefA := u32 (modifier * 2), pCoefB := u32 (modifier * 2), pDst1 := 0, pDst := pDst }

/-- The initialisations and the `while (i < fftLen)` loop of `arm_split_rfft_q15`:
the local variables when the loop is left.  The loop runs `fftLen - 1` times. -/
def split_rfft_loop (pSrc : Buf) (fftLen : Nat) (pATable pBTable : Buf) (pDst : Buf)
    (modifier : Nat) : SplitState :=
  whileLoop (fun s => decide (s.i < fftLen))
    (split_rfft_body pSrc fftLen pATable pBTable modifier) fftLen
    (split_rfft_init fftLen pDst modifier)

/-- Embedding of `arm_split_rfft_q15`: the buffer `pDst` after the call.  `pSrc`,
`pATable`, `pBTable` are only read; `pDst` does not overlap them.  `fftLen` and
`modifier` are `uint32_t`. -/
def arm_split_rfft_q15 (pSrc : Buf) (fftLen : Nat) (pATable pBTable : Buf) (pDst : Buf)
    (modifier : Nat) : Buf :=
  let s := split_rfft_loop pSrc fftLen pATable pBTable pDst modifier
  let pDst := s.pDst
  let pDst := pDst.set (u32 (2 * fftLen)) (wrap16 (shr (pSrc 0 - pSrc 1) 1))
  let pDst := pDst.set (u32 (u32 (2 * fftLen) + 1)) 0
  let pDst := pDst.set 0 (wrap16 (shr (pSrc 0 + pSrc 1) 1))
  let pDst := pDst.set 1 0
  pDst

/-- Body of the `while (i > 0U)` loop of `arm_split_rifft_q15`. -/
def split_rifft_body (pSrc : Buf) (pATable pBTable : Buf) (modifier : Nat)
    (s : SplitState) : SplitState :=
  let outR := wrap32 (pSrc s.pSrc2 * pBTable s.pCoefB)
  let outR := wrap32 (outR - wrap32 (pSrc (s.pSrc2 + 1) * pBTable (s.pCoefB + 1)))
  let outR := wrap32 (outR + wrap32 (pSrc s.pSrc1 * pATable s.pCoefA))
  let outR := shr (wrap32 (outR + wrap32 (pSrc (s.pSrc1 + 1) * pATable (s.pCoefA + 1)))) 16
  let outI := wrap32 (pSrc (s.pSrc1 + 1) * pATable s.pCoefA)
  let outI := wrap32 (outI - wrap32 (pSrc s.pSrc1 * pATable (s.pCoefA + 1)))
  let outI := wrap32 (outI - wrap32 (pSrc s.pSrc2 * pBTable (s.pCoefB + 1)))
  let outI := wrap32 (outI - wrap32 (pSrc (s.pSrc2 + 1) * pBTable s.pCoefB))
  -- update input pointers
  let pSrc1 := s.pSrc1 + 2
  let pSrc2 := s.pSrc2 - 2
  -- write output
  let pDst := s.pDst.set s.pDst1 (wrap16 outR)
  let pDst := pDst.set (s.pDst1 + 1) (wrap16 (shr outI 16))
  -- update coefficient pointer
  let pCoefB := s.pCoefB + u32 (2 * modifier)
  let pCoefA := s.pCoefA + u32 (2 * modifier)
  { s with i := s.i - 1, pSrc1 := pSrc1, pSrc2 := pSrc2, pCoefA := pCoefA, pCoefB := pCoefB,
           pDst1 := s.pDst1 + 2, pDst := pDst }

/-- The local variables of `arm_split_rifft_q15` before its loop: `pDst1 = &pDst[0]`,
`pCoefA = &pATable[0]`, `pCoefB = &pBTable[0]`, `pSrc1 = &pSrc[0]`,
`pSrc2 = &pSrc[2 * fftLen]`, `i = fftLen`. -/
def split_rifft_init (fftLen : Nat) (pDst : Buf) : SplitState :=
  { i := fftLen, pSrc1 := 0, pSrc2 := u32 (2 * fftLen),
    pCoefA := 0, pCoefB := 0, pDst1 := 0, pDst := pDst }

/-- Embedding of `arm_split_rifft_q15`: the buffer `pDst` after the call.  The loop
runs `fftLen` times. -/
def arm_split_rifft_q15 (pSrc : Buf) (fftLen : Nat) (pATable pBTable : Buf) (pDst : Buf)
    (modifier : Nat) : Buf :=
  let s := whileLoop (fun s => decide (s.i > 0))
    (split_rifft_body pSrc pATable pBTable modifier) fftLen
    (split_rifft_init fftLen pDst)
  s.pDst

/-- Embedding of `arm_rfft_q15`: the buffers `pSrc` and `pDst` after the call (the
forward transform modifies the source buffer). -/
def arm_rfft_q15 (E : Externs) (S : arm_rfft_instance_q15) (pSrc pDst : Buf) : Buf × Buf :=
  let S_CFFT := S.pCfft
  let L2 := S.fftLenReal >>> 1
  if S.ifftFlagR = 1 then
    -- Real IFFT core process
    let pDst := arm_split_rifft_q15 pSrc L2 S.pTwiddleAReal S.pTwiddleBReal pDst
      S.twidCoefRModifier
    -- Complex IFFT process
    let pDst := arm_cfft_q15 E S_CFFT pDst S.ifftFlagR S.bitReverseFlagR
    let pDst := E.arm_shift_q15 pDst 1 pDst S.fftLenReal
    (pSrc, pDst)
  else
    -- Complex FFT process
    let pSrc := arm_cfft_q15 E S_CFFT pSrc S.ifftFlagR S.bitReverseFlagR
    -- Real FFT core process
    let pDst := arm_split_rfft_q15 pSrc L2 S.pTwiddleAReal S.pTwiddleBReal pDst
      S.twidCoefRModifier
    (pSrc, pDst)

/-! ## The radix-4-by-2 hybrid as three passes -/

/-- The buffer after the first `k` iterations of a `for` loop with body `body`. -/
def iterBody (body : Nat → Buf → Buf) : Nat → Buf → Buf
  | 0, p => p
  | k + 1, p => body k (iterBody body k p)

/-- Pass 3 of the radix-4-by-2 hybrid restricted to the first `n` samples: each one
is shifted left by one bit. -/
def radix4by2_pass3_upto (n : Nat) (p : Buf) : Buf := fun j =>
  if j < n then shl1_q15 (p j) else p j

/-- Real part of bin `i` of the forward split as the specification words it:
`(X[i].re*A.re - X[i].im*A.im + X[fftLen-i].re*B.re + X[fftLen-i].im*B.im) >> 16`
with `X[k] = (pSrc[2k], pSrc[2k+1])`, `A = (pATable[c], pATable[c+1])`, `B` likewise,
the sum taken in 32-bit arithmetic; `c` is the offset of the coefficient pair. -/
def split_rfft_outR (pSrc : Buf) (fftLen : Nat) (pATable pBTable : Buf) (i c : Nat) : Int :=
  shr (wrap32 (pSrc (2 * i) * pATable c
    - pSrc (2 * i + 1) * pATable (c + 1)
    + pSrc (2 * (fftLen - i)) * pBTable c
    + pSrc (2 * (fftLen - i) + 1) * pBTable (c + 1))) 16

/-- Imaginary part of bin `i` of the forward split as the specification words it:
`(X[fftLen-i].re*B.im - X[fftLen-i].im*B.re + X[i].im*A.re + X[i].re*A.im) >> 16`,
the sum taken in 32-bit arithmetic. -/
def split_rfft_outI (pSrc : Buf) (fftLen : Nat) (pATable pBTable : Buf) (i c : Nat) : Int :=
  shr (wrap32 (pSrc (2 * (fftLen - i)) * pBTable (c + 1)
    - pSrc (2 * (fftLen - i) + 1) * pBTable c
    + pSrc (2 * i + 1) * pATable c
    + pSrc (2 * i) * pATable (c + 1))) 16

/-- The destination buffer of the forward split once the bins `1 .. n-1` and their
mirrors at the complex indices `2*fftLen - 1 .. 2*fftLen - (n-1)` are written.  The
coefficient pair of bin `i` is at the offset `i * u32 (2 * modifier)`, the position
of the pointers `pCoefA`, `pCoefB` in iteration `i`. -/
def split_rfft_upto (pSrc : Buf) (fftLen : Nat) (pATable pBTable : Buf) (pDst : Buf)
    (modifier n : Nat) : Buf := fun j =>
  if 2 ≤ j ∧ j < 2 * n then
    if j % 2 = 0 then
      split_rfft_outR pSrc fftLen pATable pBTable (j / 2) (j / 2 * u32 (2 * modifier))
    else split_rfft_outI pSrc fftLen pATable pBTable (j / 2) (j / 2 * u32 (2 * modifier))
  else if 4 * fftLen + 2 ≤ j + 2 * n ∧ j < 4 * fftLen then
    if j % 2 = 0 then
      split_rfft_outR pSrc fftLen pATable pBTable ((4 * fftLen + 1 - j) / 2)
        ((4 * fftLen + 1 - j) / 2 * u32 (2 * modifier))
    else
      wrap16 (-(split_rfft_outI pSrc fftLen pATable pBTable ((4 * fftLen + 1 - j) / 2)
        ((4 * fftLen + 1 - j) / 2 * u32 (2 * modifier))))
  else pDst j

/-- The local variables of `arm_split_rfft_q15` when the loop counter is `i`. -/
def split_rfft_state (pSrc : Buf) (fftLen : Nat) (pATable pBTable : Buf) (pDst : Buf)
    (modifier i : Nat) : SplitState :=
  { i := i, pSrc1 := 2 * i, pSrc2 := 2 * fftLen - 2 * i,
    pCoefA := i * u32 (2 * modifier), pCoefB := i * u32 (2 * modifier), pDst1 := 0,
    pDst := split_rfft_upto pSrc fftLen pATable pBTable pDst modifier i }

/-! ## The inverse split, sample by sample -/

/-- Real part of the complex value that `arm_split_rifft_q15` writes at the output
index `t`, from `X[t] = (pSrc[2t], pSrc[2t+1])`, `X[fftLen-t]` and the coefficient pairs
at the offset `c`: `(X[fftLen-t].re*B.re - X[fftLen-t].im*B.im + X[t].re*A.re +
X[t].im*A.im) >> 16`, the sum taken in 32-bit arithmetic. -/
def split_rifft_outR (pSrc : Buf) (fftLen : Nat) (pATable pBTable : Buf) (t c : Nat) : Int :=
  shr (wrap32 (pSrc (2 * (fftLen - t)) * pBTable c
    - pSrc (2 * (fftLen - t) + 1) * pBTable (c + 1)
    + pSrc (2 * t) * pATable c
    + pSrc (2 * t + 1) * pATable (c + 1))) 16

/-- Imaginary part of the complex value that `arm_split_rifft_q15` writes at the
output index `t`: `(X[t].im*A.re - X[t].re*A.im - X[fftLen-t].re*B.im -
X[fftLen-t].im*B.re) >> 16`, the sum taken in 32-bit arithmetic. -/
def split_rifft_outI (pSrc : Buf) (fftLen : Nat) (pATable pBTable : Buf) (t c : Nat) : Int :=
  shr (wrap32 (pSrc (2 * t + 1) * pATable c
    - pSrc (2 * t) * pATable (c + 1)
    - pSrc (2 * (fftLen - t)) * pBTable (c + 1)
    - pSrc (2 * (fftLen - t) + 1) * pBTable c)) 16

/-- The destination buffer of the inverse split once the first `n` complex values
are written. -/
def split_rifft_upto (pSrc : Buf) (fftLen : Nat) (pATable pBTable : Buf) (pDst : Buf)
    (modifier n : Nat) : Buf := fun j =>
  if j < 2 * n then
    if j % 2 = 0 then
      split_rifft_outR pSrc fftLen pATable pBTable (j / 2) (j / 2 * u32 (2 * modifier))
    else split_rifft_outI pSrc fftLen pATable pBTable (j / 2) (j / 2 * u32 (2 * modifier))
  else pDst j

/-- The local variables of `arm_split_rifft_q15` after `t` iterations of its loop. -/
def split_rifft_state (pSrc : Buf) (fftLen : Nat) (pATable pBTable : Buf) (pDst : Buf)
    (modifier t : Nat) : SplitState :=
  { i := fftLen - t, pSrc1 := 2 * t, pSrc2 := 2 * fftLen - 2 * t,
    pCoefA := t * u32 (2 * modifier), pCoefB := t * u32 (2 * modifier), pDst1 := 2 * t,
    pDst := split_rifft_upto pSrc fftLen pATable pBTable pDst modifier t }

/-- The table of the complex conjugates of the coefficient pairs of `p`: the real
entries (even offsets) are kept, the imaginary entries (odd offsets) are negated, as
`q15_t` values. -/
def conjTable (p : Buf) : Buf := fun k => if k % 2 = 1 then wrap16 (-(p k)) else p k

/-! ## The inverse real FFT and the vector shift -/

/-- Modelled from the spec: `arm_shift_q15`, whose source (`arm_shift_q15.c`) is not
among the embedded files.  The specification describes the call that ends the inverse
real FFT as "a final right-shift-by-1" of the real output samples; the model shifts
each of the first `blockSize` samples of `pSrc` right by `shiftBits` bits into `pDst`
and leaves the other samples of `pDst`. -/
def arm_shift_q15_spec (pSrc : Buf) (shiftBits : Int) (pDst : Buf) (blockSize : Nat) : Buf :=
  fun j => if j < blockSize then shr (pSrc j) shiftBits.toNat else pDst j

/-- The destination buffer of the inverse path of `arm_rfft_q15` before the call of
`arm_shift_q15`: `arm_split_rifft_q15` followed by `arm_cfft_q15` with the flags of
the instance. -/
def rifft_before_shift (E : Externs) (S : arm_rfft_instance_q15) (pSrc pDst : Buf) : Buf :=
  arm_cfft_q15 E S.pCfft
    (arm_split_rifft_q15 pSrc (S.fftLenReal >>> 1) S.pTwiddleAReal S.pTwiddleBReal pDst
      S.twidCoefRModifier)
    S.ifftFlagR S.bitReverseFlagR

/-! ## The radix-4-by-2 hybrid: narrowed values and the final shift -/

/-- Saturation of an integer to the 16-bit range `[-32768, 32767]`. -/
def sat16 (x : Int) : Int := if x > 32767 then 32767 else if x < -32768 then -32768 else x

/-- The buffer of `arm_cfft_radix4by2_q15` before its last loop: the first loop and
the two calls of the radix-4 butterfly. -/
def radix4by2_before_rescale (E : Externs) (pSrc : Buf) (fftLen : Nat) (pCoef : Buf) : Buf :=
  let n2 := fftLen >>> 1
  let pSrc := forLoop n2 (radix4by2_pre_body n2 pCoef) pSrc
  let pSrc := E.arm_radix4_butterfly_q15 pSrc n2 pCoef 2
  pSrc.atOffset fftLen (fun q => E.arm_radix4_butterfly_q15 q n2 pCoef 2)

/-- The buffer of `arm_cfft_radix4by2_inverse_q15` before its last loop. -/
def radix4by2_inverse_before_rescale (E : Externs) (pSrc : Buf) (fftLen : Nat) (pCoef : Buf) :
    Buf :=
  let n2 := fftLen >>> 1
  let pSrc := forLoop n2 (radix4by2_inverse_pre_body n2 pCoef) pSrc
  let pSrc := E.arm_radix4_butterfly_inverse_q15 pSrc n2 pCoef 2
  pSrc.atOffset fftLen (fun q => E.arm_radix4_butterfly_inverse_q15 q n2 pCoef 2)

/-- The values that one butterfly of a pre-combination pass computes, each one before
it is narrowed to 16 bits. -/
structure PreCombValues where
  /-- `(pSrc[2i] >> 1) - (pSrc[2l] >> 1)`, stored into the `q15_t` variable `xt`. -/
  xt : Int
  /-- `((pSrc[2i] >> 1) + (pSrc[2l] >> 1)) >> 1`, stored into `pSrc[2i]`. -/
  sumRe : Int
  /-- `(pSrc[2i+1] >> 1) - (pSrc[2l+1] >> 1)`, stored into the `q15_t` variable `yt`. -/
  yt : Int
  /-- `((pSrc[2l+1] >> 1) + (pSrc[2i+1] >> 1)) >> 1`, stored into `pSrc[2i+1]`. -/
  sumIm : Int
  /-- `((q31_t) xt * cosVal) >> 16`, cast to `int16_t`. -/
  xtCos : Int
  /-- `((q31_t) yt * sinVal) >> 16`, cast to `int16_t`. -/
  ytSin : Int
  /-- `((q31_t) yt * cosVal) >> 16`, cast to `int16_t`. -/
  ytCos : Int
  /-- `((q31_t) xt * sinVal) >> 16`, cast to `int16_t`. -/
  xtSin : Int
  /-- The sum (forward) or difference (inverse) of the casts of `xtCos` and `ytSin`,
  stored into `pSrc[2l]`. -/
  outRe : Int
  /-- The difference (forward) or sum (inverse) of the casts of `ytCos` and `xtSin`,
  stored into `pSrc[2l+1]`. -/
  outIm : Int

/-- The values of one butterfly of the pre-combination pass, before narrowing, from
the samples `(re_i, im_i)`, `(re_l, im_l)` and the twiddle `(cosVal, sinVal)`;
`inverse` selects the expressions of the inverse function. -/
def preCombValues (inverse : Bool) (re_i im_i re_l im_l cosVal sinVal : Int) : PreCombValues :=
  let xt := shr re_i 1 - shr re_l 1
  let yt := shr im_i 1 - shr im_l 1
  let xtCos := shr (wrap32 (wrap16 xt * cosVal)) 16
  let ytSin := shr (wrap32 (wrap16 yt * sinVal)) 16
  let ytCos := shr (wrap32 (wrap16 yt * cosVal)) 16
  let xtSin := shr (wrap32 (wrap16 xt * sinVal)) 16
  { xt := xt
    sumRe := shr (shr re_i 1 + shr re_l 1) 1
    yt := yt
    sumIm := shr (shr im_l 1 + shr im_i 1) 1
    xtCos := xtCos, ytSin := ytSin, ytCos := ytCos, xtSin := xtSin
    outRe := if inverse then wrap16 xtCos - wrap16 ytSin else wrap16 xtCos + wrap16 ytSin
    outIm := if inverse then wrap16 ytCos + wrap16 xtSin else wrap16 ytCos - wrap16 xtSin }

/-- Every value of the butterfly lies in the `q15_t` range before it is narrowed. -/
def PreCombValues.inRange (v : PreCombValues) : Prop :=
  isQ15 v.xt ∧ isQ15 v.sumRe ∧ isQ15 v.yt ∧ isQ15 v.sumIm ∧ isQ15 v.xtCos ∧ isQ15 v.ytSin ∧
  isQ15 v.ytCos ∧ isQ15 v.xtSin ∧ isQ15 v.outRe ∧ isQ15 v.outIm

/-- The four stores of one butterfly on the complex samples `i` and `l`: each stored
value is narrowed to 16 bits. -/
def PreCombValues.store (v : PreCombValues) (i l : Nat) (pSrc : Buf) : Buf :=
  (((pSrc.set (2 * i) (wrap16 v.sumRe)).set (2 * i + 1) (wrap16 v.sumIm)).set (2 * l)
    (wrap16 v.outRe)).set (2 * l + 1) (wrap16 v.outIm)

/-! ## `arm_cfft_radix2_q15.c` -/

/-- The butterfly loop `for (i = j; i < fftLen; i += n1) body` of the radix-2
functions; `i` is a `uint32_t`.  The loop is run for at most `fftLen` iterations, which
is enough whenever `n1` is not 0. -/
def butterflyLoop (fftLen n1 : Nat) (body : Nat → Buf → Buf) (j : Nat) (pSrc : Buf) : Buf :=
  (whileLoop (fun s : Nat × Buf => decide (s.1 < fftLen))
    (fun s => (u32 (s.1 + n1), body s.1 s.2)) fftLen (j, pSrc)).2

/-- Local variables of the group loop of the radix-2 functions. -/
structure GroupState where
  j : Nat
  ia : Nat
  pSrc : Buf

/-- The group loop of the radix-2 functions, with `ia = 0` before it:
`for (j = 0; j < n2; j++)` reads `cosVal = pCoef[ia * 2]`, `sinVal = pCoef[(ia * 2) + 1]`,
advances `ia` by `twidCoefModifier` and runs the butterfly loop from `i = j`.  The
butterfly `body` takes `cosVal`, `sinVal` and `i`. -/
def groupLoop (fftLen n1 n2 : Nat) (pCoef : Buf) (twidCoefModifier : Nat)
    (body : Int → Int → Nat → Buf → Buf) (pSrc : Buf) : Buf :=
  (whileLoop (fun s : GroupState => decide (s.j < n2))
    (fun s =>
      let cosVal := pCoef (u32 (s.ia * 2))
      let sinVal := pCoef (u32 (u32 (s.ia * 2) + 1))
      let ia := u32 (s.ia + twidCoefModifier)
      { j := s.j + 1, ia := ia,
        pSrc := butterflyLoop fftLen n1 (body cosVal sinVal) s.j s.pSrc })
    n2 { j := 0, ia := 0, pSrc := pSrc }).pSrc

/-- Butterfly of the first stage of `arm_radix2_butterfly_q15`. -/
def radix2_first_body (n2 : Nat) (cosVal sinVal : Int) (i : Nat) (pSrc : Buf) : Buf :=
  let l := u32 (i + n2)
  let xt := wrap16 (shr (pSrc (u32 (2 * i))) 1 - shr (pSrc (u32 (2 * l))) 1)
  let pSrc := pSrc.set (u32 (2 * i))
    (wrap16 (shr (shr (pSrc (u32 (2 * i))) 1 + shr (pSrc (u32 (2 * l))) 1) 1))
  let yt := wrap16 (shr (pSrc (u32 (u32 (2 * i) + 1))) 1 - shr (pSrc (u32 (u32 (2 * l) + 1))) 1)
  let pSrc := pSrc.set (u32 (u32 (2 * i) + 1))
    (wrap16 (shr (shr (pSrc (u32 (u32 (2 * l) + 1))) 1 + shr (pSrc (u32 (u32 (2 * i) + 1))) 1) 1))
  let pSrc := pSrc.set (u32 (2 * l))
    (wrap16 (wrap16 (shr (wrap32 (xt * cosVal)) 16) + wrap16 (shr (wrap32 (yt * sinVal)) 16)))
  let pSrc := pSrc.set (u32 (u32 (2 * l) + 1))
    (wrap16 (wrap16 (shr (wrap32 (yt * cosVal)) 16) - wrap16 (shr (wrap32 (xt * sinVal)) 16)))
  pSrc

/-- Butterfly of the middle stages of `arm_radix2_butterfly_q15`. -/
def radix2_mid_body (n2 : Nat) (cosVal sinVal : Int) (i : Nat) (pSrc : Buf) : Buf :=
  let l := u32 (i + n2)
  let xt := wrap16 (pSrc (u32 (2 * i)) - pSrc (u32 (2 * l)))
  let pSrc := pSrc.set (u32 (2 * i))
    (wrap16 (shr (pSrc (u32 (2 * i)) + pSrc (u32 (2 * l))) 1))
  let yt := wrap16 (pSrc (u32 (u32 (2 * i) + 1)) - pSrc (u32 (u32 (2 * l) + 1)))
  let pSrc := pSrc.set (u32 (u32 (2 * i) + 1))
    (wrap16 (shr (pSrc (u32 (u32 (2 * l) + 1)) + pSrc (u32 (u32 (2 * i) + 1))) 1))
  let pSrc := pSrc.set (u32 (2 * l))
    (wrap16 (wrap16 (shr (wrap32 (xt * cosVal)) 16) + wrap16 (shr (wrap32 (yt * sinVal)) 16)))
  let pSrc := pSrc.set (u32 (u32 (2 * l) + 1))
    (wrap16 (wrap16 (shr (wrap32 (yt * cosVal)) 16) - wrap16 (shr (wrap32 (xt * sinVal)) 16)))
  pSrc

/-- Butterfly of the last stage of `arm_radix2_butterfly_q15`; `cosVal` and `sinVal` are
read by the group loop and not used. -/
def radix2_last_body (n2 : Nat) (_cosVal _sinVal : Int) (i : Nat) (pSrc : Buf) : Buf :=
  let l := u32 (i + n2)
  let xt := wrap16 (pSrc (u32 (2 * i)) - pSrc (u32 (2 * l)))
  let pSrc := pSrc.set (u32 (2 * i)) (wrap16 (pSrc (u32 (2 * i)) + pSrc (u32 (2 * l))))
  let yt := wrap16 (pSrc (u32 (u32 (2 * i) + 1)) - pSrc (u32 (u32 (2 * l) + 1)))
  let pSrc := pSrc.set (u32 (u32 (2 * i) + 1))
    (wrap16 (pSrc (u32 (u32 (2 * l) + 1)) + pSrc (u32 (u32 (2 * i) + 1))))
  let pSrc := pSrc.set (u32 (2 * l)) xt
  let pSrc := pSrc.set (u32 (u32 (2 * l) + 1)) yt
  pSrc

/-- Butterfly of the first stage of `arm_radix2_butterfly_inverse_q15`. -/
def radix2_inverse_first_body (n2 : Nat) (cosVal sinVal : Int) (i : Nat) (pSrc : Buf) : Buf :=
  let l := u32 (i + n2)
  let xt := wrap16 (shr (pSrc (u32 (2 * i))) 1 - shr (pSrc (u32 (2 * l))) 1)
  let pSrc := pSrc.set (u32 (2 * i))
    (wrap16 (shr (shr (pSrc (u32 (2 * i))) 1 + shr (pSrc (u32 (2 * l))) 1) 1))
  let yt := wrap16 (shr (pSrc (u32 (u32 (2 * i) + 1))) 1 - shr (pSrc (u32 (u32 (2 * l) + 1))) 1)
  let pSrc := pSrc.set (u32 (u32 (2 * i) + 1))
    (wrap16 (shr (shr (pSrc (u32 (u32 (2 * l) + 1))) 1 + shr (pSrc (u32 (u32 (2 * i) + 1))) 1) 1))
  let pSrc := pSrc.set (u32 (2 * l))
    (wrap16 (wrap16 (shr (wrap32 (xt * cosVal)) 16) - wrap16 (shr (wrap32 (yt * sinVal)) 16)))
  let pSrc := pSrc.set (u32 (u32 (2 * l) + 1))
    (wrap16 (wrap16 (shr (wrap32 (yt * cosVal)) 16) + wrap16 (shr (wrap32 (xt * sinVal)) 16)))
  pSrc

/-- Butterfly of the middle stages of `arm_radix2_butterfly_inverse_q15`. -/
def radix2_inverse_mid_body (n2 : Nat) (cosVal sinVal : Int) (i : Nat) (pSrc : Buf) : Buf :=
  let l := u32 (i + n2)
  let xt := wrap16 (pSrc (u32 (2 * i)) - pSrc (u32 (2 * l)))
  let pSrc := pSrc.set (u32 (2 * i))
    (wrap16 (shr (pSrc (u32 (2 * i)) + pSrc (u32 (2 * l))) 1))
  let yt := wrap16 (pSrc (u32 (u32 (2 * i) + 1)) - pSrc (u32 (u32 (2 * l) + 1)))
  let pSrc := pSrc.set (u32 (u32 (2 * i) + 1))
    (wrap16 (shr (pSrc (u32 (u32 (2 * l) + 1)) + pSrc (u32 (u32 (2 * i) + 1))) 1))
  let pSrc := pSrc.set (u32 (2 * l))
    (wrap16 (wrap16 (shr (wrap32 (xt * cosVal)) 16) - wrap16 (shr (wrap32 (yt * sinVal)) 16)))
  let pSrc := pSrc.set (u32 (u32 (2 * l) + 1))
    (wrap16 (wrap16 (shr (wrap32 (yt * cosVal)) 16) + wrap16 (shr (wrap32 (xt * sinVal)) 16)))
  pSrc

/-- Butterfly of the last stage of `arm_radix2_butterfly_inverse_q15`. -/
def radix2_inverse_last_body (n2 : Nat) (i : Nat) (pSrc : Buf) : Buf :=
  let l := u32 (i + n2)
  let xt := wrap16 (pSrc (u32 (2 * i)) - pSrc (u32 (2 * l)))
  let pSrc := pSrc.set (u32 (2 * i)) (wrap16 (pSrc (u32 (2 * i)) + pSrc (u32 (2 * l))))
  let yt := wrap16 (pSrc (u32 (u32 (2 * i) + 1)) - pSrc (u32 (u32 (2 * l) + 1)))
  let pSrc := pSrc.set (u32 (u32 (2 * i) + 1))
    (wrap16 (pSrc (u32 (u32 (2 * l) + 1)) + pSrc (u32 (u32 (2 * i) + 1))))
  let pSrc := pSrc.set (u32 (2 * l)) xt
  let pSrc := pSrc.set (u32 (u32 (2 * l) + 1)) yt
  pSrc

/-- Local variables of the stage loop of the radix-2 functions. -/
structure StageState where
  k : Nat
  n1 : Nat
  n2 : Nat
  /-- The `uint16_t` parameter `twidCoefModifier`. -/
  twidCoefModifier : Nat
  pSrc : Buf

/-- The stage loop `for (k = fftLen / 2; k > 2; k = k >> 1)` of the radix-2 functions:
each iteration sets `n1 = n2`, `n2 = n2 >> 1`, runs the group loop with the butterfly
`body n2` and doubles the `uint16_t` `twidCoefModifier`.  The loop is run for at most
`fftLen` iterations. -/
def stageLoop (fftLen : Nat) (pCoef : Buf) (body : Nat → Int → Int → Nat → Buf → Buf)
    (s : StageState) : StageState :=
  whileLoop (fun s : StageState => decide (s.k > 2))
    (fun s =>
      let n1 := s.n2
      let n2 := s.n2 >>> 1
      let pSrc := groupLoop fftLen n1 n2 pCoef s.twidCoefModifier (body n2) s.pSrc
      { k := s.k >>> 1, n1 := n1, n2 := n2,
        twidCoefModifier := u16 (s.twidCoefModifier <<< 1), pSrc := pSrc })
    fftLen s

/-- Embedding of `arm_radix2_butterfly_q15`: the buffer `pSrc` after the call.
`fftLen` is `uint32_t`, `twidCoefModifier` is `uint16_t`. -/
def arm_radix2_butterfly_q15 (pSrc : Buf) (fftLen : Nat) (pCoef : Buf)
    (twidCoefModifier : Nat) : Buf :=
  let n2 := fftLen
  let n1 := n2
  let n2 := n2 >>> 1
  -- first stage
  let pSrc := groupLoop fftLen n1 n2 pCoef twidCoefModifier (radix2_first_body n2) pSrc
  let twidCoefModifier := u16 (twidCoefModifier <<< 1)
  -- loop for stage
  let s := stageLoop fftLen pCoef radix2_mid_body
    { k := fftLen / 2, n1 := n1, n2 := n2, twidCoefModifier := twidCoefModifier, pSrc := pSrc }
  -- last stage
  let n1 := s.n2
  let n2 := s.n2 >>> 1
  groupLoop fftLen n1 n2 pCoef s.twidCoefModifier (radix2_last_body n2) s.pSrc

/-- Embedding of `arm_radix2_butterfly_inverse_q15`: the buffer `pSrc` after the call.
The last stage has no group loop: it reads one twiddle pair (not used) and runs the
butterfly loop from `i = 0`. -/
def arm_radix2_butterfly_inverse_q15 (pSrc : Buf) (fftLen : Nat) (pCoef : Buf)
    (twidCoefModifier : Nat) : Buf :=
  let n2 := fftLen
  let n1 := n2
  let n2 := n2 >>> 1
  -- first stage
  let pSrc := groupLoop fftLen n1 n2 pCoef twidCoefModifier (radix2_inverse_first_body n2) pSrc
  let twidCoefModifier := u16 (twidCoefModifier <<< 1)
  -- loop for stage
  let s := stageLoop fftLen pCoef radix2_inverse_mid_body
    { k := fftLen / 2, n1 := n1, n2 := n2, twidCoefModifier := twidCoefModifier, pSrc := pSrc }
  -- last stage
  let n1 := s.n2
  let n2 := s.n2 >>> 1
  butterflyLoop fftLen n1 (radix2_inverse_last_body n2) 0 s.pSrc

/-! ## The radix-2 and radix-4-by-2 networks with the direction as a parameter -/

/-- Butterfly of the first stage of the radix-2 network.  The direction enters only
through the sign `sgn` of the cross terms: the stores are `xt*cos + sgn * yt*sin` and
`yt*cos - sgn * xt*sin` (each product shifted right by 16 and cast to 16 bits). -/
def radix2_net_first_body (sgn : Int) (n2 : Nat) (cosVal sinVal : Int) (i : Nat)
    (pSrc : Buf) : Buf :=
  let l := u32 (i + n2)
  let xt := wrap16 (shr (pSrc (u32 (2 * i))) 1 - shr (pSrc (u32 (2 * l))) 1)
  let pSrc := pSrc.set (u32 (2 * i))
    (wrap16 (shr (shr (pSrc (u32 (2 * i))) 1 + shr (pSrc (u32 (2 * l))) 1) 1))
  let yt := wrap16 (shr (pSrc (u32 (u32 (2 * i) + 1))) 1 - shr (pSrc (u32 (u32 (2 * l) + 1))) 1)
  let pSrc := pSrc.set (u32 (u32 (2 * i) + 1))
    (wrap16 (shr (shr (pSrc (u32 (u32 (2 * l) + 1))) 1 + shr (pSrc (u32 (u32 (2 * i) + 1))) 1) 1))
  let pSrc := pSrc.set (u32 (2 * l))
    (wrap16 (wrap16 (shr (wrap32 (xt * cosVal)) 16)
      + sgn * wrap16 (shr (wrap32 (yt * sinVal)) 16)))
  let pSrc := pSrc.set (u32 (u32 (2 * l) + 1))
    (wrap16 (wrap16 (shr (wrap32 (yt * cosVal)) 16)
      - sgn * wrap16 (shr (wrap32 (xt * sinVal)) 16)))
  pSrc

/-- Butterfly of the middle stages of the radix-2 network, with the sign `sgn` of the
cross terms. -/
def radix2_net_mid_body (sgn : Int) (n2 : Nat) (cosVal sinVal : Int) (i : Nat)
    (pSrc : Buf) : Buf :=
  let l := u32 (i + n2)
  let xt := wrap16 (pSrc (u32 (2 * i)) - pSrc (u32 (2 * l)))
  let pSrc := pSrc.set (u32 (2 * i))
    (wrap16 (shr (pSrc (u32 (2 * i)) + pSrc (u32 (2 * l))) 1))
  let yt := wrap16 (pSrc (u32 (u32 (2 * i) + 1)) - pSrc (u32 (u32 (2 * l) + 1)))
  let pSrc := pSrc.set (u32 (u32 (2 * i) + 1))
    (wrap16 (shr (pSrc (u32 (u32 (2 * l) + 1)) + pSrc (u32 (u32 (2 * i) + 1))) 1))
  let pSrc := pSrc.set (u32 (2 * l))
    (wrap16 (wrap16 (shr (wrap32 (xt * cosVal)) 16)
      + sgn * wrap16 (shr (wrap32 (yt * sinVal)) 16)))
  let pSrc := pSrc.set (u32 (u32 (2 * l) + 1))
    (wrap16 (wrap16 (shr (wrap32 (yt * cosVal)) 16)
      - sgn * wrap16 (shr (wrap32 (xt * sinVal)) 16)))
  pSrc

/-- The radix-2 butterfly network with the direction as a parameter: the stages, the
index pairs `(i, i + n2)`, the twiddle indices `ia` and the right shifts do not depend
on `sgn`; `sgn` is the sign of the cross terms of the first and the middle stages
(`1` forward, `-1` inverse), and the last stage has no cross term. -/
def radix2_network (sgn : Int) (pSrc : Buf) (fftLen : Nat) (pCoef : Buf)
    (twidCoefModifier : Nat) : Buf :=
  let n2 := fftLen
  let n1 := n2
  let n2 := n2 >>> 1
  let pSrc := groupLoop fftLen n1 n2 pCoef twidCoefModifier (radix2_net_first_body sgn n2) pSrc
  let twidCoefModifier := u16 (twidCoefModifier <<< 1)
  let s := stageLoop fftLen pCoef (radix2_net_mid_body sgn)
    { k := fftLen / 2, n1 := n1, n2 := n2, twidCoefModifier := twidCoefModifier, pSrc := pSrc }
  let n1 := s.n2
  let n2 := s.n2 >>> 1
  groupLoop fftLen n1 n2 pCoef s.twidCoefModifier (radix2_last_body n2) s.pSrc

/-- Body of the first loop of the radix-4-by-2 network, with the sign `sgn` of the
cross terms. -/
def radix4by2_net_pre_body (sgn : Int) (n2 : Nat) (pCoef : Buf) (i : Nat) (pSrc : Buf) : Buf :=
  radix2_net_first_body sgn n2 (pCoef (u32 (2 * i))) (pCoef (u32 (u32 (2 * i) + 1))) i pSrc

/-- The radix-4-by-2 network with the direction as a parameter: the pre-combination
pass with the sign `sgn` of the cross terms, the radix-4 butterfly `R4` of the direction
on both halves, and the final shift. -/
def radix4by2_network (sgn : Int) (R4 : Buf → Nat → Buf → Nat → Buf) (pSrc : Buf)
    (fftLen : Nat) (pCoef : Buf) : Buf :=
  let n2 := fftLen >>> 1
  let pSrc := forLoop n2 (radix4by2_net_pre_body sgn n2 pCoef) pSrc
  let pSrc := R4 pSrc n2 pCoef 2
  let pSrc := pSrc.atOffset fftLen (fun q => R4 q n2 pCoef 2)
  forLoop n2 radix4by2_post_body pSrc

/-! ## Impulse combs -/

/-- The first `n` samples of `p` form a comb with the sample stride `D` and the value
`v`: the samples at the multiples of `D` are `v`, the others are 0. -/
def CombOn (n D : Nat) (v : Int) (p : Buf) : Prop :=
  ∀ idx, idx < n → p idx = if D ∣ idx then v else 0

/-- The buffer of `arm_radix2_butterfly_q15` when its last stage begins: the first
stage and the stage loop. -/
def radix2_before_last_stage (pSrc : Buf) (fftLen : Nat) (pCoef : Buf)
    (twidCoefModifier : Nat) : Buf :=
  let n2 := fftLen
  let n1 := n2
  let n2 := n2 >>> 1
  let pSrc := groupLoop fftLen n1 n2 pCoef twidCoefModifier (radix2_first_body n2) pSrc
  let twidCoefModifier := u16 (twidCoefModifier <<< 1)
  (stageLoop fftLen pCoef radix2_mid_body
    { k := fftLen / 2, n1 := n1, n2 := n2, twidCoefModifier := twidCoefModifier,
      pSrc := pSrc }).pSrc

/-- The difference `pSrc[2 * i] - pSrc[2 * l]`, `l = i + n2`, of a butterfly of the last
stage of `arm_radix2_butterfly_q15`, before it is stored in the `q15_t` variable `xt`. -/
def radix2_last_xt (n2 : Nat) (i : Nat) (pSrc : Buf) : Int :=
  let l := u32 (i + n2)
  pSrc (u32 (2 * i)) - pSrc (u32 (2 * l))

/-! ## Bit reversal -/

/-- Modelled from the spec: one step of the bit-reversal permuter, the exchange of the
interleaved complex slots `a` and `b` (samples `2a`, `2a+1` and `2b`, `2b+1`) of a
buffer.  The source of `arm_bitreversal_16` is not among the embedded files. -/
def swapComplexSlots (a b : Nat) (p : Buf) : Buf := fun j =>
  if j = 2 * a then p (2 * b)
  else if j = 2 * a + 1 then p (2 * b + 1)
  else if j = 2 * b then p (2 * a)
  else if j = 2 * b + 1 then p (2 * a + 1)
  else p j

/-- Modelled from the spec: `arm_bitreversal_16`, declared `extern` in
`arm_cfft_q15.c` and defined in a file that is not among the embedded ones.  The
specification says that the permuter "swaps pairs of interleaved complex slots
identified by `table` in place" and is "a no-op on an empty table".  In the model the
table holds `bitRevLen` entries, two consecutive entries naming one pair of slots, and
the pairs are exchanged in the order of the table. -/
def arm_bitreversal_16_spec (pSrc : Buf) (bitRevLen : Nat) (pBitRevTable : Nat → Nat) : Buf :=
  forLoop (bitRevLen / 2)
    (fun t p => swapComplexSlots (pBitRevTable (2 * t)) (pBitRevTable (2 * t + 1)) p) pSrc

/-- The slot that the exchange of the slots `a` and `b` moves to slot `s`. -/
def swapIdx (a b s : Nat) : Nat := if s = a then b else if s = b then a else s

/-- No complex slot occurs in two different pairs of the first `bitRevLen` entries of
the table. -/
def PairsDisjoint (bitRevLen : Nat) (pBitRevTable : Nat → Nat) : Prop :=
  ∀ t u, t < u → u < bitRevLen / 2 →
    pBitRevTable (2 * t) ≠ pBitRevTable (2 * u) ∧
    pBitRevTable (2 * t) ≠ pBitRevTable (2 * u + 1) ∧
    pBitRevTable (2 * t + 1) ≠ pBitRevTable (2 * u) ∧
    pBitRevTable (2 * t + 1) ≠ pBitRevTable (2 * u + 1)

/-! ## Wider machine integers and saturation -/

/-- Narrowing of an integer to `int8_t` (`q7_t`), two's complement. -/
def wrap8 (x : Int) : Int := (x + 128) % 256 - 128

/-- Narrowing of an integer to `int64_t` (`q63_t`), two's complement. -/
def wrap64 (x : Int) : Int :=
  (x + 9223372036854775808) % 18446744073709551616 - 9223372036854775808

/-- Range of a `q7_t` value. -/
def isQ7 (x : Int) : Prop := -128 ≤ x ∧ x ≤ 127

/-- Range of a `q31_t` value. -/
def isQ31 (x : Int) : Prop := -2147483648 ≤ x ∧ x ≤ 2147483647

/-- Range of a `q63_t` value. -/
def isQ63 (x : Int) : Prop := -9223372036854775808 ≤ x ∧ x ≤ 9223372036854775807

instance (x : Int) : Decidable (isQ7 x) := by
  unfold isQ7; exact inferInstance

instance (x : Int) : Decidable (isQ31 x) := by
  unfold isQ31; exact inferInstance

instance (x : Int) : Decidable (isQ63 x) := by
  unfold isQ63; exact inferInstance

/-- Saturation of an integer to the 32-bit range `[-2 ^ 31, 2 ^ 31 - 1]`. -/
def sat32 (x : Int) : Int :=
  if x > 2147483647 then 2147483647 else if x < -2147483648 then -2147483648 else x

/-- The compiler intrinsics and helper functions that the embedded filtering, matrix
and statistics sources use and that are defined in headers and files that are not
embedded.  A buffer argument is the view of memory from the pointer passed, and the
result of a function that writes is that view after the call. -/
structure Helpers where
  /-- The saturation `__SSAT (val, sat)`.  Its first parameter is an `int32_t`: where the
  sources pass a 64-bit value, the value is narrowed at the call, which the embeddings
  write as `wrap32`. -/
  __SSAT : Int → Nat → Int
  /-- The saturating 32-bit addition `__QADD (a, b)`. -/
  __QADD : Int → Int → Int
  /-- The value that `arm_sqrt_q15 (in, pOut)` stores in `*pOut`. -/
  arm_sqrt_q15 : Int → Int
  /-- The effect of `arm_fill_q15 (value, pDst, blockSize)` on the memory at `pDst`. -/
  arm_fill_q15 : Int → Buf → Nat → Buf
  /-- The effect of `arm_copy_q15 (pSrc, pDst, blockSize)` on the memory at `pDst`. -/
  arm_copy_q15 : Buf → Buf → Nat → Buf
  /-- The 32-bit word that `read_q15x2_ia (&p)` reads at the pointer `p`, given as a
  buffer and an element offset; the caller advances the pointer by two elements. -/
  read_q15x2_ia : Buf → Nat → Int
  /-- The effect of `write_q15x2 (p, word)` on the buffer, `p` given as an element
  offset. -/
  write_q15x2 : Buf → Nat → Int → Buf

/-- Saturation of an integer to the signed range of `bits` bits,
`[-2 ^ (bits - 1), 2 ^ (bits - 1) - 1]`. -/
def ssat (x : Int) (bits : Nat) : Int :=
  if x > 2 ^ (bits - 1) - 1 then 2 ^ (bits - 1) - 1
  else if x < -(2 ^ (bits - 1)) then -(2 ^ (bits - 1))
  else x

/-- Read through a pointer that is `k` elements away from the base of the buffer `p`;
the pointers of the sources that are decremented below their base are never read
there. -/
def Buf.read (p : Buf) (k : Int) : Int := p k.toNat

/-! ## `arm_conv_partial_f32.c` -/

/-- The `float32_t` arithmetic that the embedded functions use, over an abstract type
of values. -/
structure FloatOps (α : Type) where
  /-- The constant `0.0f`. -/
  zero : α
  /-- Addition of two `float32_t` values. -/
  add : α → α → α
  /-- Product of two `float32_t` values. -/
  mul : α → α → α

/-- Store `p[k] = v` into a buffer of any element type. -/
def setAt {α : Type} (p : Nat → α) (k : Nat) (v : α) : Nat → α :=
  fun j => if j = k then v else p j

/-- A loop that may fail to terminate: the result is `none` when the loop condition
still holds after `fuel` iterations (or when an iteration does not return), and the
state that falsifies the condition otherwise. -/
def whileLoopFuel {σ : Type} (cond : σ → Bool) (step : σ → Option σ) : Nat → σ → Option σ
  | 0, s => if cond s then none else some s
  | fuel + 1, s => if cond s then (step s).bind (whileLoopFuel cond step fuel) else some s

/-- The range check of the partial convolutions,
`(firstIndex + numPoints) > (srcALen + (srcBLen - 1U))` in `uint32_t` arithmetic. -/
def conv_partial_out_of_range (srcALen srcBLen firstIndex numPoints : Nat) : Bool :=
  decide (u32 (firstIndex + numPoints) > u32 (srcALen + u32sub srcBLen 1))

/-- The inner loop `for (j = 0U; j <= i; j++)` of `arm_conv_partial_f32`: the sum for
the output index `i`. -/
def conv_partial_f32_sum {α : Type} (F : FloatOps α) (fuel : Nat) (pIn1 : Nat → α)
    (srcALen : Nat) (pIn2 : Nat → α) (srcBLen : Nat) (i : Nat) : Option α :=
  (whileLoopFuel (fun s : Nat × α => decide (s.1 ≤ i))
    (fun s =>
      let j := s.1
      let sum :=
        if u32sub i j < srcBLen ∧ j < srcALen then
          F.add s.2 (F.mul (pIn1 j) (pIn2 (u32sub i j)))
        else s.2
      some (u32 (j + 1), sum))
    fuel (0, F.zero)).map Prod.snd

/-- Embedding of `arm_conv_partial_f32`: the status and the buffer `pDst` after the
call, or `none` when one of the two loops does not end within `fuel` iterations.
`srcALen`, `srcBLen`, `firstIndex`, `numPoints` are `uint32_t`. -/
def arm_conv_partial_f32 {α : Type} (F : FloatOps α) (fuel : Nat) (pSrcA : Nat → α)
    (srcALen : Nat) (pSrcB : Nat → α) (srcBLen : Nat) (pDst : Nat → α)
    (firstIndex numPoints : Nat) : Option (arm_status × (Nat → α)) :=
  let pIn1 := pSrcA
  let pIn2 := pSrcB
  if conv_partial_out_of_range srcALen srcBLen firstIndex numPoints then
    some (arm_status.ARM_MATH_ARGUMENT_ERROR, pDst)
  else
    (whileLoopFuel
      (fun s : Nat × (Nat → α) => decide (s.1 ≤ u32sub (u32 (firstIndex + numPoints)) 1))
      (fun s =>
        let i := s.1
        (conv_partial_f32_sum F fuel pIn1 srcALen pIn2 srcBLen i).map
          (fun sum => (u32 (i + 1), setAt s.2 i sum)))
      fuel (firstIndex, pDst)).map (fun s => (arm_status.ARM_MATH_SUCCESS, s.2))

/-! ## `arm_conv_q31.c` -/

/-- Local variables of a multiply-accumulate loop of `arm_conv_q31`: the counter `k`,
the pointers `px`, `py` as element offsets from `pIn1`, `pIn2`, and the `q63_t`
accumulator. -/
structure ConvMacState where
  k : Nat
  px : Int
  py : Int
  sum : Int

/-- The loop `while (k > 0U) { sum += (q63_t) *px++ * *py--; k--; }` with `sum = 0`
before it. -/
def conv_q31_mac (pIn1 pIn2 : Buf) (k : Nat) (px py : Int) : ConvMacState :=
  whileLoop (fun s : ConvMacState => decide (s.k > 0))
    (fun s =>
      { k := s.k - 1, px := s.px + 1, py := s.py - 1,
        sum := wrap64 (s.sum + wrap64 (pIn1.read s.px * pIn2.read s.py)) })
    k { k := k, px := px, py := py, sum := 0 }

/-- Local variables of a stage of `arm_conv_q31`: the loop counter of the stage, the
variable `count`, the pointers `px`, `py` and `pSrc1` (element offsets from `pIn1`,
`pIn2`, `pIn1`), the output pointer (element offset from `pDst`) and the output. -/
structure ConvStageState where
  blkCnt : Nat
  count : Nat
  px : Int
  py : Int
  pSrc1 : Int
  pOut : Nat
  pDst : Buf

/-- Stage 1 of `arm_conv_q31`: `count` products for the output sample `count - 1`. -/
def conv_q31_stage1 (pIn1 pIn2 : Buf) (s : ConvStageState) : ConvStageState :=
  whileLoop (fun s : ConvStageState => decide (s.blkCnt > 0))
    (fun s =>
      let m := conv_q31_mac pIn1 pIn2 s.count s.px s.py
      let pDst := s.pDst.set s.pOut (wrap32 (shr m.sum 31))
      { s with pDst := pDst, pOut := s.pOut + 1, py := (s.count : Int), px := 0,
               count := u32 (s.count + 1), blkCnt := s.blkCnt - 1 })
    s.blkCnt s

/-- Stage 2 of `arm_conv_q31`: `srcBLen` products for every output sample; `pSrc2` is
the offset of the last sample of the shorter sequence. -/
def conv_q31_stage2 (pIn1 pIn2 : Buf) (srcBLen : Nat) (pSrc2 : Int) (s : ConvStageState) :
    ConvStageState :=
  whileLoop (fun s : ConvStageState => decide (s.blkCnt > 0))
    (fun s =>
      let m := conv_q31_mac pIn1 pIn2 srcBLen s.px s.py
      let pDst := s.pDst.set s.pOut (wrap32 (shr m.sum 31))
      let count := u32 (s.count + 1)
      { s with pDst := pDst, pOut := s.pOut + 1, count := count, px := (count : Int),
               py := pSrc2, blkCnt := s.blkCnt - 1 })
    s.blkCnt s

/-- Stage 3 of `arm_conv_q31`: the number of products, held in the loop counter
`blockSize3`, decreases by one for every output sample. -/
def conv_q31_stage3 (pIn1 pIn2 : Buf) (pSrc2 : Int) (s : ConvStageState) : ConvStageState :=
  whileLoop (fun s : ConvStageState => decide (s.blkCnt > 0))
    (fun s =>
      let m := conv_q31_mac pIn1 pIn2 s.blkCnt s.px s.py
      let pDst := s.pDst.set s.pOut (wrap32 (shr m.sum 31))
      let pSrc1 := s.pSrc1 + 1
      { s with pDst := pDst, pOut := s.pOut + 1, pSrc1 := pSrc1, px := pSrc1, py := pSrc2,
               blkCnt := s.blkCnt - 1 })
    s.blkCnt s

/-- Embedding of `arm_conv_q31`: the buffer `pDst` after the call.  `srcALen` and
`srcBLen` are `uint32_t`. -/
def arm_conv_q31 (pSrcA : Buf) (srcALen : Nat) (pSrcB : Buf) (srcBLen : Nat) (pDst : Buf) :
    Buf :=
  let pIn1 := if srcALen ≥ srcBLen then pSrcA else pSrcB
  let pIn2 := if srcALen ≥ srcBLen then pSrcB else pSrcA
  let lenA := if srcALen ≥ srcBLen then srcALen else srcBLen
  let lenB := if srcALen ≥ srcBLen then srcBLen else srcALen
  let srcALen := lenA
  let srcBLen := lenB
  let blockSize1 := u32sub srcBLen 1
  let blockSize2 := u32sub srcALen (u32sub srcBLen 1)
  let blockSize3 := blockSize1
  -- stage 1
  let s := conv_q31_stage1 pIn1 pIn2
    { blkCnt := blockSize1, count := 1, px := 0, py := 0, pSrc1 := 0, pOut := 0, pDst := pDst }
  -- stage 2
  let pSrc2 : Int := (u32sub srcBLen 1 : Nat)
  let s := { s with px := 0, py := pSrc2, count := 0, blkCnt := blockSize2 }
  let s :=
    if srcBLen ≥ 4 then conv_q31_stage2 pIn1 pIn2 srcBLen pSrc2 s
    else conv_q31_stage2 pIn1 pIn2 srcBLen pSrc2 s
  -- stage 3
  let pSrc1 : Int := (srcALen : Int) - (u32sub srcBLen 1 : Nat)
  let s := { s with pSrc1 := pSrc1, px := pSrc1, py := pSrc2, blkCnt := blockSize3 }
  (conv_q31_stage3 pIn1 pIn2 pSrc2 s).pDst

/-! ## `arm_dot_prod_q7.c` -/

/-- Local variables of the loop of `arm_dot_prod_q7`. -/
structure DotProdState where
  blkCnt : Nat
  pSrcA : Nat
  pSrcB : Nat
  sum : Int

/-- One iteration of the loop of `arm_dot_prod_q7`:
`sum += (q31_t) ((q15_t) *pSrcA++ * *pSrcB++); blkCnt--;` with a `q31_t` accumulator. -/
def dot_prod_q7_step (pSrcA pSrcB : Buf) (s : DotProdState) : DotProdState :=
  { blkCnt := s.blkCnt - 1, pSrcA := s.pSrcA + 1, pSrcB := s.pSrcB + 1,
    sum := wrap32 (s.sum + wrap32 (wrap16 (pSrcA s.pSrcA) * pSrcB s.pSrcB)) }

/-- Embedding of `arm_dot_prod_q7`: the value stored in `*result`. -/
def arm_dot_prod_q7 (pSrcA pSrcB : Buf) (blockSize : Nat) : Int :=
  (whileLoop (fun s : DotProdState => decide (s.blkCnt > 0)) (dot_prod_q7_step pSrcA pSrcB)
    blockSize { blkCnt := blockSize, pSrcA := 0, pSrcB := 0, sum := 0 }).sum

/-- The exact sum of the products `A[i] * B[i]`, `i < n`. -/
def dotSum (pSrcA pSrcB : Buf) : Nat → Int
  | 0 => 0
  | n + 1 => dotSum pSrcA pSrcB n + pSrcA n * pSrcB n

/-! ## `arm_rms_q15.c` -/

/-- Local variables of the loop of `arm_rms_q15`. -/
structure RmsState where
  blkCnt : Nat
  pSrc : Nat
  sum : Int

/-- The value `sum + (q31_t) in * in` that an iteration of the loop of `arm_rms_q15`
stores in the `q63_t` accumulator, before it is narrowed to 64 bits. -/
def rms_q15_next_sum (pSrc : Buf) (s : RmsState) : Int :=
  let in1 := wrap16 (pSrc s.pSrc)
  s.sum + wrap32 (in1 * in1)

/-- One iteration of the loop of `arm_rms_q15`:
`in = *pSrc++; sum += ((q31_t) in * in); blkCnt--;`. -/
def rms_q15_step (pSrc : Buf) (s : RmsState) : RmsState :=
  { blkCnt := s.blkCnt - 1, pSrc := s.pSrc + 1, sum := wrap64 (rms_q15_next_sum pSrc s) }

/-- The local variables of `arm_rms_q15` before its loop. -/
def rms_q15_init (blockSize : Nat) : RmsState := { blkCnt := blockSize, pSrc := 0, sum := 0 }

/-- The accumulator `sum` of `arm_rms_q15` after its loop. -/
def arm_rms_q15_sum (pSrc : Buf) (blockSize : Nat) : Int :=
  (whileLoop (fun s : RmsState => decide (s.blkCnt > 0)) (rms_q15_step pSrc) blockSize
    (rms_q15_init blockSize)).sum

/-- The argument `__SSAT((sum / (q63_t) blockSize) >> 15, 16)` that `arm_rms_q15` hands
to `arm_sqrt_q15`; the division of C truncates towards zero, and the 64-bit quotient
shifted right is narrowed to the `int32_t` parameter of `__SSAT`. -/
def arm_rms_q15_arg (H : Helpers) (pSrc : Buf) (blockSize : Nat) : Int :=
  H.__SSAT
    (wrap32 (shr (wrap64 (Int.tdiv (arm_rms_q15_sum pSrc blockSize) (blockSize : Int))) 15))
    16

/-- Embedding of `arm_rms_q15`: the value stored in `*pResult`. -/
def arm_rms_q15 (H : Helpers) (pSrc : Buf) (blockSize : Nat) : Int :=
  H.arm_sqrt_q15 (arm_rms_q15_arg H pSrc blockSize)

/-- The exact sum of the squares of the first `n` samples. -/
def sumSq (pSrc : Buf) : Nat → Int
  | 0 => 0
  | n + 1 => sumSq pSrc n + pSrc n * pSrc n

/-! ## `arm_scale_q31.c` -/

/-- Local variables of the loops of the element-wise functions: the counter `blkCnt`,
the offsets of the source and destination pointers, and the destination buffer. -/
structure VecState where
  blkCnt : Nat
  pSrc : Nat
  pDst : Nat
  dst : Buf

/-- The value `in = ((q63_t) in * scaleFract) >> 32` of `arm_scale_q31`, stored in a
`q31_t`. -/
def scale_q31_mul (x scaleFract : Int) : Int := wrap32 (shr (wrap64 (x * scaleFract)) 32)

/-- The output of `arm_scale_q31` for one sample when `kShift` is not negative:
`out = in << kShift; if (in != (out >> kShift)) out = 0x7FFFFFFF ^ (in >> 31);`. -/
def scale_q31_left (x scaleFract kShift : Int) : Int :=
  let in1 := scale_q31_mul x scaleFract
  let out := wrap32 (in1 * 2 ^ kShift.toNat)
  if in1 ≠ shr out kShift.toNat then wrap32 (Int.xor 2147483647 (shr in1 31)) else out

/-- The output of `arm_scale_q31` for one sample when `kShift` is negative:
`out = in >> -kShift;`. -/
def scale_q31_right (x scaleFract kShift : Int) : Int :=
  let in1 := scale_q31_mul x scaleFract
  wrap32 (shr in1 (-kShift).toNat)

/-- One iteration of a loop of `arm_scale_q31`, with the function `f` of the input
sample: `in = *pSrc++; ...; *pDst++ = out; blkCnt--;`. -/
def vec_step (pSrc : Buf) (f : Int → Int) (s : VecState) : VecState :=
  { blkCnt := s.blkCnt - 1, pSrc := s.pSrc + 1, pDst := s.pDst + 1,
    dst := s.dst.set s.pDst (f (pSrc s.pSrc)) }

/-- Embedding of `arm_scale_q31`: the buffer `pDst` after the call.  `scaleFract` is a
`q31_t`, `shift` an `int8_t`, `blockSize` a `uint32_t`. -/
def arm_scale_q31 (pSrc : Buf) (scaleFract : Int) (shift : Int) (pDst : Buf)
    (blockSize : Nat) : Buf :=
  let kShift := wrap8 (shift + 1)
  let sign := wrap8 (Int.land kShift 128)
  let blkCnt := blockSize
  if sign = 0 then
    (whileLoop (fun s : VecState => decide (s.blkCnt > 0))
      (vec_step pSrc (fun x => scale_q31_left x scaleFract kShift)) blkCnt
      { blkCnt := blkCnt, pSrc := 0, pDst := 0, dst := pDst }).dst
  else
    (whileLoop (fun s : VecState => decide (s.blkCnt > 0))
      (vec_step pSrc (fun x => scale_q31_right x scaleFract kShift)) blkCnt
      { blkCnt := blkCnt, pSrc := 0, pDst := 0, dst := pDst }).dst

/-! ## `arm_cmplx_conj_q15.c` -/

/-- One iteration of the loop of `arm_cmplx_conj_q15`:
`*pDst++ = *pSrc++; in1 = *pSrc++;`
`*pDst++ = (in1 == (q15_t) 0x8000) ? (q15_t) 0x7fff : -in1; blkCnt--;`. -/
def cmplx_conj_q15_step (pSrc : Buf) (s : VecState) : VecState :=
  let dst := s.dst.set s.pDst (pSrc s.pSrc)
  let in1 := wrap32 (pSrc (s.pSrc + 1))
  let dst := dst.set (s.pDst + 1)
    (wrap16 (if in1 = wrap16 32768 then wrap16 32767 else -in1))
  { blkCnt := s.blkCnt - 1, pSrc := s.pSrc + 2, pDst := s.pDst + 2, dst := dst }

/-- Embedding of `arm_cmplx_conj_q15`: the buffer `pDst` after the call. -/
def arm_cmplx_conj_q15 (pSrc pDst : Buf) (numSamples : Nat) : Buf :=
  (whileLoop (fun s : VecState => decide (s.blkCnt > 0)) (cmplx_conj_q15_step pSrc)
    numSamples { blkCnt := numSamples, pSrc := 0, pDst := 0, dst := pDst }).dst

/-! ## `arm_mat_add_q31.c` -/

/-- Instance structure of the Q31 and Q15 matrices, `arm_matrix_instance_q31` and
`arm_matrix_instance_q15`: the sources read the `uint16_t` fields `numRows`, `numCols`
and the data pointer `pData`. -/
structure arm_matrix_instance where
  numRows : Nat
  numCols : Nat
  pData : Buf

/-- Embedding of `arm_mat_add_q31`: the status and the data of `pDst` after the
call. -/
def arm_mat_add_q31 (H : Helpers) (pSrcA pSrcB pDst : arm_matrix_instance) :
    arm_status × Buf :=
  let pInA := pSrcA.pData
  let pInB := pSrcB.pData
  let pOut := pDst.pData
  let numSamples := u32 (pSrcA.numRows * pSrcA.numCols)
  let blkCnt := numSamples
  let s := whileLoop (fun s : VecState => decide (s.blkCnt > 0))
    (fun s =>
      { blkCnt := s.blkCnt - 1, pSrc := s.pSrc + 1, pDst := s.pDst + 1,
        dst := s.dst.set s.pDst (H.__QADD (pInA s.pSrc) (pInB s.pSrc)) })
    blkCnt { blkCnt := blkCnt, pSrc := 0, pDst := 0, dst := pOut }
  (arm_status.ARM_MATH_SUCCESS, s.dst)

/-! ## `arm_mat_cmplx_mult_q15.c` -/

/-- A bound of the number of iterations of a loop `do { ...; cnt--; } while (cnt > 0U)`
on a `uint32_t` counter that is `cnt` before the loop: `cnt` itself, and `2 ^ 32` when the
counter is 0 and its first decrement wraps. -/
def doWhileFuel (cnt : Nat) : Nat := if cnt = 0 then 4294967296 else cnt

/-- A loop `do { body } while (cond);`: the body runs once before the condition is
tested.  `fuel` bounds the number of the iterations after the first one. -/
def doWhileLoop {σ : Type} (cond : σ → Bool) (step : σ → σ) (fuel : Nat) (s : σ) : σ :=
  whileLoop cond step fuel (step s)

/-- Local variables of the transposition in `arm_mat_cmplx_mult_q15`: the counters
`row`, `col` and `i`, the pointers `pInB` and `px` as element offsets from the data of
`pSrcB` and from `pScratch`, and the scratch buffer. -/
structure TransState where
  row : Nat
  col : Nat
  i : Nat
  pInB : Nat
  px : Nat
  pSrcBT : Buf

/-- One iteration of the column loop of the transposition:
`write_q15x2 (px, read_q15x2_ia (&pInB)); px += numRowsB * 2; col--;`. -/
def cmplx_trans_col_step (H : Helpers) (pB : Buf) (numRowsB : Nat) (s : TransState) :
    TransState :=
  { s with pSrcBT := H.write_q15x2 s.pSrcBT s.px (H.read_q15x2_ia pB s.pInB),
           pInB := s.pInB + 2, px := s.px + numRowsB * 2, col := s.col - 1 }

/-- One iteration of the row loop of the transposition. -/
def cmplx_trans_row_step (H : Helpers) (pB : Buf) (numRowsB numColsB : Nat)
    (s : TransState) : TransState :=
  let s := { s with px := s.i, col := numColsB }
  let s := whileLoop (fun s : TransState => decide (s.col > 0))
    (cmplx_trans_col_step H pB numRowsB) numColsB s
  { s with i := u32 (s.i + 2), row := u32sub s.row 1 }

/-- Local variables of the product loops of `arm_mat_cmplx_mult_q15`: the counters
`row`, `col`, `colCnt` and `i`, the pointers `pInA`, `pInB`, `px` as element offsets from
the data of `pSrcA`, from `pScratch` and from the data of `pDst`, the two `q63_t`
accumulators and the destination data. -/
structure CmplxMultState where
  row : Nat
  col : Nat
  colCnt : Nat
  i : Nat
  pInA : Nat
  pInB : Nat
  px : Nat
  sumReal : Int
  sumImag : Int
  dst : Buf

/-- The four multiply-accumulates of one complex product, on the samples `(a, b)` at
the offset `ka` of `pA` and `(c, d)` at the offset `kb` of `pBT`: `sumReal += (q31_t) a * c;
sumImag += (q31_t) a * d; sumReal -= (q31_t) b * d; sumImag += (q31_t) b * c;`. -/
def cmplx_mac (pA pBT : Buf) (ka kb : Nat) (s : CmplxMultState) : CmplxMultState :=
  let a := wrap16 (pA ka)
  let b := wrap16 (pA (ka + 1))
  let c := wrap16 (pBT kb)
  let d := wrap16 (pBT (kb + 1))
  let sumReal := wrap64 (s.sumReal + wrap32 (a * c))
  let sumImag := wrap64 (s.sumImag + wrap32 (a * d))
  let sumReal := wrap64 (sumReal - wrap32 (b * d))
  let sumImag := wrap64 (sumImag + wrap32 (b * c))
  { s with sumReal := sumReal, sumImag := sumImag }

/-- One iteration of the loop `while (colCnt > 0U)`, which computes two complex
products. -/
def cmplx_mult_pair_step (pA pBT : Buf) (s : CmplxMultState) : CmplxMultState :=
  let s := cmplx_mac pA pBT s.pInA s.pInB s
  let s := cmplx_mac pA pBT (s.pInA + 2) (s.pInB + 2) s
  { s with pInA := s.pInA + 4, pInB := s.pInB + 4, colCnt := s.colCnt - 1 }

/-- One iteration of the column loop of the product: the dot product of a row of `A`
with a row of the transposed `B`, saturated and stored.  The `q63_t` values
`sumReal >> 15` and `sumImag >> 15` are narrowed to the `int32_t` parameter of
`__SSAT`. -/
def cmplx_mult_col_step (H : Helpers) (pA pBT : Buf) (numColsA : Nat)
    (s : CmplxMultState) : CmplxMultState :=
  let s := { s with sumReal := 0, sumImag := 0, pInA := u32 (s.i * 2),
                    colCnt := numColsA >>> 1 }
  let s := whileLoop (fun s : CmplxMultState => decide (s.colCnt > 0))
    (cmplx_mult_pair_step pA pBT) (numColsA >>> 1) s
  let s :=
    if numColsA % 2 > 0 then
      let s := cmplx_mac pA pBT s.pInA s.pInB s
      { s with pInA := s.pInA + 2, pInB := s.pInB + 2 }
    else s
  let dst := s.dst.set s.px (wrap16 (H.__SSAT (wrap32 (shr s.sumReal 15)) 16))
  let dst := dst.set (s.px + 1) (wrap16 (H.__SSAT (wrap32 (shr s.sumImag 15)) 16))
  { s with dst := dst, px := s.px + 2, col := u32sub s.col 1 }

/-- One iteration of the row loop of the product. -/
def cmplx_mult_row_step (H : Helpers) (pA pBT : Buf) (numColsA numColsB : Nat)
    (s : CmplxMultState) : CmplxMultState :=
  let s := { s with col := numColsB, pInB := 0 }
  let s := doWhileLoop (fun s : CmplxMultState => decide (s.col > 0))
    (cmplx_mult_col_step H pA pBT numColsA) (doWhileFuel numColsB) s
  { s with i := u32 (s.i + numColsA), row := u32sub s.row 1 }

/-- The scratch buffer of `arm_mat_cmplx_mult_q15` after the transposition. -/
def cmplx_mult_transpose (H : Helpers) (pSrcB : arm_matrix_instance) (pScratch : Buf) :
    Buf :=
  let numColsB := pSrcB.numCols
  let numRowsB := pSrcB.numRows
  (doWhileLoop (fun s : TransState => decide (s.row > 0))
    (cmplx_trans_row_step H pSrcB.pData numRowsB numColsB) (doWhileFuel numRowsB)
    { row := numRowsB, col := 0, i := 0, pInB := 0, px := 0, pSrcBT := pScratch }).pSrcBT

/-- Embedding of `arm_mat_cmplx_mult_q15`: the status, the data of `pDst` and the
scratch buffer after the call.  The dimensions are `uint16_t` fields. -/
def arm_mat_cmplx_mult_q15 (H : Helpers) (pSrcA pSrcB pDst : arm_matrix_instance)
    (pScratch : Buf) : arm_status × Buf × Buf :=
  let numRowsA := pSrcA.numRows
  let numColsB := pSrcB.numCols
  let numColsA := pSrcA.numCols
  -- matrix transpose
  let pSrcBT := cmplx_mult_transpose H pSrcB pScratch
  -- product
  let s := doWhileLoop (fun s : CmplxMultState => decide (s.row > 0))
    (cmplx_mult_row_step H pSrcA.pData pSrcBT numColsA numColsB) (doWhileFuel numRowsA)
    { row := numRowsA, col := 0, colCnt := 0, i := 0, pInA := 0, pInB := 0, px := 0,
      sumReal := 0, sumImag := 0, dst := pDst.pData }
  (arm_status.ARM_MATH_SUCCESS, s.dst, pSrcBT)

/-! ## `arm_correlate_q15.c` -/

/-- The inner loop `for (j = 0U; j <= i; j++)` of `arm_correlate_q15` for the output
index `i`, with `sum = 0` before it: the `q63_t` accumulator after the loop.  `pIn1` is
a buffer, `pIn2` the pointer `off2` elements into the buffer `p2`. -/
def correlate_q15_sum (pIn1 : Buf) (srcALen : Nat) (p2 : Buf) (off2 : Nat) (srcBLen : Nat)
    (i : Nat) : Int :=
  (whileLoop (fun s : Nat × Int => decide (s.1 ≤ i))
    (fun s =>
      let j := s.1
      let sum :=
        if u32sub i j < srcBLen ∧ j < srcALen then
          wrap64 (s.2 + wrap32 (wrap16 (pIn1 j)
            * wrap16 (p2.read ((off2 : Int) - (wrap32 i - wrap32 j)))))
        else s.2
      (u32 (j + 1), sum))
    (i + 1) (0, 0)).2

/-- Local variables of the output loop of `arm_correlate_q15`: the counter `i`, the
pointer `pDst` as an element offset from the destination, and the destination. -/
structure CorrState where
  i : Nat
  pDst : Int
  dst : Buf

/-- The output loop `for (i = 0U; i <= tot; i++)` of `arm_correlate_q15`.  The `q63_t`
value `sum >> 15U` is narrowed to the `int32_t` parameter of `__SSAT`. -/
def correlate_q15_loop (H : Helpers) (pIn1 : Buf) (srcALen : Nat) (p2 : Buf) (off2 : Nat)
    (srcBLen tot inv : Nat) (pDst : Int) (dst : Buf) : CorrState :=
  whileLoop (fun s : CorrState => decide (s.i ≤ tot))
    (fun s =>
      let sum := correlate_q15_sum pIn1 srcALen p2 off2 srcBLen s.i
      let v := wrap16 (H.__SSAT (wrap32 (shr sum 15)) 16)
      { i := u32 (s.i + 1),
        pDst := if inv = 1 then s.pDst - 1 else s.pDst + 1,
        dst := s.dst.set s.pDst.toNat v })
    (tot + 1) { i := 0, pDst := pDst, dst := dst }

/-- Embedding of `arm_correlate_q15`: the buffer `pDst` after the call.  `srcALen` and
`srcBLen` are `uint32_t`. -/
def arm_correlate_q15 (H : Helpers) (pSrcA : Buf) (srcALen : Nat) (pSrcB : Buf)
    (srcBLen : Nat) (pDst : Buf) : Buf :=
  let tot := u32sub (u32 (srcALen + srcBLen)) 2
  if srcALen > srcBLen then
    let j := u32sub srcALen srcBLen
    (correlate_q15_loop H pSrcA srcALen pSrcB (u32sub srcBLen 1) srcBLen tot 0 j pDst).dst
  else if srcALen < srcBLen then
    (correlate_q15_loop H pSrcB srcBLen pSrcA (u32sub srcALen 1) srcALen tot 1 tot pDst).dst
  else
    (correlate_q15_loop H pSrcA srcALen pSrcB (u32sub srcBLen 1) srcBLen tot 0 0 pDst).dst

/-- The `q63_t` accumulator `sum` of `arm_correlate_q15` for the index `i` of its output
loop. -/
def arm_correlate_q15_acc (pSrcA : Buf) (srcALen : Nat) (pSrcB : Buf) (srcBLen : Nat)
    (i : Nat) : Int :=
  if srcALen > srcBLen then
    correlate_q15_sum pSrcA srcALen pSrcB (u32sub srcBLen 1) srcBLen i
  else if srcALen < srcBLen then
    correlate_q15_sum pSrcB srcBLen pSrcA (u32sub srcALen 1) srcALen i
  else correlate_q15_sum pSrcA srcALen pSrcB (u32sub srcBLen 1) srcBLen i

/-! ## `arm_correlate_fast_opt_q15.c` -/

/-- Local variables of the tap loops of `arm_correlate_fast_opt_q15`: the counter
`tapCnt`, the pointers `pScr1` and `pIn2` as element offsets from the scratch buffer and
from the shorter sequence, and the `q31_t` accumulator. -/
structure TapState where
  tapCnt : Nat
  pScr1 : Nat
  pIn2 : Nat
  acc0 : Int

/-- The statement `acc0 += (*pScr1++ * *pIn2++);` with a `q31_t` accumulator. -/
def correlate_fast_mac (scr pIn2 : Buf) (s : TapState) : TapState :=
  { s with acc0 := wrap32 (s.acc0 + wrap32 (wrap16 (scr s.pScr1) * wrap16 (pIn2 s.pIn2))),
           pScr1 := s.pScr1 + 1, pIn2 := s.pIn2 + 1 }

/-- The accumulator `acc0` of `arm_correlate_fast_opt_q15` for one output sample, with
`pScratch` at the offset `k` of the scratch buffer: `srcBLen >> 1` iterations of two
products, then `srcBLen & 1` iterations of one product. -/
def correlate_fast_acc (scr pIn2 : Buf) (srcBLen k : Nat) : Int :=
  let s : TapState := { tapCnt := srcBLen >>> 1, pScr1 := k, pIn2 := 0, acc0 := 0 }
  let s := whileLoop (fun s : TapState => decide (s.tapCnt > 0))
    (fun s =>
      let s := correlate_fast_mac scr pIn2 s
      let s := correlate_fast_mac scr pIn2 s
      { s with tapCnt := s.tapCnt - 1 })
    (srcBLen >>> 1) s
  let s := { s with tapCnt := srcBLen % 2 }
  let s := whileLoop (fun s : TapState => decide (s.tapCnt > 0))
    (fun s =>
      let s := correlate_fast_mac scr pIn2 s
      { s with tapCnt := s.tapCnt - 1 })
    (srcBLen % 2) s
  s.acc0

/-- Local variables of the output loop of `arm_correlate_fast_opt_q15`: the counter
`blkCnt`, the pointers `pOut` and `pScratch` as element offsets, and the destination. -/
structure FastCorrState where
  blkCnt : Nat
  pOut : Int
  pScratch : Nat
  dst : Buf

/-- The output loop `while (blkCnt > 0)` of `arm_correlate_fast_opt_q15`. -/
def correlate_fast_loop (H : Helpers) (scr pIn2 : Buf) (srcBLen blkCnt : Nat) (inc : Int)
    (pOut : Int) (dst : Buf) : FastCorrState :=
  whileLoop (fun s : FastCorrState => decide (s.blkCnt > 0))
    (fun s =>
      let acc0 := correlate_fast_acc scr pIn2 srcBLen s.pScratch
      { blkCnt := s.blkCnt - 1,
        dst := s.dst.set s.pOut.toNat (wrap16 (H.__SSAT (shr acc0 15) 16)),
        pOut := s.pOut + inc,
        pScratch := s.pScratch + 1 })
    blkCnt { blkCnt := blkCnt, pOut := pOut, pScratch := 0, dst := dst }

/-- The scratch buffer of `arm_correlate_fast_opt_q15` before its output loop:
`srcBLen - 1` zeros, the `srcALen` samples of the longer sequence, `srcBLen - 1`
zeros. -/
def correlate_fast_scratch (H : Helpers) (pIn1 : Buf) (srcALen srcBLen : Nat)
    (pScratch : Buf) : Buf :=
  let pScr1 := 0
  let scr := pScratch.atOffset pScr1 (fun q => H.arm_fill_q15 0 q (u32sub srcBLen 1))
  let pScr1 := pScr1 + u32sub srcBLen 1
  let scr := scr.atOffset pScr1 (fun q => H.arm_copy_q15 pIn1 q srcALen)
  let pScr1 := pScr1 + srcALen
  scr.atOffset pScr1 (fun q => H.arm_fill_q15 0 q (u32sub srcBLen 1))

/-- Embedding of `arm_correlate_fast_opt_q15`: the buffers `pDst` and `pScratch` after
the call.  `srcALen` and `srcBLen` are `uint32_t`. -/
def arm_correlate_fast_opt_q15 (H : Helpers) (pSrcA : Buf) (srcALen : Nat) (pSrcB : Buf)
    (srcBLen : Nat) (pDst : Buf) (pScratch : Buf) : Buf × Buf :=
  if srcALen ≥ srcBLen then
    let pIn1 := pSrcA
    let pIn2 := pSrcB
    let outBlockSize := u32sub (u32 (2 * srcALen)) 1
    let j := u32sub outBlockSize (u32 (srcALen + u32sub srcBLen 1))
    let scr := correlate_fast_scratch H pIn1 srcALen srcBLen pScratch
    let blkCnt := u32sub (u32 (srcALen + srcBLen)) 1
    ((correlate_fast_loop H scr pIn2 srcBLen blkCnt 1 j pDst).dst, scr)
  else
    let pIn1 := pSrcB
    let pIn2 := pSrcA
    let j := srcBLen
    let srcBLen := srcALen
    let srcALen := j
    let pOut := u32sub (u32 (srcALen + srcBLen)) 2
    let scr := correlate_fast_scratch H pIn1 srcALen srcBLen pScratch
    let blkCnt := u32sub (u32 (srcALen + srcBLen)) 1
    ((correlate_fast_loop H scr pIn2 srcBLen blkCnt (-1) pOut pDst).dst, scr)

/-! ## Exact sums -/

/-- The exact sum `f 0 + f 1 + ... + f (n - 1)`. -/
def sumTo (f : Nat → Int) : Nat → Int
  | 0 => 0
  | n + 1 => sumTo f n + f n

/-- The sequence `srcBLen - 1` zeros, the `srcALen` samples of `x`, zeros: the content
of the scratch buffer of the correlation, continued by zeros. -/
def zeroPad (x : Buf) (srcALen srcBLen : Nat) : Buf := fun u =>
  if u < srcBLen - 1 then 0 else if u < srcBLen - 1 + srcALen then x (u - (srcBLen - 1)) else 0

/-- The exact correlation sum for the output index `i` of the longer sequence `x`
(`srcALen` samples) and the shorter sequence `y` (`srcBLen` samples):
the sum over `t < srcBLen` of `pad[i + t] * y[t]`. -/
def corrSum (x : Buf) (srcALen : Nat) (y : Buf) (srcBLen : Nat) (i : Nat) : Int :=
  sumTo (fun t => zeroPad x srcALen srcBLen (i + t) * y t) srcBLen

/-! ## The complex matrix product, entry by entry -/

/-- Real part of the exact sum over `k < p` of `A[r][k] * B[k][c]` for the complex
matrices `A` (`p` columns) and `B` (`n` columns) stored by rows with interleaved real and
imaginary parts. -/
def cmplxProdRe (a b : Buf) (p n r c : Nat) : Int :=
  sumTo (fun k => a (2 * (r * p + k)) * b (2 * (k * n + c))
    - a (2 * (r * p + k) + 1) * b (2 * (k * n + c) + 1)) p

/-- Imaginary part of the exact sum over `k < p` of `A[r][k] * B[k][c]`. -/
def cmplxProdIm (a b : Buf) (p n r c : Nat) : Int :=
  sumTo (fun k => a (2 * (r * p + k)) * b (2 * (k * n + c) + 1)
    + a (2 * (r * p + k) + 1) * b (2 * (k * n + c))) p

/-- Real part of the exact sum of the first `k` complex products of the samples of `pA`
from the offset `iA` with the samples of `pBT` from the offset `iB`. -/
def dotRe (pA pBT : Buf) (iA iB k : Nat) : Int :=
  sumTo (fun t => pA (iA + 2 * t) * pBT (iB + 2 * t)
    - pA (iA + 2 * t + 1) * pBT (iB + 2 * t + 1)) k

/-- Imaginary part of the exact sum of the first `k` complex products. -/
def dotIm (pA pBT : Buf) (iA iB k : Nat) : Int :=
  sumTo (fun t => pA (iA + 2 * t) * pBT (iB + 2 * t + 1)
    + pA (iA + 2 * t + 1) * pBT (iB + 2 * t)) k

/-- The entries of the transpose that are written once the rows `kk < k` of `B` and the
first `c` columns of its row `k` are copied: the complex entry `(cc, kk)` of the
scratch buffer is the entry `(kk, cc)` of `B`. -/
def TransFilled (b : Buf) (p n k c : Nat) (t : Buf) : Prop :=
  ∀ kk cc, kk < p → cc < n → (kk < k ∨ (kk = k ∧ cc < c)) →
    t (2 * (cc * p + kk)) = b (2 * (kk * n + cc)) ∧
    t (2 * (cc * p + kk) + 1) = b (2 * (kk * n + cc) + 1)

/-- The local variables of the transposition after `c` iterations of the column loop
in the row `k`. -/
def TransColInv (b : Buf) (p n k c : Nat) (s : TransState) : Prop :=
  s.col = n - c ∧ s.pInB = 2 * (k * n + c) ∧ s.px = 2 * (c * p + k) ∧ s.i = 2 * k ∧
  s.row = p - k ∧ TransFilled b p n k c s.pSrcBT

/-- The local variables of the transposition after `k` iterations of the row loop. -/
def TransRowInv (b : Buf) (p n k : Nat) (s : TransState) : Prop :=
  s.pInB = 2 * (k * n) ∧ s.i = 2 * k ∧ s.row = p - k ∧ TransFilled b p n k 0 s.pSrcBT

/-- The entries of the product that are written once the rows `rr < r` and the first
`c` columns of the row `r` are computed: the complex entry `(rr, cc)` of the destination
holds the saturated dot product of the row `rr` of `A` with the row `cc` of the
transpose. -/
def MultFilled (H : Helpers) (pA pBT : Buf) (m p n r c : Nat) (d : Buf) : Prop :=
  ∀ rr cc, rr < m → cc < n → (rr < r ∨ (rr = r ∧ cc < c)) →
    d (2 * (rr * n + cc))
      = wrap16 (H.__SSAT (wrap32 (shr (dotRe pA pBT (rr * p * 2) (2 * (cc * p)) p) 15)) 16) ∧
    d (2 * (rr * n + cc) + 1)
      = wrap16 (H.__SSAT (wrap32 (shr (dotIm pA pBT (rr * p * 2) (2 * (cc * p)) p) 15)) 16)

/-- The local variables of the product after `c` iterations of the column loop in the
row `r`. -/
def MultColInv (H : Helpers) (pA pBT : Buf) (m p n r c : Nat) (s : CmplxMultState) : Prop :=
  s.col = n - c ∧ s.pInB = 2 * (c * p) ∧ s.px = 2 * (r * n + c) ∧ s.i = r * p ∧
  s.row = m - r ∧ MultFilled H pA pBT m p n r c s.dst

/-- The local variables of the product after `r` iterations of the row loop. -/
def MultRowInv (H : Helpers) (pA pBT : Buf) (m p n r : Nat) (s : CmplxMultState) : Prop :=
  s.px = 2 * (r * n) ∧ s.i = r * p ∧ s.row = m - r ∧ MultFilled H pA pBT m p n r 0 s.dst

/-! ## Concrete inputs used to instantiate the theorems -/

/-- A buffer of zeros. -/
def zeroBuf : Buf := fun _ => 0

/-- A constant complex Q15 instance of length `n` with zero tables. -/
def exampleCfftInstance (n : Nat) : arm_cfft_instance_q15 :=
  { fftLen := n, pTwiddle := zeroBuf, pBitRevTable := fun _ => 0, bitRevLength := 0 }

/-- A table of real coefficients A: the pairs `(16384, -16384)`. -/
def exampleRealCoefA : Buf := fun j => if j % 2 = 0 then 16384 else -16384

/-- A table of real coefficients B: the pairs `(16384, 16384)`. -/
def exampleRealCoefB : Buf := fun _ => 16384

/-- A value for the constants of `arm_const_structs.h`. -/
def exampleConstsQ15 : ConstStructsQ15 :=
  { realCoefAQ15 := exampleRealCoefA, realCoefBQ15 := exampleRealCoefB,
    arm_cfft_sR_q15_len16 := exampleCfftInstance 16,
    arm_cfft_sR_q15_len32 := exampleCfftInstance 32,
    arm_cfft_sR_q15_len64 := exampleCfftInstance 64,
    arm_cfft_sR_q15_len128 := exampleCfftInstance 128,
    arm_cfft_sR_q15_len256 := exampleCfftInstance 256,
    arm_cfft_sR_q15_len512 := exampleCfftInstance 512,
    arm_cfft_sR_q15_len1024 := exampleCfftInstance 1024,
    arm_cfft_sR_q15_len2048 := exampleCfftInstance 2048,
    arm_cfft_sR_q15_len4096 := exampleCfftInstance 4096 }

/-- An instance of the real FFT before initialisation. -/
def exampleRfftInstance : arm_rfft_instance_q15 :=
  { fftLenReal := 0, ifftFlagR := 0, bitReverseFlagR := 0, twidCoefRModifier := 0,
    pTwiddleAReal := zeroBuf, pTwiddleBReal := zeroBuf, pCfft := exampleCfftInstance 0 }

/-- The real FFT instance that `arm_rfft_init_q15` sets up for the length 32, forward
transform, no bit reversal. -/
def exampleRfftInstance32 : arm_rfft_instance_q15 :=
  (arm_rfft_init_q15 exampleConstsQ15 exampleRfftInstance 32 0 0).2

/-- A constant complex f32 instance of length `n` over the element type `Unit`. -/
def exampleCfftInstanceF32 (n : Nat) : arm_cfft_instance_f32 Unit :=
  { fftLen := n, pTwiddle := some (fun _ => ()), pBitRevTable := some (fun _ => n),
    bitRevLength := n }

/-- A value for the f32 constants of `arm_const_structs.h`. -/
def exampleConstsF32 : ConstStructsF32 Unit :=
  { arm_cfft_sR_f32_len16 := exampleCfftInstanceF32 16,
    arm_cfft_sR_f32_len32 := exampleCfftInstanceF32 32,
    arm_cfft_sR_f32_len64 := exampleCfftInstanceF32 64,
    arm_cfft_sR_f32_len128 := exampleCfftInstanceF32 128,
    arm_cfft_sR_f32_len256 := exampleCfftInstanceF32 256,
    arm_cfft_sR_f32_len512 := exampleCfftInstanceF32 512,
    arm_cfft_sR_f32_len1024 := exampleCfftInstanceF32 1024,
    arm_cfft_sR_f32_len2048 := exampleCfftInstanceF32 2048,
    arm_cfft_sR_f32_len4096 := exampleCfftInstanceF32 4096 }

/-- An f32 instance before initialisation. -/
def exampleInstanceF32 : arm_cfft_instance_f32 Unit :=
  { fftLen := 0, pTwiddle := none, pBitRevTable := none, bitRevLength := 0 }

/-- A value for the external functions: each one marks sample 0 of its buffer in
its own way and leaves the rest. -/
def exampleExterns : Externs :=
  { arm_radix4_butterfly_q15 := fun p _ _ _ => p.set 0 (p 0 + 1),
    arm_radix4_butterfly_inverse_q15 := fun p _ _ _ => p.set 0 (p 0 + 2),
    arm_bitreversal_16 := fun p _ _ => p.set 0 (p 0 + 4),
    arm_shift_q15 := fun _ _ d _ => d.set 0 (d 0 + 8) }

/-- A Q15 buffer with a few non-zero samples. -/
def exampleBuf : Buf := fun j =>
  if j = 0 then 32767 else if j = 1 then -32768 else if j = 2 then 1000
  else if j = 3 then -3 else if j = 5 then 12345 else if j = 30 then -20000
  else if j = 31 then 7 else 0

/-- A Q15 coefficient table with a few non-zero entries. -/
def exampleCoef : Buf := fun j =>
  if j = 0 then 32767 else if j = 2 then 23170 else if j = 3 then -32768
  else if j = 4 then 16384 else if j = 5 then -16384 else 0

/-- Four complex Q15 samples at full scale: samples 0 and 3 are `0x7FFF + 0x7FFF i`,
samples 1 and 2 are `-0x8000 - 0x8000 i`. -/
def fullSwingBuf : Buf :=
  fun j => if j = 0 ∨ j = 1 ∨ j = 6 ∨ j = 7 then 32767 else if j < 8 then -32768 else 0

/-- A twiddle table whose every pair is `(23170, 23170)`, the Q15 value of
`cos 45° = sin 45°`; `23170 ^ 2 + 23170 ^ 2 = 1073697800 ≤ 2 ^ 30`. -/
def diagonalCoef : Buf := fun _ => 23170

/-- The bit-reversal pairs of a transform of length 8: `(1, 4)` and `(3, 6)`. -/
def bitRevTable8 : Nat → Nat :=
  fun t => if t = 0 then 1 else if t = 1 then 4 else if t = 2 then 3 else 6

/-- The real FFT instance that `arm_rfft_init_q15` sets up for the length 32, inverse
transform, no bit reversal. -/
def exampleRifftInstance32 : arm_rfft_instance_q15 :=
  (arm_rfft_init_q15 exampleConstsQ15 exampleRfftInstance 32 1 0).2

/-- The unit impulse at full scale: real sample 0 is `0x7FFF`, every other sample 0. -/
def impulseBuf : Buf := fun j => if j = 0 then 32767 else 0

/-- External functions that leave their buffers unchanged, with the vector shift of
`arm_shift_q15_spec`. -/
def idExterns : Externs :=
  { arm_radix4_butterfly_q15 := fun p _ _ _ => p,
    arm_radix4_butterfly_inverse_q15 := fun p _ _ _ => p,
    arm_bitreversal_16 := fun p _ _ => p,
    arm_shift_q15 := arm_shift_q15_spec }

/-- Thirty-two complex Q15 samples at full scale: the first sixteen are
`0x7FFF + 0x7FFF i`, the last sixteen `-0x8000 - 0x8000 i`. -/
def stepBuf32 : Buf := fun j => if j < 32 then 32767 else if j < 64 then -32768 else 0

/-- A Q31 sequence whose samples are all `-1.0`, `0x80000000`. -/
def q31MinBuf : Buf := fun _ => -2147483648

/-- A Q15 buffer whose samples are all `-1.0`, `0x8000`. -/
def q15MinBuf : Buf := fun _ => -32768

/-- A complex Q15 buffer whose every element is `-1.0 + 0x7FFF i`: the samples at the
even offsets are `-32768`, those at the odd offsets `32767`. -/
def q15MinMaxBuf : Buf := fun j => if j % 2 = 0 then -32768 else 32767

/-- A Q7 vector whose elements are all `-1.0`, `0x80`. -/
def q7MinBuf : Buf := fun _ => -128

/-- The helper functions with their usual meaning: `__SSAT` and `__QADD` saturate, the
square root is the integer square root of the Q15 value scaled to Q15, `arm_fill_q15`
and `arm_copy_q15` write `blockSize` elements, and the 32-bit word of two `q15_t`
samples holds the first sample in its low half. -/
def exampleHelpers : Helpers :=
  { __SSAT := ssat,
    __QADD := fun a b => sat32 (a + b),
    arm_sqrt_q15 := fun x => if x > 0 then (Nat.sqrt (x.toNat * 32768) : Int) else 0,
    arm_fill_q15 := fun value pDst blockSize j => if j < blockSize then value else pDst j,
    arm_copy_q15 := fun pSrc pDst blockSize j => if j < blockSize then pSrc j else pDst j,
    read_q15x2_ia := fun p k => wrap32 (p k % 65536 + 65536 * p (k + 1)),
    write_q15x2 := fun p k w => (p.set k (wrap16 w)).set (k + 1) (wrap16 (shr w 16)) }

/-! # Theorems -/

/-! ## Arithmetic and loop lemmas -/

theorem shr_one (x : Int) : shr x 1 = x / 2 := by
  simp [shr, Int.shiftRight_eq_div_pow]

theorem shr_sixteen (x : Int) : shr x 16 = x / 65536 := by
  simp [shr, Int.shiftRight_eq_div_pow]

theorem wrap16_of_range {x : Int} (h1 : -32768 ≤ x) (h2 : x ≤ 32767) : wrap16 x = x := by
  unfold wrap16; omega

theorem wrap32_of_range {x : Int} (h1 : -2147483648 ≤ x) (h2 : x ≤ 2147483647) :
    wrap32 x = x := by
  unfold wrap32; omega

theorem u32_of_lt {n : Nat} (h : n < 4294967296) : u32 n = n := Nat.mod_eq_of_lt h

theorem q15_mul_bound {a b : Int} (ha1 : -32767 ≤ a) (ha2 : a ≤ 32767) (hb1 : -32768 ≤ b)
    (hb2 : b ≤ 32767) : -1073709056 ≤ a * b ∧ a * b ≤ 1073709056 := by
  have hb3 : b ≤ 32768 := by omega
  constructor
  · nlinarith [mul_nonneg (sub_nonneg.2 ha2) (sub_nonneg.2 hb3),
      mul_nonneg (sub_nonneg.2 ha1) (sub_nonneg.2 hb1)]
  · nlinarith [mul_nonneg (sub_nonneg.2 ha2) (sub_nonneg.2 hb1),
      mul_nonneg (sub_nonneg.2 ha1) (sub_nonneg.2 hb3)]

theorem whileLoop_for_aux (n : Nat) (body : Nat → Buf → Buf) (p : Buf) :
    ∀ (fuel i : Nat), i + fuel = n →
      whileLoop (fun s : Nat × Buf => decide (s.1 < n)) (fun s => (s.1 + 1, body s.1 s.2)) fuel
        (i, iterBody body i p) = (n, iterBody body n p) := by
  intro fuel
  induction fuel with
  | zero =>
    intro i hi
    have : i = n := by omega
    subst this
    rfl
  | succ f ih =>
    intro i hi
    have hlt : i < n := by omega
    simp only [whileLoop, hlt, decide_True, if_true]
    exact ih (i + 1) (by omega)

theorem forLoop_eq_iterBody (n : Nat) (body : Nat → Buf → Buf) (p : Buf) :
    forLoop n body p = iterBody body n p := by
  unfold forLoop
  have h := whileLoop_for_aux n body p n 0 (by omega)
  simp only [iterBody] at h
  rw [h]

/-- The rotated difference terms of the pre-combination pass stay in 16 bits. -/
theorem rot_term_range {a b : Int} (ha1 : -32767 ≤ a) (ha2 : a ≤ 32767) (hb1 : -32768 ≤ b)
    (hb2 : b ≤ 32767) :
    wrap32 (a * b) = a * b ∧ -16384 ≤ (a * b) / 65536 ∧ (a * b) / 65536 ≤ 16383 := by
  obtain ⟨h1, h2⟩ := q15_mul_bound ha1 ha2 hb1 hb2
  refine ⟨wrap32_of_range (by omega) (by omega), by omega, by omega⟩

/-! ## Initialisation -/

/-- The status returned by `arm_rfft_init_q15` in terms of the narrowed length. -/
theorem arm_rfft_init_q15_status (T : ConstStructsQ15) (S : arm_rfft_instance_q15)
    (fftLenReal ifftFlagR bitReverseFlag : Nat) :
    (arm_rfft_init_q15 T S fftLenReal ifftFlagR bitReverseFlag).1
      = if u16 fftLenReal ∈ rfftSupported then ARM_MATH_SUCCESS
        else ARM_MATH_ARGUMENT_ERROR := by
  unfold arm_rfft_init_q15
  dsimp only
  generalize u16 fftLenReal = n
  by_cases h1 : n = 8192
  · subst h1; rfl
  rw [if_neg h1]
  by_cases h2 : n = 4096
  · subst h2; rfl
  rw [if_neg h2]
  by_cases h3 : n = 2048
  · subst h3; rfl
  rw [if_neg h3]
  by_cases h4 : n = 1024
  · subst h4; rfl
  rw [if_neg h4]
  by_cases h5 : n = 512
  · subst h5; rfl
  rw [if_neg h5]
  by_cases h6 : n = 256
  · subst h6; rfl
  rw [if_neg h6]
  by_cases h7 : n = 128
  · subst h7; rfl
  rw [if_neg h7]
  by_cases h8 : n = 64
  · subst h8; rfl
  rw [if_neg h8]
  by_cases h9 : n = 32
  · subst h9; rfl
  rw [if_neg h9, if_neg]
  simp only [rfftSupported, List.mem_cons, List.mem_singleton, List.not_mem_nil, or_false]
  omega

/-- For an argument that fits 16 bits, `arm_rfft_init_q15` succeeds exactly on the
documented lengths and reports an argument error otherwise. -/
theorem arm_rfft_init_q15_status_u16 (T : ConstStructsQ15) (S : arm_rfft_instance_q15)
    (fftLenReal ifftFlagR bitReverseFlag : Nat) (h : fftLenReal < 65536) :
    ((arm_rfft_init_q15 T S fftLenReal ifftFlagR bitReverseFlag).1 = ARM_MATH_SUCCESS ↔
      fftLenReal ∈ rfftSupported) ∧
    (fftLenReal ∉ rfftSupported →
      (arm_rfft_init_q15 T S fftLenReal ifftFlagR bitReverseFlag).1
        = ARM_MATH_ARGUMENT_ERROR) := by
  have hu : u16 fftLenReal = fftLenReal := Nat.mod_eq_of_lt h
  have hs := arm_rfft_init_q15_status T S fftLenReal ifftFlagR bitReverseFlag
  rw [hu] at hs
  constructor
  · rw [hs]
    by_cases hm : fftLenReal ∈ rfftSupported
    · rw [if_pos hm]; exact ⟨fun _ => hm, fun _ => rfl⟩
    · rw [if_neg hm]; exact ⟨fun hc => absurd hc (by decide), fun hc => absurd hc hm⟩
  · intro hn
    rw [hs, if_neg hn]

/-- C1 (failing input): the 32-bit argument `fftLenReal = 65568 = 65536 + 32` is not
one of the documented lengths 32, ..., 8192, yet `arm_rfft_init_q15` returns
`ARM_MATH_SUCCESS` for it (and not `ARM_MATH_ARGUMENT_ERROR`): the `switch` reads the
length after its narrowing to 16 bits, so the call initialises a length-32 transform. -/
theorem arm_rfft_init_q15_accepts_65568 (T : ConstStructsQ15) (S : arm_rfft_instance_q15)
    (ifftFlagR bitReverseFlag : Nat) :
    65568 < 2 ^ 32 ∧ 65568 ∉ rfftSupported ∧
    (arm_rfft_init_q15 T S 65568 ifftFlagR bitReverseFlag).1 = ARM_MATH_SUCCESS ∧
    (arm_rfft_init_q15 T S 65568 ifftFlagR bitReverseFlag).1 ≠ ARM_MATH_ARGUMENT_ERROR ∧
    (arm_rfft_init_q15 T S 65568 ifftFlagR bitReverseFlag).2.fftLenReal = 32 := by
  refine ⟨by decide, by decide, rfl, ?_, rfl⟩
  show ARM_MATH_SUCCESS ≠ ARM_MATH_ARGUMENT_ERROR
  decide

/-- The status returned by `arm_cfft_init_f32` in terms of the length. -/
theorem arm_cfft_init_f32_status {float32_t : Type} (T : ConstStructsF32 float32_t)
    (S : arm_cfft_instance_f32 float32_t) (fftLen : Nat) :
    (arm_cfft_init_f32 T S fftLen).1
      = if u16 fftLen ∈ cfftSupported then ARM_MATH_SUCCESS else ARM_MATH_ARGUMENT_ERROR := by
  unfold arm_cfft_init_f32
  dsimp only
  generalize u16 fftLen = n
  by_cases h1 : n = 4096
  · subst h1; rfl
  rw [if_neg h1]
  by_cases h2 : n = 2048
  · subst h2; rfl
  rw [if_neg h2]
  by_cases h3 : n = 1024
  · subst h3; rfl
  rw [if_neg h3]
  by_cases h4 : n = 512
  · subst h4; rfl
  rw [if_neg h4]
  by_cases h5 : n = 256
  · subst h5; rfl
  rw [if_neg h5]
  by_cases h6 : n = 128
  · subst h6; rfl
  rw [if_neg h6]
  by_cases h7 : n = 64
  · subst h7; rfl
  rw [if_neg h7]
  by_cases h8 : n = 32
  · subst h8; rfl
  rw [if_neg h8]
  by_cases h9 : n = 16
  · subst h9; rfl
  rw [if_neg h9, if_neg]
  simp only [cfftSupported, List.mem_cons, List.mem_singleton, List.not_mem_nil, or_false]
  omega

/-- C2: for every `uint16_t` length, `arm_cfft_init_f32` returns `ARM_MATH_SUCCESS` if
and only if the length is one of 16, 32, ..., 4096 and `ARM_MATH_ARGUMENT_ERROR` for
every other length; on success `S->fftLen` is the length and `bitRevLength`,
`pBitRevTable`, `pTwiddle` are those of the constant instance
`arm_cfft_sR_f32_len<fftLen>`. -/
theorem arm_cfft_init_f32_spec {float32_t : Type} (T : ConstStructsF32 float32_t)
    (S : arm_cfft_instance_f32 float32_t) (fftLen : Nat) (h : fftLen < 65536) :
    ((arm_cfft_init_f32 T S fftLen).1 = ARM_MATH_SUCCESS ↔ fftLen ∈ cfftSupported) ∧
    (fftLen ∉ cfftSupported → (arm_cfft_init_f32 T S fftLen).1 = ARM_MATH_ARGUMENT_ERROR) ∧
    (fftLen ∈ cfftSupported → ∃ c, T.ofLen fftLen = some c ∧
      (arm_cfft_init_f32 T S fftLen).2.fftLen = fftLen ∧
      (arm_cfft_init_f32 T S fftLen).2.bitRevLength = c.bitRevLength ∧
      (arm_cfft_init_f32 T S fftLen).2.pBitRevTable = c.pBitRevTable ∧
      (arm_cfft_init_f32 T S fftLen).2.pTwiddle = c.pTwiddle) := by
  have hu : u16 fftLen = fftLen := Nat.mod_eq_of_lt h
  have hs := arm_cfft_init_f32_status T S fftLen
  rw [hu] at hs
  refine ⟨?_, ?_, ?_⟩
  · rw [hs]
    by_cases hm : fftLen ∈ cfftSupported
    · rw [if_pos hm]; exact ⟨fun _ => hm, fun _ => rfl⟩
    · rw [if_neg hm]; exact ⟨fun hc => absurd hc (by decide), fun hc => absurd hc hm⟩
  · intro hn
    rw [hs, if_neg hn]
  · intro hm
    simp only [cfftSupported, List.mem_cons, List.mem_singleton, List.not_mem_nil,
      or_false] at hm
    rcases hm with rfl | rfl | rfl | rfl | rfl | rfl | rfl | rfl | rfl <;>
      simp [arm_cfft_init_f32, u16, FFTINIT, ConstStructsF32.ofLen]

/-- Instance of C2 at `fftLen = 64`. -/
theorem arm_cfft_init_f32_spec_witness :
    64 < 65536 ∧
    ((arm_cfft_init_f32 exampleConstsF32 exampleInstanceF32 64).1 = ARM_MATH_SUCCESS ↔
      64 ∈ cfftSupported) ∧
    (arm_cfft_init_f32 exampleConstsF32 exampleInstanceF32 64).2.bitRevLength = 64 :=
  ⟨by decide, (arm_cfft_init_f32_spec exampleConstsF32 exampleInstanceF32 64 (by decide)).1,
    rfl⟩

/-- C3: for every supported real length `N` in 32, 64, ..., 8192, `arm_rfft_init_q15`
succeeds, selects the constant complex instance `arm_cfft_sR_q15_len<N/2>`, sets
`twidCoefRModifier` so that `twidCoefRModifier * N = 8192`, and stores
`fftLenReal = N`, the tables `realCoefAQ15` and `realCoefBQ15`, and the two flags
(each through its `uint8_t` cast, so unchanged when below 256). -/
theorem arm_rfft_init_q15_fields (T : ConstStructsQ15) (S : arm_rfft_instance_q15)
    (N ifftFlagR bitReverseFlag : Nat) (h : N ∈ rfftSupported) :
    (arm_rfft_init_q15 T S N ifftFlagR bitReverseFlag).1 = ARM_MATH_SUCCESS ∧
    some (arm_rfft_init_q15 T S N ifftFlagR bitReverseFlag).2.pCfft = T.ofLen (N / 2) ∧
    (arm_rfft_init_q15 T S N ifftFlagR bitReverseFlag).2.twidCoefRModifier * N = 8192 ∧
    (arm_rfft_init_q15 T S N ifftFlagR bitReverseFlag).2.fftLenReal = N ∧
    (arm_rfft_init_q15 T S N ifftFlagR bitReverseFlag).2.pTwiddleAReal = T.realCoefAQ15 ∧
    (arm_rfft_init_q15 T S N ifftFlagR bitReverseFlag).2.pTwiddleBReal = T.realCoefBQ15 ∧
    (arm_rfft_init_q15 T S N ifftFlagR bitReverseFlag).2.ifftFlagR = ifftFlagR % 256 ∧
    (arm_rfft_init_q15 T S N ifftFlagR bitReverseFlag).2.bitReverseFlagR
      = bitReverseFlag % 256 ∧
    (ifftFlagR < 256 →
      (arm_rfft_init_q15 T S N ifftFlagR bitReverseFlag).2.ifftFlagR = ifftFlagR) ∧
    (bitReverseFlag < 256 →
      (arm_rfft_init_q15 T S N ifftFlagR bitReverseFlag).2.bitReverseFlagR
        = bitReverseFlag) := by
  simp only [rfftSupported, List.mem_cons, List.mem_singleton, List.not_mem_nil,
    or_false] at h
  rcases h with rfl | rfl | rfl | rfl | rfl | rfl | rfl | rfl | rfl <;>
    simp [arm_rfft_init_q15, u16, u8, ConstStructsQ15.ofLen]

/-- Instance of C3 at `N = 512`, inverse flag 1, bit reversal flag 1. -/
theorem arm_rfft_init_q15_fields_witness :
    512 ∈ rfftSupported ∧
    (arm_rfft_init_q15 exampleConstsQ15 exampleRfftInstance 512 1 1).2.twidCoefRModifier * 512
      = 8192 ∧
    (arm_rfft_init_q15 exampleConstsQ15 exampleRfftInstance 512 1 1).2.pCfft.fftLen = 256 :=
  ⟨by decide,
    (arm_rfft_init_q15_fields exampleConstsQ15 exampleRfftInstance 512 1 1 (by decide)).2.2.1,
    rfl⟩

/-! ## `arm_cfft_q15`: dispatch and bit reversal -/

/-- C4: `arm_cfft_q15` dispatches on `S->fftLen`.  For the lengths 16, 64, 256, 1024,
4096 it runs the radix-4 butterfly once on the whole buffer, with the length
`S->fftLen`, the table `S->pTwiddle` and twiddle stride 1; for the lengths 32, 128, 512,
2048 it runs the radix-4-by-2 hybrid.  The inverse variant runs when `ifftFlag = 1`
and the forward variant for every other value of the flag.  (Stated without the
final bit reversal, `bitReverseFlag = 0`.) -/
theorem arm_cfft_q15_dispatch (E : Externs) (S : arm_cfft_instance_q15) (p1 : Buf)
    (ifftFlag : Nat) :
    (S.fftLen ∈ [16, 64, 256, 1024, 4096] →
      (ifftFlag = 1 → arm_cfft_q15 E S p1 ifftFlag 0
          = E.arm_radix4_butterfly_inverse_q15 p1 S.fftLen S.pTwiddle 1) ∧
      (ifftFlag ≠ 1 → arm_cfft_q15 E S p1 ifftFlag 0
          = E.arm_radix4_butterfly_q15 p1 S.fftLen S.pTwiddle 1)) ∧
    (S.fftLen ∈ [32, 128, 512, 2048] →
      (ifftFlag = 1 → arm_cfft_q15 E S p1 ifftFlag 0
          = arm_cfft_radix4by2_inverse_q15 E p1 S.fftLen S.pTwiddle) ∧
      (ifftFlag ≠ 1 → arm_cfft_q15 E S p1 ifftFlag 0
          = arm_cfft_radix4by2_q15 E p1 S.fftLen S.pTwiddle)) := by
  refine ⟨fun h => ?_, fun h => ?_⟩
  · have h4 : S.fftLen = 16 ∨ S.fftLen = 64 ∨ S.fftLen = 256 ∨ S.fftLen = 1024 ∨
        S.fftLen = 4096 := by simpa using h
    constructor
    · intro hf
      simp only [arm_cfft_q15, hf, h4, if_true, ne_eq, not_true_eq_false, if_false]
    · intro hf
      simp only [arm_cfft_q15, hf, h4, if_true, ne_eq, not_true_eq_false, if_false]
  · have h2 : S.fftLen = 32 ∨ S.fftLen = 128 ∨ S.fftLen = 512 ∨ S.fftLen = 2048 := by
      simpa using h
    have h4 : ¬ (S.fftLen = 16 ∨ S.fftLen = 64 ∨ S.fftLen = 256 ∨ S.fftLen = 1024 ∨
        S.fftLen = 4096) := by omega
    constructor
    · intro hf
      simp only [arm_cfft_q15, hf, h4, h2, if_true, ne_eq, not_true_eq_false, if_false]
    · intro hf
      simp only [arm_cfft_q15, hf, h4, h2, if_true, ne_eq, not_true_eq_false, if_false]

/-- Instance of C4: length 64 with `ifftFlag = 1` runs the inverse radix-4 butterfly,
length 128 with `ifftFlag = 2` runs the forward radix-4-by-2 hybrid. -/
theorem arm_cfft_q15_dispatch_witness :
    ((64 : Nat) ∈ [16, 64, 256, 1024, 4096] ∧ (1 : Nat) = 1 ∧
      arm_cfft_q15 exampleExterns (exampleCfftInstance 64) zeroBuf 1 0
        = exampleExterns.arm_radix4_butterfly_inverse_q15 zeroBuf 64 zeroBuf 1) ∧
    ((128 : Nat) ∈ [32, 128, 512, 2048] ∧ (2 : Nat) ≠ 1 ∧
      arm_cfft_q15 exampleExterns (exampleCfftInstance 128) zeroBuf 2 0
        = arm_cfft_radix4by2_q15 exampleExterns zeroBuf 128 zeroBuf) :=
  ⟨⟨by decide, rfl,
      ((arm_cfft_q15_dispatch exampleExterns (exampleCfftInstance 64) zeroBuf 1).1
        (by decide)).1 rfl⟩,
    ⟨by decide, by decide,
      ((arm_cfft_q15_dispatch exampleExterns (exampleCfftInstance 128) zeroBuf 2).2
        (by decide)).2 (by decide)⟩⟩

/-- C5: for every instance, buffer and direction flag, `arm_cfft_q15` with a non-zero
`bitReverseFlag` yields the buffer obtained from the call with `bitReverseFlag = 0`
followed by one call of `arm_bitreversal_16` with `S->bitRevLength` and
`S->pBitRevTable`; with `bitReverseFlag = 0` the bit reversal is not run at all (the
result is the same whatever `arm_bitreversal_16` does). -/
theorem arm_cfft_q15_bitReverse (E : Externs) (S : arm_cfft_instance_q15) (p1 : Buf)
    (ifftFlag bitReverseFlag : Nat) (g : Buf → Nat → (Nat → Nat) → Buf) :
    (bitReverseFlag ≠ 0 →
      arm_cfft_q15 E S p1 ifftFlag bitReverseFlag
        = E.arm_bitreversal_16 (arm_cfft_q15 E S p1 ifftFlag 0) S.bitRevLength
            S.pBitRevTable) ∧
    arm_cfft_q15 { E with arm_bitreversal_16 := g } S p1 ifftFlag 0
      = arm_cfft_q15 E S p1 ifftFlag 0 := by
  constructor
  · intro hb
    simp only [arm_cfft_q15, hb, ne_eq, not_false_eq_true, if_true, not_true_eq_false,
      if_false]
  · simp only [arm_cfft_q15, ne_eq, not_true_eq_false, if_false,
      arm_cfft_radix4by2_q15, arm_cfft_radix4by2_inverse_q15]

/-- Instance of C5: length 16, forward, `bitReverseFlag = 1`. -/
theorem arm_cfft_q15_bitReverse_witness :
    (1 : Nat) ≠ 0 ∧
    arm_cfft_q15 exampleExterns (exampleCfftInstance 16) zeroBuf 0 1
      = exampleExterns.arm_bitreversal_16
          (arm_cfft_q15 exampleExterns (exampleCfftInstance 16) zeroBuf 0 0) 0 (fun _ => 0) :=
  ⟨by decide,
    (arm_cfft_q15_bitReverse exampleExterns (exampleCfftInstance 16) zeroBuf 0 1
      (fun p _ _ => p)).1 (by decide)⟩

/-! ## The radix-4-by-2 hybrid -/

theorem post_body_step (n2 : Nat) (p : Buf) (k : Nat) (hk : k < n2) (hn : 4 * n2 ≤ 4294967296) :
    radix4by2_post_body k (radix4by2_pass3_upto (4 * k) p) = radix4by2_pass3_upto (4 * (k + 1)) p := by
  have e0 : u32 (4 * k) = 4 * k := u32_of_lt (by omega)
  have e1 : u32 (4 * k + 0) = 4 * k := u32_of_lt (by omega)
  have e2 : u32 (4 * k + 1) = 4 * k + 1 := u32_of_lt (by omega)
  have e3 : u32 (4 * k + 2) = 4 * k + 2 := u32_of_lt (by omega)
  have e4 : u32 (4 * k + 3) = 4 * k + 3 := u32_of_lt (by omega)
  funext j
  simp only [radix4by2_post_body, e0, e1, e2, e3, e4, Buf.set, radix4by2_pass3_upto]
  rw [if_neg (by omega : ¬ (4 * k < 4 * k)), if_neg (by omega : ¬ (4 * k + 1 < 4 * k)),
    if_neg (by omega : ¬ (4 * k + 2 < 4 * k)), if_neg (by omega : ¬ (4 * k + 3 < 4 * k))]
  by_cases h3 : j = 4 * k + 3
  · subst h3; rw [if_pos rfl, if_pos (by omega)]
  · rw [if_neg h3]
    by_cases h2 : j = 4 * k + 2
    · subst h2; rw [if_pos rfl, if_pos (by omega)]
    · rw [if_neg h2]
      by_cases h1 : j = 4 * k + 1
      · subst h1; rw [if_pos rfl, if_pos (by omega)]
      · rw [if_neg h1]
        by_cases h0 : j = 4 * k
        · subst h0; rw [if_pos rfl, if_pos (by omega)]
        · rw [if_neg h0]
          by_cases hl : j < 4 * k
          · rw [if_pos hl, if_pos (by omega)]
          · rw [if_neg hl, if_neg (by omega)]

theorem post_loop_eq (n2 : Nat) (p : Buf) (hn : 4 * n2 ≤ 4294967296) :
    ∀ k, k ≤ n2 → iterBody radix4by2_post_body k p = radix4by2_pass3_upto (4 * k) p := by
  intro k
  induction k with
  | zero =>
    intro _
    funext j
    simp only [iterBody, radix4by2_pass3_upto]
    rw [if_neg (by omega)]
  | succ k ih =>
    intro hk
    simp only [iterBody]
    rw [ih (by omega)]
    exact post_body_step n2 p k (by omega) hn

theorem wrap32_sum4 (x y z w : Int) :
    wrap32 (wrap32 (wrap32 (wrap32 x - wrap32 y) + wrap32 z) + wrap32 w)
      = wrap32 (x - y + z + w) := by
  unfold wrap32; omega

theorem wrap32_range (x : Int) : -2147483648 ≤ wrap32 x ∧ wrap32 x ≤ 2147483647 := by
  unfold wrap32; omega

theorem shr16_wrap32_range (x : Int) :
    -32768 ≤ shr (wrap32 x) 16 ∧ shr (wrap32 x) 16 ≤ 32767 := by
  have h := wrap32_range x
  rw [shr_sixteen]; omega

theorem wrap16_shr16_wrap32 (x : Int) : wrap16 (shr (wrap32 x) 16) = shr (wrap32 x) 16 :=
  wrap16_of_range (shr16_wrap32_range x).1 (shr16_wrap32_range x).2

theorem wrap32_neg_shr16_wrap32 (x : Int) :
    wrap32 (-(shr (wrap32 x) 16)) = -(shr (wrap32 x) 16) := by
  have h := shr16_wrap32_range x
  exact wrap32_of_range (by omega) (by omega)

theorem split_rfft_body_step (pSrc : Buf) (fftLen : Nat) (pATable pBTable pDst : Buf)
    (modifier i : Nat) (hi1 : 1 ≤ i) (hi : i < fftLen) (hlen : 4 * fftLen < 4294967296)
    :
    split_rfft_body pSrc fftLen pATable pBTable modifier
        (split_rfft_state pSrc fftLen pATable pBTable pDst modifier i)
      = split_rfft_state pSrc fftLen pATable pBTable pDst modifier (i + 1) := by
  have e1 : u32 (2 * i) = 2 * i := u32_of_lt (by omega)
  have e2 : u32 (2 * i + 1) = 2 * i + 1 := u32_of_lt (by omega)
  have e3 : u32 (4 * fftLen) = 4 * fftLen := u32_of_lt (by omega)
  have e4 : u32sub (4 * fftLen) (2 * i) = 4 * fftLen - 2 * i := by
    unfold u32sub; omega
  have e5 : u32 (4 * fftLen - 2 * i + 1) = 4 * fftLen - 2 * i + 1 := u32_of_lt (by omega)
  have e7 : 2 * fftLen - 2 * i = 2 * (fftLen - i) := by omega
  have hupd : ∀ j,
      ((((split_rfft_upto pSrc fftLen pATable pBTable pDst modifier i).set (2 * i)
        (split_rfft_outR pSrc fftLen pATable pBTable i (i * u32 (2 * modifier)))).set
        (2 * i + 1)
        (split_rfft_outI pSrc fftLen pATable pBTable i (i * u32 (2 * modifier)))).set
        (4 * fftLen - 2 * i)
        (split_rfft_outR pSrc fftLen pATable pBTable i (i * u32 (2 * modifier)))).set
        (4 * fftLen - 2 * i + 1)
        (wrap16 (-(split_rfft_outI pSrc fftLen pATable pBTable i (i * u32 (2 * modifier))))) j
      = split_rfft_upto pSrc fftLen pATable pBTable pDst modifier (i + 1) j := by
    intro j
    simp only [Buf.set]
    by_cases hj1 : j = 4 * fftLen - 2 * i + 1
    · subst hj1
      have q1 : (4 * fftLen + 1 - (4 * fftLen - 2 * i + 1)) / 2 = i := by omega
      have q2 : ¬ ((4 * fftLen - 2 * i + 1) % 2 = 0) := by omega
      simp only [split_rfft_upto, if_true, q1, q2, if_false]
      rw [if_neg (by omega), if_pos (by omega)]
    · rw [if_neg hj1]
      by_cases hj2 : j = 4 * fftLen - 2 * i
      · subst hj2
        have q1 : (4 * fftLen + 1 - (4 * fftLen - 2 * i)) / 2 = i := by omega
        have q2 : (4 * fftLen - 2 * i) % 2 = 0 := by omega
        simp only [split_rfft_upto, if_true, q1, q2]
        rw [if_neg (by omega), if_pos (by omega)]
      · rw [if_neg hj2]
        by_cases hj3 : j = 2 * i + 1
        · subst hj3
          have q1 : (2 * i + 1) / 2 = i := by omega
          have q2 : ¬ ((2 * i + 1) % 2 = 0) := by omega
          simp only [split_rfft_upto, if_true, q1, q2, if_false]
          rw [if_pos (by omega)]
        · rw [if_neg hj3]
          by_cases hj4 : j = 2 * i
          · subst hj4
            have q1 : (2 * i) / 2 = i := by omega
            have q2 : (2 * i) % 2 = 0 := by omega
            simp only [split_rfft_upto, if_true, q1, q2]
            rw [if_pos (by omega)]
          · rw [if_neg hj4]
            have c1 : (2 ≤ j ∧ j < 2 * (i + 1)) ↔ (2 ≤ j ∧ j < 2 * i) := by omega
            have c2 : (4 * fftLen + 2 ≤ j + 2 * (i + 1) ∧ j < 4 * fftLen) ↔
                (4 * fftLen + 2 ≤ j + 2 * i ∧ j < 4 * fftLen) := by omega
            simp only [split_rfft_upto, c1, c2]
  simp only [split_rfft_body, split_rfft_state, e1, e2, e3, e4, e5, wrap32_sum4,
    wrap16_shr16_wrap32, wrap32_neg_shr16_wrap32, e7]
  have p1 : 2 * i + 2 = 2 * (i + 1) := by omega
  have p2 : 2 * (fftLen - i) - 2 = 2 * fftLen - 2 * (i + 1) := by omega
  have p3 : i * u32 (2 * modifier) + u32 (2 * modifier) = (i + 1) * u32 (2 * modifier) := by
    ring
  rw [p1, p2, p3]
  congr 1
  funext j
  exact hupd j

theorem split_rfft_loop_aux (pSrc : Buf) (fftLen : Nat) (pATable pBTable pDst : Buf)
    (modifier : Nat) (hlen : 4 * fftLen < 4294967296) :
    ∀ (fuel i : Nat), 1 ≤ i → i ≤ fftLen → fftLen ≤ i + fuel →
      whileLoop (fun s : SplitState => decide (s.i < fftLen))
          (split_rfft_body pSrc fftLen pATable pBTable modifier) fuel
          (split_rfft_state pSrc fftLen pATable pBTable pDst modifier i)
        = split_rfft_state pSrc fftLen pATable pBTable pDst modifier fftLen := by
  intro fuel
  induction fuel with
  | zero =>
    intro i _ h2 h3
    have : i = fftLen := by omega
    subst this
    rfl
  | succ f ih =>
    intro i h1 h2 h3
    by_cases hlt : i < fftLen
    · have hc : (split_rfft_state pSrc fftLen pATable pBTable pDst modifier i).i < fftLen := hlt
      simp only [whileLoop, hc, decide_True, if_true]
      rw [split_rfft_body_step pSrc fftLen pATable pBTable pDst modifier i h1 hlt hlen]
      exact ih (i + 1) (by omega) (by omega) (by omega)
    · have : i = fftLen := by omega
      subst this
      have hc : ¬ ((split_rfft_state pSrc i pATable pBTable pDst modifier i).i < i) :=
        Nat.lt_irrefl i
      simp only [whileLoop, hc, decide_False]
      rfl

/-- The loop of `arm_split_rfft_q15` ends with the loop counter equal to `fftLen` (the
loop condition is false: the fuel was enough) and with the bins `1 .. fftLen-1` and
their mirrors written. -/
theorem split_rfft_loop_eq (pSrc : Buf) (fftLen : Nat) (pATable pBTable pDst : Buf)
    (modifier : Nat) (h1 : 1 ≤ fftLen) (hlen : 4 * fftLen < 4294967296) :
    split_rfft_loop pSrc fftLen pATable pBTable pDst modifier
      = split_rfft_state pSrc fftLen pATable pBTable pDst modifier fftLen := by
  have hinit : split_rfft_init fftLen pDst modifier
      = split_rfft_state pSrc fftLen pATable pBTable pDst modifier 1 := by
    have e1 : u32sub (u32 (2 * fftLen)) 2 = 2 * fftLen - 2 * 1 := by
      unfold u32sub u32; omega
    have e2 : u32 (modifier * 2) = 1 * u32 (2 * modifier) := by
      rw [Nat.mul_comm modifier 2, Nat.one_mul]
    have e3 : split_rfft_upto pSrc fftLen pATable pBTable pDst modifier 1 = pDst := by
      funext j
      simp only [split_rfft_upto]
      rw [if_neg (by omega), if_neg (by omega)]
    simp only [split_rfft_init, split_rfft_state, e1, e2, e3]
  unfold split_rfft_loop
  rw [hinit]
  exact split_rfft_loop_aux pSrc fftLen pATable pBTable pDst modifier hlen fftLen 1
    (le_refl 1) h1 (by omega)

/-- The buffer `arm_split_rfft_q15` returns, sample by sample. -/
theorem arm_split_rfft_q15_apply (pSrc : Buf) (fftLen : Nat) (pATable pBTable pDst : Buf)
    (modifier : Nat) (h1 : 1 ≤ fftLen) (hlen : 4 * fftLen < 4294967296) (j : Nat) :
    arm_split_rfft_q15 pSrc fftLen pATable pBTable pDst modifier j
      = if j = 1 then 0
        else if j = 0 then wrap16 (shr (pSrc 0 + pSrc 1) 1)
        else if j = 2 * fftLen + 1 then 0
        else if j = 2 * fftLen then wrap16 (shr (pSrc 0 - pSrc 1) 1)
        else split_rfft_upto pSrc fftLen pATable pBTable pDst modifier fftLen j := by
  have e1 : u32 (2 * fftLen) = 2 * fftLen := u32_of_lt (by omega)
  have e2 : u32 (2 * fftLen + 1) = 2 * fftLen + 1 := u32_of_lt (by omega)
  simp only [arm_split_rfft_q15, split_rfft_loop_eq pSrc fftLen pATable pBTable pDst modifier
    h1 hlen, split_rfft_state, e1, e2, Buf.set]

/-- C7: in `arm_split_rfft_q15` (for `1 ≤ fftLen`, with the `4 * fftLen` output samples
addressable by a `uint32_t` index, source and destination not overlapping) the DC and
Nyquist bins come from the special case after the loop: `pDst[0] = (pSrc[0] + pSrc[1])
>> 1`, `pDst[1] = 0`, `pDst[2*fftLen] = (pSrc[0] - pSrc[1]) >> 1`, `pDst[2*fftLen+1] = 0`;
for Q15 inputs both values fit in 16 bits, so the stores do not wrap; and the general
loop leaves these four samples as they were. -/
theorem arm_split_rfft_q15_dc_nyquist (pSrc : Buf) (fftLen : Nat) (pATable pBTable pDst : Buf)
    (modifier : Nat) (h1 : 1 ≤ fftLen) (hlen : 4 * fftLen < 4294967296)
    (hq0 : isQ15 (pSrc 0)) (hq1 : isQ15 (pSrc 1)) :
    arm_split_rfft_q15 pSrc fftLen pATable pBTable pDst modifier 0
      = shr (pSrc 0 + pSrc 1) 1 ∧
    arm_split_rfft_q15 pSrc fftLen pATable pBTable pDst modifier 1 = 0 ∧
    arm_split_rfft_q15 pSrc fftLen pATable pBTable pDst modifier (2 * fftLen)
      = shr (pSrc 0 - pSrc 1) 1 ∧
    arm_split_rfft_q15 pSrc fftLen pATable pBTable pDst modifier (2 * fftLen + 1) = 0 ∧
    isQ15 (shr (pSrc 0 + pSrc 1) 1) ∧ isQ15 (shr (pSrc 0 - pSrc 1) 1) ∧
    (split_rfft_loop pSrc fftLen pATable pBTable pDst modifier).pDst 0 = pDst 0 ∧
    (split_rfft_loop pSrc fftLen pATable pBTable pDst modifier).pDst 1 = pDst 1 ∧
    (split_rfft_loop pSrc fftLen pATable pBTable pDst modifier).pDst (2 * fftLen)
      = pDst (2 * fftLen) ∧
    (split_rfft_loop pSrc fftLen pATable pBTable pDst modifier).pDst (2 * fftLen + 1)
      = pDst (2 * fftLen + 1) := by
  unfold isQ15 at hq0 hq1
  have hs : isQ15 (shr (pSrc 0 + pSrc 1) 1) := by
    unfold isQ15; rw [shr_one]; omega
  have hd : isQ15 (shr (pSrc 0 - pSrc 1) 1) := by
    unfold isQ15; rw [shr_one]; omega
  have hloop := split_rfft_loop_eq pSrc fftLen pATable pBTable pDst modifier h1 hlen
  refine ⟨?_, ?_, ?_, ?_, hs, hd, ?_, ?_, ?_, ?_⟩
  · rw [arm_split_rfft_q15_apply pSrc fftLen pATable pBTable pDst modifier h1 hlen,
      if_neg (by omega), if_pos rfl]
    exact wrap16_of_range hs.1 hs.2
  · rw [arm_split_rfft_q15_apply pSrc fftLen pATable pBTable pDst modifier h1 hlen,
      if_pos rfl]
  · rw [arm_split_rfft_q15_apply pSrc fftLen pATable pBTable pDst modifier h1 hlen,
      if_neg (by omega), if_neg (by omega), if_neg (by omega), if_pos rfl]
    exact wrap16_of_range hd.1 hd.2
  · rw [arm_split_rfft_q15_apply pSrc fftLen pATable pBTable pDst modifier h1 hlen,
      if_neg (by omega), if_neg (by omega), if_pos rfl]
  · rw [hloop]
    simp only [split_rfft_state, split_rfft_upto]
    rw [if_neg (by omega), if_neg (by omega)]
  · rw [hloop]
    simp only [split_rfft_state, split_rfft_upto]
    rw [if_neg (by omega), if_neg (by omega)]
  · rw [hloop]
    simp only [split_rfft_state, split_rfft_upto]
    rw [if_neg (by omega), if_neg (by omega)]
  · rw [hloop]
    simp only [split_rfft_state, split_rfft_upto]
    rw [if_neg (by omega), if_neg (by omega)]

/-- Instance of C7: `fftLen = 16` on `exampleBuf`, whose first two samples are the
extreme values 32767 and -32768. -/
theorem arm_split_rfft_q15_dc_nyquist_witness :
    1 ≤ 16 ∧ 4 * 16 < 4294967296 ∧ isQ15 (exampleBuf 0) ∧ isQ15 (exampleBuf 1) ∧
    arm_split_rfft_q15 exampleBuf 16 exampleRealCoefA exampleRealCoefB zeroBuf 256 0
      = shr (exampleBuf 0 + exampleBuf 1) 1 ∧
    arm_split_rfft_q15 exampleBuf 16 exampleRealCoefA exampleRealCoefB zeroBuf 256 (2 * 16)
      = 32767 :=
  ⟨by decide, by decide, by decide, by decide,
    (arm_split_rfft_q15_dc_nyquist exampleBuf 16 exampleRealCoefA exampleRealCoefB zeroBuf 256
      (by decide) (by decide) (by decide) (by decide)).1,
    by decide⟩

/-- C8: for every `i` with `1 ≤ i < fftLen` (the `4 * fftLen` output samples and the
coefficient stride `2 * modifier` fitting a `uint32_t`), `arm_split_rfft_q15` combines
`X[i] = (pSrc[2i], pSrc[2i+1])` and `X[fftLen-i]` with the coefficient pairs
`A = (pATable[2*i*modifier], pATable[2*i*modifier+1])` and `B` likewise:
`pDst[2i] = (X[i].re*A.re - X[i].im*A.im + X[fftLen-i].re*B.re + X[fftLen-i].im*B.im)
>> 16` and `pDst[2i+1] = (X[fftLen-i].re*B.im - X[fftLen-i].im*B.re + X[i].im*A.re +
X[i].re*A.im) >> 16`, the sums taken in 32-bit arithmetic. -/
theorem arm_split_rfft_q15_bin (pSrc : Buf) (fftLen : Nat) (pATable pBTable pDst : Buf)
    (modifier i : Nat) (hi1 : 1 ≤ i) (hi : i < fftLen) (hlen : 4 * fftLen < 4294967296)
    (hmod : 2 * modifier < 4294967296) :
    arm_split_rfft_q15 pSrc fftLen pATable pBTable pDst modifier (2 * i)
      = shr (wrap32 (pSrc (2 * i) * pATable (2 * i * modifier)
          - pSrc (2 * i + 1) * pATable (2 * i * modifier + 1)
          + pSrc (2 * (fftLen - i)) * pBTable (2 * i * modifier)
          + pSrc (2 * (fftLen - i) + 1) * pBTable (2 * i * modifier + 1))) 16 ∧
    arm_split_rfft_q15 pSrc fftLen pATable pBTable pDst modifier (2 * i + 1)
      = shr (wrap32 (pSrc (2 * (fftLen - i)) * pBTable (2 * i * modifier + 1)
          - pSrc (2 * (fftLen - i) + 1) * pBTable (2 * i * modifier)
          + pSrc (2 * i + 1) * pATable (2 * i * modifier)
          + pSrc (2 * i) * pATable (2 * i * modifier + 1))) 16 := by
  have em : i * u32 (2 * modifier) = 2 * i * modifier := by
    rw [u32_of_lt hmod]; ring
  have q1 : (2 * i) / 2 = i := by omega
  have q2 : (2 * i) % 2 = 0 := by omega
  have q3 : (2 * i + 1) / 2 = i := by omega
  have q4 : ¬ ((2 * i + 1) % 2 = 0) := by omega
  constructor
  · rw [arm_split_rfft_q15_apply pSrc fftLen pATable pBTable pDst modifier (by omega) hlen,
      if_neg (by omega), if_neg (by omega), if_neg (by omega), if_neg (by omega)]
    simp only [split_rfft_upto]
    rw [if_pos (by omega), if_pos q2, q1, em]
    rfl
  · rw [arm_split_rfft_q15_apply pSrc fftLen pATable pBTable pDst modifier (by omega) hlen,
      if_neg (by omega), if_neg (by omega), if_neg (by omega), if_neg (by omega)]
    simp only [split_rfft_upto]
    rw [if_pos (by omega), if_neg q4, q3, em]
    rfl

/-- Instance of C8: bin `i = 3` of `fftLen = 16` with `modifier = 256`. -/
theorem arm_split_rfft_q15_bin_witness :
    1 ≤ 3 ∧ 3 < 16 ∧ 4 * 16 < 4294967296 ∧ 2 * 256 < 4294967296 ∧
    arm_split_rfft_q15 exampleBuf 16 exampleRealCoefA exampleRealCoefB zeroBuf 256 (2 * 3)
      = shr (wrap32 (exampleBuf (2 * 3) * exampleRealCoefA (2 * 3 * 256)
          - exampleBuf (2 * 3 + 1) * exampleRealCoefA (2 * 3 * 256 + 1)
          + exampleBuf (2 * (16 - 3)) * exampleRealCoefB (2 * 3 * 256)
          + exampleBuf (2 * (16 - 3) + 1) * exampleRealCoefB (2 * 3 * 256 + 1))) 16 :=
  ⟨by decide, by decide, by decide, by decide,
    (arm_split_rfft_q15_bin exampleBuf 16 exampleRealCoefA exampleRealCoefB zeroBuf 256 3
      (by decide) (by decide) (by decide) (by decide)).1⟩

/-- C9: the output of `arm_split_rfft_q15` is conjugate-symmetric: for every `i` with
`1 ≤ i < fftLen` the mirrored bin at the complex index `2*fftLen - i` has the same real
part as bin `i`, `pDst[4*fftLen - 2i] = pDst[2i]`, and the negated imaginary part,
`pDst[4*fftLen - 2i + 1] = -pDst[2i+1]` modulo `2 ^ 16`. -/
theorem arm_split_rfft_q15_conj_symm (pSrc : Buf) (fftLen : Nat) (pATable pBTable pDst : Buf)
    (modifier i : Nat) (hi1 : 1 ≤ i) (hi : i < fftLen) (hlen : 4 * fftLen < 4294967296) :
    arm_split_rfft_q15 pSrc fftLen pATable pBTable pDst modifier (4 * fftLen - 2 * i)
      = arm_split_rfft_q15 pSrc fftLen pATable pBTable pDst modifier (2 * i) ∧
    arm_split_rfft_q15 pSrc fftLen pATable pBTable pDst modifier (4 * fftLen - 2 * i + 1)
      = wrap16 (-(arm_split_rfft_q15 pSrc fftLen pATable pBTable pDst modifier (2 * i + 1))) := by
  have q1 : (2 * i) / 2 = i := by omega
  have q2 : (2 * i) % 2 = 0 := by omega
  have q3 : (2 * i + 1) / 2 = i := by omega
  have q4 : ¬ ((2 * i + 1) % 2 = 0) := by omega
  have q5 : (4 * fftLen + 1 - (4 * fftLen - 2 * i)) / 2 = i := by omega
  have q6 : (4 * fftLen - 2 * i) % 2 = 0 := by omega
  have q7 : (4 * fftLen + 1 - (4 * fftLen - 2 * i + 1)) / 2 = i := by omega
  have q8 : ¬ ((4 * fftLen - 2 * i + 1) % 2 = 0) := by omega
  have hR : arm_split_rfft_q15 pSrc fftLen pATable pBTable pDst modifier (2 * i)
      = split_rfft_outR pSrc fftLen pATable pBTable i (i * u32 (2 * modifier)) := by
    rw [arm_split_rfft_q15_apply pSrc fftLen pATable pBTable pDst modifier (by omega) hlen,
      if_neg (by omega), if_neg (by omega), if_neg (by omega), if_neg (by omega)]
    simp only [split_rfft_upto]
    rw [if_pos (by omega), if_pos q2, q1]
  have hI : arm_split_rfft_q15 pSrc fftLen pATable pBTable pDst modifier (2 * i + 1)
      = split_rfft_outI pSrc fftLen pATable pBTable i (i * u32 (2 * modifier)) := by
    rw [arm_split_rfft_q15_apply pSrc fftLen pATable pBTable pDst modifier (by omega) hlen,
      if_neg (by omega), if_neg (by omega), if_neg (by omega), if_neg (by omega)]
    simp only [split_rfft_upto]
    rw [if_pos (by omega), if_neg q4, q3]
  rw [hR, hI]
  constructor
  · rw [arm_split_rfft_q15_apply pSrc fftLen pATable pBTable pDst modifier (by omega) hlen,
      if_neg (by omega), if_neg (by omega), if_neg (by omega), if_neg (by omega)]
    simp only [split_rfft_upto]
    rw [if_neg (by omega), if_pos (by omega), if_pos q6, q5]
  · rw [arm_split_rfft_q15_apply pSrc fftLen pATable pBTable pDst modifier (by omega) hlen,
      if_neg (by omega), if_neg (by omega), if_neg (by omega), if_neg (by omega)]
    simp only [split_rfft_upto]
    rw [if_neg (by omega), if_pos (by omega), if_neg q8, q7]

/-- Instance of C9: bin `i = 1` of `fftLen = 16`; the mirror is at the samples 62, 63. -/
theorem arm_split_rfft_q15_conj_symm_witness :
    1 ≤ 1 ∧ 1 < 16 ∧ 4 * 16 < 4294967296 ∧
    arm_split_rfft_q15 exampleBuf 16 exampleRealCoefA exampleRealCoefB zeroBuf 256
        (4 * 16 - 2 * 1)
      = arm_split_rfft_q15 exampleBuf 16 exampleRealCoefA exampleRealCoefB zeroBuf 256 (2 * 1) ∧
    arm_split_rfft_q15 exampleBuf 16 exampleRealCoefA exampleRealCoefB zeroBuf 256 (2 * 1)
      = -4749 :=
  ⟨by decide, by decide, by decide,
    (arm_split_rfft_q15_conj_symm exampleBuf 16 exampleRealCoefA exampleRealCoefB zeroBuf 256 1
      (by decide) (by decide) (by decide)).1,
    by decide⟩

/-- C10 (counterexample): the forward real FFT of length `N = 32`, run on the instance
that `arm_rfft_init_q15` sets up, writes the output sample 62, which is not among the
first `N + 2 = 34` samples: it holds -4749 after the call and held 0 before. -/
theorem arm_rfft_q15_writes_beyond_N_plus_2 :
    exampleRfftInstance32.fftLenReal = 32 ∧ exampleRfftInstance32.ifftFlagR = 0 ∧
    32 + 2 ≤ 62 ∧ zeroBuf 62 = 0 ∧
    (arm_rfft_q15 exampleExterns exampleRfftInstance32 exampleBuf zeroBuf).2 62 = -4749 ∧
    ¬ (∀ j, 32 + 2 ≤ j →
      (arm_rfft_q15 exampleExterns exampleRfftInstance32 exampleBuf zeroBuf).2 j
        = zeroBuf j) := by
  have h62 : (arm_rfft_q15 exampleExterns exampleRfftInstance32 exampleBuf zeroBuf).2 62
      = -4749 := by decide
  refine ⟨by decide, by decide, by decide, rfl, h62, fun h => ?_⟩
  have h' := h 62 (by decide)
  rw [h62] at h'
  exact absurd h' (by decide)

/-- C10 (amended): the forward real FFT of length `N = S->fftLenReal` (`ifftFlagR` not 1,
`2 ≤ N`, the `2 * N` output samples addressable by a `uint32_t` index) writes only
into the first `2 * N` samples of the output buffer: every sample from `2 * N` on keeps
its value, so an output buffer of `2 * N` samples suffices. -/
theorem arm_rfft_q15_forward_frame (E : Externs) (S : arm_rfft_instance_q15)
    (pSrc pDst : Buf) (j : Nat) (hfwd : S.ifftFlagR ≠ 1) (hN : 2 ≤ S.fftLenReal)
    (hlen : 2 * S.fftLenReal < 4294967296) (hj : 2 * S.fftLenReal ≤ j) :
    (arm_rfft_q15 E S pSrc pDst).2 j = pDst j := by
  have hshift : S.fftLenReal >>> 1 = S.fftLenReal / 2 := by
    simp [Nat.shiftRight_eq_div_pow]
  simp only [arm_rfft_q15, hfwd, if_false, hshift]
  rw [arm_split_rfft_q15_apply _ (S.fftLenReal / 2) _ _ pDst _ (by omega) (by omega),
    if_neg (by omega), if_neg (by omega), if_neg (by omega), if_neg (by omega)]
  simp only [split_rfft_upto]
  rw [if_neg (by omega), if_neg (by omega)]

/-- Instance of C10 (amended): `N = 32`, output sample 64. -/
theorem arm_rfft_q15_forward_frame_witness :
    exampleRfftInstance32.ifftFlagR ≠ 1 ∧ 2 ≤ exampleRfftInstance32.fftLenReal ∧
    2 * exampleRfftInstance32.fftLenReal < 4294967296 ∧
    2 * exampleRfftInstance32.fftLenReal ≤ 64 ∧
    (arm_rfft_q15 exampleExterns exampleRfftInstance32 exampleBuf zeroBuf).2 64 = zeroBuf 64 :=
  ⟨by decide, by decide, by decide, by decide,
    arm_rfft_q15_forward_frame exampleExterns exampleRfftInstance32 exampleBuf zeroBuf 64
      (by decide) (by decide) (by decide) (by decide)⟩

/-! ## The inverse split of the real FFT -/

theorem wrap32_diff4 (x y z w : Int) :
    wrap32 (wrap32 (wrap32 (wrap32 x - wrap32 y) - wrap32 z) - wrap32 w)
      = wrap32 (x - y - z - w) := by
  unfold wrap32; omega

theorem split_rifft_body_step (pSrc : Buf) (fftLen : Nat) (pATable pBTable pDst : Buf)
    (modifier t : Nat) (ht : t < fftLen) :
    split_rifft_body pSrc pATable pBTable modifier
        (split_rifft_state pSrc fftLen pATable pBTable pDst modifier t)
      = split_rifft_state pSrc fftLen pATable pBTable pDst modifier (t + 1) := by
  have e7 : 2 * fftLen - 2 * t = 2 * (fftLen - t) := by omega
  have hupd : ∀ j,
      ((split_rifft_upto pSrc fftLen pATable pBTable pDst modifier t).set (2 * t)
        (split_rifft_outR pSrc fftLen pATable pBTable t (t * u32 (2 * modifier)))).set
        (2 * t + 1)
        (split_rifft_outI pSrc fftLen pATable pBTable t (t * u32 (2 * modifier))) j
      = split_rifft_upto pSrc fftLen pATable pBTable pDst modifier (t + 1) j := by
    intro j
    simp only [Buf.set]
    by_cases hj3 : j = 2 * t + 1
    · subst hj3
      have q1 : (2 * t + 1) / 2 = t := by omega
      have q2 : ¬ ((2 * t + 1) % 2 = 0) := by omega
      simp only [split_rifft_upto, if_true, q1, q2, if_false]
      rw [if_pos (by omega)]
    · rw [if_neg hj3]
      by_cases hj4 : j = 2 * t
      · subst hj4
        have q1 : (2 * t) / 2 = t := by omega
        have q2 : (2 * t) % 2 = 0 := by omega
        simp only [split_rifft_upto, if_true, q1, q2]
        rw [if_pos (by omega)]
      · rw [if_neg hj4]
        have c1 : (j < 2 * (t + 1)) ↔ (j < 2 * t) := by omega
        simp only [split_rifft_upto, c1]
  simp only [split_rifft_body, split_rifft_state, wrap32_sum4, wrap32_diff4,
    wrap16_shr16_wrap32, e7]
  have p1 : 2 * t + 2 = 2 * (t + 1) := by omega
  have p2 : 2 * (fftLen - t) - 2 = 2 * fftLen - 2 * (t + 1) := by omega
  have p3 : t * u32 (2 * modifier) + u32 (2 * modifier) = (t + 1) * u32 (2 * modifier) := by
    ring
  have p4 : fftLen - t - 1 = fftLen - (t + 1) := by omega
  rw [p1, p2, p3, p4]
  congr 1
  funext j
  exact hupd j

theorem split_rifft_loop_aux (pSrc : Buf) (fftLen : Nat) (pATable pBTable pDst : Buf)
    (modifier : Nat) :
    ∀ (fuel t : Nat), t ≤ fftLen → fftLen ≤ t + fuel →
      whileLoop (fun s : SplitState => decide (s.i > 0))
          (split_rifft_body pSrc pATable pBTable modifier) fuel
          (split_rifft_state pSrc fftLen pATable pBTable pDst modifier t)
        = split_rifft_state pSrc fftLen pATable pBTable pDst modifier fftLen := by
  intro fuel
  induction fuel with
  | zero =>
    intro t h2 h3
    have : t = fftLen := by omega
    subst this
    rfl
  | succ f ih =>
    intro t h2 h3
    by_cases hlt : t < fftLen
    · have hc : (split_rifft_state pSrc fftLen pATable pBTable pDst modifier t).i > 0 := by
        show fftLen - t > 0
        omega
      simp only [whileLoop, hc, decide_True, if_true]
      rw [split_rifft_body_step pSrc fftLen pATable pBTable pDst modifier t hlt]
      exact ih (t + 1) (by omega) (by omega)
    · have : t = fftLen := by omega
      subst this
      have hc : ¬ ((split_rifft_state pSrc t pATable pBTable pDst modifier t).i > 0) := by
        show ¬ (t - t > 0)
        omega
      simp only [whileLoop, hc, decide_False]
      rfl

/-- The buffer `arm_split_rifft_q15` returns, sample by sample: the loop runs
`fftLen` times, ends with the loop counter 0 and has written the first `fftLen`
complex values. -/
theorem arm_split_rifft_q15_eq (pSrc : Buf) (fftLen : Nat) (pATable pBTable pDst : Buf)
    (modifier : Nat) (hlen : 2 * fftLen < 4294967296) :
    arm_split_rifft_q15 pSrc fftLen pATable pBTable pDst modifier
      = split_rifft_upto pSrc fftLen pATable pBTable pDst modifier fftLen := by
  have hinit : split_rifft_init fftLen pDst
      = split_rifft_state pSrc fftLen pATable pBTable pDst modifier 0 := by
    have e1 : u32 (2 * fftLen) = 2 * fftLen - 2 * 0 := by
      rw [u32_of_lt hlen]; omega
    have e3 : split_rifft_upto pSrc fftLen pATable pBTable pDst modifier 0 = pDst := by
      funext j
      simp only [split_rifft_upto]
      rw [if_neg (by omega)]
    simp only [split_rifft_init, split_rifft_state, e1, e3, Nat.zero_mul, Nat.mul_zero,
      Nat.sub_zero]
  unfold arm_split_rifft_q15
  rw [hinit, split_rifft_loop_aux pSrc fftLen pATable pBTable pDst modifier fftLen 0
    (Nat.zero_le _) (by omega)]
  rfl

/-- C11: the inverse split uses the same tables with the complementary sign.  For
every `i` with `1 ≤ i < fftLen`, every input buffer and all Q15 coefficient tables
without an entry -32768, the complex value that `arm_split_rifft_q15` writes at the
output index `i` (samples `2i`, `2i+1`) is the value that the forward split
`arm_split_rfft_q15` computes for bin `i` from the same buffer when the imaginary
entries of both coefficient tables are negated (`conjTable`). -/
theorem arm_split_rifft_q15_conj (pSrc : Buf) (fftLen : Nat) (pATable pBTable : Buf)
    (pDst pDst2 : Buf) (modifier i : Nat) (hi1 : 1 ≤ i) (hi : i < fftLen)
    (hlen : 4 * fftLen < 4294967296)
    (hA : ∀ k, isQ15 (pATable k) ∧ pATable k ≠ -32768)
    (hB : ∀ k, isQ15 (pBTable k) ∧ pBTable k ≠ -32768) :
    arm_split_rifft_q15 pSrc fftLen pATable pBTable pDst modifier (2 * i)
      = arm_split_rfft_q15 pSrc fftLen (conjTable pATable) (conjTable pBTable) pDst2
          modifier (2 * i) ∧
    arm_split_rifft_q15 pSrc fftLen pATable pBTable pDst modifier (2 * i + 1)
      = arm_split_rfft_q15 pSrc fftLen (conjTable pATable) (conjTable pBTable) pDst2
          modifier (2 * i + 1) := by
  have q1 : (2 * i) / 2 = i := by omega
  have q2 : (2 * i) % 2 = 0 := by omega
  have q3 : (2 * i + 1) / 2 = i := by omega
  have q4 : ¬ ((2 * i + 1) % 2 = 0) := by omega
  -- the coefficient offset of bin `i` is even
  obtain ⟨c, hc⟩ : ∃ c, i * u32 (2 * modifier) = 2 * c := by
    refine ⟨i * (u32 (2 * modifier) / 2), ?_⟩
    have h2 : u32 (2 * modifier) = 2 * (u32 (2 * modifier) / 2) := by
      unfold u32; omega
    calc i * u32 (2 * modifier) = i * (2 * (u32 (2 * modifier) / 2)) := by rw [← h2]
      _ = 2 * (i * (u32 (2 * modifier) / 2)) := by ring
  have hre : ∀ T : Buf, conjTable T (2 * c) = T (2 * c) := by
    intro T
    unfold conjTable
    rw [if_neg (by omega)]
  have him : ∀ T : Buf, (∀ k, isQ15 (T k) ∧ T k ≠ -32768) →
      conjTable T (2 * c + 1) = -(T (2 * c + 1)) := by
    intro T hT
    obtain ⟨⟨h1, h2⟩, h3⟩ := hT (2 * c + 1)
    unfold conjTable
    rw [if_pos (by omega)]
    exact wrap16_of_range (by omega) (by omega)
  rw [arm_split_rifft_q15_eq pSrc fftLen pATable pBTable pDst modifier (by omega)]
  constructor
  · rw [arm_split_rfft_q15_apply pSrc fftLen _ _ pDst2 modifier (by omega) hlen,
      if_neg (by omega), if_neg (by omega), if_neg (by omega), if_neg (by omega)]
    simp only [split_rfft_upto, split_rifft_upto]
    rw [if_pos (by omega), if_pos q2, if_pos (by omega), if_pos q2, q1, hc]
    simp only [split_rifft_outR, split_rfft_outR, hre, him pATable hA, him pBTable hB]
    congr 2
    ring
  · rw [arm_split_rfft_q15_apply pSrc fftLen _ _ pDst2 modifier (by omega) hlen,
      if_neg (by omega), if_neg (by omega), if_neg (by omega), if_neg (by omega)]
    simp only [split_rfft_upto, split_rifft_upto]
    rw [if_pos (by omega), if_neg q4, if_pos (by omega), if_neg q4, q3, hc]
    simp only [split_rifft_outI, split_rfft_outI, hre, him pATable hA, him pBTable hB]
    congr 2
    ring

/-- C13: for the inverse split with `fftLen = N/2`, `arm_split_rifft_q15` reads the
source only at the samples `0 .. N+1` and writes the destination exactly at the
samples `0 .. N-1`: the samples `0 .. N-1` of the result are determined by the first
`N + 2` source samples alone (whatever the rest of the source and the previous content
of the destination), and every destination sample from `N` on keeps its value. -/
theorem arm_split_rifft_q15_footprint (pSrc pSrc2 : Buf) (fftLen : Nat)
    (pATable pBTable : Buf) (pDst pDst2 : Buf) (modifier : Nat)
    (hlen : 2 * fftLen < 4294967296)
    (hsrc : ∀ k, k < 2 * fftLen + 2 → pSrc2 k = pSrc k) :
    (∀ j, j < 2 * fftLen →
      arm_split_rifft_q15 pSrc2 fftLen pATable pBTable pDst2 modifier j
        = arm_split_rifft_q15 pSrc fftLen pATable pBTable pDst modifier j) ∧
    (∀ j, 2 * fftLen ≤ j →
      arm_split_rifft_q15 pSrc fftLen pATable pBTable pDst modifier j = pDst j) := by
  rw [arm_split_rifft_q15_eq pSrc fftLen pATable pBTable pDst modifier hlen,
    arm_split_rifft_q15_eq pSrc2 fftLen pATable pBTable pDst2 modifier hlen]
  constructor
  · intro j hj
    simp only [split_rifft_upto]
    rw [if_pos hj, if_pos hj]
    have r1 := hsrc (2 * (j / 2)) (by omega)
    have r2 := hsrc (2 * (j / 2) + 1) (by omega)
    have r3 := hsrc (2 * (fftLen - j / 2)) (by omega)
    have r4 := hsrc (2 * (fftLen - j / 2) + 1) (by omega)
    simp only [split_rifft_outR, split_rifft_outI, r1, r2, r3, r4]
  · intro j hj
    simp only [split_rifft_upto]
    rw [if_neg (by omega)]

/-! ## The inverse real FFT -/

/-- C12: in inverse mode (`ifftFlagR = 1`) `arm_rfft_q15` leaves the source buffer, runs
`arm_split_rifft_q15` into the destination, then `arm_cfft_q15` on the destination with
the inverse flag (`ifftFlag = 1`), and finally calls `arm_shift_q15` in place on the
`fftLenReal` samples of the destination with `shiftBits = 1`.  With `arm_shift_q15` as
the specification describes it, every one of the `fftLenReal` output samples is shifted
right by one bit and no other sample is changed by the shift. -/
theorem arm_rfft_q15_inverse (E : Externs) (S : arm_rfft_instance_q15) (pSrc pDst : Buf)
    (hinv : S.ifftFlagR = 1) :
    (arm_rfft_q15 E S pSrc pDst).1 = pSrc ∧
    rifft_before_shift E S pSrc pDst
      = arm_cfft_q15 E S.pCfft
          (arm_split_rifft_q15 pSrc (S.fftLenReal / 2) S.pTwiddleAReal S.pTwiddleBReal pDst
            S.twidCoefRModifier) 1 S.bitReverseFlagR ∧
    (arm_rfft_q15 E S pSrc pDst).2
      = E.arm_shift_q15 (rifft_before_shift E S pSrc pDst) 1
          (rifft_before_shift E S pSrc pDst) S.fftLenReal ∧
    (E.arm_shift_q15 = arm_shift_q15_spec →
      (∀ j, j < S.fftLenReal →
        (arm_rfft_q15 E S pSrc pDst).2 j = shr (rifft_before_shift E S pSrc pDst j) 1) ∧
      (∀ j, S.fftLenReal ≤ j →
        (arm_rfft_q15 E S pSrc pDst).2 j = rifft_before_shift E S pSrc pDst j)) := by
  have hshift : S.fftLenReal >>> 1 = S.fftLenReal / 2 := by
    simp [Nat.shiftRight_eq_div_pow]
  have h2 : (arm_rfft_q15 E S pSrc pDst).2
      = E.arm_shift_q15 (rifft_before_shift E S pSrc pDst) 1
          (rifft_before_shift E S pSrc pDst) S.fftLenReal := by
    simp only [arm_rfft_q15, rifft_before_shift, hinv, if_true]
  refine ⟨?_, ?_, h2, fun hE => ⟨fun j hj => ?_, fun j hj => ?_⟩⟩
  · simp only [arm_rfft_q15, hinv, if_true]
  · simp only [rifft_before_shift, hshift, hinv]
  · rw [h2, hE]
    simp only [arm_shift_q15_spec]
    rw [if_pos hj]
    rfl
  · rw [h2, hE]
    simp only [arm_shift_q15_spec]
    rw [if_neg (by omega)]

/-! ## The radix-4-by-2 hybrid: the narrowed values and the final shift -/

theorem isQ15_wrap16 (x : Int) : isQ15 (wrap16 x) := by
  unfold isQ15 wrap16; omega

/-- For Q15 samples and a Q15 twiddle pair every value of a pre-combination butterfly
is in the 16-bit range before it is narrowed, in both directions. -/
theorem preCombValues_inRange (inverse : Bool) (re_i im_i re_l im_l cosVal sinVal : Int)
    (h1 : isQ15 re_i) (h2 : isQ15 im_i) (h3 : isQ15 re_l) (h4 : isQ15 im_l)
    (hc : isQ15 cosVal) (hs : isQ15 sinVal) :
    (preCombValues inverse re_i im_i re_l im_l cosVal sinVal).inRange := by
  unfold isQ15 at h1 h2 h3 h4 hc hs
  have hxt : wrap16 (re_i / 2 - re_l / 2) = re_i / 2 - re_l / 2 :=
    wrap16_of_range (by omega) (by omega)
  have hyt : wrap16 (im_i / 2 - im_l / 2) = im_i / 2 - im_l / 2 :=
    wrap16_of_range (by omega) (by omega)
  obtain ⟨w1, l1, u1⟩ := rot_term_range (a := re_i / 2 - re_l / 2) (b := cosVal)
    (by omega) (by omega) hc.1 hc.2
  obtain ⟨w2, l2, u2⟩ := rot_term_range (a := im_i / 2 - im_l / 2) (b := sinVal)
    (by omega) (by omega) hs.1 hs.2
  obtain ⟨w3, l3, u3⟩ := rot_term_range (a := im_i / 2 - im_l / 2) (b := cosVal)
    (by omega) (by omega) hc.1 hc.2
  obtain ⟨w4, l4, u4⟩ := rot_term_range (a := re_i / 2 - re_l / 2) (b := sinVal)
    (by omega) (by omega) hs.1 hs.2
  have t1 := wrap16_of_range (le_trans (by norm_num) l1) (le_trans u1 (by norm_num))
  have t2 := wrap16_of_range (le_trans (by norm_num) l2) (le_trans u2 (by norm_num))
  have t3 := wrap16_of_range (le_trans (by norm_num) l3) (le_trans u3 (by norm_num))
  have t4 := wrap16_of_range (le_trans (by norm_num) l4) (le_trans u4 (by norm_num))
  cases inverse <;>
    simp only [PreCombValues.inRange, preCombValues, isQ15, shr_one, shr_sixteen, hxt, hyt,
      w1, w2, w3, w4, t1, t2, t3, t4, if_true, if_false, Bool.false_eq_true] <;>
    omega

/-- The first loop body of `arm_cfft_radix4by2_q15` is the four stores of the narrowed
values of `preCombValues false`. -/
theorem radix4by2_pre_body_eq_store (n2 : Nat) (pCoef : Buf) (i : Nat) (pSrc : Buf)
    (hi : i < n2) (hn : 4 * n2 ≤ 4294967296) :
    radix4by2_pre_body n2 pCoef i pSrc
      = (preCombValues false (pSrc (2 * i)) (pSrc (2 * i + 1)) (pSrc (2 * (i + n2)))
          (pSrc (2 * (i + n2) + 1)) (pCoef (2 * i)) (pCoef (2 * i + 1))).store i (i + n2)
          pSrc := by
  have e1 : u32 (2 * i) = 2 * i := u32_of_lt (by omega)
  have e2 : u32 (2 * i + 1) = 2 * i + 1 := u32_of_lt (by omega)
  have e3 : u32 (i + n2) = i + n2 := u32_of_lt (by omega)
  have e4 : u32 (2 * (i + n2)) = 2 * (i + n2) := u32_of_lt (by omega)
  have e5 : u32 (2 * (i + n2) + 1) = 2 * (i + n2) + 1 := u32_of_lt (by omega)
  have n1 : ¬ (2 * i + 1 = 2 * i) := by omega
  have n3 : ¬ (2 * (i + n2) + 1 = 2 * i) := by omega
  simp only [radix4by2_pre_body, PreCombValues.store, preCombValues, e1, e2, e3, e4, e5,
    Buf.set, n1, n3, if_false, Bool.false_eq_true]

/-- The first loop body of `arm_cfft_radix4by2_inverse_q15` is the four stores of the
narrowed values of `preCombValues true`. -/
theorem radix4by2_inverse_pre_body_eq_store (n2 : Nat) (pCoef : Buf) (i : Nat) (pSrc : Buf)
    (hi : i < n2) (hn : 4 * n2 ≤ 4294967296) :
    radix4by2_inverse_pre_body n2 pCoef i pSrc
      = (preCombValues true (pSrc (2 * i)) (pSrc (2 * i + 1)) (pSrc (2 * (i + n2)))
          (pSrc (2 * (i + n2) + 1)) (pCoef (2 * i)) (pCoef (2 * i + 1))).store i (i + n2)
          pSrc := by
  have e1 : u32 (2 * i) = 2 * i := u32_of_lt (by omega)
  have e2 : u32 (2 * i + 1) = 2 * i + 1 := u32_of_lt (by omega)
  have e3 : u32 (i + n2) = i + n2 := u32_of_lt (by omega)
  have e4 : u32 (2 * (i + n2)) = 2 * (i + n2) := u32_of_lt (by omega)
  have e5 : u32 (2 * (i + n2) + 1) = 2 * (i + n2) + 1 := u32_of_lt (by omega)
  have n1 : ¬ (2 * i + 1 = 2 * i) := by omega
  have n3 : ¬ (2 * (i + n2) + 1 = 2 * i) := by omega
  simp only [radix4by2_inverse_pre_body, PreCombValues.store, preCombValues, e1, e2, e3, e4,
    e5, Buf.set, n1, n3, if_false, if_true]

/-- The stores of a butterfly keep the first `n` samples of a buffer in the Q15
range. -/
theorem PreCombValues.store_isQ15 (v : PreCombValues) (i l n : Nat) (pSrc : Buf)
    (h : ∀ j, j < n → isQ15 (pSrc j)) : ∀ j, j < n → isQ15 (v.store i l pSrc j) := by
  intro j hj
  simp only [PreCombValues.store, Buf.set]
  split_ifs
  · exact isQ15_wrap16 _
  · exact isQ15_wrap16 _
  · exact isQ15_wrap16 _
  · exact isQ15_wrap16 _
  · exact h j hj

/-- C16: in the pre-combination pass of `arm_cfft_radix4by2_q15` and of its inverse, for
every Q15 buffer and every Q15 twiddle table, the butterfly of every `i < fftLen/2`
stores the narrowed values of `preCombValues`, and every one of these values (`xt`,
`yt`, both halved sums, the four shifted products and both rotated difference outputs)
already lies in `[-32768, 32767]` before it is narrowed; the buffer stays a Q15 buffer,
so this holds in every iteration of the loop. -/
theorem radix4by2_pre_pass_no_wrap (fftLen : Nat) (pCoef pSrc : Buf) (i : Nat)
    (hi : i < fftLen / 2) (hlen : fftLen ≤ 2147483648)
    (hsrc : ∀ j, j < 2 * fftLen → isQ15 (pSrc j))
    (hcoef : ∀ j, j < fftLen → isQ15 (pCoef j)) :
    (radix4by2_pre_body (fftLen / 2) pCoef i pSrc
      = (preCombValues false (pSrc (2 * i)) (pSrc (2 * i + 1)) (pSrc (2 * (i + fftLen / 2)))
          (pSrc (2 * (i + fftLen / 2) + 1)) (pCoef (2 * i)) (pCoef (2 * i + 1))).store i
          (i + fftLen / 2) pSrc ∧
      (preCombValues false (pSrc (2 * i)) (pSrc (2 * i + 1)) (pSrc (2 * (i + fftLen / 2)))
          (pSrc (2 * (i + fftLen / 2) + 1)) (pCoef (2 * i)) (pCoef (2 * i + 1))).inRange ∧
      ∀ j, j < 2 * fftLen → isQ15 (radix4by2_pre_body (fftLen / 2) pCoef i pSrc j)) ∧
    (radix4by2_inverse_pre_body (fftLen / 2) pCoef i pSrc
      = (preCombValues true (pSrc (2 * i)) (pSrc (2 * i + 1)) (pSrc (2 * (i + fftLen / 2)))
          (pSrc (2 * (i + fftLen / 2) + 1)) (pCoef (2 * i)) (pCoef (2 * i + 1))).store i
          (i + fftLen / 2) pSrc ∧
      (preCombValues true (pSrc (2 * i)) (pSrc (2 * i + 1)) (pSrc (2 * (i + fftLen / 2)))
          (pSrc (2 * (i + fftLen / 2) + 1)) (pCoef (2 * i)) (pCoef (2 * i + 1))).inRange ∧
      ∀ j, j < 2 * fftLen →
        isQ15 (radix4by2_inverse_pre_body (fftLen / 2) pCoef i pSrc j)) := by
  have hf := radix4by2_pre_body_eq_store (fftLen / 2) pCoef i pSrc hi (by omega)
  have hv := radix4by2_inverse_pre_body_eq_store (fftLen / 2) pCoef i pSrc hi (by omega)
  have s1 := hsrc (2 * i) (by omega)
  have s2 := hsrc (2 * i + 1) (by omega)
  have s3 := hsrc (2 * (i + fftLen / 2)) (by omega)
  have s4 := hsrc (2 * (i + fftLen / 2) + 1) (by omega)
  have c1 := hcoef (2 * i) (by omega)
  have c2 := hcoef (2 * i + 1) (by omega)
  refine ⟨⟨hf, ?_, ?_⟩, ⟨hv, ?_, ?_⟩⟩
  · exact preCombValues_inRange false _ _ _ _ _ _ s1 s2 s3 s4 c1 c2
  · rw [hf]; exact PreCombValues.store_isQ15 _ _ _ _ _ hsrc
  · exact preCombValues_inRange true _ _ _ _ _ _ s1 s2 s3 s4 c1 c2
  · rw [hv]; exact PreCombValues.store_isQ15 _ _ _ _ _ hsrc

/-- C18, as stated, fails: the final left shift of the radix-4-by-2 hybrid wraps.  With
`fftLen = 32`, the Q15 buffer `stepBuf32`, the twiddle pairs `(23170, 23170)` and radix-4
butterflies that leave the buffer as it is, sample 40 is 23168 before the final loop of
`arm_cfft_radix4by2_q15`; doubled and clamped it would be 32767, the function returns
`46336 - 65536 = -19200`.  The same holds for sample 41 of the inverse function. -/
theorem radix4by2_final_shift_wraps :
    radix4by2_before_rescale idExterns stepBuf32 32 diagonalCoef 40 = 23168 ∧
    sat16 (2 * 23168) = 32767 ∧
    arm_cfft_radix4by2_q15 idExterns stepBuf32 32 diagonalCoef 40 = -19200 ∧
    radix4by2_inverse_before_rescale idExterns stepBuf32 32 diagonalCoef 41 = 23168 ∧
    arm_cfft_radix4by2_inverse_q15 idExterns stepBuf32 32 diagonalCoef 41 = -19200 := by
  refine ⟨by decide, by decide, by decide, by decide, by decide⟩

/-- C18, amended: for every even `fftLen` the final loop of `arm_cfft_radix4by2_q15`
and of its inverse replaces each of the `2 * fftLen` samples `v` by `2 * v` narrowed to
16 bits (wrapped, not clamped), and leaves the samples beyond; the narrowed value is
`2 * v`, and equals the clamped one, when `-16384 ≤ v ≤ 16383`. -/
theorem radix4by2_final_shift (E : Externs) (pSrc : Buf) (fftLen : Nat) (pCoef : Buf)
    (heven : fftLen % 2 = 0) (hlen : fftLen ≤ 2147483648) :
    (∀ j, arm_cfft_radix4by2_q15 E pSrc fftLen pCoef j
      = if j < 2 * fftLen then wrap16 (2 * radix4by2_before_rescale E pSrc fftLen pCoef j)
        else radix4by2_before_rescale E pSrc fftLen pCoef j) ∧
    (∀ j, arm_cfft_radix4by2_inverse_q15 E pSrc fftLen pCoef j
      = if j < 2 * fftLen then
          wrap16 (2 * radix4by2_inverse_before_rescale E pSrc fftLen pCoef j)
        else radix4by2_inverse_before_rescale E pSrc fftLen pCoef j) ∧
    (∀ v : Int, -16384 ≤ v → v ≤ 16383 → wrap16 (2 * v) = 2 * v ∧ sat16 (2 * v) = 2 * v) := by
  have hshift : fftLen >>> 1 = fftLen / 2 := by
    simp [Nat.shiftRight_eq_div_pow]
  have h4 : 4 * (fftLen / 2) = 2 * fftLen := by omega
  refine ⟨fun j => ?_, fun j => ?_, fun v h1 h2 => ⟨?_, ?_⟩⟩
  · have h : arm_cfft_radix4by2_q15 E pSrc fftLen pCoef
        = forLoop (fftLen / 2) radix4by2_post_body
            (radix4by2_before_rescale E pSrc fftLen pCoef) := by
      simp only [arm_cfft_radix4by2_q15, radix4by2_before_rescale, hshift]
    rw [h, forLoop_eq_iterBody, post_loop_eq (fftLen / 2) _ (by omega) (fftLen / 2)
      (le_refl _), h4]
    simp only [radix4by2_pass3_upto, shl1_q15, mul_comm]
  · have h : arm_cfft_radix4by2_inverse_q15 E pSrc fftLen pCoef
        = forLoop (fftLen / 2) radix4by2_post_body
            (radix4by2_inverse_before_rescale E pSrc fftLen pCoef) := by
      simp only [arm_cfft_radix4by2_inverse_q15, radix4by2_inverse_before_rescale, hshift]
    rw [h, forLoop_eq_iterBody, post_loop_eq (fftLen / 2) _ (by omega) (fftLen / 2)
      (le_refl _), h4]
    simp only [radix4by2_pass3_upto, shl1_q15, mul_comm]
  · exact wrap16_of_range (by omega) (by omega)
  · unfold sat16
    rw [if_neg (by omega), if_neg (by omega)]

/-- Instance of C18 (amended): `fftLen = 4` on `exampleBuf`. -/
theorem radix4by2_final_shift_witness :
    4 % 2 = 0 ∧ 4 ≤ 2147483648 ∧
    arm_cfft_radix4by2_q15 exampleExterns exampleBuf 4 exampleCoef 0
      = (if 0 < 2 * 4 then
          wrap16 (2 * radix4by2_before_rescale exampleExterns exampleBuf 4 exampleCoef 0)
        else radix4by2_before_rescale exampleExterns exampleBuf 4 exampleCoef 0) ∧
    arm_cfft_radix4by2_q15 exampleExterns exampleBuf 4 exampleCoef 0 = 16384 :=
  ⟨by decide, by decide,
    (radix4by2_final_shift exampleExterns exampleBuf 4 exampleCoef (by decide) (by decide)).1 0,
    by decide⟩

/-! ## Forward and inverse butterflies: one network, two signs -/

theorem radix2_first_body_eq_net :
    radix2_first_body = radix2_net_first_body 1 := by
  funext n2 c s i p
  simp only [radix2_first_body, radix2_net_first_body, one_mul]

theorem radix2_inverse_first_body_eq_net :
    radix2_inverse_first_body = radix2_net_first_body (-1) := by
  funext n2 c s i p
  simp only [radix2_inverse_first_body, radix2_net_first_body, neg_one_mul, sub_neg_eq_add,
    ← sub_eq_add_neg]

theorem radix2_mid_body_eq_net :
    radix2_mid_body = radix2_net_mid_body 1 := by
  funext n2 c s i p
  simp only [radix2_mid_body, radix2_net_mid_body, one_mul]

theorem radix2_inverse_mid_body_eq_net :
    radix2_inverse_mid_body = radix2_net_mid_body (-1) := by
  funext n2 c s i p
  simp only [radix2_inverse_mid_body, radix2_net_mid_body, neg_one_mul, sub_neg_eq_add,
    ← sub_eq_add_neg]

theorem radix4by2_pre_body_eq_net :
    radix4by2_pre_body = radix4by2_net_pre_body 1 := by
  funext n2 c i p
  simp only [radix4by2_pre_body, radix4by2_net_pre_body, radix2_net_first_body, one_mul]

theorem radix4by2_inverse_pre_body_eq_net :
    radix4by2_inverse_pre_body = radix4by2_net_pre_body (-1) := by
  funext n2 c i p
  simp only [radix4by2_inverse_pre_body, radix4by2_net_pre_body, radix2_net_first_body,
    neg_one_mul, sub_neg_eq_add, ← sub_eq_add_neg]

/-- The control variables of the stage loop: for a power of two `fftLen ≥ 4` the loop
is left with `n2 = 2`, whatever the butterflies do. -/
theorem stageLoop_n2_aux (fftLen : Nat) (pCoef : Buf)
    (body : Nat → Int → Int → Nat → Buf → Buf) :
    ∀ (fuel e : Nat) (s : StageState), s.k = 2 ^ (e + 1) → s.n2 = 2 ^ (e + 1) → e ≤ fuel →
      (whileLoop (fun s : StageState => decide (s.k > 2))
        (fun s =>
          let n1 := s.n2
          let n2 := s.n2 >>> 1
          let pSrc := groupLoop fftLen n1 n2 pCoef s.twidCoefModifier (body n2) s.pSrc
          { k := s.k >>> 1, n1 := n1, n2 := n2,
            twidCoefModifier := u16 (s.twidCoefModifier <<< 1), pSrc := pSrc })
        fuel s).n2 = 2 := by
  intro fuel
  induction fuel with
  | zero =>
    intro e s hk hn he
    have : e = 0 := by omega
    subst this
    simpa [whileLoop] using hn
  | succ f ih =>
    intro e s hk hn he
    cases e with
    | zero =>
      have hc : ¬ (s.k > 2) := by rw [hk]; norm_num
      simp only [whileLoop, hc, decide_False]
      simpa using hn
    | succ e =>
      have hc : s.k > 2 := by
        rw [hk]
        have : 2 ^ (e + 1 + 1) = 4 * 2 ^ e := by ring
        have hp : 0 < 2 ^ e := Nat.two_pow_pos e
        omega
      simp only [whileLoop, hc, decide_True, if_true]
      apply ih e
      · show s.k >>> 1 = 2 ^ (e + 1)
        rw [hk, Nat.shiftRight_eq_div_pow, pow_one, pow_succ 2 (e + 1)]
        omega
      · show s.n2 >>> 1 = 2 ^ (e + 1)
        rw [hn, Nat.shiftRight_eq_div_pow, pow_one, pow_succ 2 (e + 1)]
        omega
      · omega

theorem stageLoop_n2 (m : Nat) (hm : 2 ≤ m) (pCoef : Buf)
    (body : Nat → Int → Int → Nat → Buf → Buf) (n1 twid : Nat) (p : Buf) :
    (stageLoop (2 ^ m) pCoef body
      { k := 2 ^ m / 2, n1 := n1, n2 := 2 ^ m >>> 1, twidCoefModifier := twid,
        pSrc := p }).n2 = 2 := by
  obtain ⟨e, rfl⟩ : ∃ e, m = e + 2 := ⟨m - 2, by omega⟩
  have h2 : 2 ^ (e + 2) / 2 = 2 ^ (e + 1) := by
    rw [pow_succ 2 (e + 1)]; omega
  have h3 : 2 ^ (e + 2) >>> 1 = 2 ^ (e + 1) := by
    rw [Nat.shiftRight_eq_div_pow, pow_one, h2]
  unfold stageLoop
  apply stageLoop_n2_aux (2 ^ (e + 2)) pCoef body (2 ^ (e + 2)) e
  · exact h2
  · exact h3
  · have := Nat.lt_two_pow (e + 2)
    omega

/-- A group loop with a single group is one butterfly loop from `i = 0` with the first
twiddle pair. -/
theorem groupLoop_one (fftLen n1 : Nat) (pCoef : Buf) (twid : Nat)
    (body : Int → Int → Nat → Buf → Buf) (p : Buf) :
    groupLoop fftLen n1 1 pCoef twid body p
      = butterflyLoop fftLen n1 (body (pCoef 0) (pCoef 1)) 0 p := by
  simp [groupLoop, whileLoop, u32]

theorem radix2_last_body_eq_inverse (n2 : Nat) (c s : Int) :
    radix2_last_body n2 c s = radix2_inverse_last_body n2 := rfl

theorem arm_radix2_butterfly_q15_eq_network (pSrc : Buf) (fftLen : Nat) (pCoef : Buf)
    (twid : Nat) :
    arm_radix2_butterfly_q15 pSrc fftLen pCoef twid = radix2_network 1 pSrc fftLen pCoef twid := by
  simp only [arm_radix2_butterfly_q15, radix2_network, radix2_first_body_eq_net,
    radix2_mid_body_eq_net]

theorem arm_radix2_butterfly_inverse_q15_eq_network (pSrc : Buf) (m : Nat) (hm : 2 ≤ m)
    (pCoef : Buf) (twid : Nat) :
    arm_radix2_butterfly_inverse_q15 pSrc (2 ^ m) pCoef twid
      = radix2_network (-1) pSrc (2 ^ m) pCoef twid := by
  simp only [arm_radix2_butterfly_inverse_q15, radix2_network,
    radix2_inverse_first_body_eq_net, radix2_inverse_mid_body_eq_net]
  rw [stageLoop_n2 m hm pCoef (radix2_net_mid_body (-1))]
  have h1 : 2 >>> 1 = 1 := rfl
  rw [h1, groupLoop_one, radix2_last_body_eq_inverse]

/-- The sine entry that the group loop reads is at an odd offset of the table. -/
theorem sin_read_zero (pCoef : Buf) (hsin : ∀ k, pCoef (2 * k + 1) = 0) (ia : Nat) :
    pCoef (u32 (u32 (ia * 2) + 1)) = 0 := by
  have h : u32 (u32 (ia * 2) + 1) = 2 * (u32 (ia * 2) / 2) + 1 := by
    unfold u32; omega
  rw [h]
  exact hsin _

theorem radix2_net_first_body_sin_zero (sgn : Int) (n2 : Nat) (c : Int) :
    radix2_net_first_body sgn n2 c 0 = radix2_net_first_body 1 n2 c 0 := by
  funext i p
  have hw : wrap16 (shr (wrap32 0) 16) = 0 := by decide
  simp only [radix2_net_first_body, mul_zero, hw, add_zero, sub_zero]

theorem radix2_net_mid_body_sin_zero (sgn : Int) (n2 : Nat) (c : Int) :
    radix2_net_mid_body sgn n2 c 0 = radix2_net_mid_body 1 n2 c 0 := by
  funext i p
  have hw : wrap16 (shr (wrap32 0) 16) = 0 := by decide
  simp only [radix2_net_mid_body, mul_zero, hw, add_zero, sub_zero]

/-- With every sine entry 0 the group loop does not depend on the sign of the cross
terms. -/
theorem groupLoop_sin_zero (fftLen n1 n2 : Nat) (pCoef : Buf) (twid : Nat)
    (body : Int → Int → Int → Nat → Buf → Buf) (sgn : Int)
    (hbody : ∀ c, body sgn c 0 = body 1 c 0)
    (hsin : ∀ k, pCoef (2 * k + 1) = 0) (p : Buf) :
    groupLoop fftLen n1 n2 pCoef twid (body sgn) p
      = groupLoop fftLen n1 n2 pCoef twid (body 1) p := by
  unfold groupLoop
  have hstep : (fun s : GroupState =>
      let cosVal := pCoef (u32 (s.ia * 2))
      let sinVal := pCoef (u32 (u32 (s.ia * 2) + 1))
      let ia := u32 (s.ia + twid)
      GroupState.mk (s.j + 1) ia (butterflyLoop fftLen n1 (body sgn cosVal sinVal) s.j s.pSrc))
      = (fun s : GroupState =>
      let cosVal := pCoef (u32 (s.ia * 2))
      let sinVal := pCoef (u32 (u32 (s.ia * 2) + 1))
      let ia := u32 (s.ia + twid)
      GroupState.mk (s.j + 1) ia (butterflyLoop fftLen n1 (body 1 cosVal sinVal) s.j s.pSrc)) := by
    funext s
    simp only [sin_read_zero pCoef hsin, hbody]
  rw [hstep]

theorem radix2_network_sin_zero (sgn : Int) (pSrc : Buf) (fftLen : Nat) (pCoef : Buf)
    (twid : Nat) (hsin : ∀ k, pCoef (2 * k + 1) = 0) :
    radix2_network sgn pSrc fftLen pCoef twid = radix2_network 1 pSrc fftLen pCoef twid := by
  have hmid : (fun s : StageState =>
      let n1 := s.n2
      let n2 := s.n2 >>> 1
      let pSrc := groupLoop fftLen n1 n2 pCoef s.twidCoefModifier
        (radix2_net_mid_body sgn n2) s.pSrc
      StageState.mk (s.k >>> 1) n1 n2 (u16 (s.twidCoefModifier <<< 1)) pSrc)
      = (fun s : StageState =>
      let n1 := s.n2
      let n2 := s.n2 >>> 1
      let pSrc := groupLoop fftLen n1 n2 pCoef s.twidCoefModifier
        (radix2_net_mid_body 1 n2) s.pSrc
      StageState.mk (s.k >>> 1) n1 n2 (u16 (s.twidCoefModifier <<< 1)) pSrc) := by
    funext s
    simp only
    rw [groupLoop_sin_zero fftLen s.n2 (s.n2 >>> 1) pCoef s.twidCoefModifier
      (fun sg => radix2_net_mid_body sg (s.n2 >>> 1)) sgn
      (fun c => radix2_net_mid_body_sin_zero sgn (s.n2 >>> 1) c) hsin]
  simp only [radix2_network, stageLoop]
  rw [groupLoop_sin_zero fftLen fftLen (fftLen >>> 1) pCoef twid
      (fun sg => radix2_net_first_body sg (fftLen >>> 1)) sgn
      (fun c => radix2_net_first_body_sin_zero sgn (fftLen >>> 1) c) hsin, hmid]

theorem radix4by2_network_sin_zero (sgn : Int) (R4 : Buf → Nat → Buf → Nat → Buf)
    (pSrc : Buf) (fftLen : Nat) (pCoef : Buf) (hsin : ∀ k, pCoef (2 * k + 1) = 0) :
    radix4by2_network sgn R4 pSrc fftLen pCoef = radix4by2_network 1 R4 pSrc fftLen pCoef := by
  have hpre : radix4by2_net_pre_body sgn (fftLen >>> 1) pCoef
      = radix4by2_net_pre_body 1 (fftLen >>> 1) pCoef := by
    funext i p
    have h : u32 (u32 (2 * i) + 1) = 2 * (u32 (2 * i) / 2) + 1 := by
      unfold u32; omega
    simp only [radix4by2_net_pre_body]
    rw [h, hsin, radix2_net_first_body_sin_zero]
  simp only [radix4by2_network, hpre]

/-- C14: for every `fftLen = 2 ^ m` with `m ≥ 2`, `arm_radix2_butterfly_q15` and
`arm_radix2_butterfly_inverse_q15` are the same butterfly network `radix2_network`
(same stages, same index pairs, same twiddle indices, same right shifts) and differ
only in the sign of the cross terms: forward stores `xt*cos + yt*sin` and
`yt*cos - xt*sin` (sign `1`), inverse stores `xt*cos - yt*sin` and `yt*cos + xt*sin`
(sign `-1`).  The same holds for `arm_cfft_radix4by2_q15` and
`arm_cfft_radix4by2_inverse_q15` with the network `radix4by2_network` (each with the
radix-4 butterfly of its direction).  In particular, when every sine entry of the table
is 0, the two radix-2 functions return the same buffer, and so do the two radix-4-by-2
functions when the radix-4 butterflies of the two directions agree. -/
theorem radix2_forward_inverse_same_network (E : Externs) (pSrc : Buf) (m : Nat)
    (hm : 2 ≤ m) (pCoef : Buf) (twidCoefModifier : Nat) :
    arm_radix2_butterfly_q15 pSrc (2 ^ m) pCoef twidCoefModifier
      = radix2_network 1 pSrc (2 ^ m) pCoef twidCoefModifier ∧
    arm_radix2_butterfly_inverse_q15 pSrc (2 ^ m) pCoef twidCoefModifier
      = radix2_network (-1) pSrc (2 ^ m) pCoef twidCoefModifier ∧
    arm_cfft_radix4by2_q15 E pSrc (2 ^ m) pCoef
      = radix4by2_network 1 E.arm_radix4_butterfly_q15 pSrc (2 ^ m) pCoef ∧
    arm_cfft_radix4by2_inverse_q15 E pSrc (2 ^ m) pCoef
      = radix4by2_network (-1) E.arm_radix4_butterfly_inverse_q15 pSrc (2 ^ m) pCoef ∧
    ((∀ k, pCoef (2 * k + 1) = 0) →
      arm_radix2_butterfly_q15 pSrc (2 ^ m) pCoef twidCoefModifier
        = arm_radix2_butterfly_inverse_q15 pSrc (2 ^ m) pCoef twidCoefModifier ∧
      (E.arm_radix4_butterfly_q15 = E.arm_radix4_butterfly_inverse_q15 →
        arm_cfft_radix4by2_q15 E pSrc (2 ^ m) pCoef
          = arm_cfft_radix4by2_inverse_q15 E pSrc (2 ^ m) pCoef)) := by
  have h1 := arm_radix2_butterfly_q15_eq_network pSrc (2 ^ m) pCoef twidCoefModifier
  have h2 := arm_radix2_butterfly_inverse_q15_eq_network pSrc m hm pCoef twidCoefModifier
  have h3 : arm_cfft_radix4by2_q15 E pSrc (2 ^ m) pCoef
      = radix4by2_network 1 E.arm_radix4_butterfly_q15 pSrc (2 ^ m) pCoef := by
    simp only [arm_cfft_radix4by2_q15, radix4by2_network, radix4by2_pre_body_eq_net]
  have h4 : arm_cfft_radix4by2_inverse_q15 E pSrc (2 ^ m) pCoef
      = radix4by2_network (-1) E.arm_radix4_butterfly_inverse_q15 pSrc (2 ^ m) pCoef := by
    simp only [arm_cfft_radix4by2_inverse_q15, radix4by2_network,
      radix4by2_inverse_pre_body_eq_net]
  refine ⟨h1, h2, h3, h4, fun hsin => ⟨?_, fun hE => ?_⟩⟩
  · rw [h1, h2, radix2_network_sin_zero (-1) pSrc (2 ^ m) pCoef twidCoefModifier hsin]
  · rw [h3, h4, radix4by2_network_sin_zero (-1) _ pSrc (2 ^ m) pCoef hsin, hE]

/-! ## The impulse response of the radix-2 butterfly -/

theorem not_dvd_mul_add (h c r : Nat) (hr0 : 0 < r) (hrh : r < h) : ¬ h ∣ c * h + r :=
  (Nat.dvd_add_right (Dvd.intro_left c rfl)).not.mpr (Nat.not_dvd_of_pos_of_lt hr0 hrh)

theorem Buf.set_self_zero (p : Buf) (k : Nat) (h : p k = 0) : p.set k 0 = p := by
  funext j
  simp only [Buf.set]
  by_cases hj : j = k
  · rw [if_pos hj, hj, h]
  · rw [if_neg hj]

/-- A butterfly loop whose butterflies all leave the buffer unchanged leaves the
buffer unchanged. -/
theorem butterflyLoop_id (fftLen n1 : Nat) (body : Nat → Buf → Buf) (j : Nat) (p : Buf)
    (hlen : fftLen ≤ 2147483648) (hn1 : n1 ≤ fftLen)
    (hbody : ∀ t, j + t * n1 < fftLen → body (j + t * n1) p = p) :
    butterflyLoop fftLen n1 body j p = p := by
  have aux : ∀ (fuel t : Nat),
      (whileLoop (fun s : Nat × Buf => decide (s.1 < fftLen))
        (fun s => (u32 (s.1 + n1), body s.1 s.2)) fuel (j + t * n1, p)).2 = p := by
    intro fuel
    induction fuel with
    | zero => intro t; rfl
    | succ f ih =>
      intro t
      by_cases hc : j + t * n1 < fftLen
      · simp only [whileLoop, hc, decide_True, if_true]
        rw [hbody t hc]
        have e : u32 (j + t * n1 + n1) = j + (t + 1) * n1 := by
          rw [u32_of_lt (by omega)]; ring
        rw [e]
        exact ih (t + 1)
      · simp only [whileLoop, hc, decide_False]
        rfl
  have h := aux fftLen 0
  simp only [Nat.zero_mul, Nat.add_zero] at h
  exact h

/-- The butterfly loop of the group `j = 0` on a comb of stride `2 * h`: each butterfly
turns the value `v` at the sample `t * (2 * h)` into the value `w` at the samples
`t * (2 * h)` and `t * (2 * h) + h`, so the loop leaves a comb of stride `h`. -/
theorem butterflyLoop_comb (q h n2 : Nat) (v w : Int) (body : Nat → Buf → Buf) (p : Buf)
    (hh : h = 2 * n2) (hn2 : 1 ≤ n2) (hlen : q * h ≤ 2147483648)
    (hbody : ∀ i p, i + n2 < q * h → p (2 * i) = v → p (2 * i + 1) = 0 →
      p (2 * (i + n2)) = 0 → p (2 * (i + n2) + 1) = 0 →
      body i p = (((p.set (2 * i) w).set (2 * i + 1) 0).set (2 * (i + n2)) w).set
        (2 * (i + n2) + 1) 0)
    (hp : CombOn (2 * (q * h)) (2 * h) v p) :
    CombOn (2 * (q * h)) h w (butterflyLoop (q * h) h body 0 p) := by
  -- the invariant after `t` butterflies
  have aux : ∀ (fuel t : Nat) (p : Buf), t ≤ q → q ≤ t + fuel →
      (∀ idx, idx < 2 * (q * h) →
        p idx = if idx < t * (2 * h) then (if h ∣ idx then w else 0)
                else (if 2 * h ∣ idx then v else 0)) →
      ∀ idx, idx < 2 * (q * h) →
        (whileLoop (fun s : Nat × Buf => decide (s.1 < q * h))
          (fun s => (u32 (s.1 + h), body s.1 s.2)) fuel (t * h, p)).2 idx
          = if h ∣ idx then w else 0 := by
    intro fuel
    induction fuel with
    | zero =>
      intro t p ht hq hinv idx hidx
      have : t = q := by omega
      subst this
      simp only [whileLoop]
      rw [hinv idx hidx, if_pos (show idx < t * (2 * h) by nlinarith)]
    | succ f ih =>
      intro t p ht hq hinv idx hidx
      by_cases hc : t < q
      · have hth : t * h + h ≤ q * h := by nlinarith
        have hlt : t * h < q * h := by omega
        simp only [whileLoop, hlt, decide_True, if_true]
        have e : u32 (t * h + h) = (t + 1) * h := by
          rw [u32_of_lt (by omega)]; ring
        rw [e]
        -- the four samples read by the butterfly
        have hb : 2 * (t * h) = t * (2 * h) := by ring
        have r1 : p (2 * (t * h)) = v := by
          rw [hinv _ (by omega), if_neg (by omega), if_pos (by rw [hb]; exact Dvd.intro_left t rfl)]
        have r2 : p (2 * (t * h) + 1) = 0 := by
          rw [hinv _ (by omega), if_neg (by omega), hb,
            if_neg (not_dvd_mul_add (2 * h) t 1 (by omega) (by omega))]
        have r3 : p (2 * (t * h + n2)) = 0 := by
          have : 2 * (t * h + n2) = t * (2 * h) + h := by rw [hh]; ring
          rw [hinv _ (by omega), if_neg (by omega), this,
            if_neg (not_dvd_mul_add (2 * h) t h (by omega) (by omega))]
        have r4 : p (2 * (t * h + n2) + 1) = 0 := by
          have : 2 * (t * h + n2) + 1 = t * (2 * h) + (h + 1) := by rw [hh]; ring
          rw [hinv _ (by omega), if_neg (by omega), this,
            if_neg (not_dvd_mul_add (2 * h) t (h + 1) (by omega) (by omega))]
        rw [hbody (t * h) p (by omega) r1 r2 r3 r4]
        apply ih (t + 1) _ (by omega) (by omega) _ idx hidx
        intro k hk
        have hs : (t + 1) * (2 * h) = t * (2 * h) + 2 * h := by ring
        have hl : 2 * (t * h + n2) = t * (2 * h) + h := by rw [hh]; ring
        simp only [Buf.set]
        rw [hs, hb, hl]
        by_cases k4 : k = t * (2 * h) + h + 1
        · rw [if_pos k4, if_pos (by omega), k4,
            if_neg (by
              have := not_dvd_mul_add h (2 * t + 1) 1 (by omega) (by omega)
              have e2 : (2 * t + 1) * h + 1 = t * (2 * h) + h + 1 := by ring
              rwa [e2] at this)]
        · rw [if_neg k4]
          by_cases k3 : k = t * (2 * h) + h
          · rw [if_pos k3, if_pos (by omega), k3,
              if_pos (by
                have e2 : t * (2 * h) + h = (2 * t + 1) * h := by ring
                rw [e2]; exact Dvd.intro_left _ rfl)]
          · rw [if_neg k3]
            by_cases k2 : k = t * (2 * h) + 1
            · rw [if_pos k2, if_pos (by omega), k2,
                if_neg (by
                  have := not_dvd_mul_add h (2 * t) 1 (by omega) (by omega)
                  have e2 : 2 * t * h + 1 = t * (2 * h) + 1 := by ring
                  rwa [e2] at this)]
            · rw [if_neg k2]
              by_cases k1 : k = t * (2 * h)
              · rw [if_pos k1, if_pos (by omega), k1,
                  if_pos (by
                    have e2 : t * (2 * h) = (2 * t) * h := by ring
                    rw [e2]; exact Dvd.intro_left _ rfl)]
              · rw [if_neg k1, hinv k hk]
                by_cases c1 : k < t * (2 * h)
                · rw [if_pos c1, if_pos (show k < t * (2 * h) + 2 * h by omega)]
                · rw [if_neg c1]
                  by_cases c2 : k < t * (2 * h) + 2 * h
                  · rw [if_pos c2]
                    have d1 : ¬ 2 * h ∣ k := by
                      have := not_dvd_mul_add (2 * h) t (k - t * (2 * h)) (by omega) (by omega)
                      have e2 : t * (2 * h) + (k - t * (2 * h)) = k := by omega
                      rwa [e2] at this
                    have d2 : ¬ h ∣ k := by
                      by_cases c3 : k < t * (2 * h) + h
                      · have := not_dvd_mul_add h (2 * t) (k - t * (2 * h)) (by omega) (by omega)
                        have e2 : 2 * t * h + (k - t * (2 * h)) = k := by
                          have : 2 * t * h = t * (2 * h) := by ring
                          omega
                        rwa [e2] at this
                      · have := not_dvd_mul_add h (2 * t + 1) (k - (t * (2 * h) + h))
                          (by omega) (by omega)
                        have e2 : (2 * t + 1) * h + (k - (t * (2 * h) + h)) = k := by
                          have : (2 * t + 1) * h = t * (2 * h) + h := by ring
                          omega
                        rwa [e2] at this
                    rw [if_neg d1, if_neg d2]
                  · rw [if_neg c2]
      · have : t = q := by omega
        subst this
        have hlt : ¬ (t * h < t * h) := Nat.lt_irrefl _
        simp only [whileLoop, hlt, decide_False, Bool.false_eq_true, if_false]
        rw [hinv idx hidx, if_pos (show idx < t * (2 * h) by nlinarith)]
  intro idx hidx
  unfold butterflyLoop
  have h0 := aux (q * h) 0 p (Nat.zero_le _) (by nlinarith) (by
    intro k hk
    rw [hp k hk, if_neg (show ¬ k < 0 * (2 * h) by omega)]) idx hidx
  simp only [Nat.zero_mul] at h0
  exact h0

/-- The butterfly loop of a group `j` with `0 < j < n2` on a comb of stride `h = 2 * n2`:
every butterfly reads four zero samples, so the buffer is unchanged. -/
theorem butterflyLoop_comb_id (q h n2 j : Nat) (w : Int) (body : Nat → Buf → Buf) (p : Buf)
    (hh : h = 2 * n2) (hj0 : 1 ≤ j) (hj : j < n2) (hq : 1 ≤ q) (hlen : q * h ≤ 2147483648)
    (hz : ∀ i p, i + n2 < q * h → p (2 * i) = 0 → p (2 * i + 1) = 0 →
      p (2 * (i + n2)) = 0 → p (2 * (i + n2) + 1) = 0 → body i p = p)
    (hp : CombOn (2 * (q * h)) h w p) :
    butterflyLoop (q * h) h body j p = p := by
  apply butterflyLoop_id (q * h) h body j p hlen (by nlinarith)
  intro t ht
  have htq : t < q := by
    by_contra hcon
    have : q * h ≤ t * h := Nat.mul_le_mul_right h (by omega)
    omega
  have hle : (t + 1) * h ≤ q * h := Nat.mul_le_mul_right h (by omega)
  have hexp : (t + 1) * h = t * h + h := by ring
  apply hz (j + t * h) p (by omega)
  · rw [hp _ (by omega), if_neg]
    have := not_dvd_mul_add h (2 * t) (2 * j) (by omega) (by omega)
    have e2 : 2 * t * h + 2 * j = 2 * (j + t * h) := by ring
    rwa [e2] at this
  · rw [hp _ (by omega), if_neg]
    have := not_dvd_mul_add h (2 * t) (2 * j + 1) (by omega) (by omega)
    have e2 : 2 * t * h + (2 * j + 1) = 2 * (j + t * h) + 1 := by ring
    rwa [e2] at this
  · rw [hp _ (by omega), if_neg]
    have := not_dvd_mul_add h (2 * t + 1) (2 * j) (by omega) (by omega)
    have e2 : (2 * t + 1) * h + 2 * j = 2 * (j + t * h + n2) := by rw [hh]; ring
    rwa [e2] at this
  · rw [hp _ (by omega), if_neg]
    have := not_dvd_mul_add h (2 * t + 1) (2 * j + 1) (by omega) (by omega)
    have e2 : (2 * t + 1) * h + (2 * j + 1) = 2 * (j + t * h + n2) + 1 := by rw [hh]; ring
    rwa [e2] at this

/-- One stage of the radix-2 network on a comb: with the first twiddle pair
`(0x7FFF, 0)`, a butterfly `body` that maps a lone value `v` to the pair of values `w`
and leaves zero samples zero turns a comb of stride `2 * h` and value `v` into a comb of
stride `h` and value `w`.  Only the group `j = 0` changes the buffer. -/
theorem groupLoop_comb (q h n2 : Nat) (v w : Int) (pCoef : Buf) (twid : Nat)
    (body : Int → Int → Nat → Buf → Buf) (p : Buf)
    (hh : h = 2 * n2) (hn2 : 1 ≤ n2) (hq : 1 ≤ q) (hlen : q * h ≤ 2147483648)
    (hc0 : pCoef 0 = 32767) (hc1 : pCoef 1 = 0)
    (hz : ∀ c s i p, i + n2 < q * h → p (2 * i) = 0 → p (2 * i + 1) = 0 →
      p (2 * (i + n2)) = 0 → p (2 * (i + n2) + 1) = 0 → body c s i p = p)
    (hv : ∀ i p, i + n2 < q * h → p (2 * i) = v → p (2 * i + 1) = 0 →
      p (2 * (i + n2)) = 0 → p (2 * (i + n2) + 1) = 0 →
      body 32767 0 i p = (((p.set (2 * i) w).set (2 * i + 1) 0).set (2 * (i + n2)) w).set
        (2 * (i + n2) + 1) 0)
    (hp : CombOn (2 * (q * h)) (2 * h) v p) :
    CombOn (2 * (q * h)) h w (groupLoop (q * h) h n2 pCoef twid body p) := by
  -- the groups `j ≥ 1` leave a comb of stride `h` unchanged
  have tail : ∀ (fuel j ia : Nat) (p1 : Buf), 1 ≤ j → CombOn (2 * (q * h)) h w p1 →
      (whileLoop (fun s : GroupState => decide (s.j < n2))
        (fun s =>
          let cosVal := pCoef (u32 (s.ia * 2))
          let sinVal := pCoef (u32 (u32 (s.ia * 2) + 1))
          let ia := u32 (s.ia + twid)
          GroupState.mk (s.j + 1) ia (butterflyLoop (q * h) h (body cosVal sinVal) s.j s.pSrc))
        fuel (GroupState.mk j ia p1)).pSrc = p1 := by
    intro fuel
    induction fuel with
    | zero => intro j ia p1 _ _; rfl
    | succ f ih =>
      intro j ia p1 hj1 hp1
      by_cases hc : j < n2
      · simp only [whileLoop, hc, decide_True, if_true]
        rw [butterflyLoop_comb_id q h n2 j w _ p1 hh hj1 hc hq hlen (hz _ _) hp1]
        exact ih (j + 1) _ p1 (by omega) hp1
      · simp only [whileLoop, hc, decide_False, Bool.false_eq_true, if_false]
  obtain ⟨f, rfl⟩ : ∃ f, n2 = f + 1 := ⟨n2 - 1, by omega⟩
  have h00 : u32 (0 * 2) = 0 := by decide
  have h01 : u32 (0 + 1) = 1 := by decide
  have hstart : groupLoop (q * h) h (f + 1) pCoef twid body p
      = (whileLoop (fun s : GroupState => decide (s.j < f + 1))
        (fun s =>
          let cosVal := pCoef (u32 (s.ia * 2))
          let sinVal := pCoef (u32 (u32 (s.ia * 2) + 1))
          let ia := u32 (s.ia + twid)
          GroupState.mk (s.j + 1) ia (butterflyLoop (q * h) h (body cosVal sinVal) s.j s.pSrc))
        f (GroupState.mk 1 (u32 (0 + twid))
          (butterflyLoop (q * h) h (body 32767 0) 0 p))).pSrc := by
    simp only [groupLoop, whileLoop, Nat.zero_lt_succ, decide_True, if_true, h00, h01, hc0, hc1,
      Nat.zero_add]
  have hcomb := butterflyLoop_comb q h (f + 1) v w (body 32767 0) p hh hn2 hlen hv hp
  rw [hstart, tail f 1 _ _ (le_refl 1) hcomb]
  exact hcomb

/-- The four stores of the first-stage butterfly in terms of the four samples read. -/
theorem radix2_first_body_stores (n2 : Nat) (c s : Int) (i : Nat) (p : Buf)
    (hi : i + n2 < 2147483648) :
    radix2_first_body n2 c s i p
      = (((p.set (2 * i) (wrap16 (shr (shr (p (2 * i)) 1 + shr (p (2 * (i + n2))) 1) 1))).set
          (2 * i + 1)
          (wrap16 (shr (shr (p (2 * (i + n2) + 1)) 1 + shr (p (2 * i + 1)) 1) 1))).set
          (2 * (i + n2))
          (wrap16 (wrap16 (shr (wrap32
              (wrap16 (shr (p (2 * i)) 1 - shr (p (2 * (i + n2))) 1) * c)) 16)
            + wrap16 (shr (wrap32
              (wrap16 (shr (p (2 * i + 1)) 1 - shr (p (2 * (i + n2) + 1)) 1) * s)) 16)))).set
          (2 * (i + n2) + 1)
          (wrap16 (wrap16 (shr (wrap32
              (wrap16 (shr (p (2 * i + 1)) 1 - shr (p (2 * (i + n2) + 1)) 1) * c)) 16)
            - wrap16 (shr (wrap32
              (wrap16 (shr (p (2 * i)) 1 - shr (p (2 * (i + n2))) 1) * s)) 16))) := by
  have e1 : u32 (2 * i) = 2 * i := u32_of_lt (by omega)
  have e2 : u32 (2 * i + 1) = 2 * i + 1 := u32_of_lt (by omega)
  have e3 : u32 (i + n2) = i + n2 := u32_of_lt (by omega)
  have e4 : u32 (2 * (i + n2)) = 2 * (i + n2) := u32_of_lt (by omega)
  have e5 : u32 (2 * (i + n2) + 1) = 2 * (i + n2) + 1 := u32_of_lt (by omega)
  have n1 : ¬ (2 * i + 1 = 2 * i) := by omega
  have n3 : ¬ (2 * (i + n2) + 1 = 2 * i) := by omega
  have r1 : ∀ x, (p.set (2 * i) x) (2 * i + 1) = p (2 * i + 1) := by
    intro x; simp only [Buf.set, n1, if_false]
  have r2 : ∀ x, (p.set (2 * i) x) (2 * (i + n2) + 1) = p (2 * (i + n2) + 1) := by
    intro x; simp only [Buf.set, n3, if_false]
  simp only [radix2_first_body, e1, e2, e3, e4, e5, r1, r2]

/-- The four stores of the middle-stage butterfly in terms of the four samples read. -/
theorem radix2_mid_body_stores (n2 : Nat) (c s : Int) (i : Nat) (p : Buf)
    (hi : i + n2 < 2147483648) :
    radix2_mid_body n2 c s i p
      = (((p.set (2 * i) (wrap16 (shr (p (2 * i) + p (2 * (i + n2))) 1))).set
          (2 * i + 1)
          (wrap16 (shr (p (2 * (i + n2) + 1) + p (2 * i + 1)) 1))).set
          (2 * (i + n2))
          (wrap16 (wrap16 (shr (wrap32 (wrap16 (p (2 * i) - p (2 * (i + n2))) * c)) 16)
            + wrap16 (shr (wrap32
              (wrap16 (p (2 * i + 1) - p (2 * (i + n2) + 1)) * s)) 16)))).set
          (2 * (i + n2) + 1)
          (wrap16 (wrap16 (shr (wrap32
              (wrap16 (p (2 * i + 1) - p (2 * (i + n2) + 1)) * c)) 16)
            - wrap16 (shr (wrap32 (wrap16 (p (2 * i) - p (2 * (i + n2))) * s)) 16))) := by
  have e1 : u32 (2 * i) = 2 * i := u32_of_lt (by omega)
  have e2 : u32 (2 * i + 1) = 2 * i + 1 := u32_of_lt (by omega)
  have e3 : u32 (i + n2) = i + n2 := u32_of_lt (by omega)
  have e4 : u32 (2 * (i + n2)) = 2 * (i + n2) := u32_of_lt (by omega)
  have e5 : u32 (2 * (i + n2) + 1) = 2 * (i + n2) + 1 := u32_of_lt (by omega)
  have n1 : ¬ (2 * i + 1 = 2 * i) := by omega
  have n3 : ¬ (2 * (i + n2) + 1 = 2 * i) := by omega
  have r1 : ∀ x, (p.set (2 * i) x) (2 * i + 1) = p (2 * i + 1) := by
    intro x; simp only [Buf.set, n1, if_false]
  have r2 : ∀ x, (p.set (2 * i) x) (2 * (i + n2) + 1) = p (2 * (i + n2) + 1) := by
    intro x; simp only [Buf.set, n3, if_false]
  simp only [radix2_mid_body, e1, e2, e3, e4, e5, r1, r2]

/-- The four stores of the last-stage butterfly in terms of the four samples read. -/
theorem radix2_last_body_stores (n2 : Nat) (c s : Int) (i : Nat) (p : Buf)
    (hi : i + n2 < 2147483648) :
    radix2_last_body n2 c s i p
      = (((p.set (2 * i) (wrap16 (p (2 * i) + p (2 * (i + n2))))).set
          (2 * i + 1) (wrap16 (p (2 * (i + n2) + 1) + p (2 * i + 1)))).set
          (2 * (i + n2)) (wrap16 (p (2 * i) - p (2 * (i + n2))))).set
          (2 * (i + n2) + 1) (wrap16 (p (2 * i + 1) - p (2 * (i + n2) + 1))) := by
  have e1 : u32 (2 * i) = 2 * i := u32_of_lt (by omega)
  have e2 : u32 (2 * i + 1) = 2 * i + 1 := u32_of_lt (by omega)
  have e3 : u32 (i + n2) = i + n2 := u32_of_lt (by omega)
  have e4 : u32 (2 * (i + n2)) = 2 * (i + n2) := u32_of_lt (by omega)
  have e5 : u32 (2 * (i + n2) + 1) = 2 * (i + n2) + 1 := u32_of_lt (by omega)
  have n1 : ¬ (2 * i + 1 = 2 * i) := by omega
  have n3 : ¬ (2 * (i + n2) + 1 = 2 * i) := by omega
  have r1 : ∀ x, (p.set (2 * i) x) (2 * i + 1) = p (2 * i + 1) := by
    intro x; simp only [Buf.set, n1, if_false]
  have r2 : ∀ x, (p.set (2 * i) x) (2 * (i + n2) + 1) = p (2 * (i + n2) + 1) := by
    intro x; simp only [Buf.set, n3, if_false]
  simp only [radix2_last_body, e1, e2, e3, e4, e5, r1, r2]

/-- Four stores of 0 into samples that are 0 leave the buffer. -/
theorem store_zeros (p : Buf) (a b c d : Nat) (ha : p a = 0) (hb : p b = 0) (hc : p c = 0)
    (hd : p d = 0) : (((p.set a 0).set b 0).set c 0).set d 0 = p := by
  rw [Buf.set_self_zero p a ha, Buf.set_self_zero p b hb, Buf.set_self_zero p c hc,
    Buf.set_self_zero p d hd]

theorem radix2_first_body_zero (n2 : Nat) (c s : Int) (i : Nat) (p : Buf)
    (hi : i + n2 < 2147483648) (h1 : p (2 * i) = 0) (h2 : p (2 * i + 1) = 0)
    (h3 : p (2 * (i + n2)) = 0) (h4 : p (2 * (i + n2) + 1) = 0) :
    radix2_first_body n2 c s i p = p := by
  have k1 : wrap16 (shr (shr 0 1 + shr 0 1) 1) = 0 := by decide
  have k2 : wrap16 (shr 0 1 - shr 0 1) = 0 := by decide
  have k3 : wrap16 (shr (wrap32 0) 16) = 0 := by decide
  have k4 : wrap16 (0 + 0) = 0 := by decide
  have k5 : wrap16 (0 - 0) = 0 := by decide
  rw [radix2_first_body_stores n2 c s i p hi]
  simp only [h1, h2, h3, h4, k1, k2, zero_mul, k3, k4, k5]
  exact store_zeros p _ _ _ _ h1 h2 h3 h4

theorem radix2_mid_body_zero (n2 : Nat) (c s : Int) (i : Nat) (p : Buf)
    (hi : i + n2 < 2147483648) (h1 : p (2 * i) = 0) (h2 : p (2 * i + 1) = 0)
    (h3 : p (2 * (i + n2)) = 0) (h4 : p (2 * (i + n2) + 1) = 0) :
    radix2_mid_body n2 c s i p = p := by
  have k1 : wrap16 (shr (0 + 0) 1) = 0 := by decide
  have k3 : wrap16 (shr (wrap32 0) 16) = 0 := by decide
  have k4 : wrap16 (0 + 0) = 0 := by decide
  have k5 : wrap16 (0 - 0) = 0 := by decide
  rw [radix2_mid_body_stores n2 c s i p hi]
  simp only [h1, h2, h3, h4, k1, zero_mul, k3, k4, k5]
  exact store_zeros p _ _ _ _ h1 h2 h3 h4

theorem radix2_last_body_zero (n2 : Nat) (c s : Int) (i : Nat) (p : Buf)
    (hi : i + n2 < 2147483648) (h1 : p (2 * i) = 0) (h2 : p (2 * i + 1) = 0)
    (h3 : p (2 * (i + n2)) = 0) (h4 : p (2 * (i + n2) + 1) = 0) :
    radix2_last_body n2 c s i p = p := by
  have k4 : wrap16 (0 + 0) = 0 := by decide
  have k5 : wrap16 (0 - 0) = 0 := by decide
  rw [radix2_last_body_stores n2 c s i p hi]
  simp only [h1, h2, h3, h4, k4, k5]
  exact store_zeros p _ _ _ _ h1 h2 h3 h4

theorem radix2_first_body_impulse (n2 : Nat) (i : Nat) (p : Buf)
    (hi : i + n2 < 2147483648) (h1 : p (2 * i) = 32767) (h2 : p (2 * i + 1) = 0)
    (h3 : p (2 * (i + n2)) = 0) (h4 : p (2 * (i + n2) + 1) = 0) :
    radix2_first_body n2 32767 0 i p
      = (((p.set (2 * i) 8191).set (2 * i + 1) 0).set (2 * (i + n2)) 8191).set
          (2 * (i + n2) + 1) 0 := by
  have k1 : wrap16 (shr (shr 32767 1 + shr 0 1) 1) = 8191 := by decide
  have k2 : wrap16 (shr (shr 0 1 + shr 0 1) 1) = 0 := by decide
  have k3 : wrap16 (wrap16 (shr (wrap32 (wrap16 (shr 32767 1 - shr 0 1) * 32767)) 16)
      + wrap16 (shr (wrap32 (wrap16 (shr 0 1 - shr 0 1) * 0)) 16)) = 8191 := by decide
  have k4 : wrap16 (wrap16 (shr (wrap32 (wrap16 (shr 0 1 - shr 0 1) * 32767)) 16)
      - wrap16 (shr (wrap32 (wrap16 (shr 32767 1 - shr 0 1) * 0)) 16)) = 0 := by decide
  rw [radix2_first_body_stores n2 32767 0 i p hi]
  simp only [h1, h2, h3, h4, k1, k2, k3, k4]

/-- The value of the impulse after `a` halvings, `0x7FFF >> a`. -/
theorem impulse_mid_arith (a : Nat) :
    wrap16 (shr (32767 / 2 ^ a + 0) 1) = 32767 / 2 ^ (a + 1) ∧
    wrap16 (wrap16 (shr (wrap32 (wrap16 (32767 / 2 ^ a - 0) * 32767)) 16)
      + wrap16 (shr (wrap32 (wrap16 (0 - 0) * 0)) 16)) = 32767 / 2 ^ (a + 1) ∧
    wrap16 (wrap16 (shr (wrap32 (wrap16 (0 - 0) * 32767)) 16)
      - wrap16 (shr (wrap32 (wrap16 (32767 / 2 ^ a - 0) * 0)) 16)) = 0 ∧
    wrap16 (32767 / 2 ^ a + 0) = 32767 / 2 ^ a ∧
    wrap16 (32767 / 2 ^ a - 0) = 32767 / 2 ^ a := by
  rcases Nat.lt_or_ge a 16 with h | h
  · interval_cases a <;> decide
  · have hp : (32767 : Int) < 2 ^ a := by
      have h1 : (2 : Int) ^ 16 ≤ 2 ^ a := pow_le_pow_right₀ (by norm_num) h
      have h2 : (2 : Int) ^ 16 = 65536 := by norm_num
      omega
    have hp2 : (32767 : Int) < 2 ^ (a + 1) := by
      have h1 : (2 : Int) ^ 16 ≤ 2 ^ (a + 1) := pow_le_pow_right₀ (by norm_num) (by omega)
      have h2 : (2 : Int) ^ 16 = 65536 := by norm_num
      omega
    rw [Int.ediv_eq_zero_of_lt (by norm_num) hp, Int.ediv_eq_zero_of_lt (by norm_num) hp2]
    decide

theorem radix2_mid_body_impulse (a n2 : Nat) (i : Nat) (p : Buf)
    (hi : i + n2 < 2147483648) (h1 : p (2 * i) = 32767 / 2 ^ a) (h2 : p (2 * i + 1) = 0)
    (h3 : p (2 * (i + n2)) = 0) (h4 : p (2 * (i + n2) + 1) = 0) :
    radix2_mid_body n2 32767 0 i p
      = (((p.set (2 * i) (32767 / 2 ^ (a + 1))).set (2 * i + 1) 0).set (2 * (i + n2))
          (32767 / 2 ^ (a + 1))).set (2 * (i + n2) + 1) 0 := by
  obtain ⟨k1, k2, k3, _, _⟩ := impulse_mid_arith a
  have k0 : wrap16 (shr (0 + 0) 1) = 0 := by decide
  rw [radix2_mid_body_stores n2 32767 0 i p hi]
  simp only [h1, h2, h3, h4, k0, k1, k2, k3]

theorem radix2_last_body_impulse (a n2 : Nat) (c s : Int) (i : Nat) (p : Buf)
    (hi : i + n2 < 2147483648) (h1 : p (2 * i) = 32767 / 2 ^ a) (h2 : p (2 * i + 1) = 0)
    (h3 : p (2 * (i + n2)) = 0) (h4 : p (2 * (i + n2) + 1) = 0) :
    radix2_last_body n2 c s i p
      = (((p.set (2 * i) (32767 / 2 ^ a)).set (2 * i + 1) 0).set (2 * (i + n2))
          (32767 / 2 ^ a)).set (2 * (i + n2) + 1) 0 := by
  obtain ⟨_, _, _, k4, k5⟩ := impulse_mid_arith a
  have k0 : wrap16 (0 + 0) = 0 := by decide
  have k6 : wrap16 (0 - 0) = 0 := by decide
  rw [radix2_last_body_stores n2 c s i p hi]
  simp only [h1, h2, h3, h4, k0, k4, k5, k6]

theorem CombOn_stride {n D D2 : Nat} {v : Int} {p : Buf} (h : D = D2)
    (hp : CombOn n D v p) : CombOn n D2 v p := h ▸ hp

/-- `groupLoop_comb` for a length given as a product. -/
theorem groupLoop_comb_len (N q h n2 : Nat) (v w : Int) (pCoef : Buf) (twid : Nat)
    (body : Int → Int → Nat → Buf → Buf) (p : Buf) (hN : N = q * h)
    (hh : h = 2 * n2) (hn2 : 1 ≤ n2) (hq : 1 ≤ q) (hlen : N ≤ 2147483648)
    (hc0 : pCoef 0 = 32767) (hc1 : pCoef 1 = 0)
    (hz : ∀ c s i p, i + n2 < N → p (2 * i) = 0 → p (2 * i + 1) = 0 →
      p (2 * (i + n2)) = 0 → p (2 * (i + n2) + 1) = 0 → body c s i p = p)
    (hv : ∀ i p, i + n2 < N → p (2 * i) = v → p (2 * i + 1) = 0 →
      p (2 * (i + n2)) = 0 → p (2 * (i + n2) + 1) = 0 →
      body 32767 0 i p = (((p.set (2 * i) w).set (2 * i + 1) 0).set (2 * (i + n2)) w).set
        (2 * (i + n2) + 1) 0)
    (hp : CombOn (2 * N) (2 * h) v p) :
    CombOn (2 * N) h w (groupLoop N h n2 pCoef twid body p) := by
  subst hN
  exact groupLoop_comb q h n2 v w pCoef twid body p hh hn2 hq hlen hc0 hc1 hz hv hp

/-- The stage loop on the impulse comb: it is left with `n2 = 2` and a comb of stride 4
whose value has been halved once per stage. -/
theorem stageLoop_comb (m : Nat) (hm31 : m ≤ 31) (pCoef : Buf)
    (hc0 : pCoef 0 = 32767) (hc1 : pCoef 1 = 0) :
    ∀ (fuel e a : Nat) (s : StageState), e + 1 + a = m → s.k = 2 ^ (e + 1) →
      s.n2 = 2 ^ (e + 1) → e ≤ fuel →
      CombOn (2 * 2 ^ m) (2 * 2 ^ (e + 1)) (32767 / 2 ^ (a + 1)) s.pSrc →
      (whileLoop (fun s : StageState => decide (s.k > 2))
        (fun s =>
          let n1 := s.n2
          let n2 := s.n2 >>> 1
          let pSrc := groupLoop (2 ^ m) n1 n2 pCoef s.twidCoefModifier (radix2_mid_body n2)
            s.pSrc
          StageState.mk (s.k >>> 1) n1 n2 (u16 (s.twidCoefModifier <<< 1)) pSrc)
        fuel s).n2 = 2 ∧
      CombOn (2 * 2 ^ m) 4 (32767 / 2 ^ m)
        (whileLoop (fun s : StageState => decide (s.k > 2))
          (fun s =>
            let n1 := s.n2
            let n2 := s.n2 >>> 1
            let pSrc := groupLoop (2 ^ m) n1 n2 pCoef s.twidCoefModifier (radix2_mid_body n2)
              s.pSrc
            StageState.mk (s.k >>> 1) n1 n2 (u16 (s.twidCoefModifier <<< 1)) pSrc)
          fuel s).pSrc := by
  have hN : (2 : Nat) ^ m ≤ 2147483648 := by
    have : (2 : Nat) ^ m ≤ 2 ^ 31 := Nat.pow_le_pow_right (by norm_num) hm31
    norm_num at this
    exact this
  intro fuel
  induction fuel with
  | zero =>
    intro e a s hea hk hn he hp
    have : e = 0 := by omega
    subst this
    have ha : a + 1 = m := by omega
    simp only [whileLoop]
    refine ⟨by simpa using hn, ?_⟩
    rw [ha] at hp
    simpa using hp
  | succ f ih =>
    intro e a s hea hk hn he hp
    cases e with
    | zero =>
      have hc : ¬ (s.k > 2) := by rw [hk]; norm_num
      have ha : a + 1 = m := by omega
      simp only [whileLoop, hc, decide_False, Bool.false_eq_true, if_false]
      refine ⟨by simpa using hn, ?_⟩
      rw [ha] at hp
      simpa using hp
    | succ e =>
      have hpe : 0 < 2 ^ e := Nat.two_pow_pos e
      have hc : s.k > 2 := by
        rw [hk]
        have : 2 ^ (e + 1 + 1) = 4 * 2 ^ e := by ring
        omega
      have hhalf : (2 : Nat) ^ (e + 1 + 1) >>> 1 = 2 ^ (e + 1) := by
        rw [Nat.shiftRight_eq_div_pow, pow_one, pow_succ 2 (e + 1)]
        omega
      simp only [whileLoop, hc, decide_True, if_true]
      apply ih e (a + 1)
      · omega
      · show s.k >>> 1 = 2 ^ (e + 1)
        rw [hk, hhalf]
      · show s.n2 >>> 1 = 2 ^ (e + 1)
        rw [hn, hhalf]
      · omega
      · show CombOn (2 * 2 ^ m) (2 * 2 ^ (e + 1)) (32767 / 2 ^ (a + 1 + 1))
          (groupLoop (2 ^ m) s.n2 (s.n2 >>> 1) pCoef s.twidCoefModifier
            (radix2_mid_body (s.n2 >>> 1)) s.pSrc)
        rw [hn, hhalf]
        have h2 : (2 : Nat) ^ (e + 1 + 1) = 2 * 2 ^ (e + 1) := by ring
        have hmN : (2 : Nat) ^ m = 2 ^ a * 2 ^ (e + 1 + 1) := by
          rw [← pow_add]; congr 1; omega
        have hres := groupLoop_comb_len (2 ^ m) (2 ^ a) (2 ^ (e + 1 + 1)) (2 ^ (e + 1))
          (32767 / 2 ^ (a + 1)) (32767 / 2 ^ (a + 1 + 1)) pCoef s.twidCoefModifier
          (radix2_mid_body (2 ^ (e + 1))) s.pSrc hmN h2 (Nat.two_pow_pos _)
          (Nat.two_pow_pos _) hN hc0 hc1
          (fun c s i p hi => radix2_mid_body_zero _ c s i p (by omega))
          (fun i p hi => radix2_mid_body_impulse (a + 1) _ i p (by omega)) hp
        exact CombOn_stride h2 hres

/-- C15: impulse response of the radix-2 engine.  For every `fftLen = 2 ^ m` with
`2 ≤ m` (`m ≤ 31`, `fftLen` being a `uint32_t`), every twiddle stride and every twiddle
table whose first pair is `(0x7FFF, 0)`, `arm_radix2_butterfly_q15` applied to the
buffer with the real sample 0 equal to `0x7FFF` and all other samples 0 returns a flat
spectrum: every complex bin `k < fftLen` is `(0x7FFF >> m, 0)`. -/
theorem arm_radix2_butterfly_q15_impulse (m : Nat) (hm : 2 ≤ m) (hm31 : m ≤ 31)
    (pCoef : Buf) (twidCoefModifier : Nat) (pSrc : Buf)
    (hc0 : pCoef 0 = 32767) (hc1 : pCoef 1 = 0) (h0 : pSrc 0 = 32767)
    (hrest : ∀ idx, 0 < idx → idx < 2 * 2 ^ m → pSrc idx = 0) (k : Nat) (hk : k < 2 ^ m) :
    arm_radix2_butterfly_q15 pSrc (2 ^ m) pCoef twidCoefModifier (2 * k) = shr 32767 m ∧
    arm_radix2_butterfly_q15 pSrc (2 ^ m) pCoef twidCoefModifier (2 * k + 1) = 0 := by
  obtain ⟨e, rfl⟩ : ∃ e, m = e + 2 := ⟨m - 2, by omega⟩
  have hN : (2 : Nat) ^ (e + 2) ≤ 2147483648 := by
    have : (2 : Nat) ^ (e + 2) ≤ 2 ^ 31 := Nat.pow_le_pow_right (by norm_num) hm31
    norm_num at this
    exact this
  have hpos : 0 < 2 ^ (e + 2) := Nat.two_pow_pos _
  have hdiv : 2 ^ (e + 2) / 2 = 2 ^ (e + 1) := by
    rw [pow_succ 2 (e + 1)]; omega
  have hhalf : (2 : Nat) ^ (e + 2) >>> 1 = 2 ^ (e + 1) := by
    rw [Nat.shiftRight_eq_div_pow, pow_one, hdiv]
  have h2 : (2 : Nat) ^ (e + 2) = 2 * 2 ^ (e + 1) := by ring
  -- the input is a comb of stride `2 * fftLen`
  have hp0 : CombOn (2 * 2 ^ (e + 2)) (2 * 2 ^ (e + 2)) 32767 pSrc := by
    intro idx hidx
    by_cases hz : idx = 0
    · subst hz; rw [h0, if_pos (dvd_zero _)]
    · rw [hrest idx (by omega) hidx, if_neg (Nat.not_dvd_of_pos_of_lt (by omega) hidx)]
  -- first stage
  have hp1 : CombOn (2 * 2 ^ (e + 2)) (2 * 2 ^ (e + 1)) (32767 / 2 ^ (1 + 1))
      (groupLoop (2 ^ (e + 2)) (2 ^ (e + 2)) (2 ^ (e + 1)) pCoef twidCoefModifier
        (radix2_first_body (2 ^ (e + 1))) pSrc) := by
    have h8 : (32767 : Int) / 2 ^ (1 + 1) = 8191 := by decide
    rw [h8]
    apply CombOn_stride h2
    exact groupLoop_comb_len (2 ^ (e + 2)) 1 (2 ^ (e + 2)) (2 ^ (e + 1)) 32767 8191 pCoef
      twidCoefModifier (radix2_first_body (2 ^ (e + 1))) pSrc (by ring) h2
      (Nat.two_pow_pos _) (le_refl 1) hN hc0 hc1
      (fun c s i p hi => radix2_first_body_zero _ c s i p (by omega))
      (fun i p hi => radix2_first_body_impulse _ i p (by omega)) hp0
  -- middle stages
  obtain ⟨hn2, hp2⟩ := stageLoop_comb (e + 2) hm31 pCoef hc0 hc1 (2 ^ (e + 2)) e 1
    (StageState.mk (2 ^ (e + 2) / 2) (2 ^ (e + 2)) (2 ^ (e + 1))
      (u16 (twidCoefModifier <<< 1))
      (groupLoop (2 ^ (e + 2)) (2 ^ (e + 2)) (2 ^ (e + 1)) pCoef twidCoefModifier
        (radix2_first_body (2 ^ (e + 1))) pSrc))
    (by omega) hdiv rfl (by have := Nat.lt_two_pow (e + 2); omega) hp1
  -- last stage
  have hlast : CombOn (2 * 2 ^ (e + 2)) 2 (32767 / 2 ^ (e + 2))
      (arm_radix2_butterfly_q15 pSrc (2 ^ (e + 2)) pCoef twidCoefModifier) := by
    simp only [arm_radix2_butterfly_q15, stageLoop, hhalf]
    rw [hn2]
    have hmN : (2 : Nat) ^ (e + 2) = 2 ^ (e + 1) * 2 := by ring
    exact groupLoop_comb_len (2 ^ (e + 2)) (2 ^ (e + 1)) 2 1 (32767 / 2 ^ (e + 2))
      (32767 / 2 ^ (e + 2)) pCoef _ (radix2_last_body 1) _ hmN rfl (le_refl 1)
      (Nat.two_pow_pos _) hN hc0 hc1
      (fun c s i p hi => radix2_last_body_zero _ c s i p (by omega))
      (fun i p hi => radix2_last_body_impulse (e + 2) _ _ _ i p (by omega) ) hp2
  have hshr : shr 32767 (e + 2) = 32767 / 2 ^ (e + 2) := by
    simp only [shr, Int.shiftRight_eq_div_pow]
    norm_cast
  constructor
  · rw [hlast (2 * k) (by omega), if_pos (Dvd.intro k rfl), hshr]
  · rw [hlast (2 * k + 1) (by omega), if_neg (by omega)]

/-! ## The radix-2 butterfly: values before narrowing -/

/-- The function is its last stage applied to the buffer of `radix2_before_last_stage`. -/
theorem arm_radix2_butterfly_q15_last_stage (pSrc : Buf) (fftLen : Nat) (pCoef : Buf)
    (twidCoefModifier : Nat) :
    ∃ n1 n2 twid, arm_radix2_butterfly_q15 pSrc fftLen pCoef twidCoefModifier
      = groupLoop fftLen n1 n2 pCoef twid (radix2_last_body n2)
          (radix2_before_last_stage pSrc fftLen pCoef twidCoefModifier) :=
  ⟨_, _, _, rfl⟩

/-- The first-stage butterfly of `arm_radix2_butterfly_q15` is the four stores of the
narrowed values of `preCombValues false`. -/
theorem radix2_first_body_eq_store (n2 : Nat) (c s : Int) (i : Nat) (p : Buf)
    (hi : i + n2 < 2147483648) :
    radix2_first_body n2 c s i p
      = (preCombValues false (p (2 * i)) (p (2 * i + 1)) (p (2 * (i + n2)))
          (p (2 * (i + n2) + 1)) c s).store i (i + n2) p := by
  rw [radix2_first_body_stores n2 c s i p hi]
  rfl

/-- C17, as stated, fails: with `fftLen = 4`, the Q15 buffer `fullSwingBuf` and the table
`diagonalCoef` (every pair has `cos ^ 2 + sin ^ 2 ≤ 2 ^ 30`), the buffer that enters the
last stage holds `23168` in sample 4 and `-23170` in sample 6, so that the butterfly
`i = 2`, `l = 3` of the last stage computes `xt = 46338`, outside `[-32768, 32767]`; the
16-bit store keeps `46338 - 65536 = -19198`, which is the sample 6 of the result. -/
theorem arm_radix2_butterfly_q15_last_stage_wraps :
    (∀ j, isQ15 (fullSwingBuf j)) ∧
    (∀ j, diagonalCoef (2 * j) ^ 2 + diagonalCoef (2 * j + 1) ^ 2 ≤ 2 ^ 30) ∧
    radix2_before_last_stage fullSwingBuf 4 diagonalCoef 1 4 = 23168 ∧
    radix2_before_last_stage fullSwingBuf 4 diagonalCoef 1 6 = -23170 ∧
    radix2_last_xt 1 2
      (radix2_last_body 1 23170 23170 0 (radix2_before_last_stage fullSwingBuf 4 diagonalCoef 1))
      = 46338 ∧
    ¬ isQ15 46338 ∧
    arm_radix2_butterfly_q15 fullSwingBuf 4 diagonalCoef 1 6 = -19198 := by
  refine ⟨?_, ?_, by decide, by decide, by decide, by decide, by decide⟩
  · intro j
    unfold fullSwingBuf
    split_ifs <;> decide
  · intro j
    unfold diagonalCoef
    norm_num

/-- C17, amended to the first stage: for every `fftLen ≤ 2 ^ 31`, every buffer of Q15
samples and every Q15 twiddle pair `(cosVal, sinVal)`, the butterfly of every
`i < fftLen / 2` of the first stage of `arm_radix2_butterfly_q15` stores the narrowed
values of `preCombValues false`, every one of these values already lies in
`[-32768, 32767]` before it is narrowed, and the buffer stays a Q15 buffer. -/
theorem radix2_first_stage_no_wrap (fftLen : Nat) (cosVal sinVal : Int) (pSrc : Buf) (i : Nat)
    (hi : i < fftLen / 2) (hlen : fftLen ≤ 2147483648)
    (hsrc : ∀ j, j < 2 * fftLen → isQ15 (pSrc j)) (hc : isQ15 cosVal) (hs : isQ15 sinVal) :
    radix2_first_body (fftLen / 2) cosVal sinVal i pSrc
      = (preCombValues false (pSrc (2 * i)) (pSrc (2 * i + 1)) (pSrc (2 * (i + fftLen / 2)))
          (pSrc (2 * (i + fftLen / 2) + 1)) cosVal sinVal).store i (i + fftLen / 2) pSrc ∧
    (preCombValues false (pSrc (2 * i)) (pSrc (2 * i + 1)) (pSrc (2 * (i + fftLen / 2)))
        (pSrc (2 * (i + fftLen / 2) + 1)) cosVal sinVal).inRange ∧
    ∀ j, j < 2 * fftLen → isQ15 (radix2_first_body (fftLen / 2) cosVal sinVal i pSrc j) := by
  have hf := radix2_first_body_eq_store (fftLen / 2) cosVal sinVal i pSrc (by omega)
  refine ⟨hf, ?_, ?_⟩
  · exact preCombValues_inRange false _ _ _ _ _ _ (hsrc _ (by omega)) (hsrc _ (by omega))
      (hsrc _ (by omega)) (hsrc _ (by omega)) hc hs
  · rw [hf]; exact PreCombValues.store_isQ15 _ _ _ _ _ hsrc

/-- Instance of C17 (amended): `fftLen = 4`, butterfly `i = 1` on `fullSwingBuf`, where
`xt` reaches `-32767`. -/
theorem radix2_first_stage_no_wrap_witness :
    (radix2_first_body (4 / 2) 23170 23170 1 fullSwingBuf
      = (preCombValues false (fullSwingBuf (2 * 1)) (fullSwingBuf (2 * 1 + 1))
          (fullSwingBuf (2 * (1 + 4 / 2))) (fullSwingBuf (2 * (1 + 4 / 2) + 1)) 23170
          23170).store 1 (1 + 4 / 2) fullSwingBuf ∧
    (preCombValues false (fullSwingBuf (2 * 1)) (fullSwingBuf (2 * 1 + 1))
        (fullSwingBuf (2 * (1 + 4 / 2))) (fullSwingBuf (2 * (1 + 4 / 2) + 1)) 23170
        23170).inRange ∧
    ∀ j, j < 2 * 4 → isQ15 (radix2_first_body (4 / 2) 23170 23170 1 fullSwingBuf j)) ∧
    (preCombValues false (fullSwingBuf (2 * 1)) (fullSwingBuf (2 * 1 + 1))
        (fullSwingBuf (2 * (1 + 4 / 2))) (fullSwingBuf (2 * (1 + 4 / 2) + 1)) 23170
        23170).xt = -32767 :=
  ⟨radix2_first_stage_no_wrap 4 23170 23170 fullSwingBuf 1 (by decide) (by decide)
    (fun j _ => by unfold fullSwingBuf; split_ifs <;> decide) (by decide) (by decide),
   by decide⟩

/-! ## Bit reversal -/

theorem swapComplexSlots_apply (a b : Nat) (p : Buf) (j : Nat) :
    swapComplexSlots a b p j = p (2 * swapIdx a b (j / 2) + j % 2) := by
  simp only [swapComplexSlots, swapIdx]
  split_ifs <;> (congr 1; omega)

theorem swapIdx_swapIdx (a b s : Nat) : swapIdx a b (swapIdx a b s) = s := by
  simp only [swapIdx]
  split_ifs <;> omega

theorem swapIdx_comm (a b c d s : Nat) (h1 : a ≠ c) (h2 : a ≠ d) (h3 : b ≠ c) (h4 : b ≠ d) :
    swapIdx c d (swapIdx a b s) = swapIdx a b (swapIdx c d s) := by
  simp only [swapIdx]
  split_ifs <;> omega

theorem slot_div (x r : Nat) (hr : r < 2) : (2 * x + r) / 2 = x := by omega

theorem slot_mod (x r : Nat) (hr : r < 2) : (2 * x + r) % 2 = r := by omega

theorem swapComplexSlots_swapComplexSlots (a b : Nat) (p : Buf) :
    swapComplexSlots a b (swapComplexSlots a b p) = p := by
  funext j
  have hr : j % 2 < 2 := Nat.mod_lt _ (by norm_num)
  rw [swapComplexSlots_apply, swapComplexSlots_apply, slot_div _ _ hr, slot_mod _ _ hr,
    swapIdx_swapIdx]
  congr 1
  omega

theorem swapComplexSlots_comm (a b c d : Nat) (p : Buf) (h1 : a ≠ c) (h2 : a ≠ d)
    (h3 : b ≠ c) (h4 : b ≠ d) :
    swapComplexSlots a b (swapComplexSlots c d p)
      = swapComplexSlots c d (swapComplexSlots a b p) := by
  funext j
  have hr : j % 2 < 2 := Nat.mod_lt _ (by norm_num)
  rw [swapComplexSlots_apply, swapComplexSlots_apply, swapComplexSlots_apply,
    swapComplexSlots_apply, slot_div _ _ hr, slot_mod _ _ hr, slot_div _ _ hr,
    slot_mod _ _ hr, swapIdx_comm a b c d _ h1 h2 h3 h4]

/-- A swap of slots that no pair of the first `n` pairs touches commutes with the
first `n` swaps. -/
theorem iterBody_swap_comm (tab : Nat → Nat) (a b : Nat) :
    ∀ (n : Nat) (p : Buf),
      (∀ t, t < n → tab (2 * t) ≠ a ∧ tab (2 * t) ≠ b ∧ tab (2 * t + 1) ≠ a ∧
        tab (2 * t + 1) ≠ b) →
      iterBody (fun t p => swapComplexSlots (tab (2 * t)) (tab (2 * t + 1)) p) n
          (swapComplexSlots a b p)
        = swapComplexSlots a b
          (iterBody (fun t p => swapComplexSlots (tab (2 * t)) (tab (2 * t + 1)) p) n p) := by
  intro n
  induction n with
  | zero => intro p _; rfl
  | succ n ih =>
    intro p h
    obtain ⟨h1, h2, h3, h4⟩ := h n (by omega)
    simp only [iterBody]
    rw [ih p (fun t ht => h t (by omega))]
    exact swapComplexSlots_comm _ _ _ _ _ h1 h2 h3 h4

theorem iterBody_swap_twice (tab : Nat → Nat) :
    ∀ (n : Nat) (p : Buf),
      (∀ t u, t < u → u < n → tab (2 * t) ≠ tab (2 * u) ∧ tab (2 * t) ≠ tab (2 * u + 1) ∧
        tab (2 * t + 1) ≠ tab (2 * u) ∧ tab (2 * t + 1) ≠ tab (2 * u + 1)) →
      iterBody (fun t p => swapComplexSlots (tab (2 * t)) (tab (2 * t + 1)) p) n
          (iterBody (fun t p => swapComplexSlots (tab (2 * t)) (tab (2 * t + 1)) p) n p)
        = p := by
  intro n
  induction n with
  | zero => intro p _; rfl
  | succ n ih =>
    intro p h
    simp only [iterBody]
    rw [iterBody_swap_comm tab _ _ n _ (fun t ht => h t n ht (by omega)),
      swapComplexSlots_swapComplexSlots]
    exact ih p (fun t u htu hu => h t u htu (by omega))

/-- C20: applying the modelled `arm_bitreversal_16` twice with the bit-reversal length
and table of a complex FFT instance restores the original buffer exactly, for any buffer
contents; with an empty table (`bitRevLen = 0`) it is a no-op for every table pointer.
The table is a bit-reversal table: each of its pairs names a slot and its bit-reversed
slot, once, so that no complex slot occurs in two different pairs (`PairsDisjoint`). -/
theorem arm_bitreversal_16_involution (S : arm_cfft_instance_q15) (pSrc : Buf)
    (hdisj : PairsDisjoint S.bitRevLength S.pBitRevTable) :
    arm_bitreversal_16_spec (arm_bitreversal_16_spec pSrc S.bitRevLength S.pBitRevTable)
        S.bitRevLength S.pBitRevTable = pSrc ∧
    ∀ tab : Nat → Nat, arm_bitreversal_16_spec pSrc 0 tab = pSrc := by
  constructor
  · unfold arm_bitreversal_16_spec
    rw [forLoop_eq_iterBody, forLoop_eq_iterBody]
    exact iterBody_swap_twice S.pBitRevTable _ pSrc hdisj
  · intro tab
    rfl

/-- Instance of C20: the bit-reversal pairs `(1, 4)` and `(3, 6)` of the length 8 on
`exampleBuf`; one application moves sample 8 to sample 2. -/
theorem arm_bitreversal_16_involution_witness :
    PairsDisjoint 4 bitRevTable8 ∧
    arm_bitreversal_16_spec (arm_bitreversal_16_spec exampleBuf 4 bitRevTable8) 4 bitRevTable8
      = exampleBuf ∧
    arm_bitreversal_16_spec exampleBuf 4 bitRevTable8 2 = exampleBuf 8 :=
  have hd : PairsDisjoint 4 bitRevTable8 := by
    intro t u htu hu
    have hu1 : u = 1 := by omega
    have ht0 : t = 0 := by omega
    subst hu1; subst ht0
    decide
  ⟨hd, (arm_bitreversal_16_involution
      { fftLen := 8, pTwiddle := exampleCoef, pBitRevTable := bitRevTable8, bitRevLength := 4 }
      exampleBuf hd).1, by decide⟩

/-! ## Instances of the theorems at concrete inputs -/

theorem exampleRealCoefA_q15 (k : Nat) :
    isQ15 (exampleRealCoefA k) ∧ exampleRealCoefA k ≠ -32768 := by
  unfold exampleRealCoefA
  split_ifs <;> decide

theorem exampleRealCoefB_q15 (k : Nat) :
    isQ15 (exampleRealCoefB k) ∧ exampleRealCoefB k ≠ -32768 := by
  unfold exampleRealCoefB
  decide

theorem exampleBuf_q15 (j : Nat) : isQ15 (exampleBuf j) := by
  unfold exampleBuf
  split_ifs <;> decide

theorem exampleCoef_q15 (j : Nat) : isQ15 (exampleCoef j) := by
  unfold exampleCoef
  split_ifs <;> decide

/-- Instance of C11: bin 3 of the split of length 16 on `exampleBuf`. -/
theorem arm_split_rifft_q15_conj_witness :
    (arm_split_rifft_q15 exampleBuf 16 exampleRealCoefA exampleRealCoefB zeroBuf 1 (2 * 3)
      = arm_split_rfft_q15 exampleBuf 16 (conjTable exampleRealCoefA)
          (conjTable exampleRealCoefB) exampleBuf 1 (2 * 3) ∧
    arm_split_rifft_q15 exampleBuf 16 exampleRealCoefA exampleRealCoefB zeroBuf 1 (2 * 3 + 1)
      = arm_split_rfft_q15 exampleBuf 16 (conjTable exampleRealCoefA)
          (conjTable exampleRealCoefB) exampleBuf 1 (2 * 3 + 1)) ∧
    arm_split_rifft_q15 exampleBuf 16 exampleRealCoefA exampleRealCoefB zeroBuf 1 (2 * 1)
      = -4751 :=
  ⟨arm_split_rifft_q15_conj exampleBuf 16 exampleRealCoefA exampleRealCoefB zeroBuf exampleBuf
    1 3 (by decide) (by decide) (by decide) exampleRealCoefA_q15 exampleRealCoefB_q15,
   by decide⟩

/-- Instance of C12: the inverse real FFT of length 32 on `exampleBuf`. -/
theorem arm_rfft_q15_inverse_witness :
    exampleRifftInstance32.ifftFlagR = 1 ∧
    (arm_rfft_q15 idExterns exampleRifftInstance32 exampleBuf zeroBuf).2
      = idExterns.arm_shift_q15
          (rifft_before_shift idExterns exampleRifftInstance32 exampleBuf zeroBuf) 1
          (rifft_before_shift idExterns exampleRifftInstance32 exampleBuf zeroBuf)
          exampleRifftInstance32.fftLenReal :=
  have h : exampleRifftInstance32.ifftFlagR = 1 := by decide
  ⟨h, (arm_rfft_q15_inverse idExterns exampleRifftInstance32 exampleBuf zeroBuf h).2.2.1⟩

/-- Instance of C13: the split of length 16 reads 34 source samples and writes 32
destination samples. -/
theorem arm_split_rifft_q15_footprint_witness :
    (∀ j, j < 2 * 16 →
      arm_split_rifft_q15 (exampleBuf.set 34 5) 16 exampleRealCoefA exampleRealCoefB exampleBuf
          1 j
        = arm_split_rifft_q15 exampleBuf 16 exampleRealCoefA exampleRealCoefB zeroBuf 1 j) ∧
    (∀ j, 2 * 16 ≤ j →
      arm_split_rifft_q15 exampleBuf 16 exampleRealCoefA exampleRealCoefB zeroBuf 1 j
        = zeroBuf j) :=
  arm_split_rifft_q15_footprint exampleBuf (exampleBuf.set 34 5) 16 exampleRealCoefA
    exampleRealCoefB zeroBuf exampleBuf 1 (by decide)
    (fun k hk => by
      unfold Buf.set
      rw [if_neg (by omega)])

/-- Instance of C14: `fftLen = 4` on `exampleBuf`. -/
theorem radix2_forward_inverse_same_network_witness :
    arm_radix2_butterfly_q15 exampleBuf (2 ^ 2) exampleCoef 1
      = radix2_network 1 exampleBuf (2 ^ 2) exampleCoef 1 ∧
    arm_radix2_butterfly_inverse_q15 exampleBuf (2 ^ 2) exampleCoef 1
      = radix2_network (-1) exampleBuf (2 ^ 2) exampleCoef 1 ∧
    arm_radix2_butterfly_q15 exampleBuf (2 ^ 2) exampleCoef 1 6 = 8014 ∧
    arm_radix2_butterfly_inverse_q15 exampleBuf (2 ^ 2) exampleCoef 1 6 = 8016 :=
  have h := radix2_forward_inverse_same_network exampleExterns exampleBuf 2 (by decide)
    exampleCoef 1
  ⟨h.1, h.2.1, by decide, by decide⟩

/-- Instance of C15: `fftLen = 4`, bin 3. -/
theorem arm_radix2_butterfly_q15_impulse_witness :
    arm_radix2_butterfly_q15 impulseBuf (2 ^ 2) exampleCoef 1 (2 * 3) = shr 32767 2 ∧
    arm_radix2_butterfly_q15 impulseBuf (2 ^ 2) exampleCoef 1 (2 * 3 + 1) = 0 :=
  arm_radix2_butterfly_q15_impulse 2 (by decide) (by decide) exampleCoef 1 impulseBuf rfl rfl
    rfl (fun idx h0 _ => by unfold impulseBuf; rw [if_neg (by omega)]) 3 (by decide)

/-- Instance of C16: `fftLen = 4`, butterfly `i = 1` on `exampleBuf`. -/
theorem radix4by2_pre_pass_no_wrap_witness :
    (preCombValues false (exampleBuf (2 * 1)) (exampleBuf (2 * 1 + 1))
      (exampleBuf (2 * (1 + 4 / 2))) (exampleBuf (2 * (1 + 4 / 2) + 1)) (exampleCoef (2 * 1))
      (exampleCoef (2 * 1 + 1))).inRange ∧
    (preCombValues true (exampleBuf (2 * 1)) (exampleBuf (2 * 1 + 1))
      (exampleBuf (2 * (1 + 4 / 2))) (exampleBuf (2 * (1 + 4 / 2) + 1)) (exampleCoef (2 * 1))
      (exampleCoef (2 * 1 + 1))).inRange :=
  have h := radix4by2_pre_pass_no_wrap 4 exampleCoef exampleBuf 1 (by decide) (by decide)
    (fun j _ => exampleBuf_q15 j) (fun j _ => exampleCoef_q15 j)
  ⟨h.1.2.1, h.2.2.1⟩

/-! ## Partial convolution: the range check and the output loop -/

/-- A loop whose condition holds in every state that it can reach does not return,
whatever the fuel. -/
theorem whileLoopFuel_none {σ : Type} (cond : σ → Bool) (step : σ → Option σ)
    (inv : σ → Prop) (hcond : ∀ s, inv s → cond s = true)
    (hstep : ∀ s t, inv s → step s = some t → inv t) :
    ∀ (fuel : Nat) (s : σ), inv s → whileLoopFuel cond step fuel s = none := by
  intro fuel
  induction fuel with
  | zero =>
    intro s hs
    simp only [whileLoopFuel, hcond s hs, if_true]
  | succ f ih =>
    intro s hs
    simp only [whileLoopFuel, hcond s hs, if_true]
    cases h : step s with
    | none => rfl
    | some t => exact ih t (hstep s t hs h)

/-- Whenever the range check of `arm_conv_partial_f32` fails, the function returns
`ARM_MATH_ARGUMENT_ERROR` without writing to `pDst`. -/
theorem arm_conv_partial_f32_rejects {α : Type} (F : FloatOps α) (fuel : Nat)
    (pSrcA pSrcB pDst : Nat → α) (srcALen srcBLen firstIndex numPoints : Nat)
    (h : conv_partial_out_of_range srcALen srcBLen firstIndex numPoints = true) :
    arm_conv_partial_f32 F fuel pSrcA srcALen pSrcB srcBLen pDst firstIndex numPoints
      = some (arm_status.ARM_MATH_ARGUMENT_ERROR, pDst) := by
  unfold arm_conv_partial_f32
  simp only [h, if_true]

/-- C21, failing input: with `srcALen = srcBLen = 1` the allowed output indices are
`[0, 0]`; for `firstIndex = 0xFFFFFFFF`, `numPoints = 2` the requested range
`[4294967295, 4294967296]` is not contained in it, but the 32-bit sum
`firstIndex + numPoints` wraps to 1, the range check passes, and
`arm_conv_partial_f32` returns `ARM_MATH_SUCCESS` (with `pDst` as it was) and not
`ARM_MATH_ARGUMENT_ERROR`. -/
theorem arm_conv_partial_f32_range_check_wraps {α : Type} (F : FloatOps α) (fuel : Nat)
    (pSrcA pSrcB pDst : Nat → α) :
    ¬ (4294967295 + 2 - 1 ≤ 1 + 1 - 2) ∧
    conv_partial_out_of_range 1 1 4294967295 2 = false ∧
    arm_conv_partial_f32 F fuel pSrcA 1 pSrcB 1 pDst 4294967295 2
      = some (arm_status.ARM_MATH_SUCCESS, pDst) := by
  have hr : conv_partial_out_of_range 1 1 4294967295 2 = false := by decide
  have hc : (decide (4294967295 ≤ u32sub (u32 (4294967295 + 2)) 1)) = false := by decide
  refine ⟨by decide, hr, ?_⟩
  unfold arm_conv_partial_f32
  simp only [hr, Bool.false_eq_true, if_false]
  cases fuel <;> simp only [whileLoopFuel, hc, Bool.false_eq_true, if_false, Option.map]

/-- C22, failing input: `srcALen = srcBLen = 1`, `firstIndex = 0`, `numPoints = 0` passes
the range check, and the bound `firstIndex + numPoints - 1` of the output loop wraps to
`0xFFFFFFFF`, so that the condition `i <= 0xFFFFFFFF` holds for every `uint32_t` value
of `i`: `arm_conv_partial_f32` does not return, whatever the number of iterations
allowed. -/
theorem arm_conv_partial_f32_zero_points_diverges {α : Type} (F : FloatOps α)
    (pSrcA pSrcB pDst : Nat → α) :
    conv_partial_out_of_range 1 1 0 0 = false ∧
    u32sub (u32 (0 + 0)) 1 = 4294967295 ∧
    ∀ fuel, arm_conv_partial_f32 F fuel pSrcA 1 pSrcB 1 pDst 0 0 = none := by
  have hr : conv_partial_out_of_range 1 1 0 0 = false := by decide
  have hb : u32sub (u32 (0 + 0)) 1 = 4294967295 := by decide
  refine ⟨hr, hb, fun fuel => ?_⟩
  unfold arm_conv_partial_f32
  simp only [hr, Bool.false_eq_true, if_false, hb]
  rw [whileLoopFuel_none _ _ (fun s : Nat × (Nat → α) => s.1 < 4294967296) ?_ ?_ fuel
    (0, pDst) (by norm_num)]
  · rfl
  · intro s hs
    simp only [decide_eq_true_eq]
    omega
  · intro s t _ ht
    cases hsum : conv_partial_f32_sum F fuel pSrcA 1 pSrcB 1 s.1 with
    | none => simp [hsum] at ht
    | some v =>
      simp only [hsum, Option.map, Option.some.injEq] at ht
      rw [← ht]
      show u32 (s.1 + 1) < 4294967296
      unfold u32
      omega

/-! ## Countdown loops -/

/-- A loop `while (cnt > 0U) { ...; cnt--; }` entered with `cnt = n` runs its body `n`
times. -/
theorem whileLoop_countdown {σ : Type} (cnt : σ → Nat) (step : σ → σ)
    (hstep : ∀ s, 0 < cnt s → cnt (step s) = cnt s - 1) :
    ∀ (n : Nat) (s : σ), cnt s = n →
      whileLoop (fun s => decide (cnt s > 0)) step n s = step^[n] s := by
  intro n
  induction n with
  | zero => intro s _; rfl
  | succ n ih =>
    intro s hs
    have hpos : cnt s > 0 := by omega
    simp only [whileLoop, hpos, decide_True, if_true, Function.iterate_succ, Function.comp]
    exact ih (step s) (by rw [hstep s hpos]; omega)

theorem wrap32_add_wrap32 (x y : Int) : wrap32 (wrap32 x + y) = wrap32 (x + y) := by
  unfold wrap32; omega

theorem wrap64_of_range {x : Int} (h1 : -9223372036854775808 ≤ x)
    (h2 : x ≤ 9223372036854775807) : wrap64 x = x := by
  unfold wrap64; omega

/-! ## `arm_conv_q31`: the output is narrowed, not saturated -/

/-- C23, failing input: for the sequences of length 1 whose only sample is `-1.0`
(`0x80000000`) the accumulator is `2 ^ 62`; shifted right by 31 bits it is `2 ^ 31`, one
more than the largest Q31 value.  Saturated it would be `0x7FFFFFFF`; the cast
`(q31_t) (sum >> 31)` of `arm_conv_q31` stores `-2 ^ 31`. -/
theorem arm_conv_q31_output_wraps :
    (conv_q31_mac q31MinBuf q31MinBuf 1 0 0).sum = 4611686018427387904 ∧
    sat32 (shr (conv_q31_mac q31MinBuf q31MinBuf 1 0 0).sum 31) = 2147483647 ∧
    arm_conv_q31 q31MinBuf 1 q31MinBuf 1 zeroBuf 0 = -2147483648 := by
  refine ⟨by decide, by decide, by decide⟩

/-! ## `arm_dot_prod_q7`: the 32-bit accumulator -/

theorem dot_prod_q7_iterate (pSrcA pSrcB : Buf) (n : Nat)
    (hA : ∀ i, i < n → isQ7 (pSrcA i)) (hB : ∀ i, i < n → isQ7 (pSrcB i)) :
    ∀ k, k ≤ n →
      (dot_prod_q7_step pSrcA pSrcB)^[k] { blkCnt := n, pSrcA := 0, pSrcB := 0, sum := 0 }
        = { blkCnt := n - k, pSrcA := k, pSrcB := k, sum := wrap32 (dotSum pSrcA pSrcB k) } := by
  intro k
  induction k with
  | zero => intro _; rfl
  | succ k ih =>
    intro hk
    rw [Function.iterate_succ_apply', ih (by omega)]
    obtain ⟨a1, a2⟩ := hA k (by omega)
    obtain ⟨b1, b2⟩ := hB k (by omega)
    have hw : wrap16 (pSrcA k) = pSrcA k := wrap16_of_range (by omega) (by omega)
    have hp1 : -16384 ≤ pSrcA k * pSrcB k := by nlinarith
    have hp2 : pSrcA k * pSrcB k ≤ 16384 := by nlinarith
    have hw2 : wrap32 (pSrcA k * pSrcB k) = pSrcA k * pSrcB k :=
      wrap32_of_range (by omega) (by omega)
    simp only [dot_prod_q7_step, dotSum, hw, hw2, wrap32_add_wrap32, Nat.sub_add_eq]

/-- The result of `arm_dot_prod_q7` is the exact sum of the products narrowed to 32
bits. -/
theorem arm_dot_prod_q7_eq (pSrcA pSrcB : Buf) (n : Nat)
    (hA : ∀ i, i < n → isQ7 (pSrcA i)) (hB : ∀ i, i < n → isQ7 (pSrcB i)) :
    arm_dot_prod_q7 pSrcA pSrcB n = wrap32 (dotSum pSrcA pSrcB n) := by
  unfold arm_dot_prod_q7
  rw [whileLoop_countdown DotProdState.blkCnt (dot_prod_q7_step pSrcA pSrcB)
    (fun s _ => rfl) n _ rfl, dot_prod_q7_iterate pSrcA pSrcB n hA hB n (le_refl n)]

theorem dotSum_q7MinBuf (n : Nat) : dotSum q7MinBuf q7MinBuf n = 16384 * n := by
  induction n with
  | zero => rfl
  | succ n ih =>
    simp only [dotSum, ih, q7MinBuf]
    push_cast
    ring

/-- C24, failing input: two vectors of `2 ^ 17 = 131072 < 2 ^ 18` elements that are all
`-1.0` (`0x80`).  Every product is `2 ^ 14`, the exact sum of the products is `2 ^ 31`,
and the 32-bit accumulator of `arm_dot_prod_q7` wraps: the result is `-2 ^ 31`. -/
theorem arm_dot_prod_q7_wraps :
    (131072 : Nat) < 2 ^ 18 ∧
    (∀ i, isQ7 (q7MinBuf i)) ∧
    dotSum q7MinBuf q7MinBuf 131072 = 2147483648 ∧
    arm_dot_prod_q7 q7MinBuf q7MinBuf 131072 = -2147483648 := by
  have hq : ∀ i, isQ7 (q7MinBuf i) := fun _ => by unfold q7MinBuf; decide
  refine ⟨by norm_num, hq, ?_, ?_⟩
  · rw [dotSum_q7MinBuf]; norm_num
  · rw [arm_dot_prod_q7_eq q7MinBuf q7MinBuf 131072 (fun i _ => hq i) (fun i _ => hq i),
      dotSum_q7MinBuf]
    decide

/-! ## `arm_rms_q15`: the 64-bit accumulator -/

theorem shr_fifteen (x : Int) : shr x 15 = x / 32768 := by
  simp [shr, Int.shiftRight_eq_div_pow]

/-- The sum of the squares of `k` Q15 samples lies between 0 and `k * 2 ^ 30`. -/
theorem sumSq_bound (pSrc : Buf) (n : Nat) (hsrc : ∀ i, i < n → isQ15 (pSrc i)) :
    ∀ k, k ≤ n → 0 ≤ sumSq pSrc k ∧ sumSq pSrc k ≤ 1073741824 * k := by
  intro k
  induction k with
  | zero => intro _; exact ⟨le_refl _, le_refl _⟩
  | succ k ih =>
    intro hk
    obtain ⟨h1, h2⟩ := ih (by omega)
    obtain ⟨a1, a2⟩ := hsrc k (by omega)
    have hp1 : 0 ≤ pSrc k * pSrc k := mul_self_nonneg _
    have hp2 : pSrc k * pSrc k ≤ 1073741824 := by nlinarith
    simp only [sumSq]
    push_cast
    constructor <;> omega

theorem rms_q15_iterate (pSrc : Buf) (n : Nat) (hn : n ≤ 4294967295)
    (hsrc : ∀ i, i < n → isQ15 (pSrc i)) :
    ∀ k, k ≤ n →
      (rms_q15_step pSrc)^[k] (rms_q15_init n)
        = { blkCnt := n - k, pSrc := k, sum := sumSq pSrc k } := by
  intro k
  induction k with
  | zero => intro _; rfl
  | succ k ih =>
    intro hk
    rw [Function.iterate_succ_apply', ih (by omega)]
    obtain ⟨a1, a2⟩ := hsrc k (by omega)
    obtain ⟨s1, s2⟩ := sumSq_bound pSrc n hsrc k (by omega)
    have hw : wrap16 (pSrc k) = pSrc k := wrap16_of_range a1 a2
    have hp1 : 0 ≤ pSrc k * pSrc k := mul_self_nonneg _
    have hp2 : pSrc k * pSrc k ≤ 1073741824 := by nlinarith
    have hw2 : wrap32 (pSrc k * pSrc k) = pSrc k * pSrc k :=
      wrap32_of_range (by omega) (by omega)
    have hk2 : (k : Int) ≤ 4294967295 := by omega
    have hw3 : wrap64 (sumSq pSrc k + pSrc k * pSrc k) = sumSq pSrc k + pSrc k * pSrc k :=
      wrap64_of_range (by omega) (by omega)
    simp only [rms_q15_step, rms_q15_next_sum, sumSq, hw, hw2, hw3, Nat.sub_add_eq]

/-- C25: for every `blockSize` from 1 to `2 ^ 32 - 1` and every vector of Q15 samples,
the 64-bit accumulator of `arm_rms_q15` never overflows: before each iteration `k` the
accumulator is the exact sum of the first `k` squares, the value that the iteration
stores in it lies in the `q63_t` range before it is narrowed, and after the loop the
accumulator is the exact sum of all squares.  The value handed to `arm_sqrt_q15` is
`__SSAT((sum / blockSize) >> 15, 16)` of that exact sum; when `__SSAT (x, 16)` is the
saturation to 16 bits it lies in `[0, 32767]`. -/
theorem arm_rms_q15_no_overflow (H : Helpers) (pSrc : Buf) (blockSize : Nat)
    (h1 : 1 ≤ blockSize) (h2 : blockSize ≤ 4294967295)
    (hsrc : ∀ i, i < blockSize → isQ15 (pSrc i))
    (hsat : ∀ x, H.__SSAT x 16 = sat16 x) :
    (∀ k, k < blockSize →
      ((rms_q15_step pSrc)^[k] (rms_q15_init blockSize)).sum = sumSq pSrc k ∧
      isQ63 (rms_q15_next_sum pSrc ((rms_q15_step pSrc)^[k] (rms_q15_init blockSize)))) ∧
    arm_rms_q15_sum pSrc blockSize = sumSq pSrc blockSize ∧
    arm_rms_q15_arg H pSrc blockSize
      = sat16 (shr (sumSq pSrc blockSize / (blockSize : Int)) 15) ∧
    0 ≤ arm_rms_q15_arg H pSrc blockSize ∧ arm_rms_q15_arg H pSrc blockSize ≤ 32767 ∧
    arm_rms_q15 H pSrc blockSize
      = H.arm_sqrt_q15 (sat16 (shr (sumSq pSrc blockSize / (blockSize : Int)) 15)) := by
  have hsum : arm_rms_q15_sum pSrc blockSize = sumSq pSrc blockSize := by
    unfold arm_rms_q15_sum
    rw [whileLoop_countdown RmsState.blkCnt (rms_q15_step pSrc) (fun s _ => rfl) blockSize _
      rfl, rms_q15_iterate pSrc blockSize h2 hsrc blockSize (le_refl _)]
  obtain ⟨t1, t2⟩ := sumSq_bound pSrc blockSize hsrc blockSize (le_refl _)
  have hb : (0 : Int) < blockSize := by omega
  have hq1 : 0 ≤ sumSq pSrc blockSize / (blockSize : Int) := Int.ediv_nonneg t1 (by omega)
  have hq2 : sumSq pSrc blockSize / (blockSize : Int) ≤ 1073741824 :=
    Int.ediv_le_of_le_mul hb t2
  have harg : arm_rms_q15_arg H pSrc blockSize
      = sat16 (shr (sumSq pSrc blockSize / (blockSize : Int)) 15) := by
    have hw : wrap32 (shr (sumSq pSrc blockSize / (blockSize : Int)) 15)
        = shr (sumSq pSrc blockSize / (blockSize : Int)) 15 := by
      rw [shr_fifteen]
      exact wrap32_of_range (by omega) (by omega)
    unfold arm_rms_q15_arg
    rw [hsum, Int.tdiv_eq_ediv t1 (by omega), wrap64_of_range (by omega) (by omega), hw,
      hsat]
  have hrange : 0 ≤ sat16 (shr (sumSq pSrc blockSize / (blockSize : Int)) 15) ∧
      sat16 (shr (sumSq pSrc blockSize / (blockSize : Int)) 15) ≤ 32767 := by
    rw [shr_fifteen]
    unfold sat16
    split_ifs <;> constructor <;> omega
  refine ⟨fun k hk => ?_, hsum, harg, ?_, ?_, ?_⟩
  · rw [rms_q15_iterate pSrc blockSize h2 hsrc k (by omega)]
    obtain ⟨a1, a2⟩ := hsrc k hk
    obtain ⟨s1, s2⟩ := sumSq_bound pSrc blockSize hsrc k (by omega)
    have hw : wrap16 (pSrc k) = pSrc k := wrap16_of_range a1 a2
    have hp1 : 0 ≤ pSrc k * pSrc k := mul_self_nonneg _
    have hp2 : pSrc k * pSrc k ≤ 1073741824 := by nlinarith
    have hw2 : wrap32 (pSrc k * pSrc k) = pSrc k * pSrc k :=
      wrap32_of_range (by omega) (by omega)
    have hk2 : (k : Int) ≤ 4294967295 := by omega
    refine ⟨rfl, ?_⟩
    simp only [rms_q15_next_sum, hw, hw2, isQ63]
    constructor <;> omega
  · rw [harg]; exact hrange.1
  · rw [harg]; exact hrange.2
  · unfold arm_rms_q15
    rw [harg]

/-! ## `arm_scale_q31`: the shift saturates -/

theorem shr_eq_div_pow (x : Int) (n : Nat) : shr x n = x / 2 ^ n := by
  simp [shr, Int.shiftRight_eq_div_pow]

/-- The value `0x7FFFFFFF ^ (in >> 31)` is the Q31 bound on the side of the sign of
`in`. -/
theorem xor_sign_q31 (v : Int) (h1 : -2147483648 ≤ v) (h2 : v ≤ 2147483647) :
    wrap32 (Int.xor 2147483647 (shr v 31)) = if v < 0 then -2147483648 else 2147483647 := by
  rw [shr_eq_div_pow]
  by_cases hv : v < 0
  · have : v / 2 ^ 31 = -1 := by norm_num; omega
    rw [this, if_pos hv]
    decide
  · have : v / 2 ^ 31 = 0 := by norm_num; omega
    rw [this, if_neg hv]
    decide

/-- The left shift of `arm_scale_q31` with its overflow test is the saturation of the
shifted value. -/
theorem scale_q31_shift_sat (v : Int) (k : Nat) (hk : k ≤ 31) (h1 : -1073741824 ≤ v)
    (h2 : v ≤ 1073741824) :
    (if v ≠ shr (wrap32 (v * 2 ^ k)) k then wrap32 (Int.xor 2147483647 (shr v 31))
      else wrap32 (v * 2 ^ k)) = sat32 (v * 2 ^ k) := by
  rw [xor_sign_q31 v (by omega) (by omega), shr_eq_div_pow]
  interval_cases k <;> norm_num [wrap32, sat32] <;> split_ifs <;> omega

theorem scale_q31_mul_eq (x scaleFract : Int) (hx : isQ31 x) (hs : isQ31 scaleFract) :
    scale_q31_mul x scaleFract = x * scaleFract / 4294967296 ∧
    -1073741824 ≤ x * scaleFract / 4294967296 ∧ x * scaleFract / 4294967296 ≤ 1073741824 := by
  obtain ⟨x1, x2⟩ := hx
  obtain ⟨s1, s2⟩ := hs
  have p1 : -4611686018427387904 ≤ x * scaleFract := by nlinarith
  have p2 : x * scaleFract ≤ 4611686018427387904 := by nlinarith
  have hw : wrap64 (x * scaleFract) = x * scaleFract := wrap64_of_range (by omega) (by omega)
  have hd : shr (x * scaleFract) 32 = x * scaleFract / 4294967296 := by
    rw [shr_eq_div_pow]; norm_num
  unfold scale_q31_mul
  rw [hw, hd]
  exact ⟨wrap32_of_range (by omega) (by omega), by omega, by omega⟩

theorem vec_step_iterate (pSrc : Buf) (f : Int → Int) (n : Nat) (dst : Buf) :
    ∀ k, k ≤ n →
      (vec_step pSrc f)^[k] { blkCnt := n, pSrc := 0, pDst := 0, dst := dst }
        = { blkCnt := n - k, pSrc := k, pDst := k,
            dst := fun j => if j < k then f (pSrc j) else dst j } := by
  intro k
  induction k with
  | zero => intro _; rfl
  | succ k ih =>
    intro hk
    rw [Function.iterate_succ_apply', ih (by omega)]
    simp only [vec_step, Nat.sub_add_eq, VecState.mk.injEq, true_and]
    funext j
    simp only [Buf.set]
    by_cases h1 : j = k
    · subst h1
      rw [if_pos rfl, if_pos (by omega)]
    · rw [if_neg h1]
      by_cases h2 : j < k
      · rw [if_pos h2, if_pos (by omega)]
      · rw [if_neg h2, if_neg (by omega)]

/-- C26: for every `shift` with `0 ≤ shift + 1 ≤ 31`, every Q31 `scaleFract` and all Q31
inputs, each of the `blockSize` outputs of `arm_scale_q31` is
`floor(in * scaleFract / 2 ^ 32) * 2 ^ (shift + 1)` saturated to `[-2 ^ 31, 2 ^ 31 - 1]`;
the other samples of the destination are left as they were. -/
theorem arm_scale_q31_saturates (pSrc : Buf) (scaleFract shift : Int) (pDst : Buf)
    (blockSize : Nat) (hs1 : 0 ≤ shift + 1) (hs2 : shift + 1 ≤ 31) (hsf : isQ31 scaleFract)
    (hsrc : ∀ i, i < blockSize → isQ31 (pSrc i)) :
    (∀ j, j < blockSize →
      arm_scale_q31 pSrc scaleFract shift pDst blockSize j
        = sat32 (pSrc j * scaleFract / 4294967296 * 2 ^ (shift + 1).toNat)) ∧
    (∀ j, blockSize ≤ j → arm_scale_q31 pSrc scaleFract shift pDst blockSize j = pDst j) := by
  have hk : wrap8 (shift + 1) = shift + 1 := by unfold wrap8; omega
  have hsign : wrap8 (Int.land (shift + 1) 128) = 0 := by
    generalize shift + 1 = k at hs1 hs2
    interval_cases k <;> rfl
  have hfun : arm_scale_q31 pSrc scaleFract shift pDst blockSize
      = fun j => if j < blockSize then scale_q31_left (pSrc j) scaleFract (shift + 1)
          else pDst j := by
    unfold arm_scale_q31
    simp only [hk, hsign, if_true]
    rw [whileLoop_countdown VecState.blkCnt _ (fun s _ => rfl) blockSize _ rfl,
      vec_step_iterate pSrc _ blockSize pDst blockSize (le_refl _)]
  constructor
  · intro j hj
    rw [hfun]
    simp only [if_pos hj]
    obtain ⟨m1, m2, m3⟩ := scale_q31_mul_eq (pSrc j) scaleFract (hsrc j hj) hsf
    unfold scale_q31_left
    simp only [m1]
    exact scale_q31_shift_sat _ _ (by omega) m2 m3
  · intro j hj
    rw [hfun]
    simp only [if_neg (show ¬ j < blockSize by omega)]

/-! ## `arm_cmplx_conj_q15` -/

/-- The imaginary part that `arm_cmplx_conj_q15` stores for the Q15 value `v`. -/
theorem cmplx_conj_q15_imag (v : Int) (hv : isQ15 v) :
    wrap16 (if wrap32 v = wrap16 32768 then wrap16 32767 else -(wrap32 v))
      = if v = -32768 then 32767 else -v := by
  obtain ⟨h1, h2⟩ := hv
  have hw : wrap32 v = v := wrap32_of_range (by omega) (by omega)
  have c1 : wrap16 32768 = -32768 := by decide
  have c2 : wrap16 32767 = 32767 := by decide
  rw [hw, c1, c2]
  by_cases h : v = -32768
  · simp only [if_pos h]; decide
  · simp only [if_neg h]
    exact wrap16_of_range (by omega) (by omega)

theorem cmplx_conj_q15_iterate (pSrc : Buf) (n : Nat) (dst : Buf) :
    ∀ k, k ≤ n →
      (cmplx_conj_q15_step pSrc)^[k] { blkCnt := n, pSrc := 0, pDst := 0, dst := dst }
        = { blkCnt := n - k, pSrc := 2 * k, pDst := 2 * k,
            dst := fun j =>
              if j < 2 * k then
                if j % 2 = 0 then pSrc j
                else wrap16 (if wrap32 (pSrc j) = wrap16 32768 then wrap16 32767
                  else -(wrap32 (pSrc j)))
              else dst j } := by
  intro k
  induction k with
  | zero => intro _; rfl
  | succ k ih =>
    intro hk
    rw [Function.iterate_succ_apply', ih (by omega)]
    simp only [cmplx_conj_q15_step, Nat.sub_add_eq, VecState.mk.injEq, true_and]
    refine ⟨by omega, by omega, ?_⟩
    funext j
    simp only [Buf.set]
    by_cases h1 : j = 2 * k + 1
    · subst h1
      simp only [if_true, if_pos (show 2 * k + 1 < 2 * (k + 1) by omega),
        if_neg (show ¬ (2 * k + 1) % 2 = 0 by omega)]
    · rw [if_neg h1]
      by_cases h2 : j = 2 * k
      · subst h2
        simp only [if_true, if_pos (show 2 * k < 2 * (k + 1) by omega),
          if_pos (show 2 * k % 2 = 0 by omega)]
      · rw [if_neg h2]
        by_cases h3 : j < 2 * k
        · simp only [if_pos h3, if_pos (show j < 2 * (k + 1) by omega)]
        · simp only [if_neg h3, if_neg (show ¬ j < 2 * (k + 1) by omega)]

/-- C27: for every complex Q15 vector of `numSamples` elements, `arm_cmplx_conj_q15`
copies each real part unchanged and writes the saturated negation of each imaginary
part: `-v` for `v ≠ -32768` and `0x7FFF` for `v = -32768` (`0x8000`); the samples of the
destination beyond the `2 * numSamples` written ones are left as they were. -/
theorem arm_cmplx_conj_q15_spec (pSrc pDst : Buf) (numSamples : Nat)
    (hsrc : ∀ j, j < 2 * numSamples → isQ15 (pSrc j)) :
    (∀ i, i < numSamples →
      arm_cmplx_conj_q15 pSrc pDst numSamples (2 * i) = pSrc (2 * i) ∧
      arm_cmplx_conj_q15 pSrc pDst numSamples (2 * i + 1)
        = if pSrc (2 * i + 1) = -32768 then 32767 else -(pSrc (2 * i + 1))) ∧
    (∀ j, 2 * numSamples ≤ j → arm_cmplx_conj_q15 pSrc pDst numSamples j = pDst j) := by
  have hfun : arm_cmplx_conj_q15 pSrc pDst numSamples
      = fun j =>
          if j < 2 * numSamples then
            if j % 2 = 0 then pSrc j
            else wrap16 (if wrap32 (pSrc j) = wrap16 32768 then wrap16 32767
              else -(wrap32 (pSrc j)))
          else pDst j := by
    unfold arm_cmplx_conj_q15
    rw [whileLoop_countdown VecState.blkCnt _ (fun s _ => rfl) numSamples _ rfl,
      cmplx_conj_q15_iterate pSrc numSamples pDst numSamples (le_refl _)]
  refine ⟨fun i hi => ⟨?_, ?_⟩, fun j hj => ?_⟩
  · rw [hfun]
    simp only [if_pos (show 2 * i < 2 * numSamples by omega),
      if_pos (show 2 * i % 2 = 0 by omega)]
  · rw [hfun]
    simp only [if_pos (show 2 * i + 1 < 2 * numSamples by omega),
      if_neg (show ¬ (2 * i + 1) % 2 = 0 by omega)]
    exact cmplx_conj_q15_imag _ (hsrc _ (by omega))
  · rw [hfun]
    simp only [if_neg (show ¬ j < 2 * numSamples by omega)]

/-! ## `arm_mat_add_q31`: no size check -/

/-- C28, failing input: a 1 x 1 matrix `pSrcA`, a 2 x 2 matrix `pSrcB` and a 3 x 3
destination differ in their numbers of rows and columns, and `arm_mat_add_q31` returns
`ARM_MATH_SUCCESS`, not `ARM_MATH_SIZE_MISMATCH`: it adds the `numRows * numCols = 1`
elements counted from `pSrcA` alone.  For every input the status is
`ARM_MATH_SUCCESS`. -/
theorem arm_mat_add_q31_no_size_check (H : Helpers) (a b d : Buf) :
    (arm_mat_add_q31 H { numRows := 1, numCols := 1, pData := a }
      { numRows := 2, numCols := 2, pData := b }
      { numRows := 3, numCols := 3, pData := d }).1 = arm_status.ARM_MATH_SUCCESS ∧
    (arm_mat_add_q31 H { numRows := 1, numCols := 1, pData := a }
      { numRows := 2, numCols := 2, pData := b }
      { numRows := 3, numCols := 3, pData := d }).2 = d.set 0 (H.__QADD (a 0) (b 0)) ∧
    (∀ pSrcA pSrcB pDst : arm_matrix_instance,
      (arm_mat_add_q31 H pSrcA pSrcB pDst).1 = arm_status.ARM_MATH_SUCCESS) := by
  refine ⟨rfl, rfl, fun _ _ _ => rfl⟩

/-! ## Exact sums -/

theorem sumTo_congr (f g : Nat → Int) (n : Nat) (h : ∀ j, j < n → f j = g j) :
    sumTo f n = sumTo g n := by
  induction n with
  | zero => rfl
  | succ n ih =>
    simp only [sumTo]
    rw [ih (fun j hj => h j (by omega)), h n (by omega)]

theorem sumTo_zero (f : Nat → Int) (n : Nat) (h : ∀ j, j < n → f j = 0) : sumTo f n = 0 := by
  induction n with
  | zero => rfl
  | succ n ih =>
    simp only [sumTo]
    rw [ih (fun j hj => h j (by omega)), h n (by omega)]
    rfl

theorem sumTo_add (f : Nat → Int) (a b : Nat) :
    sumTo f (a + b) = sumTo f a + sumTo (fun t => f (a + t)) b := by
  induction b with
  | zero => simp [sumTo]
  | succ b ih =>
    rw [← Nat.add_assoc]
    simp only [sumTo]
    rw [ih]
    ring

/-- A sum of `n` terms of absolute value at most `c` has absolute value at most
`n * c`. -/
theorem sumTo_bound (f : Nat → Int) (c : Int) (n : Nat)
    (h : ∀ j, j < n → -c ≤ f j ∧ f j ≤ c) : -(c * n) ≤ sumTo f n ∧ sumTo f n ≤ c * n := by
  induction n with
  | zero => simp [sumTo]
  | succ n ih =>
    obtain ⟨h1, h2⟩ := ih (fun j hj => h j (by omega))
    obtain ⟨h3, h4⟩ := h n (by omega)
    simp only [sumTo]
    push_cast
    constructor <;> nlinarith

/-- The product of two Q15 values fits 32 bits. -/
theorem q15_prod_bound {a b : Int} (ha : isQ15 a) (hb : isQ15 b) :
    -1073741824 ≤ a * b ∧ a * b ≤ 1073741824 := by
  obtain ⟨a1, a2⟩ := ha
  obtain ⟨b1, b2⟩ := hb
  constructor <;> nlinarith

theorem q15_prod_wrap {a b : Int} (ha : isQ15 a) (hb : isQ15 b) :
    wrap32 (wrap16 a * wrap16 b) = a * b := by
  obtain ⟨p1, p2⟩ := q15_prod_bound ha hb
  rw [wrap16_of_range ha.1 ha.2, wrap16_of_range hb.1 hb.2]
  exact wrap32_of_range (by omega) (by omega)

/-! ## `arm_correlate_q15`: the accumulator -/

/-- The term that iteration `j` of the inner loop of `arm_correlate_q15` adds for the
output index `i`. -/
theorem correlate_q15_sum_aux (x : Buf) (A : Nat) (y : Buf) (B i : Nat) (F : Nat → Int)
    (hi : i + 1 < 4294967296)
    (hF : ∀ j, j ≤ i → -1073741824 ≤ F j ∧ F j ≤ 1073741824)
    (hstep : ∀ j, j ≤ i →
      (if u32sub i j < B ∧ j < A then
        wrap32 (wrap16 (x j) * wrap16 (y.read (((B - 1 : Nat) : Int) - (wrap32 i - wrap32 j))))
       else 0) = F j) :
    ∀ (fuel j : Nat), j + fuel = i + 1 →
      whileLoop (fun s : Nat × Int => decide (s.1 ≤ i))
        (fun s =>
          let j := s.1
          let sum :=
            if u32sub i j < B ∧ j < A then
              wrap64 (s.2 + wrap32 (wrap16 (x j)
                * wrap16 (y.read (((B - 1 : Nat) : Int) - (wrap32 i - wrap32 j)))))
            else s.2
          (u32 (j + 1), sum))
        fuel (j, sumTo F j) = (i + 1, sumTo F (i + 1)) := by
  intro fuel
  induction fuel with
  | zero =>
    intro j hj
    have : j = i + 1 := by omega
    subst this
    rfl
  | succ f ih =>
    intro j hj
    have hc : j ≤ i := by omega
    have hu : u32 (j + 1) = j + 1 := u32_of_lt (by omega)
    obtain ⟨b1, b2⟩ := sumTo_bound F 1073741824 j (fun t ht => hF t (by omega))
    obtain ⟨f1, f2⟩ := hF j hc
    have hjb : (j : Int) ≤ 4294967296 := by omega
    have hs := hstep j hc
    simp only [whileLoop, hc, decide_True, if_true, hu]
    have hnext : (if u32sub i j < B ∧ j < A then
          wrap64 (sumTo F j + wrap32 (wrap16 (x j)
            * wrap16 (y.read (((B - 1 : Nat) : Int) - (wrap32 i - wrap32 j)))))
        else sumTo F j) = sumTo F (j + 1) := by
      simp only [sumTo]
      by_cases hcnd : u32sub i j < B ∧ j < A
      · rw [if_pos hcnd] at hs
        rw [if_pos hcnd, hs]
        exact wrap64_of_range (by omega) (by omega)
      · rw [if_neg hcnd] at hs
        rw [if_neg hcnd, ← hs]
        omega
    rw [hnext]
    exact ih (j + 1) (by omega)

/-- The sum of `arm_correlate_q15` over `j ≤ i`, with its test of the array limits, is
the sum over the `srcBLen` taps of the zero-padded sequence. -/
theorem correlate_sum_reindex (x : Buf) (A : Nat) (y : Buf) (B i : Nat) (hB : 1 ≤ B) :
    sumTo (fun j => if i - j < B ∧ j < A then x j * y (B - 1 - (i - j)) else 0) (i + 1)
      = corrSum x A y B i := by
  unfold corrSum
  by_cases hcase : B - 1 ≤ i
  · -- the first `i - (B - 1)` terms of the left sum vanish
    have hsplit : i + 1 = (i - (B - 1)) + B := by omega
    rw [hsplit, sumTo_add _ (i - (B - 1)) B, sumTo_zero _ (i - (B - 1)), zero_add]
    · apply sumTo_congr
      intro t ht
      simp only [zeroPad]
      have e5 : i - (i - (B - 1) + t) < B := by omega
      have e6 : B - 1 - (i - (i - (B - 1) + t)) = t := by omega
      have e7 : i + t - (B - 1) = i - (B - 1) + t := by omega
      rw [if_neg (show ¬ i + t < B - 1 by omega), e6, e7]
      by_cases hA : i - (B - 1) + t < A
      · rw [if_pos ⟨e5, hA⟩, if_pos (show i + t < B - 1 + A by omega)]
      · rw [if_neg (fun h => hA h.2), if_neg (show ¬ i + t < B - 1 + A by omega)]
        ring
    · intro j hj
      rw [if_neg (fun h => by omega)]
  · -- the first `B - 1 - i` terms of the right sum vanish
    have hsplit : B = (B - 1 - i) + (i + 1) := by omega
    have hr : sumTo (fun t => zeroPad x A B (i + t) * y t) B
        = sumTo (fun t => zeroPad x A B (i + t) * y t) ((B - 1 - i) + (i + 1)) := by
      rw [← hsplit]
    rw [hr, sumTo_add (fun t => zeroPad x A B (i + t) * y t) (B - 1 - i) (i + 1),
      sumTo_zero _ (B - 1 - i), zero_add]
    · apply sumTo_congr
      intro j hj
      have e1 : i - j < B := by omega
      have e2 : B - 1 - (i - j) = B - 1 - i + j := by omega
      have e3 : i + (B - 1 - i + j) - (B - 1) = j := by omega
      simp only [zeroPad]
      rw [if_neg (show ¬ i + (B - 1 - i + j) < B - 1 by omega), e2, e3]
      by_cases hA : j < A
      · rw [if_pos ⟨e1, hA⟩, if_pos (show i + (B - 1 - i + j) < B - 1 + A by omega)]
      · rw [if_neg (fun h => hA h.2),
          if_neg (show ¬ i + (B - 1 - i + j) < B - 1 + A by omega)]
        ring
    · intro t ht
      simp only [zeroPad]
      rw [if_pos (show i + t < B - 1 by omega)]
      ring

/-- The accumulator of `arm_correlate_q15` for the output index `i` is the exact
correlation sum. -/
theorem correlate_q15_sum_eq (x : Buf) (A : Nat) (y : Buf) (B i : Nat) (hB : 1 ≤ B)
    (hi : i < 2147483648) (hx : ∀ j, j < A → isQ15 (x j)) (hy : ∀ j, j < B → isQ15 (y j)) :
    correlate_q15_sum x A y (B - 1) B i = corrSum x A y B i := by
  unfold correlate_q15_sum
  have hwi : wrap32 (i : Int) = i := wrap32_of_range (by omega) (by omega)
  have h := correlate_q15_sum_aux x A y B i
    (fun j => if i - j < B ∧ j < A then x j * y (B - 1 - (i - j)) else 0) (by omega)
    (fun j hj => by
      beta_reduce
      by_cases hc : i - j < B ∧ j < A
      · rw [if_pos hc]
        exact q15_prod_bound (hx j hc.2) (hy _ (by omega))
      · rw [if_neg hc]; norm_num)
    (fun j hj => by
      have hu : u32sub i j = i - j := by unfold u32sub; omega
      have hwj : wrap32 (j : Int) = j := wrap32_of_range (by omega) (by omega)
      rw [hu, hwi, hwj]
      beta_reduce
      by_cases hc : i - j < B ∧ j < A
      · rw [if_pos hc, if_pos hc]
        have hidx : (((B - 1 : Nat) : Int) - ((i : Int) - (j : Int))).toNat = B - 1 - (i - j) := by
          omega
        unfold Buf.read
        rw [hidx]
        exact q15_prod_wrap (hx j hc.2) (hy _ (by omega))
      · rw [if_neg hc, if_neg hc])
    (i + 1) 0 (by omega)
  simp only [sumTo] at h
  rw [h]
  exact correlate_sum_reindex x A y B i hB

/-! ## `arm_correlate_fast_opt_q15`: the accumulator -/

theorem correlate_fast_mac_eq (scr y : Buf) (k u : Nat) (G : Nat → Int) (n : Nat)
    (hs : isQ15 (scr (k + u))) (hy : isQ15 (y u)) (hG : G u = scr (k + u) * y u)
    (acc : Int) (hacc : acc = wrap32 (sumTo G u)) :
    correlate_fast_mac scr y { tapCnt := n, pScr1 := k + u, pIn2 := u, acc0 := acc }
      = { tapCnt := n, pScr1 := k + (u + 1), pIn2 := u + 1, acc0 := wrap32 (sumTo G (u + 1)) } := by
  simp only [correlate_fast_mac, q15_prod_wrap hs hy, hacc, wrap32_add_wrap32, sumTo, hG,
    Nat.add_assoc]

theorem correlate_fast_pair_iterate (scr y : Buf) (B k : Nat)
    (hs : ∀ u, u < B → isQ15 (scr (k + u))) (hy : ∀ u, u < B → isQ15 (y u)) :
    ∀ t, t ≤ B / 2 →
      (fun s : TapState =>
        let s := correlate_fast_mac scr y s
        let s := correlate_fast_mac scr y s
        { s with tapCnt := s.tapCnt - 1 })^[t]
          { tapCnt := B / 2, pScr1 := k, pIn2 := 0, acc0 := 0 }
        = { tapCnt := B / 2 - t, pScr1 := k + 2 * t, pIn2 := 2 * t,
            acc0 := wrap32 (sumTo (fun u => scr (k + u) * y u) (2 * t)) } := by
  intro t
  induction t with
  | zero => intro _; rfl
  | succ t ih =>
    intro ht
    rw [Function.iterate_succ_apply', ih (by omega)]
    have m1 := correlate_fast_mac_eq scr y k (2 * t) (fun u => scr (k + u) * y u)
      (B / 2 - t) (hs _ (by omega)) (hy _ (by omega)) rfl _ rfl
    have m2 := correlate_fast_mac_eq scr y k (2 * t + 1) (fun u => scr (k + u) * y u)
      (B / 2 - t) (hs _ (by omega)) (hy _ (by omega)) rfl _ rfl
    simp only [m1, m2, Nat.sub_add_eq]
    rfl

/-- The 32-bit accumulator of `arm_correlate_fast_opt_q15` for one output sample is
the exact sum of the `srcBLen` products narrowed to 32 bits. -/
theorem correlate_fast_acc_eq (scr y : Buf) (B k : Nat)
    (hs : ∀ u, u < B → isQ15 (scr (k + u))) (hy : ∀ u, u < B → isQ15 (y u)) :
    correlate_fast_acc scr y B k = wrap32 (sumTo (fun u => scr (k + u) * y u) B) := by
  have hshift : B >>> 1 = B / 2 := by simp [Nat.shiftRight_eq_div_pow]
  unfold correlate_fast_acc
  simp only [hshift]
  rw [whileLoop_countdown TapState.tapCnt _ (fun s _ => rfl) (B / 2) _ rfl,
    correlate_fast_pair_iterate scr y B k hs hy (B / 2) (le_refl _)]
  rcases Nat.mod_two_eq_zero_or_one B with h0 | h1
  · have hB : 2 * (B / 2) = B := by omega
    simp only [h0, whileLoop, hB]
  · have hB : 2 * (B / 2) + 1 = B := by omega
    have m := correlate_fast_mac_eq scr y k (2 * (B / 2)) (fun u => scr (k + u) * y u) 1
      (hs _ (by omega)) (hy _ (by omega)) rfl _ rfl
    simp only [h1, whileLoop, Nat.lt_irrefl, Nat.zero_lt_one, decide_True, decide_False,
      if_true, m, hB, Nat.sub_self, gt_iff_lt, Bool.false_eq_true, if_false]

/-! ## The two correlations write the same values at the same positions -/

theorem iterBody_congr (f g : Nat → Buf → Buf) (n : Nat) (p : Buf)
    (h : ∀ i, i < n → ∀ q, f i q = g i q) : iterBody f n p = iterBody g n p := by
  induction n with
  | zero => rfl
  | succ n ih =>
    simp only [iterBody]
    rw [ih (fun i hi => h i (by omega)), h n (by omega)]

/-- The scratch buffer of `arm_correlate_fast_opt_q15` holds the zero-padded longer
sequence, when `arm_fill_q15` fills and `arm_copy_q15` copies. -/
theorem correlate_fast_scratch_eq (H : Helpers) (x : Buf) (A B : Nat) (pScratch : Buf)
    (hB1 : 1 ≤ B) (hB2 : B < 4294967296)
    (hfill : ∀ v p n, H.arm_fill_q15 v p n = fun j => if j < n then v else p j)
    (hcopy : ∀ s p n, H.arm_copy_q15 s p n = fun j => if j < n then s j else p j) :
    ∀ u, u < B - 1 + A + (B - 1) →
      correlate_fast_scratch H x A B pScratch u = zeroPad x A B u := by
  intro u hu
  have hsub : u32sub B 1 = B - 1 := by unfold u32sub; omega
  simp only [correlate_fast_scratch, hsub, hfill, hcopy, Buf.atOffset, Buf.shift, zeroPad,
    Nat.zero_add, Nat.not_lt_zero, if_false, Nat.sub_zero, Nat.add_zero]
  by_cases h1 : u < B - 1
  · simp only [h1, if_true, if_pos (show u < B - 1 + A by omega)]
  · by_cases h2 : u < B - 1 + A
    · simp only [h1, h2, if_true, if_false, if_pos (show u - (B - 1) < A by omega)]
    · simp only [h1, h2, if_false, if_pos (show u - (B - 1 + A) < B - 1 by omega)]

/-- The output loop of `arm_correlate_q15` stores, for `i = 0, ..., tot`, the output
value of index `i` at the offset `pDst + inc * i`, where `inc` is `-1` when `inv = 1`
and `1` otherwise; the loop is left with `i = tot + 1`. -/
theorem correlate_q15_loop_aux (H : Helpers) (x : Buf) (A : Nat) (y : Buf) (off B tot inv : Nat)
    (start : Int) (dst : Buf) (htot : tot + 1 < 4294967296) :
    ∀ (fuel i : Nat), i + fuel = tot + 1 →
      whileLoop (fun s : CorrState => decide (s.i ≤ tot))
        (fun s =>
          let sum := correlate_q15_sum x A y off B s.i
          let v := wrap16 (H.__SSAT (wrap32 (shr sum 15)) 16)
          { i := u32 (s.i + 1),
            pDst := if inv = 1 then s.pDst - 1 else s.pDst + 1,
            dst := s.dst.set s.pDst.toNat v })
        fuel
        { i := i, pDst := start + (if inv = 1 then -1 else 1) * (i : Int),
          dst := iterBody (fun i d =>
            d.set (start + (if inv = 1 then -1 else 1) * (i : Int)).toNat
              (wrap16 (H.__SSAT (wrap32 (shr (correlate_q15_sum x A y off B i) 15)) 16))) i dst }
        = { i := tot + 1, pDst := start + (if inv = 1 then -1 else 1) * ((tot + 1 : Nat) : Int),
            dst := iterBody (fun i d =>
              d.set (start + (if inv = 1 then -1 else 1) * (i : Int)).toNat
                (wrap16 (H.__SSAT (wrap32 (shr (correlate_q15_sum x A y off B i) 15)) 16)))
              (tot + 1) dst } := by
  intro fuel
  induction fuel with
  | zero =>
    intro i hi
    have : i = tot + 1 := by omega
    subst this
    rfl
  | succ f ih =>
    intro i hi
    have hc : i ≤ tot := by omega
    have hu : u32 (i + 1) = i + 1 := u32_of_lt (by omega)
    simp only [whileLoop, hc, decide_True, if_true, hu]
    have hp : (if inv = 1 then start + (if inv = 1 then -1 else 1) * (i : Int) - 1
          else start + (if inv = 1 then -1 else 1) * (i : Int) + 1)
        = start + (if inv = 1 then -1 else 1) * ((i + 1 : Nat) : Int) := by
      by_cases hinv : inv = 1
      · simp only [hinv, if_true]; push_cast; ring
      · simp only [hinv, if_false]; push_cast; ring
    rw [hp]
    exact ih (i + 1) (by omega)

theorem correlate_fast_loop_iterate (H : Helpers) (scr y : Buf) (B n : Nat) (inc start : Int)
    (dst : Buf) :
    ∀ k, k ≤ n →
      (fun s : FastCorrState =>
        let acc0 := correlate_fast_acc scr y B s.pScratch
        { blkCnt := s.blkCnt - 1,
          dst := s.dst.set s.pOut.toNat (wrap16 (H.__SSAT (shr acc0 15) 16)),
          pOut := s.pOut + inc,
          pScratch := s.pScratch + 1 })^[k]
          { blkCnt := n, pOut := start, pScratch := 0, dst := dst }
        = { blkCnt := n - k, pOut := start + inc * (k : Int), pScratch := k,
            dst := iterBody (fun i d =>
              d.set (start + inc * (i : Int)).toNat
                (wrap16 (H.__SSAT (shr (correlate_fast_acc scr y B i) 15) 16))) k dst } := by
  intro k
  induction k with
  | zero => intro _; simp [iterBody]
  | succ k ih =>
    intro hk
    rw [Function.iterate_succ_apply', ih (by omega)]
    simp only [iterBody, Nat.sub_add_eq, FastCorrState.mk.injEq, true_and, and_true]
    push_cast
    ring

/-- The common core of the two functions: for a longer sequence `x` and a shorter
sequence `y` whose exact correlation sums fit 32 bits, the output loops of
`arm_correlate_q15` and of `arm_correlate_fast_opt_q15` leave the same destination. -/
theorem correlate_loops_agree (H : Helpers) (x : Buf) (A : Nat) (y : Buf) (B : Nat)
    (pScratch dst : Buf) (inv : Nat) (start : Int)
    (hB : 1 ≤ B) (hAB : B ≤ A) (hlen : A + B ≤ 2147483648)
    (hx : ∀ j, j < A → isQ15 (x j)) (hy : ∀ j, j < B → isQ15 (y j))
    (hfill : ∀ v p n, H.arm_fill_q15 v p n = fun j => if j < n then v else p j)
    (hcopy : ∀ s p n, H.arm_copy_q15 s p n = fun j => if j < n then s j else p j)
    (hfit : ∀ i, i < A + B - 1 → isQ31 (correlate_q15_sum x A y (B - 1) B i)) :
    (correlate_fast_loop H (correlate_fast_scratch H x A B pScratch) y B (A + B - 1)
        (if inv = 1 then -1 else 1) start dst).dst
      = (correlate_q15_loop H x A y (B - 1) B (A + B - 2) inv start dst).dst := by
  unfold correlate_fast_loop correlate_q15_loop
  rw [whileLoop_countdown FastCorrState.blkCnt _ (fun s _ => rfl) (A + B - 1) _ rfl,
    correlate_fast_loop_iterate H _ y B (A + B - 1) _ start dst (A + B - 1) (le_refl _)]
  have h := correlate_q15_loop_aux H x A y (B - 1) B (A + B - 2) inv start dst (by omega)
    (A + B - 2 + 1) 0 (by omega)
  simp only [Nat.cast_zero, mul_zero, add_zero] at h
  rw [show iterBody _ 0 dst = dst from rfl] at h
  rw [h]
  have e : A + B - 2 + 1 = A + B - 1 := by omega
  rw [e]
  show iterBody _ _ _ = iterBody _ _ _
  apply iterBody_congr
  intro i hi q
  have hs : ∀ u, u < B → isQ15 (correlate_fast_scratch H x A B pScratch (i + u)) := by
    intro u hu
    rw [correlate_fast_scratch_eq H x A B pScratch hB (by omega) hfill hcopy _ (by omega)]
    unfold zeroPad
    split_ifs
    · decide
    · exact hx _ (by omega)
    · decide
  have hacc : correlate_fast_acc (correlate_fast_scratch H x A B pScratch) y B i
      = correlate_q15_sum x A y (B - 1) B i := by
    rw [correlate_fast_acc_eq _ y B i hs hy,
      correlate_q15_sum_eq x A y B i hB (by omega) hx hy]
    have hsum : sumTo (fun u => correlate_fast_scratch H x A B pScratch (i + u) * y u) B
        = corrSum x A y B i := by
      unfold corrSum
      apply sumTo_congr
      intro u hu
      rw [correlate_fast_scratch_eq H x A B pScratch hB (by omega) hfill hcopy _ (by omega)]
    rw [hsum]
    have hf := hfit i hi
    rw [correlate_q15_sum_eq x A y B i hB (by omega) hx hy] at hf
    exact wrap32_of_range hf.1 hf.2
  have hw : wrap32 (shr (correlate_q15_sum x A y (B - 1) B i) 15)
      = shr (correlate_q15_sum x A y (B - 1) B i) 15 := by
    obtain ⟨f1, f2⟩ := hfit i hi
    rw [shr_fifteen]
    exact wrap32_of_range (by omega) (by omega)
  rw [hacc, hw]

/-- C30: for all non-empty Q15 sequences (`srcALen + srcBLen ≤ 2 ^ 31`) whose products
sum, for every output sample, to a value that fits the 32-bit accumulator (the exact
64-bit accumulator of `arm_correlate_q15` is in the `q31_t` range),
`arm_correlate_fast_opt_q15` leaves the same destination buffer as `arm_correlate_q15`
for every initial content of `pDst` and of the scratch buffer: the same values at the
same positions.  `arm_fill_q15` and `arm_copy_q15`, which are not among the embedded
files, are taken to fill and to copy `blockSize` elements; `__SSAT` is the same function
in both. -/
theorem arm_correlate_fast_opt_q15_agrees (H : Helpers) (pSrcA : Buf) (srcALen : Nat)
    (pSrcB : Buf) (srcBLen : Nat) (pDst pScratch : Buf)
    (hA : 1 ≤ srcALen) (hB : 1 ≤ srcBLen) (hlen : srcALen + srcBLen ≤ 2147483648)
    (hQA : ∀ j, j < srcALen → isQ15 (pSrcA j)) (hQB : ∀ j, j < srcBLen → isQ15 (pSrcB j))
    (hfill : ∀ v p n, H.arm_fill_q15 v p n = fun j => if j < n then v else p j)
    (hcopy : ∀ s p n, H.arm_copy_q15 s p n = fun j => if j < n then s j else p j)
    (hfit : ∀ i, i < srcALen + srcBLen - 1 →
      isQ31 (arm_correlate_q15_acc pSrcA srcALen pSrcB srcBLen i)) :
    (arm_correlate_fast_opt_q15 H pSrcA srcALen pSrcB srcBLen pDst pScratch).1
      = arm_correlate_q15 H pSrcA srcALen pSrcB srcBLen pDst := by
  have t1 : u32sub (u32 (srcALen + srcBLen)) 2 = srcALen + srcBLen - 2 := by
    unfold u32sub u32; omega
  have t2 : u32sub (u32 (srcALen + srcBLen)) 1 = srcALen + srcBLen - 1 := by
    unfold u32sub u32; omega
  have t3 : u32sub (u32 (srcBLen + srcALen)) 2 = srcBLen + srcALen - 2 := by
    unfold u32sub u32; omega
  have t4 : u32sub (u32 (srcBLen + srcALen)) 1 = srcBLen + srcALen - 1 := by
    unfold u32sub u32; omega
  have t5 : u32sub srcBLen 1 = srcBLen - 1 := by unfold u32sub; omega
  have t6 : u32sub srcALen 1 = srcALen - 1 := by unfold u32sub; omega
  have t7 : srcALen + srcBLen - 2 = srcBLen + srcALen - 2 := by omega
  by_cases hgt : srcALen > srcBLen
  · -- the first sequence is the longer one
    have hge : srcALen ≥ srcBLen := by omega
    have tj : u32sub (u32sub (u32 (2 * srcALen)) 1) (u32 (srcALen + (srcBLen - 1)))
        = u32sub srcALen srcBLen := by
      unfold u32sub u32; omega
    have hf : ∀ i, i < srcALen + srcBLen - 1 →
        isQ31 (correlate_q15_sum pSrcA srcALen pSrcB (srcBLen - 1) srcBLen i) := by
      intro i hi
      have := hfit i hi
      simp only [arm_correlate_q15_acc, hgt, if_true, t5] at this
      exact this
    have h := correlate_loops_agree H pSrcA srcALen pSrcB srcBLen pScratch pDst 0
      ((u32sub srcALen srcBLen : Nat) : Int) hB hge hlen hQA hQB hfill hcopy hf
    simp only [Nat.zero_ne_one, if_false] at h
    simp only [arm_correlate_fast_opt_q15, arm_correlate_q15, hge, hgt, if_true, tj, t1, t2, t5]
    exact h
  · by_cases hlt : srcALen < srcBLen
    · -- the second sequence is the longer one: the roles are exchanged
      have hge : ¬ srcALen ≥ srcBLen := by omega
      have hf : ∀ i, i < srcBLen + srcALen - 1 →
          isQ31 (correlate_q15_sum pSrcB srcBLen pSrcA (srcALen - 1) srcALen i) := by
        intro i hi
        have := hfit i (by omega)
        simp only [arm_correlate_q15_acc, hgt, hlt, if_true, if_false, t6] at this
        exact this
      have h := correlate_loops_agree H pSrcB srcBLen pSrcA srcALen pScratch pDst 1
        ((srcBLen + srcALen - 2 : Nat) : Int) hA (by omega) (by omega) hQB hQA hfill hcopy hf
      simp only [if_true] at h
      simp only [arm_correlate_fast_opt_q15, arm_correlate_q15, hge, hgt, hlt, if_true,
        if_false, t1, t3, t4, t6, t7]
      exact h
    · -- equal lengths
      have heq : srcALen = srcBLen := by omega
      have hge : srcALen ≥ srcBLen := by omega
      have tj : u32sub (u32sub (u32 (2 * srcALen)) 1) (u32 (srcALen + (srcBLen - 1)))
          = 0 := by
        unfold u32sub u32; omega
      have hf : ∀ i, i < srcALen + srcBLen - 1 →
          isQ31 (correlate_q15_sum pSrcA srcALen pSrcB (srcBLen - 1) srcBLen i) := by
        intro i hi
        have := hfit i hi
        simp only [arm_correlate_q15_acc, hgt, hlt, if_false, t5] at this
        exact this
      have h := correlate_loops_agree H pSrcA srcALen pSrcB srcBLen pScratch pDst 0
        0 hB hge hlen hQA hQB hfill hcopy hf
      simp only [Nat.zero_ne_one, if_false] at h
      simp only [arm_correlate_fast_opt_q15, arm_correlate_q15, hge, hgt, hlt, if_true,
        if_false, tj, t1, t2, t5]
      exact h

/-! ## `arm_mat_cmplx_mult_q15`: the transposition -/

/-- The countdown loop with any fuel that is at least the counter. -/
theorem whileLoop_countdown_le {σ : Type} (cnt : σ → Nat) (step : σ → σ) (bound : Nat)
    (hstep : ∀ s, 0 < cnt s → cnt s ≤ bound → cnt (step s) = cnt s - 1) :
    ∀ (fuel : Nat) (s : σ), cnt s ≤ fuel → cnt s ≤ bound →
      whileLoop (fun s => decide (cnt s > 0)) step fuel s = step^[cnt s] s := by
  intro fuel
  induction fuel with
  | zero =>
    intro s hs _
    have : cnt s = 0 := by omega
    rw [this]
    rfl
  | succ f ih =>
    intro s hs hb
    by_cases hpos : cnt s > 0
    · have hnext := hstep s hpos hb
      simp only [whileLoop, hpos, decide_True, if_true]
      rw [ih (step s) (by omega) (by omega), hnext]
      obtain ⟨c, hc⟩ : ∃ c, cnt s = c + 1 := ⟨cnt s - 1, by omega⟩
      rw [hc, Nat.add_sub_cancel, Function.iterate_succ_apply]
    · have h0 : cnt s = 0 := by omega
      simp only [whileLoop, h0, Nat.lt_irrefl, gt_iff_lt, decide_False, Bool.false_eq_true,
        if_false, Function.iterate_zero, id]

/-- A loop `do { ...; cnt--; } while (cnt > 0U)` entered with `cnt = n ≥ 1` runs its
body `n` times. -/
theorem doWhileLoop_countdown {σ : Type} (cnt : σ → Nat) (step : σ → σ) (bound : Nat)
    (hstep : ∀ s, 0 < cnt s → cnt s ≤ bound → cnt (step s) = cnt s - 1)
    (fuel : Nat) (s : σ) (h1 : 1 ≤ cnt s) (h2 : cnt s ≤ fuel + 1) (h3 : cnt s ≤ bound) :
    doWhileLoop (fun s => decide (cnt s > 0)) step fuel s = step^[cnt s] s := by
  unfold doWhileLoop
  have hnext := hstep s (by omega) h3
  rw [whileLoop_countdown_le cnt step bound hstep fuel (step s) (by omega) (by omega), hnext]
  obtain ⟨c, hc⟩ : ∃ c, cnt s = c + 1 := ⟨cnt s - 1, by omega⟩
  rw [hc, Nat.add_sub_cancel, Function.iterate_succ_apply]

/-- A property that the body of a loop carries from one iteration to the next holds
after any number of iterations. -/
theorem iterate_invariant {σ : Type} (step : σ → σ) (Inv : Nat → σ → Prop) (n : Nat)
    (hstep : ∀ k s, k < n → Inv k s → Inv (k + 1) (step s)) (s : σ) (h0 : Inv 0 s) :
    ∀ k, k ≤ n → Inv k (step^[k] s) := by
  intro k
  induction k with
  | zero => intro _; exact h0
  | succ k ih =>
    intro hk
    rw [Function.iterate_succ_apply']
    exact hstep k _ (by omega) (ih (by omega))

/-- The offset `c * p + k` with `k < p` determines `c` and `k`. -/
theorem pair_index_inj (p c k c2 k2 : Nat) (hk : k < p) (hk2 : k2 < p)
    (h : c * p + k = c2 * p + k2) : c = c2 ∧ k = k2 := by
  have hp : 0 < p := by omega
  have d1 : (c * p + k) / p = c := by
    rw [Nat.add_comm, Nat.add_mul_div_right _ _ hp, Nat.div_eq_of_lt hk, Nat.zero_add]
  have d2 : (c2 * p + k2) / p = c2 := by
    rw [Nat.add_comm, Nat.add_mul_div_right _ _ hp, Nat.div_eq_of_lt hk2, Nat.zero_add]
  have hc : c = c2 := by rw [← d1, ← d2, h]
  subst hc
  exact ⟨rfl, by omega⟩

theorem cmplx_trans_col_step_inv (H : Helpers) (b : Buf) (p n k : Nat) (hk : k < p)
    (hb : ∀ j, j < 2 * (p * n) → isQ15 (b j))
    (hrw : ∀ (d q : Buf) (i j : Nat), isQ15 (q j) → isQ15 (q (j + 1)) →
      H.write_q15x2 d i (H.read_q15x2_ia q j) = (d.set i (q j)).set (i + 1) (q (j + 1)))
    (c : Nat) (s : TransState) (hc : c < n) (hinv : TransColInv b p n k c s) :
    TransColInv b p n k (c + 1) (cmplx_trans_col_step H b p s) := by
  obtain ⟨h1, h2, h3, h4, h5, h6⟩ := hinv
  have hidx : k * n + c < p * n := by
    have : k * n + n ≤ p * n := by
      have := Nat.mul_le_mul_right n (show k + 1 ≤ p by omega)
      rw [Nat.add_mul, Nat.one_mul] at this
      exact this
    omega
  have q1 : isQ15 (b (2 * (k * n + c))) := hb _ (by omega)
  have q2 : isQ15 (b (2 * (k * n + c) + 1)) := hb _ (by omega)
  refine ⟨?_, ?_, ?_, h4, h5, ?_⟩
  · show s.col - 1 = n - (c + 1)
    omega
  · show s.pInB + 2 = 2 * (k * n + (c + 1))
    omega
  · show s.px + p * 2 = 2 * ((c + 1) * p + k)
    rw [h3]; ring
  · intro kk cc hkk hcc hcase
    show (H.write_q15x2 s.pSrcBT s.px (H.read_q15x2_ia b s.pInB)) (2 * (cc * p + kk)) = _ ∧
      (H.write_q15x2 s.pSrcBT s.px (H.read_q15x2_ia b s.pInB)) (2 * (cc * p + kk) + 1) = _
    rw [h2, h3, hrw _ _ _ _ q1 q2]
    simp only [Buf.set]
    by_cases hsame : cc = c ∧ kk = k
    · obtain ⟨e1, e2⟩ := hsame
      subst e1; subst e2
      simp only [if_true, if_neg (show ¬ 2 * (cc * p + kk) = 2 * (cc * p + kk) + 1 by omega)]
      exact ⟨trivial, trivial⟩
    · have hne : cc * p + kk ≠ c * p + k := by
        intro he
        exact hsame (pair_index_inj p cc kk c k hkk hk he)
      have hold := h6 kk cc hkk hcc (by
        rcases hcase with h | ⟨h, h'⟩
        · exact Or.inl h
        · right
          refine ⟨h, ?_⟩
          by_contra hcon
          exact hsame ⟨by omega, h⟩)
      rw [if_neg (show ¬ 2 * (cc * p + kk) = 2 * (c * p + k) + 1 by omega),
        if_neg (show ¬ 2 * (cc * p + kk) = 2 * (c * p + k) by omega),
        if_neg (show ¬ 2 * (cc * p + kk) + 1 = 2 * (c * p + k) + 1 by omega),
        if_neg (show ¬ 2 * (cc * p + kk) + 1 = 2 * (c * p + k) by omega)]
      exact hold

theorem cmplx_trans_row_step_inv (H : Helpers) (b : Buf) (p n k : Nat) (hk : k < p)
    (hp : p ≤ 65535)
    (hb : ∀ j, j < 2 * (p * n) → isQ15 (b j))
    (hrw : ∀ (d q : Buf) (i j : Nat), isQ15 (q j) → isQ15 (q (j + 1)) →
      H.write_q15x2 d i (H.read_q15x2_ia q j) = (d.set i (q j)).set (i + 1) (q (j + 1)))
    (s : TransState) (hinv : TransRowInv b p n k s) :
    TransRowInv b p n (k + 1) (cmplx_trans_row_step H b p n s) := by
  obtain ⟨h1, h2, h3, h4⟩ := hinv
  have hcol : TransColInv b p n k n
      (whileLoop (fun s : TransState => decide (s.col > 0)) (cmplx_trans_col_step H b p) n
        { s with px := s.i, col := n }) := by
    rw [whileLoop_countdown TransState.col _ (fun s _ => rfl) n _ rfl]
    apply iterate_invariant (cmplx_trans_col_step H b p) (TransColInv b p n k) n
      (fun c s hc hi => cmplx_trans_col_step_inv H b p n k hk hb hrw c s hc hi)
    · refine ⟨rfl, ?_, ?_, h2, h3, h4⟩
      · show s.pInB = 2 * (k * n + 0)
        rw [h1]; ring
      · show s.i = 2 * (0 * p + k)
        rw [h2]; ring
    · exact le_refl n
  unfold cmplx_trans_row_step
  dsimp only
  generalize whileLoop (fun s : TransState => decide (s.col > 0)) (cmplx_trans_col_step H b p) n
    { s with px := s.i, col := n } = t at hcol ⊢
  obtain ⟨c1, c2, c3, c4, c5, c6⟩ := hcol
  unfold TransRowInv
  dsimp only
  refine ⟨?_, ?_, ?_, ?_⟩
  · rw [c2]; ring
  · rw [c4]
    exact u32_of_lt (by omega)
  · rw [c5]
    unfold u32sub
    omega
  · intro kk cc hkk hcc hcase
    apply c6 kk cc hkk hcc
    rcases hcase with h | ⟨_, h⟩
    · by_cases hlt : kk < k
      · exact Or.inl hlt
      · exact Or.inr ⟨by omega, hcc⟩
    · omega

/-- The row step of the transposition decrements `row`. -/
theorem cmplx_trans_row_step_row (H : Helpers) (b : Buf) (p n : Nat) (s : TransState)
    (h1 : 0 < s.row) (h2 : s.row ≤ 4294967296) :
    (cmplx_trans_row_step H b p n s).row = s.row - 1 := by
  have hrow : (whileLoop (fun s : TransState => decide (s.col > 0))
      (cmplx_trans_col_step H b p) n { s with px := s.i, col := n }).row = s.row := by
    rw [whileLoop_countdown TransState.col _ (fun s _ => rfl) n _ rfl]
    exact iterate_invariant (cmplx_trans_col_step H b p)
      (fun _ t => t.row = s.row) n (fun _ t _ ht => ht) { s with px := s.i, col := n }
      rfl n (le_refl n)
  unfold cmplx_trans_row_step
  dsimp only
  rw [hrow]
  unfold u32sub
  omega

/-- The row loop of the transposition runs its body `numRowsB` times. -/
theorem cmplx_trans_loop_eq (H : Helpers) (b : Buf) (p n : Nat) (pScratch : Buf)
    (hp1 : 1 ≤ p) (hp : p ≤ 65535) :
    doWhileLoop (fun s : TransState => decide (s.row > 0))
        (cmplx_trans_row_step H b p n) (doWhileFuel p)
        { row := p, col := 0, i := 0, pInB := 0, px := 0, pSrcBT := pScratch }
      = (cmplx_trans_row_step H b p n)^[p]
          { row := p, col := 0, i := 0, pInB := 0, px := 0, pSrcBT := pScratch } := by
  have hf : doWhileFuel p = p := if_neg (by omega)
  rw [hf]
  exact doWhileLoop_countdown TransState.row (cmplx_trans_row_step H b p n) 4294967296
    (fun s h1 h2 => cmplx_trans_row_step_row H b p n s h1 h2)
    p _ hp1 (by show p ≤ _; omega) (by show p ≤ _; omega)

/-- The scratch buffer after the transposition holds the transpose of `B`. -/
theorem cmplx_mult_transpose_eq (H : Helpers) (b : Buf) (p n : Nat) (pScratch : Buf)
    (hp1 : 1 ≤ p) (hp : p ≤ 65535)
    (hb : ∀ j, j < 2 * (p * n) → isQ15 (b j))
    (hrw : ∀ (d q : Buf) (i j : Nat), isQ15 (q j) → isQ15 (q (j + 1)) →
      H.write_q15x2 d i (H.read_q15x2_ia q j) = (d.set i (q j)).set (i + 1) (q (j + 1))) :
    ∀ k c, k < p → c < n →
      cmplx_mult_transpose H { numRows := p, numCols := n, pData := b } pScratch
          (2 * (c * p + k)) = b (2 * (k * n + c)) ∧
      cmplx_mult_transpose H { numRows := p, numCols := n, pData := b } pScratch
          (2 * (c * p + k) + 1) = b (2 * (k * n + c) + 1) := by
  have hinv : TransRowInv b p n p
      ((cmplx_trans_row_step H b p n)^[p]
        { row := p, col := 0, i := 0, pInB := 0, px := 0, pSrcBT := pScratch }) := by
    apply iterate_invariant (cmplx_trans_row_step H b p n) (TransRowInv b p n) p
      (fun k s hk hi => cmplx_trans_row_step_inv H b p n k hk hp hb hrw s hi)
    · refine ⟨?_, rfl, rfl, ?_⟩
      · show 0 = 2 * (0 * n)
        omega
      · intro kk cc _ _ hcase
        omega
    · exact le_refl p
  have hT : cmplx_mult_transpose H { numRows := p, numCols := n, pData := b } pScratch
      = ((cmplx_trans_row_step H b p n)^[p]
        { row := p, col := 0, i := 0, pInB := 0, px := 0, pSrcBT := pScratch }).pSrcBT := by
    rw [← cmplx_trans_loop_eq H b p n pScratch hp1 hp]
    unfold cmplx_mult_transpose
    dsimp only
  intro k c hk hc
  rw [hT]
  exact hinv.2.2.2 k c hk hc (Or.inl hk)

/-! ## `arm_mat_cmplx_mult_q15`: the dot products -/

/-- Each term of the real and of the imaginary part of a complex Q15 product lies in
`[-2 ^ 31, 2 ^ 31]`. -/
theorem cmplx_term_bound {a b c d : Int} (ha : isQ15 a) (hb : isQ15 b) (hc : isQ15 c)
    (hd : isQ15 d) :
    (-2147483648 ≤ a * c - b * d ∧ a * c - b * d ≤ 2147483648) ∧
    (-2147483648 ≤ a * d + b * c ∧ a * d + b * c ≤ 2147483648) := by
  obtain ⟨p1, p2⟩ := q15_prod_bound ha hc
  obtain ⟨p3, p4⟩ := q15_prod_bound hb hd
  obtain ⟨p5, p6⟩ := q15_prod_bound ha hd
  obtain ⟨p7, p8⟩ := q15_prod_bound hb hc
  refine ⟨⟨by omega, by omega⟩, ⟨by omega, by omega⟩⟩

theorem dot_bounds (pA pBT : Buf) (iA iB p : Nat)
    (hA : ∀ t, t < 2 * p → isQ15 (pA (iA + t))) (hT : ∀ t, t < 2 * p → isQ15 (pBT (iB + t))) :
    ∀ k, k ≤ p →
      (-(2147483648 * (k : Int)) ≤ dotRe pA pBT iA iB k ∧
        dotRe pA pBT iA iB k ≤ 2147483648 * (k : Int)) ∧
      (-(2147483648 * (k : Int)) ≤ dotIm pA pBT iA iB k ∧
        dotIm pA pBT iA iB k ≤ 2147483648 * (k : Int)) := by
  intro k hk
  constructor
  · exact sumTo_bound _ 2147483648 k (fun t ht =>
      (cmplx_term_bound (hA (2 * t) (by omega)) (hA (2 * t + 1) (by omega))
        (hT (2 * t) (by omega)) (hT (2 * t + 1) (by omega))).1)
  · exact sumTo_bound _ 2147483648 k (fun t ht =>
      (cmplx_term_bound (hA (2 * t) (by omega)) (hA (2 * t + 1) (by omega))
        (hT (2 * t) (by omega)) (hT (2 * t + 1) (by omega))).2)

/-- One complex multiply-accumulate on exact accumulators: no 64-bit addition wraps. -/
theorem cmplx_mac_eq (pA pBT : Buf) (iA iB p k : Nat) (hk : k < p) (hp : p ≤ 65535)
    (hA : ∀ t, t < 2 * p → isQ15 (pA (iA + t))) (hT : ∀ t, t < 2 * p → isQ15 (pBT (iB + t)))
    (s : CmplxMultState) (hre : s.sumReal = dotRe pA pBT iA iB k)
    (him : s.sumImag = dotIm pA pBT iA iB k) :
    cmplx_mac pA pBT (iA + 2 * k) (iB + 2 * k) s
      = { s with sumReal := dotRe pA pBT iA iB (k + 1),
                 sumImag := dotIm pA pBT iA iB (k + 1) } := by
  have a1 := hA (2 * k) (by omega)
  have a2 := hA (2 * k + 1) (by omega)
  have c1 := hT (2 * k) (by omega)
  have c2 := hT (2 * k + 1) (by omega)
  obtain ⟨⟨r1, r2⟩, ⟨i1, i2⟩⟩ := dot_bounds pA pBT iA iB p hA hT k (by omega)
  obtain ⟨p1, p2⟩ := q15_prod_bound a1 c1
  obtain ⟨p3, p4⟩ := q15_prod_bound a2 c2
  obtain ⟨p5, p6⟩ := q15_prod_bound a1 c2
  obtain ⟨p7, p8⟩ := q15_prod_bound a2 c1
  have hk2 : (k : Int) ≤ 65535 := by omega
  have w1 := q15_prod_wrap a1 c1
  have w2 := q15_prod_wrap a2 c2
  have w3 := q15_prod_wrap a1 c2
  have w4 := q15_prod_wrap a2 c1
  have e1 : iA + 2 * k + 1 = iA + (2 * k + 1) := by omega
  have e2 : iB + 2 * k + 1 = iB + (2 * k + 1) := by omega
  have s1 : wrap64 (dotRe pA pBT iA iB k + pA (iA + 2 * k) * pBT (iB + 2 * k))
      = dotRe pA pBT iA iB k + pA (iA + 2 * k) * pBT (iB + 2 * k) :=
    wrap64_of_range (by omega) (by omega)
  have s2 : wrap64 (dotIm pA pBT iA iB k + pA (iA + 2 * k) * pBT (iB + (2 * k + 1)))
      = dotIm pA pBT iA iB k + pA (iA + 2 * k) * pBT (iB + (2 * k + 1)) :=
    wrap64_of_range (by omega) (by omega)
  have s3 : wrap64 (dotRe pA pBT iA iB k + pA (iA + 2 * k) * pBT (iB + 2 * k)
        - pA (iA + (2 * k + 1)) * pBT (iB + (2 * k + 1)))
      = dotRe pA pBT iA iB k + pA (iA + 2 * k) * pBT (iB + 2 * k)
        - pA (iA + (2 * k + 1)) * pBT (iB + (2 * k + 1)) :=
    wrap64_of_range (by omega) (by omega)
  have s4 : wrap64 (dotIm pA pBT iA iB k + pA (iA + 2 * k) * pBT (iB + (2 * k + 1))
        + pA (iA + (2 * k + 1)) * pBT (iB + 2 * k))
      = dotIm pA pBT iA iB k + pA (iA + 2 * k) * pBT (iB + (2 * k + 1))
        + pA (iA + (2 * k + 1)) * pBT (iB + 2 * k) :=
    wrap64_of_range (by omega) (by omega)
  have d1 : dotRe pA pBT iA iB (k + 1)
      = dotRe pA pBT iA iB k + pA (iA + 2 * k) * pBT (iB + 2 * k)
        - pA (iA + (2 * k + 1)) * pBT (iB + (2 * k + 1)) := by
    simp only [dotRe, sumTo, e1, e2]; ring
  have d2 : dotIm pA pBT iA iB (k + 1)
      = dotIm pA pBT iA iB k + pA (iA + 2 * k) * pBT (iB + (2 * k + 1))
        + pA (iA + (2 * k + 1)) * pBT (iB + 2 * k) := by
    simp only [dotIm, sumTo, e1, e2]; ring
  simp only [cmplx_mac, e1, e2, w1, w2, w3, w4, hre, him, s1, s2, s3, s4, d1, d2]

theorem cmplx_mult_pair_iterate (pA pBT : Buf) (iA iB p : Nat) (hp : p ≤ 65535)
    (hA : ∀ t, t < 2 * p → isQ15 (pA (iA + t))) (hT : ∀ t, t < 2 * p → isQ15 (pBT (iB + t)))
    (s : CmplxMultState) :
    ∀ t, t ≤ p / 2 →
      (cmplx_mult_pair_step pA pBT)^[t]
          { s with sumReal := 0, sumImag := 0, pInA := iA, pInB := iB, colCnt := p / 2 }
        = { s with sumReal := dotRe pA pBT iA iB (2 * t), sumImag := dotIm pA pBT iA iB (2 * t),
                   pInA := iA + 4 * t, pInB := iB + 4 * t, colCnt := p / 2 - t } := by
  intro t
  induction t with
  | zero => intro _; rfl
  | succ t ih =>
    intro ht
    rw [Function.iterate_succ_apply', ih (by omega)]
    have m1 := cmplx_mac_eq pA pBT iA iB p (2 * t) (by omega) hp hA hT
      { s with sumReal := dotRe pA pBT iA iB (2 * t), sumImag := dotIm pA pBT iA iB (2 * t),
               pInA := iA + 4 * t, pInB := iB + 4 * t, colCnt := p / 2 - t } rfl rfl
    have m2 := cmplx_mac_eq pA pBT iA iB p (2 * t + 1) (by omega) hp hA hT
      { s with sumReal := dotRe pA pBT iA iB (2 * t + 1),
               sumImag := dotIm pA pBT iA iB (2 * t + 1),
               pInA := iA + 4 * t, pInB := iB + 4 * t, colCnt := p / 2 - t } rfl rfl
    have e1 : iA + 2 * (2 * t) = iA + 4 * t := by omega
    have e2 : iB + 2 * (2 * t) = iB + 4 * t := by omega
    have e3 : iA + 2 * (2 * t + 1) = iA + 4 * t + 2 := by omega
    have e4 : iB + 2 * (2 * t + 1) = iB + 4 * t + 2 := by omega
    rw [e1, e2] at m1
    rw [e3, e4] at m2
    unfold cmplx_mult_pair_step
    dsimp only
    rw [m1]
    dsimp only
    rw [m2]
    simp only [CmplxMultState.mk.injEq, true_and, and_true]
    refine ⟨by omega, ?_, ?_, ?_, ?_⟩
    · omega
    · omega
    · rfl
    · rfl

/-- The column step of the product keeps the row counter and decrements `col`. -/
theorem cmplx_mult_col_step_fields (H : Helpers) (pA pBT : Buf) (p : Nat)
    (s : CmplxMultState) :
    (cmplx_mult_col_step H pA pBT p s).col = u32sub s.col 1 ∧
    (cmplx_mult_col_step H pA pBT p s).row = s.row ∧
    (cmplx_mult_col_step H pA pBT p s).i = s.i := by
  have hloop : ∀ (c : Nat) (t : CmplxMultState), t.colCnt = c →
      (whileLoop (fun s : CmplxMultState => decide (s.colCnt > 0))
        (cmplx_mult_pair_step pA pBT) c t).col = t.col ∧
      (whileLoop (fun s : CmplxMultState => decide (s.colCnt > 0))
        (cmplx_mult_pair_step pA pBT) c t).row = t.row ∧
      (whileLoop (fun s : CmplxMultState => decide (s.colCnt > 0))
        (cmplx_mult_pair_step pA pBT) c t).i = t.i := by
    intro c t ht
    rw [whileLoop_countdown CmplxMultState.colCnt _ (fun s _ => rfl) c t ht]
    exact iterate_invariant (cmplx_mult_pair_step pA pBT)
      (fun _ u => u.col = t.col ∧ u.row = t.row ∧ u.i = t.i) c
      (fun _ u _ hu => hu) t ⟨rfl, rfl, rfl⟩ c (le_refl _)
  have h := hloop (p >>> 1)
    (CmplxMultState.mk s.row s.col (p >>> 1) s.i (u32 (s.i * 2)) s.pInB s.px 0 0 s.dst) rfl
  dsimp only at h
  unfold cmplx_mult_col_step
  dsimp only
  split_ifs
  · exact ⟨congrArg (fun c => u32sub c 1) h.1, h.2.1, h.2.2⟩
  · exact ⟨congrArg (fun c => u32sub c 1) h.1, h.2.1, h.2.2⟩

/-- The column step of the product: the exact dot product of the row of `A` at the
offset `2 * i` with the row of the transpose at the offset `pInB` is saturated and
stored at `px`, and `pInB` moves to the next row of the transpose. -/
theorem cmplx_mult_col_step_eq (H : Helpers) (pA pBT : Buf) (p : Nat) (hp : p ≤ 65535)
    (s : CmplxMultState) (hi : s.i * 2 < 4294967296)
    (hA : ∀ t, t < 2 * p → isQ15 (pA (s.i * 2 + t)))
    (hT : ∀ t, t < 2 * p → isQ15 (pBT (s.pInB + t))) :
    (cmplx_mult_col_step H pA pBT p s).pInB = s.pInB + 2 * p ∧
    (cmplx_mult_col_step H pA pBT p s).px = s.px + 2 ∧
    (cmplx_mult_col_step H pA pBT p s).dst
      = (s.dst.set s.px
          (wrap16 (H.__SSAT (wrap32 (shr (dotRe pA pBT (s.i * 2) s.pInB p) 15)) 16))).set (s.px + 1)
          (wrap16 (H.__SSAT (wrap32 (shr (dotIm pA pBT (s.i * 2) s.pInB p) 15)) 16)) := by
  have hshift : p >>> 1 = p / 2 := by simp [Nat.shiftRight_eq_div_pow]
  have hu : u32 (s.i * 2) = s.i * 2 := u32_of_lt hi
  have hloop : whileLoop (fun s : CmplxMultState => decide (s.colCnt > 0))
      (cmplx_mult_pair_step pA pBT) (p / 2)
      (CmplxMultState.mk s.row s.col (p / 2) s.i (s.i * 2) s.pInB s.px 0 0 s.dst)
      = CmplxMultState.mk s.row s.col (p / 2 - p / 2) s.i (s.i * 2 + 4 * (p / 2))
          (s.pInB + 4 * (p / 2)) s.px (dotRe pA pBT (s.i * 2) s.pInB (2 * (p / 2)))
          (dotIm pA pBT (s.i * 2) s.pInB (2 * (p / 2))) s.dst := by
    rw [whileLoop_countdown CmplxMultState.colCnt _ (fun s _ => rfl) (p / 2) _ rfl]
    exact cmplx_mult_pair_iterate pA pBT (s.i * 2) s.pInB p hp hA hT s (p / 2) (le_refl _)
  unfold cmplx_mult_col_step
  dsimp only
  rw [hshift, hu, hloop]
  rcases Nat.mod_two_eq_zero_or_one p with h0 | h1
  · have hB : 2 * (p / 2) = p := by omega
    simp only [h0, Nat.lt_irrefl, gt_iff_lt, if_false, hB]
    refine ⟨by omega, trivial, trivial⟩
  · have hB : 2 * (p / 2) + 1 = p := by omega
    have m2 := cmplx_mac_eq pA pBT (s.i * 2) s.pInB p (2 * (p / 2)) (by omega) hp hA hT
      (CmplxMultState.mk s.row s.col (p / 2 - p / 2) s.i (s.i * 2 + 4 * (p / 2))
        (s.pInB + 4 * (p / 2)) s.px (dotRe pA pBT (s.i * 2) s.pInB (2 * (p / 2)))
        (dotIm pA pBT (s.i * 2) s.pInB (2 * (p / 2))) s.dst) rfl rfl
    have e4 : s.i * 2 + 2 * (2 * (p / 2)) = s.i * 2 + 4 * (p / 2) := by omega
    have e5 : s.pInB + 2 * (2 * (p / 2)) = s.pInB + 4 * (p / 2) := by omega
    rw [e4, e5, hB] at m2
    simp only [h1, Nat.zero_lt_one, gt_iff_lt, if_true, m2]
    refine ⟨by omega, trivial, trivial⟩

/-! ## `arm_mat_cmplx_mult_q15`: the product loops -/

theorem row_offset_lt (m p r : Nat) (hr : r < m) : r * p + p ≤ m * p := by
  have := Nat.mul_le_mul_right p (show r + 1 ≤ m by omega)
  rw [Nat.add_mul, Nat.one_mul] at this
  exact this

theorem cmplx_mult_col_step_inv (H : Helpers) (pA pBT : Buf) (m p n r : Nat) (hr : r < m)
    (hp1 : 1 ≤ p) (hp : p ≤ 65535) (hn : n ≤ 65535) (hmp : 2 * (m * p) ≤ 4294967296)
    (hA : ∀ j, j < 2 * (m * p) → isQ15 (pA j)) (hT : ∀ j, j < 2 * (n * p) → isQ15 (pBT j))
    (c : Nat) (s : CmplxMultState) (hc : c < n) (hinv : MultColInv H pA pBT m p n r c s) :
    MultColInv H pA pBT m p n r (c + 1) (cmplx_mult_col_step H pA pBT p s) := by
  obtain ⟨h1, h2, h3, h4, h5, h6⟩ := hinv
  have hrp := row_offset_lt m p r hr
  have hcp := row_offset_lt n p c hc
  obtain ⟨f1, f2, f3⟩ := cmplx_mult_col_step_fields H pA pBT p s
  obtain ⟨g1, g2, g3⟩ := cmplx_mult_col_step_eq H pA pBT p hp s (by rw [h4]; omega)
    (fun t ht => hA _ (by rw [h4]; omega)) (fun t ht => hT _ (by rw [h2]; omega))
  refine ⟨?_, ?_, ?_, ?_, ?_, ?_⟩
  · rw [f1, h1]; unfold u32sub; omega
  · rw [g1, h2]; ring
  · rw [g2, h3]; ring
  · rw [f3, h4]
  · rw [f2, h5]
  · intro rr cc hrr hcc hcase
    rw [g3, h2, h3, h4]
    simp only [Buf.set]
    by_cases hsame : rr = r ∧ cc = c
    · obtain ⟨e1, e2⟩ := hsame
      subst e1; subst e2
      simp only [if_true, if_neg (show ¬ 2 * (rr * n + cc) = 2 * (rr * n + cc) + 1 by omega)]
      exact ⟨trivial, trivial⟩
    · have hne : rr * n + cc ≠ r * n + c := by
        intro he
        exact hsame (pair_index_inj n rr cc r c hcc hc he)
      have hold := h6 rr cc hrr hcc (by
        rcases hcase with h | ⟨h, h'⟩
        · exact Or.inl h
        · right
          refine ⟨h, ?_⟩
          by_contra hcon
          exact hsame ⟨h, by omega⟩)
      rw [if_neg (show ¬ 2 * (rr * n + cc) = 2 * (r * n + c) + 1 by omega),
        if_neg (show ¬ 2 * (rr * n + cc) = 2 * (r * n + c) by omega),
        if_neg (show ¬ 2 * (rr * n + cc) + 1 = 2 * (r * n + c) + 1 by omega),
        if_neg (show ¬ 2 * (rr * n + cc) + 1 = 2 * (r * n + c) by omega)]
      exact hold

theorem cmplx_mult_row_step_inv (H : Helpers) (pA pBT : Buf) (m p n r : Nat) (hr : r < m)
    (hm : m ≤ 65535) (hp1 : 1 ≤ p) (hp : p ≤ 65535) (hn1 : 1 ≤ n) (hn : n ≤ 65535) (hmp : 2 * (m * p) ≤ 4294967296)
    (hA : ∀ j, j < 2 * (m * p) → isQ15 (pA j)) (hT : ∀ j, j < 2 * (n * p) → isQ15 (pBT j))
    (s : CmplxMultState) (hinv : MultRowInv H pA pBT m p n r s) :
    MultRowInv H pA pBT m p n (r + 1) (cmplx_mult_row_step H pA pBT p n s) := by
  obtain ⟨h1, h2, h3, h4⟩ := hinv
  have hrp := row_offset_lt m p r hr
  have hfuel : doWhileFuel n = n := if_neg (by omega)
  have hcol : MultColInv H pA pBT m p n r n
      (doWhileLoop (fun s : CmplxMultState => decide (s.col > 0))
        (cmplx_mult_col_step H pA pBT p) (doWhileFuel n) { s with col := n, pInB := 0 }) := by
    rw [hfuel, doWhileLoop_countdown CmplxMultState.col (cmplx_mult_col_step H pA pBT p)
      4294967296
      (fun t ht1 ht2 => by
        rw [(cmplx_mult_col_step_fields H pA pBT p t).1]
        unfold u32sub
        omega)
      n _ hn1 (by show n ≤ _; omega) (by show n ≤ _; omega)]
    apply iterate_invariant (cmplx_mult_col_step H pA pBT p) (MultColInv H pA pBT m p n r) n
      (fun c t hc hi => cmplx_mult_col_step_inv H pA pBT m p n r hr hp1 hp hn hmp hA hT c t hc hi)
    · refine ⟨rfl, ?_, ?_, h2, h3, h4⟩
      · show 0 = 2 * (0 * p)
        omega
      · show s.px = 2 * (r * n + 0)
        rw [h1]; ring
    · exact le_refl n
  unfold cmplx_mult_row_step
  dsimp only
  generalize doWhileLoop (fun s : CmplxMultState => decide (s.col > 0))
    (cmplx_mult_col_step H pA pBT p) (doWhileFuel n) { s with col := n, pInB := 0 } = t
    at hcol ⊢
  obtain ⟨c1, c2, c3, c4, c5, c6⟩ := hcol
  unfold MultRowInv
  dsimp only
  refine ⟨?_, ?_, ?_, ?_⟩
  · rw [c3]; ring
  · rw [c4]
    rw [u32_of_lt (by omega)]
    ring
  · rw [c5]
    unfold u32sub
    omega
  · intro rr cc hrr hcc hcase
    apply c6 rr cc hrr hcc
    rcases hcase with h | ⟨_, h⟩
    · by_cases hlt : rr < r
      · exact Or.inl hlt
      · exact Or.inr ⟨by omega, hcc⟩
    · omega

/-- The row step of the product decrements `row`. -/
theorem cmplx_mult_row_step_row (H : Helpers) (pA pBT : Buf) (p n : Nat) (hn1 : 1 ≤ n)
    (hn : n ≤ 65535) (s : CmplxMultState) (h1 : 0 < s.row) (h2 : s.row ≤ 4294967296) :
    (cmplx_mult_row_step H pA pBT p n s).row = s.row - 1 := by
  have hfuel : doWhileFuel n = n := if_neg (by omega)
  have hrow : (doWhileLoop (fun s : CmplxMultState => decide (s.col > 0))
      (cmplx_mult_col_step H pA pBT p) (doWhileFuel n) { s with col := n, pInB := 0 }).row
      = s.row := by
    rw [hfuel, doWhileLoop_countdown CmplxMultState.col (cmplx_mult_col_step H pA pBT p)
      4294967296
      (fun t ht1 ht2 => by
        rw [(cmplx_mult_col_step_fields H pA pBT p t).1]
        unfold u32sub
        omega)
      n _ hn1 (by show n ≤ _; omega) (by show n ≤ _; omega)]
    exact iterate_invariant (cmplx_mult_col_step H pA pBT p)
      (fun _ t => t.row = s.row) n
      (fun _ t _ ht => by
        show (cmplx_mult_col_step H pA pBT p t).row = s.row
        rw [(cmplx_mult_col_step_fields H pA pBT p t).2.1]
        exact ht)
      { s with col := n, pInB := 0 } rfl n (le_refl n)
  unfold cmplx_mult_row_step
  dsimp only
  rw [hrow]
  unfold u32sub
  omega

theorem wrap16_sat16 (x : Int) : wrap16 (sat16 x) = sat16 x := by
  unfold sat16
  split_ifs
  · decide
  · decide
  · exact wrap16_of_range (by omega) (by omega)

/-- The row loop of the product runs its body `numRowsA` times. -/
theorem cmplx_mult_loop_eq (H : Helpers) (pA pBT : Buf) (m p n : Nat) (d : Buf)
    (hm1 : 1 ≤ m) (hm : m ≤ 65535) (hn1 : 1 ≤ n) (hn : n ≤ 65535) :
    doWhileLoop (fun s : CmplxMultState => decide (s.row > 0))
        (cmplx_mult_row_step H pA pBT p n) (doWhileFuel m)
        (CmplxMultState.mk m 0 0 0 0 0 0 0 0 d)
      = (cmplx_mult_row_step H pA pBT p n)^[m] (CmplxMultState.mk m 0 0 0 0 0 0 0 0 d) := by
  have hf : doWhileFuel m = m := if_neg (by omega)
  rw [hf]
  exact doWhileLoop_countdown CmplxMultState.row (cmplx_mult_row_step H pA pBT p n) 4294967296
    (fun s h1 h2 => cmplx_mult_row_step_row H pA pBT p n hn1 hn s h1 h2)
    m _ hm1 (by show m ≤ _; omega) (by show m ≤ _; omega)

/-- Every sample of the transpose is a sample of `B`. -/
theorem transpose_isQ15 (b t : Buf) (p n : Nat) (hp1 : 1 ≤ p)
    (hb : ∀ j, j < 2 * (p * n) → isQ15 (b j))
    (ht : ∀ k c, k < p → c < n →
      t (2 * (c * p + k)) = b (2 * (k * n + c)) ∧
      t (2 * (c * p + k) + 1) = b (2 * (k * n + c) + 1)) :
    ∀ j, j < 2 * (n * p) → isQ15 (t j) := by
  intro j hj
  have hk : j / 2 % p < p := Nat.mod_lt _ (by omega)
  have hc : j / 2 / p < n := by
    rw [Nat.div_lt_iff_lt_mul (by omega)]
    omega
  have hdm : j / 2 / p * p + j / 2 % p = j / 2 := by
    rw [Nat.mul_comm]
    exact Nat.div_add_mod (j / 2) p
  obtain ⟨t1, t2⟩ := ht (j / 2 % p) (j / 2 / p) hk hc
  have hidx := row_offset_lt p n (j / 2 % p) hk
  rcases Nat.mod_two_eq_zero_or_one j with h0 | h1
  · have hj2 : j = 2 * (j / 2 / p * p + j / 2 % p) := by rw [hdm]; omega
    rw [hj2, t1]
    exact hb _ (by omega)
  · have hj2 : j = 2 * (j / 2 / p * p + j / 2 % p) + 1 := by rw [hdm]; omega
    rw [hj2, t2]
    exact hb _ (by omega)

/-- The entries that `arm_mat_cmplx_mult_q15` writes, for complex Q15 matrices `A`
(`m x p`) and `B` (`p x n`) with `m, p, n ≥ 1` (`uint16_t` dimensions, and the `2 m p`
samples of `A` within reach of the 32-bit index `i * 2`): the function returns
`ARM_MATH_SUCCESS`; for every row `r` and column `c` the two samples of the entry are
`__SSAT` of the real and of the imaginary part of the exact sum over `k` of
`A[r][k] * B[k][c]`, shifted right by 15 bits and narrowed to the 32-bit parameter of
`__SSAT`; the exact sums are at most `2 ^ 31 * p` in absolute value; the scratch buffer
holds the transpose of `B`.  `read_q15x2_ia` and `write_q15x2`, which are not among the
embedded files, are taken to move two consecutive samples. -/
theorem arm_mat_cmplx_mult_q15_entries (H : Helpers) (a b d pScratch : Buf)
    (m p n dr dc : Nat)
    (hm1 : 1 ≤ m) (hm : m ≤ 65535) (hp1 : 1 ≤ p) (hp : p ≤ 65535) (hn1 : 1 ≤ n)
    (hn : n ≤ 65535) (hmp : 2 * (m * p) ≤ 4294967296)
    (hA : ∀ j, j < 2 * (m * p) → isQ15 (a j)) (hB : ∀ j, j < 2 * (p * n) → isQ15 (b j))
    (hrw : ∀ (d q : Buf) (i j : Nat), isQ15 (q j) → isQ15 (q (j + 1)) →
      H.write_q15x2 d i (H.read_q15x2_ia q j) = (d.set i (q j)).set (i + 1) (q (j + 1))) :
    (arm_mat_cmplx_mult_q15 H { numRows := m, numCols := p, pData := a }
      { numRows := p, numCols := n, pData := b } { numRows := dr, numCols := dc, pData := d }
      pScratch).1 = arm_status.ARM_MATH_SUCCESS ∧
    (∀ r c, r < m → c < n →
      (arm_mat_cmplx_mult_q15 H { numRows := m, numCols := p, pData := a }
        { numRows := p, numCols := n, pData := b }
        { numRows := dr, numCols := dc, pData := d } pScratch).2.1 (2 * (r * n + c))
        = wrap16 (H.__SSAT (wrap32 (shr (cmplxProdRe a b p n r c) 15)) 16) ∧
      (arm_mat_cmplx_mult_q15 H { numRows := m, numCols := p, pData := a }
        { numRows := p, numCols := n, pData := b }
        { numRows := dr, numCols := dc, pData := d } pScratch).2.1 (2 * (r * n + c) + 1)
        = wrap16 (H.__SSAT (wrap32 (shr (cmplxProdIm a b p n r c) 15)) 16) ∧
      (-(2147483648 * (p : Int)) ≤ cmplxProdRe a b p n r c ∧
        cmplxProdRe a b p n r c ≤ 2147483648 * (p : Int)) ∧
      (-(2147483648 * (p : Int)) ≤ cmplxProdIm a b p n r c ∧
        cmplxProdIm a b p n r c ≤ 2147483648 * (p : Int))) ∧
    (∀ k c, k < p → c < n →
      (arm_mat_cmplx_mult_q15 H { numRows := m, numCols := p, pData := a }
        { numRows := p, numCols := n, pData := b }
        { numRows := dr, numCols := dc, pData := d } pScratch).2.2 (2 * (c * p + k))
        = b (2 * (k * n + c)) ∧
      (arm_mat_cmplx_mult_q15 H { numRows := m, numCols := p, pData := a }
        { numRows := p, numCols := n, pData := b }
        { numRows := dr, numCols := dc, pData := d } pScratch).2.2 (2 * (c * p + k) + 1)
        = b (2 * (k * n + c) + 1)) := by
  have hT := cmplx_mult_transpose_eq H b p n pScratch hp1 hp hB hrw
  generalize hTdef : cmplx_mult_transpose H { numRows := p, numCols := n, pData := b }
    pScratch = t at hT
  have hTQ := transpose_isQ15 b t p n hp1 hB hT
  have hinv : MultRowInv H a t m p n m
      ((cmplx_mult_row_step H a t p n)^[m] (CmplxMultState.mk m 0 0 0 0 0 0 0 0 d)) := by
    apply iterate_invariant (cmplx_mult_row_step H a t p n) (MultRowInv H a t m p n) m
      (fun r s hr hi =>
        cmplx_mult_row_step_inv H a t m p n r hr hm hp1 hp hn1 hn hmp hA hTQ s hi)
    · refine ⟨?_, ?_, rfl, ?_⟩
      · show 0 = 2 * (0 * n)
        omega
      · show 0 = 0 * p
        omega
      · intro rr cc _ _ hcase
        omega
    · exact le_refl m
  have hR : arm_mat_cmplx_mult_q15 H { numRows := m, numCols := p, pData := a }
      { numRows := p, numCols := n, pData := b } { numRows := dr, numCols := dc, pData := d }
      pScratch
      = (arm_status.ARM_MATH_SUCCESS,
        ((cmplx_mult_row_step H a t p n)^[m] (CmplxMultState.mk m 0 0 0 0 0 0 0 0 d)).dst,
        t) := by
    rw [← cmplx_mult_loop_eq H a t m p n d hm1 hm hn1 hn, ← hTdef]
    rfl
  rw [hR]
  refine ⟨rfl, fun r c hr hc => ?_, fun k c hk hc => hT k c hk hc⟩
  obtain ⟨v1, v2⟩ := hinv.2.2.2 r c hr hc (Or.inl hr)
  have hrp := row_offset_lt m p r hr
  have hcp := row_offset_lt n p c hc
  have hre : dotRe a t (r * p * 2) (2 * (c * p)) p = cmplxProdRe a b p n r c := by
    unfold dotRe cmplxProdRe
    apply sumTo_congr
    intro k hk
    obtain ⟨t1, t2⟩ := hT k c hk hc
    have e1 : r * p * 2 + 2 * k = 2 * (r * p + k) := by omega
    have e2 : 2 * (c * p) + 2 * k = 2 * (c * p + k) := by omega
    rw [e1, e2, t1, t2]
  have him : dotIm a t (r * p * 2) (2 * (c * p)) p = cmplxProdIm a b p n r c := by
    unfold dotIm cmplxProdIm
    apply sumTo_congr
    intro k hk
    obtain ⟨t1, t2⟩ := hT k c hk hc
    have e1 : r * p * 2 + 2 * k = 2 * (r * p + k) := by omega
    have e2 : 2 * (c * p) + 2 * k = 2 * (c * p + k) := by omega
    rw [e1, e2, t1, t2]
  have hbd := dot_bounds a t (r * p * 2) (2 * (c * p)) p
    (fun u hu => hA _ (by omega)) (fun u hu => hTQ _ (by omega)) p (le_refl p)
  rw [hre, him] at hbd
  rw [hre] at v1
  rw [him] at v2
  exact ⟨v1, v2, hbd.1, hbd.2⟩

/-- The range in which the claim C29 holds: for an inner dimension `p ≤ 32767` the exact
sums shifted right by 15 bits fit the 32-bit parameter of `__SSAT`, and
`arm_mat_cmplx_mult_q15` returns `ARM_MATH_SUCCESS` and writes, for every row `r` and
column `c`, the real and the imaginary part of the sum over `k` of `A[r][k] * B[k][c]`,
accumulated exactly (the exact sums are in the 64-bit range), shifted right by 15 bits
and saturated to `[-32768, 32767]`; the scratch buffer holds the transpose of `B`.
`__SSAT (x, 16)` is taken to saturate to 16 bits. -/
theorem arm_mat_cmplx_mult_q15_spec (H : Helpers) (a b d pScratch : Buf) (m p n dr dc : Nat)
    (hm1 : 1 ≤ m) (hm : m ≤ 65535) (hp1 : 1 ≤ p) (hp : p ≤ 32767) (hn1 : 1 ≤ n)
    (hn : n ≤ 65535) (hmp : 2 * (m * p) ≤ 4294967296)
    (hA : ∀ j, j < 2 * (m * p) → isQ15 (a j)) (hB : ∀ j, j < 2 * (p * n) → isQ15 (b j))
    (hrw : ∀ (d q : Buf) (i j : Nat), isQ15 (q j) → isQ15 (q (j + 1)) →
      H.write_q15x2 d i (H.read_q15x2_ia q j) = (d.set i (q j)).set (i + 1) (q (j + 1)))
    (hsat : ∀ x, H.__SSAT x 16 = sat16 x) :
    (arm_mat_cmplx_mult_q15 H { numRows := m, numCols := p, pData := a }
      { numRows := p, numCols := n, pData := b } { numRows := dr, numCols := dc, pData := d }
      pScratch).1 = arm_status.ARM_MATH_SUCCESS ∧
    (∀ r c, r < m → c < n →
      (arm_mat_cmplx_mult_q15 H { numRows := m, numCols := p, pData := a }
        { numRows := p, numCols := n, pData := b }
        { numRows := dr, numCols := dc, pData := d } pScratch).2.1 (2 * (r * n + c))
        = sat16 (shr (cmplxProdRe a b p n r c) 15) ∧
      (arm_mat_cmplx_mult_q15 H { numRows := m, numCols := p, pData := a }
        { numRows := p, numCols := n, pData := b }
        { numRows := dr, numCols := dc, pData := d } pScratch).2.1 (2 * (r * n + c) + 1)
        = sat16 (shr (cmplxProdIm a b p n r c) 15) ∧
      isQ63 (cmplxProdRe a b p n r c) ∧ isQ63 (cmplxProdIm a b p n r c)) ∧
    (∀ k c, k < p → c < n →
      (arm_mat_cmplx_mult_q15 H { numRows := m, numCols := p, pData := a }
        { numRows := p, numCols := n, pData := b }
        { numRows := dr, numCols := dc, pData := d } pScratch).2.2 (2 * (c * p + k))
        = b (2 * (k * n + c)) ∧
      (arm_mat_cmplx_mult_q15 H { numRows := m, numCols := p, pData := a }
        { numRows := p, numCols := n, pData := b }
        { numRows := dr, numCols := dc, pData := d } pScratch).2.2 (2 * (c * p + k) + 1)
        = b (2 * (k * n + c) + 1)) := by
  have h := arm_mat_cmplx_mult_q15_entries H a b d pScratch m p n dr dc hm1 hm hp1 (by omega)
    hn1 hn hmp hA hB hrw
  refine ⟨h.1, fun r c hr hc => ?_, h.2.2⟩
  obtain ⟨v1, v2, ⟨b1, b2⟩, ⟨b3, b4⟩⟩ := h.2.1 r c hr hc
  have hpI : (p : Int) ≤ 32767 := by omega
  have w1 : wrap32 (shr (cmplxProdRe a b p n r c) 15) = shr (cmplxProdRe a b p n r c) 15 := by
    rw [shr_fifteen]
    exact wrap32_of_range (by omega) (by omega)
  have w2 : wrap32 (shr (cmplxProdIm a b p n r c) 15) = shr (cmplxProdIm a b p n r c) 15 := by
    rw [shr_fifteen]
    exact wrap32_of_range (by omega) (by omega)
  refine ⟨?_, ?_, ⟨by omega, by omega⟩, ⟨by omega, by omega⟩⟩
  · rw [v1, w1, hsat, wrap16_sat16]
  · rw [v2, w2, hsat, wrap16_sat16]

/-! ## Instances on concrete inputs -/

theorem ssat_sixteen (x : Int) : ssat x 16 = sat16 x := by
  unfold ssat sat16
  norm_num

/-- The two-sample word of `exampleHelpers` is read back as the two samples. -/
theorem exampleHelpers_read_write (d q : Buf) (i j : Nat) (h0 : isQ15 (q j))
    (h1 : isQ15 (q (j + 1))) :
    exampleHelpers.write_q15x2 d i (exampleHelpers.read_q15x2_ia q j)
      = (d.set i (q j)).set (i + 1) (q (j + 1)) := by
  obtain ⟨a1, a2⟩ := h0
  obtain ⟨b1, b2⟩ := h1
  show (d.set i (wrap16 (wrap32 (q j % 65536 + 65536 * q (j + 1))))).set (i + 1)
      (wrap16 (shr (wrap32 (q j % 65536 + 65536 * q (j + 1))) 16))
    = (d.set i (q j)).set (i + 1) (q (j + 1))
  have hw : wrap32 (q j % 65536 + 65536 * q (j + 1)) = q j % 65536 + 65536 * q (j + 1) :=
    wrap32_of_range (by omega) (by omega)
  have e1 : wrap16 (q j % 65536 + 65536 * q (j + 1)) = q j := by unfold wrap16; omega
  have e2 : wrap16 ((q j % 65536 + 65536 * q (j + 1)) / 65536) = q (j + 1) := by
    unfold wrap16; omega
  rw [hw, shr_sixteen, e1, e2]

/-- Instance of C25: four samples of `exampleBuf`. -/
theorem arm_rms_q15_no_overflow_witness :
    arm_rms_q15_sum exampleBuf 4 = sumSq exampleBuf 4 ∧
    0 ≤ arm_rms_q15_arg exampleHelpers exampleBuf 4 ∧
    arm_rms_q15_arg exampleHelpers exampleBuf 4 ≤ 32767 ∧
    sumSq exampleBuf 4 = 2148418122 :=
  have h := arm_rms_q15_no_overflow exampleHelpers exampleBuf 4 (by decide) (by decide)
    (fun i _ => exampleBuf_q15 i) ssat_sixteen
  ⟨h.2.1, h.2.2.2.1, h.2.2.2.2.1, by decide⟩

/-- Instance of C26: `shift = 3` on samples at the negative end of the Q31 range. -/
theorem arm_scale_q31_saturates_witness :
    arm_scale_q31 q31MinBuf 1073741824 3 zeroBuf 2 1
      = sat32 (q31MinBuf 1 * 1073741824 / 4294967296 * 2 ^ ((3 : Int) + 1).toNat) ∧
    arm_scale_q31 q31MinBuf 1073741824 3 zeroBuf 2 1 = -2147483648 :=
  ⟨(arm_scale_q31_saturates q31MinBuf 1073741824 3 zeroBuf 2 (by decide) (by decide)
      (by decide) (fun _ _ => by unfold q31MinBuf; decide)).1 1 (by decide),
   by decide⟩

/-- Instance of C27: the first sample of `exampleBuf`, whose imaginary part is
`0x8000`. -/
theorem arm_cmplx_conj_q15_spec_witness :
    arm_cmplx_conj_q15 exampleBuf zeroBuf 2 (2 * 0) = exampleBuf (2 * 0) ∧
    arm_cmplx_conj_q15 exampleBuf zeroBuf 2 (2 * 0 + 1) = 32767 :=
  have h := (arm_cmplx_conj_q15_spec exampleBuf zeroBuf 2 (fun j _ => exampleBuf_q15 j)).1 0
    (by decide)
  ⟨h.1, h.2.trans (by decide)⟩

/-- Instance of the safe range of C29: the product of the `2 x 2` matrices in
`exampleBuf` and `exampleCoef`. -/
theorem arm_mat_cmplx_mult_q15_spec_witness :
    (arm_mat_cmplx_mult_q15 exampleHelpers { numRows := 2, numCols := 2, pData := exampleBuf }
      { numRows := 2, numCols := 2, pData := exampleCoef }
      { numRows := 2, numCols := 2, pData := zeroBuf } zeroBuf).1
      = arm_status.ARM_MATH_SUCCESS ∧
    (arm_mat_cmplx_mult_q15 exampleHelpers { numRows := 2, numCols := 2, pData := exampleBuf }
      { numRows := 2, numCols := 2, pData := exampleCoef }
      { numRows := 2, numCols := 2, pData := zeroBuf } zeroBuf).2.1 (2 * (0 * 2 + 1))
      = sat16 (shr (cmplxProdRe exampleBuf exampleCoef 2 2 0 1) 15) ∧
    (arm_mat_cmplx_mult_q15 exampleHelpers { numRows := 2, numCols := 2, pData := exampleBuf }
      { numRows := 2, numCols := 2, pData := exampleCoef }
      { numRows := 2, numCols := 2, pData := zeroBuf } zeroBuf).2.2 (2 * (1 * 2 + 0))
      = exampleCoef (2 * (0 * 2 + 1)) :=
  have h := arm_mat_cmplx_mult_q15_spec exampleHelpers exampleBuf exampleCoef zeroBuf zeroBuf
    2 2 2 2 2 (by decide) (by decide) (by decide) (by decide) (by decide) (by decide)
    (by decide) (fun j _ => exampleBuf_q15 j) (fun j _ => exampleCoef_q15 j)
    exampleHelpers_read_write ssat_sixteen
  ⟨h.1, (h.2.1 0 1 (by decide) (by decide)).1, (h.2.2 0 1 (by decide) (by decide)).1⟩

/-- Instance of C30: a sequence of three samples against one of two samples, and the
two in the other order. -/
theorem arm_correlate_fast_opt_q15_agrees_witness :
    (arm_correlate_fast_opt_q15 exampleHelpers exampleBuf 3 exampleCoef 2 zeroBuf exampleBuf).1
      = arm_correlate_q15 exampleHelpers exampleBuf 3 exampleCoef 2 zeroBuf ∧
    (arm_correlate_fast_opt_q15 exampleHelpers exampleCoef 2 exampleBuf 3 zeroBuf exampleBuf).1
      = arm_correlate_q15 exampleHelpers exampleCoef 2 exampleBuf 3 zeroBuf ∧
    arm_correlate_q15 exampleHelpers exampleBuf 3 exampleCoef 2 zeroBuf 2 = 32766 :=
  ⟨arm_correlate_fast_opt_q15_agrees exampleHelpers exampleBuf 3 exampleCoef 2 zeroBuf
      exampleBuf (by decide) (by decide) (by decide) (fun j _ => exampleBuf_q15 j)
      (fun j _ => exampleCoef_q15 j) (fun _ _ _ => rfl) (fun _ _ _ => rfl)
      (fun i hi => by
        have hi4 : i < 4 := hi
        interval_cases i <;> decide),
   arm_correlate_fast_opt_q15_agrees exampleHelpers exampleCoef 2 exampleBuf 3 zeroBuf
      exampleBuf (by decide) (by decide) (by decide) (fun j _ => exampleCoef_q15 j)
      (fun j _ => exampleBuf_q15 j) (fun _ _ _ => rfl) (fun _ _ _ => rfl)
      (fun i hi => by
        have hi4 : i < 4 := hi
        interval_cases i <;> decide),
   by decide⟩

/-! ## `arm_correlate_q15`: exchanging the two sequences reverses the output -/

/-- The destination after the output loop of `arm_correlate_q15`: the `tot + 1` output
values, stored one by one. -/
theorem correlate_q15_loop_dst (H : Helpers) (x : Buf) (A : Nat) (y : Buf) (off B tot inv : Nat)
    (start : Int) (dst : Buf) (htot : tot + 1 < 4294967296) :
    (correlate_q15_loop H x A y off B tot inv start dst).dst
      = iterBody (fun i d =>
          d.set (start + (if inv = 1 then -1 else 1) * (i : Int)).toNat
            (wrap16 (H.__SSAT (wrap32 (shr (correlate_q15_sum x A y off B i) 15)) 16)))
          (tot + 1) dst := by
  have h := correlate_q15_loop_aux H x A y off B tot inv start dst htot (tot + 1) 0 (by omega)
  simp only [Nat.cast_zero, mul_zero, add_zero] at h
  rw [show iterBody _ 0 dst = dst from rfl] at h
  unfold correlate_q15_loop
  rw [h]

/-- Stores at pairwise distinct positions: a position that is not stored to keeps its
value. -/
theorem iterBody_set_miss (pos : Nat → Nat) (val : Nat → Int) (d : Buf) (q : Nat) :
    ∀ n, (∀ i, i < n → pos i ≠ q) →
      iterBody (fun i p => p.set (pos i) (val i)) n d q = d q := by
  intro n
  induction n with
  | zero => intro _; rfl
  | succ n ih =>
    intro h
    simp only [iterBody, Buf.set]
    rw [if_neg (fun e => h n (by omega) e.symm)]
    exact ih (fun i hi => h i (by omega))

/-- Stores at pairwise distinct positions: position `pos i` holds the value of store
`i`. -/
theorem iterBody_set_hit (pos : Nat → Nat) (val : Nat → Int) (d : Buf) :
    ∀ n, (∀ i j, i < j → j < n → pos i ≠ pos j) → ∀ i, i < n →
      iterBody (fun i p => p.set (pos i) (val i)) n d (pos i) = val i := by
  intro n
  induction n with
  | zero => intro _ i hi; omega
  | succ n ih =>
    intro h i hi
    simp only [iterBody, Buf.set]
    by_cases e : i = n
    · subst e
      rw [if_pos rfl]
    · rw [if_neg (h i n (by omega) (by omega))]
      exact ih (fun a b hab hb => h a b hab (by omega)) i (by omega)

theorem sumTo_split (f : Nat → Int) (n a b : Nat) (h : n = a + b) :
    sumTo f n = sumTo f a + sumTo (fun t => f (a + t)) b := by
  subst h
  exact sumTo_add f a b

/-- For two sequences of the same length, the exact correlation sum of index `i` is the
sum of index `2 * srcALen - 2 - i` with the sequences exchanged, in the upper half of the
indices. -/
theorem corrSum_reverse_ge (x y : Buf) (A i : Nat) (h1 : A - 1 ≤ i) (h2 : i ≤ 2 * A - 2)
    (hA : 1 ≤ A) : corrSum x A y A i = corrSum y A x A (2 * A - 2 - i) := by
  unfold corrSum
  rw [sumTo_split (fun t => zeroPad x A A (i + t) * y t) A (A - (i - (A - 1))) (i - (A - 1))
      (by omega),
    sumTo_zero (fun t => (fun t => zeroPad x A A (i + t) * y t) (A - (i - (A - 1)) + t))
      (i - (A - 1)), add_zero,
    sumTo_split (fun t => zeroPad y A A (2 * A - 2 - i + t) * x t) A (i - (A - 1))
      (A - (i - (A - 1))) (by omega),
    sumTo_zero (fun t => zeroPad y A A (2 * A - 2 - i + t) * x t) (i - (A - 1)), zero_add]
  · apply sumTo_congr
    intro t ht
    beta_reduce
    simp only [zeroPad]
    rw [if_neg (show ¬ i + t < A - 1 by omega), if_pos (show i + t < A - 1 + A by omega),
      if_neg (show ¬ 2 * A - 2 - i + (i - (A - 1) + t) < A - 1 by omega),
      if_pos (show 2 * A - 2 - i + (i - (A - 1) + t) < A - 1 + A by omega)]
    have e1 : i + t - (A - 1) = i - (A - 1) + t := by omega
    have e2 : 2 * A - 2 - i + (i - (A - 1) + t) - (A - 1) = t := by omega
    rw [e1, e2]
    ring
  · intro j hj
    simp only [zeroPad]
    rw [if_pos (show 2 * A - 2 - i + j < A - 1 by omega)]
    ring
  · intro j hj
    beta_reduce
    simp only [zeroPad]
    rw [if_neg (show ¬ i + (A - (i - (A - 1)) + j) < A - 1 by omega),
      if_neg (show ¬ i + (A - (i - (A - 1)) + j) < A - 1 + A by omega)]
    ring

/-- For two sequences of the same length, the exact correlation sum of index `i` is the
sum of index `2 * srcALen - 2 - i` with the sequences exchanged. -/
theorem corrSum_reverse (x y : Buf) (A i : Nat) (h2 : i ≤ 2 * A - 2) (hA : 1 ≤ A) :
    corrSum x A y A i = corrSum y A x A (2 * A - 2 - i) := by
  by_cases h1 : A - 1 ≤ i
  · exact corrSum_reverse_ge x y A i h1 h2 hA
  · have h := corrSum_reverse_ge y x A (2 * A - 2 - i) (by omega) (by omega) hA
    have e : 2 * A - 2 - (2 * A - 2 - i) = i := by omega
    rw [e] at h
    exact h.symm

/-- The output loop of `arm_correlate_q15` with `inv = 0`: output value `i` is at the
offset `start + i`, and the other positions keep their values. -/
theorem correlate_q15_loop_forward (H : Helpers) (x : Buf) (A : Nat) (y : Buf)
    (off B tot start : Nat) (dst : Buf) (htot : tot + 1 < 4294967296) :
    (correlate_q15_loop H x A y off B tot 0 (start : Int) dst).dst
      = iterBody (fun i d =>
          d.set (start + i)
            (wrap16 (H.__SSAT (wrap32 (shr (correlate_q15_sum x A y off B i) 15)) 16)))
          (tot + 1) dst := by
  rw [correlate_q15_loop_dst H x A y off B tot 0 (start : Int) dst htot]
  apply iterBody_congr
  intro i _ q
  have e : ((start : Int) + (if 0 = 1 then -1 else 1) * (i : Int)).toNat = start + i := by
    simp only [Nat.zero_ne_one, if_false]
    omega
  show q.set _ _ = q.set _ _
  rw [e]

/-- The output loop of `arm_correlate_q15` with `inv = 1`: output value `i` is at the
offset `start - i`. -/
theorem correlate_q15_loop_backward (H : Helpers) (x : Buf) (A : Nat) (y : Buf)
    (off B tot start : Nat) (dst : Buf) (htot : tot + 1 < 4294967296) :
    (correlate_q15_loop H x A y off B tot 1 (start : Int) dst).dst
      = iterBody (fun i d =>
          d.set (start - i)
            (wrap16 (H.__SSAT (wrap32 (shr (correlate_q15_sum x A y off B i) 15)) 16)))
          (tot + 1) dst := by
  rw [correlate_q15_loop_dst H x A y off B tot 1 (start : Int) dst htot]
  apply iterBody_congr
  intro i _ q
  have e : ((start : Int) + (if 1 = 1 then -1 else 1) * (i : Int)).toNat = start - i := by
    simp only [if_true]
    omega
  show q.set _ _ = q.set _ _
  rw [e]

/-- The longer sequence first: the output at index `n` is the output at index
`2 * X - 2 - n` of the call with the two sequences exchanged. -/
theorem correlate_q15_reverse_gt (H : Helpers) (x : Buf) (X : Nat) (y : Buf) (Y : Nat) (d : Buf)
    (hY : 1 ≤ Y) (hXY : Y < X) (hlen : X + Y ≤ 2147483648)
    (hd : ∀ j, j < 2 * X - 1 → d j = 0) :
    ∀ n, n < 2 * X - 1 →
      arm_correlate_q15 H x X y Y d n = arm_correlate_q15 H y Y x X d (2 * X - 2 - n) := by
  intro n hn
  have t1 : u32sub (u32 (X + Y)) 2 = X + Y - 2 := by unfold u32sub u32; omega
  have t3 : u32sub (u32 (Y + X)) 2 = X + Y - 2 := by unfold u32sub u32; omega
  have tj : u32sub X Y = X - Y := by unfold u32sub; omega
  have hgt : X > Y := hXY
  have hng : ¬ Y > X := by omega
  have e1 : arm_correlate_q15 H x X y Y d
      = (correlate_q15_loop H x X y (u32sub Y 1) Y (X + Y - 2) 0 ((X - Y : Nat) : Int) d).dst := by
    simp only [arm_correlate_q15, hgt, if_true, t1, tj]
  have e2 : arm_correlate_q15 H y Y x X d
      = (correlate_q15_loop H x X y (u32sub Y 1) Y (X + Y - 2) 1
          ((X + Y - 2 : Nat) : Int) d).dst := by
    simp only [arm_correlate_q15, hng, hXY, if_true, if_false, t3]
  rw [e1, e2, correlate_q15_loop_forward H x X y _ Y (X + Y - 2) (X - Y) d (by omega),
    correlate_q15_loop_backward H x X y _ Y (X + Y - 2) (X + Y - 2) d (by omega)]
  by_cases hcase : n < X - Y
  · rw [iterBody_set_miss (fun i => X - Y + i) _ d n (X + Y - 2 + 1)
        (fun i _ => by show X - Y + i ≠ n; omega),
      iterBody_set_miss (fun i => X + Y - 2 - i) _ d (2 * X - 2 - n) (X + Y - 2 + 1)
        (fun i _ => by show X + Y - 2 - i ≠ 2 * X - 2 - n; omega),
      hd n hn, hd _ (by omega)]
  · have hn1 : n = (fun i => X - Y + i) (n - (X - Y)) := by
      show n = X - Y + (n - (X - Y))
      omega
    have hn2 : 2 * X - 2 - n = (fun i => X + Y - 2 - i) (n - (X - Y)) := by
      show 2 * X - 2 - n = X + Y - 2 - (n - (X - Y))
      omega
    rw [hn2]
    nth_rewrite 1 [hn1]
    rw [iterBody_set_hit (fun i => X - Y + i) _ d (X + Y - 2 + 1)
        (fun i j hij _ => by show X - Y + i ≠ X - Y + j; omega) (n - (X - Y)) (by omega),
      iterBody_set_hit (fun i => X + Y - 2 - i) _ d (X + Y - 2 + 1)
        (fun i j hij hj => by show X + Y - 2 - i ≠ X + Y - 2 - j; omega) (n - (X - Y))
        (by omega)]

/-- Two sequences of the same length: the output at index `n` is the output at index
`2 * A - 2 - n` of the call with the two sequences exchanged. -/
theorem correlate_q15_reverse_eq (H : Helpers) (x y : Buf) (A : Nat) (d : Buf) (hA : 1 ≤ A)
    (hlen : A + A ≤ 2147483648) (hx : ∀ j, j < A → isQ15 (x j))
    (hy : ∀ j, j < A → isQ15 (y j)) :
    ∀ n, n < 2 * A - 1 →
      arm_correlate_q15 H x A y A d n = arm_correlate_q15 H y A x A d (2 * A - 2 - n) := by
  intro n hn
  have t1 : u32sub (u32 (A + A)) 2 = A + A - 2 := by unfold u32sub u32; omega
  have t5 : u32sub A 1 = A - 1 := by unfold u32sub; omega
  have hirr : ¬ A > A := by omega
  have hirr2 : ¬ A < A := by omega
  have e1 : ∀ u v : Buf, arm_correlate_q15 H u A v A d
      = (correlate_q15_loop H u A v (A - 1) A (A + A - 2) 0 ((0 : Nat) : Int) d).dst := by
    intro u v
    simp only [arm_correlate_q15, hirr, hirr2, if_false, t1, t5, Nat.cast_zero]
  rw [e1 x y, e1 y x, correlate_q15_loop_forward H x A y _ A (A + A - 2) 0 d (by omega),
    correlate_q15_loop_forward H y A x _ A (A + A - 2) 0 d (by omega)]
  have hn1 : n = (fun i => 0 + i) n := by
    show n = 0 + n
    omega
  have hn2 : 2 * A - 2 - n = (fun i => 0 + i) (2 * A - 2 - n) := by
    show 2 * A - 2 - n = 0 + (2 * A - 2 - n)
    omega
  rw [hn2]
  nth_rewrite 1 [hn1]
  rw [iterBody_set_hit (fun i => 0 + i) _ d (A + A - 2 + 1)
      (fun i j hij _ => by show 0 + i ≠ 0 + j; omega) n (by omega),
    iterBody_set_hit (fun i => 0 + i) _ d (A + A - 2 + 1)
      (fun i j hij _ => by show 0 + i ≠ 0 + j; omega) (2 * A - 2 - n) (by omega),
    correlate_q15_sum_eq x A y A n hA (by omega) hx hy,
    correlate_q15_sum_eq y A x A (2 * A - 2 - n) hA (by omega) hy hx,
    corrSum_reverse x y A n (by omega) hA]

/-- C31: CORR(x, y) is the reverse of CORR(y, x).  For non-empty sequences `a` and `b`
of Q15 samples (`srcALen + srcBLen ≤ 2 ^ 31`) and a destination whose first
`M = 2 * max (srcALen, srcBLen) - 1` samples are zero, the output of
`arm_correlate_q15 (a, b)` at index `n` is the output of `arm_correlate_q15 (b, a)` at
index `M - 1 - n`, for every `n < M`.  `__SSAT` is any function, the same in both
calls. -/
theorem arm_correlate_q15_reverse (H : Helpers) (a : Buf) (srcALen : Nat) (b : Buf)
    (srcBLen : Nat) (pDst : Buf) (hA : 1 ≤ srcALen) (hB : 1 ≤ srcBLen)
    (hlen : srcALen + srcBLen ≤ 2147483648)
    (hQA : ∀ j, j < srcALen → isQ15 (a j)) (hQB : ∀ j, j < srcBLen → isQ15 (b j))
    (hd : ∀ j, j < 2 * max srcALen srcBLen - 1 → pDst j = 0) :
    ∀ n, n < 2 * max srcALen srcBLen - 1 →
      arm_correlate_q15 H a srcALen b srcBLen pDst n
        = arm_correlate_q15 H b srcBLen a srcALen pDst
            (2 * max srcALen srcBLen - 1 - 1 - n) := by
  intro n hn
  rcases Nat.lt_trichotomy srcALen srcBLen with hlt | heq | hgt
  · have hmax : max srcALen srcBLen = srcBLen := max_eq_right (by omega)
    rw [hmax] at hd hn ⊢
    have h := correlate_q15_reverse_gt H b srcBLen a srcALen pDst hA hlt (by omega) hd
      (2 * srcBLen - 1 - 1 - n) (by omega)
    have e : 2 * srcBLen - 2 - (2 * srcBLen - 1 - 1 - n) = n := by omega
    rw [e] at h
    exact h.symm
  · subst heq
    rw [max_self] at hn ⊢
    have h := correlate_q15_reverse_eq H a b srcALen pDst hA hlen hQA hQB n hn
    have e : 2 * srcALen - 1 - 1 - n = 2 * srcALen - 2 - n := by omega
    rw [e]
    exact h
  · have hmax : max srcALen srcBLen = srcALen := max_eq_left (by omega)
    rw [hmax] at hd hn ⊢
    have h := correlate_q15_reverse_gt H a srcALen b srcBLen pDst hB hgt hlen hd n hn
    have e : 2 * srcALen - 1 - 1 - n = 2 * srcALen - 2 - n := by omega
    rw [e]
    exact h

/-- Instance of C31: a sequence of three samples and one of two samples, output
index 3 against index 1 of the call with the sequences exchanged. -/
theorem arm_correlate_q15_reverse_witness :
    arm_correlate_q15 exampleHelpers exampleBuf 3 exampleCoef 2 zeroBuf 3
      = arm_correlate_q15 exampleHelpers exampleCoef 2 exampleBuf 3 zeroBuf
          (2 * max 3 2 - 1 - 1 - 3) ∧
    arm_correlate_q15 exampleHelpers exampleBuf 3 exampleCoef 2 zeroBuf 3 = -32767 ∧
    arm_correlate_q15 exampleHelpers exampleCoef 2 exampleBuf 3 zeroBuf 1 = -32767 ∧
    arm_correlate_q15 exampleHelpers exampleBuf 3 exampleCoef 2 zeroBuf 0 = 0 :=
  ⟨arm_correlate_q15_reverse exampleHelpers exampleBuf 3 exampleCoef 2 zeroBuf (by decide)
      (by decide) (by decide) (fun j _ => exampleBuf_q15 j) (fun j _ => exampleCoef_q15 j)
      (fun _ _ => rfl) 3 (by decide),
   by decide, by decide, by decide⟩

/-! ## `arm_mat_cmplx_mult_q15`: the value handed to `__SSAT` is narrowed to 32 bits -/

theorem sumTo_const (f : Nat → Int) (c : Int) (n : Nat) (h : ∀ k, k < n → f k = c) :
    sumTo f n = (n : Int) * c := by
  induction n with
  | zero => simp [sumTo]
  | succ n ih =>
    simp only [sumTo]
    rw [ih (fun k hk => h k (by omega)), h n (by omega)]
    push_cast
    ring

/-- C29, failing input: `A` is the `1 x 32769` matrix whose samples are all `-32768`
and `B` the `32769 x 1` matrix whose elements are all `-32768 + 32767 i`.  Every real
term is `2 ^ 30 + 32768 * 32767 = 2147450880`, the exact real sum is `70369817886720`,
which shifted right by 15 bits is `2147516415`, more than the largest `int32_t`: saturated
it is `32767`, but narrowed to the 32-bit parameter of `__SSAT` it is negative, and
`arm_mat_cmplx_mult_q15` stores `-32768` in the real part of the entry.  The inner
dimension `32768` suffices for the imaginary part: with all samples of `A` and `B` equal
to `-32768` the exact imaginary sum is `2 ^ 46`, shifted `2 ^ 31`, and the function stores
`-32768` where the saturated value is `32767`. -/
theorem arm_mat_cmplx_mult_q15_narrows :
    (∀ j, isQ15 (q15MinBuf j)) ∧ (∀ j, isQ15 (q15MinMaxBuf j)) ∧
    cmplxProdRe q15MinBuf q15MinMaxBuf 32769 1 0 0 = 70369817886720 ∧
    shr (cmplxProdRe q15MinBuf q15MinMaxBuf 32769 1 0 0) 15 = 2147516415 ∧
    sat16 (shr (cmplxProdRe q15MinBuf q15MinMaxBuf 32769 1 0 0) 15) = 32767 ∧
    (arm_mat_cmplx_mult_q15 exampleHelpers
      { numRows := 1, numCols := 32769, pData := q15MinBuf }
      { numRows := 32769, numCols := 1, pData := q15MinMaxBuf }
      { numRows := 1, numCols := 1, pData := zeroBuf } zeroBuf).2.1 (2 * (0 * 1 + 0))
      = -32768 ∧
    cmplxProdIm q15MinBuf q15MinBuf 32768 1 0 0 = 70368744177664 ∧
    sat16 (shr (cmplxProdIm q15MinBuf q15MinBuf 32768 1 0 0) 15) = 32767 ∧
    (arm_mat_cmplx_mult_q15 exampleHelpers
      { numRows := 1, numCols := 32768, pData := q15MinBuf }
      { numRows := 32768, numCols := 1, pData := q15MinBuf }
      { numRows := 1, numCols := 1, pData := zeroBuf } zeroBuf).2.1 (2 * (0 * 1 + 0) + 1)
      = -32768 := by
  have hq1 : ∀ j, isQ15 (q15MinBuf j) := fun _ => by unfold q15MinBuf; decide
  have hq2 : ∀ j, isQ15 (q15MinMaxBuf j) := fun j => by
    unfold q15MinMaxBuf
    split_ifs <;> decide
  have hre : cmplxProdRe q15MinBuf q15MinMaxBuf 32769 1 0 0 = 70369817886720 := by
    unfold cmplxProdRe
    refine Eq.trans (sumTo_const _ 2147450880 32769 ?_) (by norm_num)
    intro k _
    simp only [q15MinBuf, q15MinMaxBuf]
    rw [if_pos (show 2 * (k * 1 + 0) % 2 = 0 by omega),
      if_neg (show ¬ (2 * (k * 1 + 0) + 1) % 2 = 0 by omega)]
    norm_num
  have him : cmplxProdIm q15MinBuf q15MinBuf 32768 1 0 0 = 70368744177664 := by
    unfold cmplxProdIm
    refine Eq.trans (sumTo_const _ 2147483648 32768 ?_) (by norm_num)
    intro k _
    simp only [q15MinBuf]
    norm_num
  have h1 := arm_mat_cmplx_mult_q15_entries exampleHelpers q15MinBuf q15MinMaxBuf zeroBuf
    zeroBuf 1 32769 1 1 1 (by norm_num) (by norm_num) (by norm_num) (by norm_num)
    (by norm_num) (by norm_num) (by norm_num) (fun j _ => hq1 j) (fun j _ => hq2 j)
    exampleHelpers_read_write
  have h2 := arm_mat_cmplx_mult_q15_entries exampleHelpers q15MinBuf q15MinBuf zeroBuf
    zeroBuf 1 32768 1 1 1 (by norm_num) (by norm_num) (by norm_num) (by norm_num)
    (by norm_num) (by norm_num) (by norm_num) (fun j _ => hq1 j) (fun j _ => hq1 j)
    exampleHelpers_read_write
  have e1 := (h1.2.1 0 0 (by norm_num) (by norm_num)).1
  have e2 := (h2.2.1 0 0 (by norm_num) (by norm_num)).2.1
  rw [hre] at e1
  rw [him] at e2
  refine ⟨hq1, hq2, hre, ?_, ?_, e1.trans (by decide), him, ?_, e2.trans (by decide)⟩
  · rw [hre]; decide
  · rw [hre]; decide
  · rw [him]; decide

end CMSIS
